import Mathlib

/-!
# libpkg: manifest codec, installer and incremental catalog update

A shallow embedding of `libpkg/pkg_manifest.c`, `libpkg/pkg_add.c` and
`libpkg/pkg_repo_update.c`.

Conventions.
* A C string is the list of its bytes before the terminating NUL, each byte
  given by its unsigned value (`Bytes`).  `NULL` is `none`.  The text of a
  libucl string object is a buffer with a length of its own, which can hold
  NUL bytes; `c_str` reads a buffer as a C string.
* Result codes are `Int`s with the values of `pkg.h` and `sysexits.h`.
* Calls into collaborators that live outside these three files (catalog
  store, archive reader, libucl, libc) are either modelled from their
  documented behaviour or taken from an environment record whose answers may
  depend on the whole history of calls made so far.
-/

namespace Libpkg

/-! ## Bytes and result codes -/

abbrev Bytes := List Nat

/-- The bytes of an ASCII literal of the source. -/
def str (s : String) : Bytes := s.toList.map Char.toNat

/-- A byte list is a C string when every byte is a non-NUL value below 256. -/
def IsCString (s : Bytes) : Prop := ∀ b ∈ s, 0 < b ∧ b < 256

instance (s : Bytes) : Decidable (IsCString s) := by
  unfold IsCString; infer_instance

def EPKG_OK : Int := 0
def EPKG_END : Int := 1
def EPKG_WARN : Int := 2
def EPKG_FATAL : Int := 3

def EX_OK : Int := 0
def EX_OSERR : Int := 71
def EX_IOERR : Int := 74
def EX_CONFIG : Int := 78

/-! ## libc helpers used by the codec -/

/-- The test `isascii(src[i])` on a `char` holding the byte `c`: bytes from
0x80 up are negative (or above 0x7f) as `int` and fail it. -/
def isascii (c : Nat) : Bool := decide (c < 128)

/-- The test `isspace` in the C locale. -/
def isspace (c : Nat) : Bool := c == 32 || (decide (9 ≤ c) && decide (c ≤ 13))

/-- One lowercase hexadecimal digit, as `printf("%x")` writes it. -/
def hexdigit (n : Nat) : Nat := if n < 10 then 48 + n else 87 + n

/-- The text of `printf("%.2x", (unsigned char)c)`. -/
def printf_02x (c : Nat) : Bytes :=
  [hexdigit (c % 256 / 16), hexdigit (c % 256 % 16)]

/-- The value of a character as a digit, as `strtol` and `strtoul` read it. -/
def digitval (c : Nat) : Option Nat :=
  if 48 ≤ c ∧ c ≤ 57 then some (c - 48)
  else if 65 ≤ c ∧ c ≤ 90 then some (c - 55)
  else if 97 ≤ c ∧ c ≤ 122 then some (c - 87)
  else none

/-- The digit loop of `strtol`/`strtoul`: `none` while no digit was consumed,
otherwise the exact value of the digits consumed so far. -/
def strto_digits (base : Nat) : Bytes → Option Nat → Option Nat
  | [], acc => acc
  | c :: s, acc =>
    match digitval c with
    | none => acc
    | some d =>
      if base ≤ d then acc
      else strto_digits base s (some (acc.getD 0 * base + d))

/-- Leading white space is skipped. -/
def skip_space : Bytes → Bytes
  | [] => []
  | c :: s => if isspace c then skip_space s else c :: s

/-- An optional sign: the flag is true for `-`. -/
def strto_sign : Bytes → Bool × Bytes
  | 45 :: s => (true, s)
  | 43 :: s => (false, s)
  | s => (false, s)

/-- The optional `0x` prefix of base 16, consumed only when a hexadecimal
digit follows it. -/
def strto_prefix16 : Bytes → Bytes
  | 48 :: x :: d :: s =>
    if (x == 120 || x == 88) && (match digitval d with | some v => decide (v < 16) | none => false)
    then d :: s else 48 :: x :: d :: s
  | s => s

/-- The call `strtol(s, NULL, 16)` of the C library the package manager is
built for: the value, and whether `errno` was set (`EINVAL` when no digit
could be converted, `ERANGE` when the value does not fit a `long`). -/
def strtol16 (s : Bytes) : Int × Bool :=
  let sg := strto_sign (skip_space s)
  match strto_digits 16 (strto_prefix16 sg.2) none with
  | none => (0, true)
  | some v =>
    if sg.1 then
      if 2 ^ 63 < v then (-(2 ^ 63 : Int), true) else (-(v : Int), false)
    else
      if 2 ^ 63 ≤ v then ((2 ^ 63 : Int) - 1, true) else ((v : Int), false)

/-- Storing a `long` into a `char` and writing it with `sbuf_putc`: the low
eight bits. -/
def to_char (v : Int) : Nat := (v % 256).toNat

/-! ## URL codec (`pkg_manifest.c`) -/

/-- Source `urlencode`: the return code and the finished buffer. -/
def urlencode : Bytes → Int × Bytes
  | [] => (EPKG_OK, [])
  | c :: rest =>
    let r := urlencode rest
    if !isascii c || c == 37 then (r.1, 37 :: (printf_02x c ++ r.2))
    else (r.1, c :: r.2)

/-- What one `%` escape with the two-byte buffer `hex` appends to the
output: the byte `strtol` read, or `%` and the buffer when `errno` is set. -/
def urldecode_hex (hex : Bytes) : Bytes :=
  let r := strtol16 hex
  if r.2 then 37 :: hex else [to_char r.1]

/-- Source `urldecode`: the return code and the bytes put into the buffer.
A `%` that is the last byte fails the test `i + 2 > len`; a `%` followed by
one byte reads the terminating NUL as the second byte of `hex`. -/
def urldecode : Bytes → Int × Bytes
  | [] => (EPKG_OK, [])
  | c :: rest =>
    if c ≠ 37 then
      let r := urldecode rest
      (r.1, c :: r.2)
    else
      match rest with
      | [] => (EPKG_FATAL, [])
      | [h0] => (EPKG_OK, urldecode_hex [h0])
      | h0 :: h1 :: rest2 =>
        let r := urldecode rest2
        (r.1, urldecode_hex [h0, h1] ++ r.2)

/-! ## libucl objects

The object-notation library is an external collaborator.  Its values are
modelled by their content: an object is the list of its keys in insertion
order, each with the value stored first under the key and the values chained
after it (`next`) when the key occurs several times. -/

inductive ucl_type where
  | UCL_OBJECT | UCL_ARRAY | UCL_INT | UCL_FLOAT | UCL_STRING | UCL_BOOLEAN
  | UCL_TIME | UCL_USERDATA | UCL_NULL
deriving DecidableEq, Repr

inductive ucl_object_t where
  | object (members : List (Bytes × ucl_object_t × List ucl_object_t))
  | array (elems : List ucl_object_t)
  | int (v : Int)
  | float (v : Int)
  | string (s : Bytes)
  | boolean (b : Bool)
  | time (v : Int)
  | userdata
  | null
deriving Repr

/-- The field `obj->type`. -/
def ucl_object_t.type : ucl_object_t → ucl_type
  | .object _ => .UCL_OBJECT
  | .array _ => .UCL_ARRAY
  | .int _ => .UCL_INT
  | .float _ => .UCL_FLOAT
  | .string _ => .UCL_STRING
  | .boolean _ => .UCL_BOOLEAN
  | .time _ => .UCL_TIME
  | .userdata => .UCL_USERDATA
  | .null => .UCL_NULL

/-- An object as an iteration yields it: its key (`ucl_object_key`, `none`
for `NULL`), the object, and the objects chained after it. -/
structure ucl_node where
  key : Option Bytes
  obj : ucl_object_t
  next : List ucl_object_t
deriving Repr

/-- The root object of a document: it has no key and no chain. -/
def ucl_root (o : ucl_object_t) : ucl_node := { key := none, obj := o, next := [] }

/-- The nodes of a chain that starts at `o`. -/
def ucl_chain (key : Option Bytes) (o : ucl_object_t) : List ucl_object_t → List ucl_node
  | [] => [{ key := key, obj := o, next := [] }]
  | n :: rest => { key := key, obj := o, next := n :: rest } :: ucl_chain key n rest

/-- The nodes `ucl_iterate_object(obj, &it, expand_values)` returns until it
returns `NULL`: the members of an object or the elements of an array when
values are expanded, otherwise the object and its chain. -/
def ucl_iterate_object (n : ucl_node) (expand_values : Bool) : List ucl_node :=
  if expand_values then
    match n.obj with
    | .object ms => ms.map (fun m => { key := some m.1, obj := m.2.1, next := m.2.2 })
    | .array es => es.map (fun e => { key := none, obj := e, next := [] })
    | _ => ucl_chain n.key n.obj n.next
  else ucl_chain n.key n.obj n.next

/-- The decimal text of an integer (`%jd`). -/
def decimal (v : Int) : Bytes := str (toString v)

/-- The call `ucl_object_tostring`: the text of a string object. -/
def ucl_object_tostring : ucl_object_t → Option Bytes
  | .string s => some s
  | _ => none

/-- The call `ucl_object_tostring_forced`: strings as they are, integers and
floats in decimal, booleans as `true` and `false`; the code calls it on no
other kind. -/
def ucl_object_tostring_forced : ucl_object_t → Bytes
  | .string s => s
  | .int v => decimal v
  | .float v => decimal v
  | .time v => decimal v
  | .boolean true => str "true"
  | .boolean false => str "false"
  | _ => []

/-- The call `ucl_object_toint`: the value of an integer, float or time
object, and 0 for every other kind. -/
def ucl_object_toint : ucl_object_t → Int
  | .int v => v
  | .float v => v
  | .time v => v
  | _ => 0

/-- The call `ucl_object_toboolean`. -/
def ucl_object_toboolean : ucl_object_t → Bool
  | .boolean b => b
  | _ => false

/-- The characters `UCL_STRING_TRIM` strips: space, tab, line feed and
carriage return. -/
def ucl_whitespace (c : Nat) : Bool := c == 32 || c == 9 || c == 10 || c == 13

/-- The text `ucl_object_fromstring_common(s, len, UCL_STRING_TRIM)` keeps:
leading and trailing white space is skipped. -/
def ucl_string_trim (s : Bytes) : Bytes :=
  ((s.dropWhile ucl_whitespace).reverse.dropWhile ucl_whitespace).reverse

/-- The keys of an object in insertion order; other kinds have none. -/
def ucl_object_keys : ucl_object_t → List Bytes
  | .object ms => ms.map (fun m => m.1)
  | _ => []

/-- The call `ucl_object_insert_key(top, elt, key, ...)`: a new key goes to
the end; under a key that exists the value is chained after those already
there. -/
def ucl_object_insert_key (top : ucl_object_t) (elt : ucl_object_t) (key : Bytes) :
    ucl_object_t :=
  match top with
  | .object ms =>
    if ms.any (fun m => m.1 == key) then
      .object (ms.map (fun m => if m.1 == key then (m.1, m.2.1, m.2.2 ++ [elt]) else m))
    else .object (ms ++ [(key, elt, [])])
  | o => o

/-- The call `ucl_object_find_key(obj, key)`. -/
def ucl_object_find_key (obj : ucl_object_t) (key : Bytes) : Option ucl_object_t :=
  match obj with
  | .object ms => (ms.find? (fun m => m.1 == key)).map (fun m => m.2.1)
  | _ => none

/-! ## Manifest schema registry (`pkg_manifest.c`) -/

/-- The attribute codes: those of `enum pkg_attr` in `pkg.h` that the three
files use, and the negative codes `pkg_manifest.c` defines itself. -/
inductive pkg_attr where
  | PKG_ORIGIN | PKG_NAME | PKG_VERSION | PKG_COMMENT | PKG_DESC | PKG_MESSAGE
  | PKG_ARCH | PKG_MAINTAINER | PKG_WWW | PKG_PREFIX | PKG_REPOPATH | PKG_CKSUM
  | PKG_REPONAME | PKG_DIGEST | PKG_OLD_DIGEST | PKG_OSVERSION
  | PKG_FLATSIZE | PKG_PKGSIZE | PKG_LICENSE_LOGIC
  | PKG_ANNOTATIONS | PKG_LICENSES | PKG_CATEGORIES
  | PKG_UNKNOWN | PKG_DEPS | PKG_FILES | PKG_DIRS | PKG_SCRIPTS | PKG_OPTIONS
  | PKG_OPTION_DEFAULTS | PKG_OPTION_DESCRIPTIONS | PKG_USERS | PKG_GROUPS
  | PKG_DIRECTORIES | PKG_SHLIBS_REQUIRED | PKG_SHLIBS_PROVIDED | PKG_CONFLICTS
  | PKG_PROVIDES
deriving DecidableEq, Repr

/-- The four functions a schema entry can name as `parse_data`. -/
inductive parse_data_fn where
  | pkg_string | pkg_obj | pkg_array | pkg_int
deriving DecidableEq, Repr

/-- Source `struct manifest_key`. -/
structure manifest_key where
  key : Bytes
  type : pkg_attr
  valid_type : ucl_type
  parse_data : parse_data_fn
deriving DecidableEq, Repr

open pkg_attr ucl_type parse_data_fn in
/-- Source table `manifest_keys`, without its `NULL` terminator. -/
def manifest_keys : List manifest_key := [
  ⟨str "annotations",         PKG_ANNOTATIONS,         UCL_OBJECT, pkg_obj⟩,
  ⟨str "arch",                PKG_ARCH,                UCL_STRING, pkg_string⟩,
  ⟨str "categories",          PKG_CATEGORIES,          UCL_ARRAY,  pkg_array⟩,
  ⟨str "comment",             PKG_COMMENT,             UCL_STRING, pkg_string⟩,
  ⟨str "conflicts",           PKG_CONFLICTS,           UCL_ARRAY,  pkg_array⟩,
  ⟨str "deps",                PKG_DEPS,                UCL_OBJECT, pkg_obj⟩,
  ⟨str "desc",                PKG_DESC,                UCL_STRING, pkg_string⟩,
  ⟨str "directories",         PKG_DIRECTORIES,         UCL_OBJECT, pkg_obj⟩,
  ⟨str "dirs",                PKG_DIRS,                UCL_ARRAY,  pkg_array⟩,
  ⟨str "files",               PKG_FILES,               UCL_OBJECT, pkg_obj⟩,
  ⟨str "flatsize",            PKG_FLATSIZE,            UCL_INT,    pkg_int⟩,
  ⟨str "groups",              PKG_GROUPS,              UCL_OBJECT, pkg_obj⟩,
  ⟨str "groups",              PKG_GROUPS,              UCL_ARRAY,  pkg_array⟩,
  ⟨str "licenselogic",        PKG_LICENSE_LOGIC,       UCL_STRING, pkg_string⟩,
  ⟨str "licenses",            PKG_LICENSES,            UCL_ARRAY,  pkg_array⟩,
  ⟨str "maintainer",          PKG_MAINTAINER,          UCL_STRING, pkg_string⟩,
  ⟨str "message",             PKG_MESSAGE,             UCL_STRING, pkg_string⟩,
  ⟨str "name",                PKG_NAME,                UCL_STRING, pkg_string⟩,
  ⟨str "name",                PKG_NAME,                UCL_INT,    pkg_string⟩,
  ⟨str "options",             PKG_OPTIONS,             UCL_OBJECT, pkg_obj⟩,
  ⟨str "option_defaults",     PKG_OPTION_DEFAULTS,     UCL_OBJECT, pkg_obj⟩,
  ⟨str "option_descriptions", PKG_OPTION_DESCRIPTIONS, UCL_OBJECT, pkg_obj⟩,
  ⟨str "origin",              PKG_ORIGIN,              UCL_STRING, pkg_string⟩,
  ⟨str "path",                PKG_REPOPATH,            UCL_STRING, pkg_string⟩,
  ⟨str "pkgsize",             PKG_PKGSIZE,             UCL_INT,    pkg_int⟩,
  ⟨str "prefix",              PKG_PREFIX,              UCL_STRING, pkg_string⟩,
  ⟨str "provides",            PKG_PROVIDES,            UCL_ARRAY,  pkg_array⟩,
  ⟨str "scripts",             PKG_SCRIPTS,             UCL_OBJECT, pkg_obj⟩,
  ⟨str "shlibs",              PKG_SHLIBS_REQUIRED,     UCL_ARRAY,  pkg_array⟩,
  ⟨str "shlibs_provided",     PKG_SHLIBS_PROVIDED,     UCL_ARRAY,  pkg_array⟩,
  ⟨str "shlibs_required",     PKG_SHLIBS_REQUIRED,     UCL_ARRAY,  pkg_array⟩,
  ⟨str "sum",                 PKG_CKSUM,               UCL_STRING, pkg_string⟩,
  ⟨str "users",               PKG_USERS,               UCL_OBJECT, pkg_obj⟩,
  ⟨str "users",               PKG_USERS,               UCL_ARRAY,  pkg_array⟩,
  ⟨str "version",             PKG_VERSION,             UCL_STRING, pkg_string⟩,
  ⟨str "version",             PKG_VERSION,             UCL_INT,    pkg_string⟩,
  ⟨str "www",                 PKG_WWW,                 UCL_STRING, pkg_string⟩ ]

/-- Source `struct dataparser`. -/
structure dataparser where
  type : ucl_type
  parse_data : parse_data_fn
deriving DecidableEq, Repr

/-- Source `struct pkg_manifest_key`; the hash of parsers is the list of
its entries in insertion order. -/
structure pkg_manifest_key where
  key : Bytes
  type : pkg_attr
  parser : List dataparser
deriving DecidableEq, Repr

/-- The lookup `HASH_FIND_STR(keys, key, k)` in the registry. -/
def manifest_find_key (keys : List pkg_manifest_key) (key : Bytes) : Option pkg_manifest_key :=
  keys.find? (fun k => k.key == key)

/-- The lookup `HASH_FIND_UCLT(k->parser, &type, dp)`. -/
def HASH_FIND_UCLT (parser : List dataparser) (t : ucl_type) : Option dataparser :=
  parser.find? (fun dp => dp.type == t)

/-- One turn of the loop of `pkg_manifest_keys_new`. -/
def pkg_manifest_keys_add (keys : List pkg_manifest_key) (m : manifest_key) :
    List pkg_manifest_key :=
  let keys1 : List pkg_manifest_key :=
    match manifest_find_key keys m.key with
    | some _ => keys
    | none => keys ++ [{ key := m.key, type := m.type, parser := [] }]
  keys1.map (fun (k : pkg_manifest_key) =>
    if k.key == m.key then
      match HASH_FIND_UCLT k.parser m.valid_type with
      | some _ => k
      | none => { k with parser := k.parser ++ [{ type := m.valid_type, parse_data := m.parse_data }] }
    else k)

/-- Source `pkg_manifest_keys_new`: the registry `*key` after the call (the
return code is always `EPKG_OK`); a registry that is not `NULL` is left as
it is. -/
def pkg_manifest_keys_new (key : List pkg_manifest_key) : List pkg_manifest_key :=
  if key ≠ [] then key
  else manifest_keys.foldl pkg_manifest_keys_add key

/-! ## Package entity

`struct pkg` and its accessors are declared in `pkg.h` and `private/pkg.h`
and defined outside the three files.  The scalar attributes live in the
object `pkg->fields`, which `pkg_manifest.c` reads directly; the collections
are kept in insertion order. -/

/-- The values of `lic_t` in `pkg.h`. -/
def LICENSE_OR : Int := 124
def LICENSE_AND : Int := 38
def LICENSE_SINGLE : Int := 1

/-- The script phases, `enum pkg_script` of `pkg.h`, in its order; the first
nine are the `PKG_NUM_SCRIPTS` phases. -/
inductive pkg_script where
  | PKG_SCRIPT_PRE_INSTALL | PKG_SCRIPT_POST_INSTALL | PKG_SCRIPT_PRE_DEINSTALL
  | PKG_SCRIPT_POST_DEINSTALL | PKG_SCRIPT_PRE_UPGRADE | PKG_SCRIPT_POST_UPGRADE
  | PKG_SCRIPT_INSTALL | PKG_SCRIPT_DEINSTALL | PKG_SCRIPT_UPGRADE | PKG_SCRIPT_UNKNOWN
deriving DecidableEq, Repr

structure pkg_dep where
  name : Bytes
  origin : Bytes
  version : Bytes
deriving DecidableEq, Repr

structure pkg_file where
  path : Bytes
  sum : Option Bytes
  uname : Option Bytes
  gname : Option Bytes
  perm : Nat
deriving DecidableEq, Repr

structure pkg_dir where
  path : Bytes
  uname : Option Bytes
  gname : Option Bytes
  perm : Nat
  try_ : Bool
deriving DecidableEq, Repr

/-- The package entity. -/
structure pkg where
  fields : List (pkg_attr × ucl_object_t)
  automatic : Bool
  deps : List pkg_dep
  files : List pkg_file
  dirs : List pkg_dir
  users : List (Bytes × Option Bytes)
  groups : List (Bytes × Option Bytes)
  options : List (Bytes × Bytes)
  option_defaults : List (Bytes × Bytes)
  option_descriptions : List (Bytes × Bytes)
  shlibs_required : List Bytes
  shlibs_provided : List Bytes
  conflicts : List Bytes
  provides : List Bytes
  scripts : List (pkg_script × Bytes)
deriving Repr

/-- The empty entity `pkg_new` returns. -/
def pkg_new : pkg :=
  { fields := [], automatic := false, deps := [], files := [], dirs := [], users := [],
    groups := [], options := [], option_defaults := [], option_descriptions := [],
    shlibs_required := [], shlibs_provided := [], conflicts := [], provides := [],
    scripts := [] }

/-- The object `pkg->fields` holds for an attribute, if any
(`ucl_object_find_key(pkg->fields, pkg_keys[attr].name)`). -/
def pkg_field (p : pkg) (attr : pkg_attr) : Option ucl_object_t :=
  p.fields.lookup attr

/-- Modelled from the spec: `pkg_set`, defined outside the three files, stores
the value under the attribute, replacing an earlier one, and returns
success. -/
def pkg_set (p : pkg) (attr : pkg_attr) (v : ucl_object_t) : Int × pkg :=
  (EPKG_OK, { p with fields := (attr, v) :: p.fields })

/-- The string `pkg_get` returns for a string attribute: `NULL` when the
attribute is not set. -/
def pkg_get_string (p : pkg) (attr : pkg_attr) : Option Bytes :=
  match pkg_field p attr with
  | some (.string s) => some s
  | _ => none

/-- The integer `pkg_get` returns for an integer attribute: 0 when the
attribute is not set. -/
def pkg_get_int (p : pkg) (attr : pkg_attr) : Int :=
  match pkg_field p attr with
  | some o => ucl_object_toint o
  | none => 0

/-- A buffer read as a C string ends at its first NUL byte. -/
def c_str (b : Bytes) : Bytes := b.takeWhile (fun c => c != 0)

/-- C `strlen`: the number of bytes before the first NUL byte. -/
def strlen (b : Bytes) : Nat := (c_str b).length

/-- Modelled from the spec: the adders of array-valued attributes
(`pkg_addcategory`, `pkg_addlicense`), defined outside the three files, append
the string to the array kept in `pkg->fields`. -/
def pkg_add_to_array (p : pkg) (attr : pkg_attr) (name : Bytes) : pkg :=
  match pkg_field p attr with
  | some (.array es) => (pkg_set p attr (.array (es ++ [.string name]))).2
  | _ => (pkg_set p attr (.array [.string name])).2

def pkg_addcategory (p : pkg) (name : Bytes) : pkg := pkg_add_to_array p .PKG_CATEGORIES name
def pkg_addlicense (p : pkg) (name : Bytes) : pkg := pkg_add_to_array p .PKG_LICENSES name

/-- Modelled from the spec: `pkg_addannotation`, defined outside the three
files, adds the label and value to the map kept in `pkg->fields`. -/
def pkg_addannotation (p : pkg) (tag value : Bytes) : pkg :=
  match pkg_field p .PKG_ANNOTATIONS with
  | some (.object ms) => (pkg_set p .PKG_ANNOTATIONS (.object (ms ++ [(tag, .string value, [])]))).2
  | _ => (pkg_set p .PKG_ANNOTATIONS (.object [(tag, .string value, [])])).2

/-- Modelled from the spec: the adders of the collections, defined outside
the three files, append one entry each. -/
def pkg_adddep (p : pkg) (name origin version : Bytes) : pkg :=
  { p with deps := p.deps ++ [{ name := name, origin := origin, version := version }] }

def pkg_addfile_attr (p : pkg) (path : Bytes) (sum uname gname : Option Bytes) (perm : Nat) :
    pkg :=
  { p with files := p.files ++
      [{ path := path, sum := sum, uname := uname, gname := gname, perm := perm }] }

def pkg_addfile (p : pkg) (path : Bytes) (sum : Option Bytes) : pkg :=
  pkg_addfile_attr p path sum none none 0

def pkg_adddir_attr (p : pkg) (path : Bytes) (uname gname : Option Bytes) (perm : Nat)
    (try_ : Bool) : pkg :=
  { p with dirs := p.dirs ++
      [{ path := path, uname := uname, gname := gname, perm := perm, try_ := try_ }] }

def pkg_adddir (p : pkg) (path : Bytes) (try_ : Bool) : pkg :=
  pkg_adddir_attr p path none none 0 try_

def pkg_adduid (p : pkg) (name : Bytes) (uidstr : Bytes) : pkg :=
  { p with users := p.users ++ [(name, some uidstr)] }
def pkg_adduser (p : pkg) (name : Bytes) : pkg :=
  { p with users := p.users ++ [(name, none)] }
def pkg_addgid (p : pkg) (name : Bytes) (gidstr : Bytes) : pkg :=
  { p with groups := p.groups ++ [(name, some gidstr)] }
def pkg_addgroup (p : pkg) (name : Bytes) : pkg :=
  { p with groups := p.groups ++ [(name, none)] }
def pkg_addoption (p : pkg) (key value : Bytes) : pkg :=
  { p with options := p.options ++ [(key, value)] }
def pkg_addoption_default (p : pkg) (key value : Bytes) : pkg :=
  { p with option_defaults := p.option_defaults ++ [(key, value)] }
def pkg_addoption_description (p : pkg) (key value : Bytes) : pkg :=
  { p with option_descriptions := p.option_descriptions ++ [(key, value)] }
def pkg_addshlib_required (p : pkg) (name : Bytes) : pkg :=
  { p with shlibs_required := p.shlibs_required ++ [name] }
def pkg_addshlib_provided (p : pkg) (name : Bytes) : pkg :=
  { p with shlibs_provided := p.shlibs_provided ++ [name] }
def pkg_addconflict (p : pkg) (uniqueid : Bytes) : pkg :=
  { p with conflicts := p.conflicts ++ [uniqueid] }
def pkg_addprovide (p : pkg) (name : Bytes) : pkg :=
  { p with provides := p.provides ++ [name] }

/-- Modelled from the spec: `pkg_addscript` stores the text of a phase,
replacing an earlier one. -/
def pkg_addscript (p : pkg) (data : Bytes) (type : pkg_script) : pkg :=
  { p with scripts := (p.scripts.filter (fun e => e.1 != type)) ++ [(type, data)] }

/-- The call `pkg_script_get(pkg, i)`. -/
def pkg_script_get (p : pkg) (type : pkg_script) : Option Bytes :=
  p.scripts.lookup type

/-- Modelled from the spec: `pkg_is_valid`, defined outside the three files.
A package is valid iff it has non-empty name, origin, version and arch, and
each dependency has a non-empty origin and version. -/
def pkg_is_valid (p : pkg) : Int :=
  if [pkg_attr.PKG_NAME, .PKG_ORIGIN, .PKG_VERSION, .PKG_ARCH].all
        (fun a => match pkg_get_string p a with
                  | some s => !s.isEmpty
                  | none => false) &&
     p.deps.all (fun d => !d.origin.isEmpty && !d.version.isEmpty)
  then EPKG_OK else EPKG_FATAL

/-! ## Manifest parser (`pkg_manifest.c`) -/

/-- The collaborators of the parser that live outside the three files. -/
structure manifest_env where
  /-- The calls `ucl_parser_add_chunk` and `ucl_parser_get_object` on a buffer:
  `none` when the chunk is rejected, `some none` when there is no root
  object. -/
  ucl_parse : Bytes → Option (Option ucl_object_t)
  /-- The bridge `yaml_to_ucl(NULL, buf, len)`: `none` for `NULL`. -/
  yaml_to_ucl : Bytes → Option ucl_object_t
  /-- The mode `getmode(setmode(s), 0)`: `none` when `setmode` returns
  `NULL`. -/
  setmode : Bytes → Option Nat

/-- Source `script_type_str`. -/
def script_type_str (s : Bytes) : pkg_script :=
  if s = str "pre-install" then .PKG_SCRIPT_PRE_INSTALL
  else if s = str "install" then .PKG_SCRIPT_INSTALL
  else if s = str "post-install" then .PKG_SCRIPT_POST_INSTALL
  else if s = str "pre-upgrade" then .PKG_SCRIPT_PRE_UPGRADE
  else if s = str "upgrade" then .PKG_SCRIPT_UPGRADE
  else if s = str "post-upgrade" then .PKG_SCRIPT_POST_UPGRADE
  else if s = str "pre-deinstall" then .PKG_SCRIPT_PRE_DEINSTALL
  else if s = str "deinstall" then .PKG_SCRIPT_DEINSTALL
  else if s = str "post-deinstall" then .PKG_SCRIPT_POST_DEINSTALL
  else .PKG_SCRIPT_UNKNOWN

/-- Source `pkg_string`. -/
def pkg_string (p : pkg) (obj : ucl_node) (attr : pkg_attr) : Int × pkg :=
  let s := ucl_object_tostring_forced obj.obj
  match attr with
  | .PKG_LICENSE_LOGIC =>
    if s = str "single" then (EPKG_OK, (pkg_set p .PKG_LICENSE_LOGIC (.int LICENSE_SINGLE)).2)
    else if s = str "or" ∨ s = str "dual" then
      (EPKG_OK, (pkg_set p .PKG_LICENSE_LOGIC (.int LICENSE_OR)).2)
    else if s = str "and" ∨ s = str "multi" then
      (EPKG_OK, (pkg_set p .PKG_LICENSE_LOGIC (.int LICENSE_AND)).2)
    else (EPKG_FATAL, p)
  | _ =>
    let s := if attr = .PKG_DESC then c_str (urldecode s).2 else s
    pkg_set p attr (.string s)

/-- Source `pkg_int`. -/
def pkg_int (p : pkg) (obj : ucl_node) (attr : pkg_attr) : Int × pkg :=
  pkg_set p attr (.int (ucl_object_toint obj.obj))

/-- The comparison `strcasecmp(a, b) == 0`. -/
def tolower (c : Nat) : Nat := if 65 ≤ c ∧ c ≤ 90 then c + 32 else c
def strcasecmp_eq (a b : Bytes) : Bool := a.map tolower == b.map tolower

/-- The locals of `pkg_set_files_from_object` while it walks the object. -/
structure file_attrs where
  sum : Option Bytes
  uname : Option Bytes
  gname : Option Bytes
  perm : Nat

/-- Source `pkg_set_files_from_object`. -/
def pkg_set_files_from_object (E : manifest_env) (p : pkg) (obj : ucl_node) : Int × pkg :=
  match obj.key with
  | none => (EPKG_FATAL, p)
  | some okey =>
    let fname := c_str (urldecode okey).2
    let a := (ucl_iterate_object obj true).foldl (fun (a : file_attrs) cur =>
      match cur.key with
      | none => a
      | some key =>
        if strcasecmp_eq key (str "uname") && cur.obj.type == .UCL_STRING then
          { a with uname := (ucl_object_tostring cur.obj).map c_str }
        else if strcasecmp_eq key (str "gname") && cur.obj.type == .UCL_STRING then
          { a with gname := (ucl_object_tostring cur.obj).map c_str }
        else if strcasecmp_eq key (str "sum") && cur.obj.type == .UCL_STRING &&
            strlen ((ucl_object_tostring cur.obj).getD []) == 64 then
          { a with sum := (ucl_object_tostring cur.obj).map c_str }
        else if strcasecmp_eq key (str "perm") &&
            (cur.obj.type == .UCL_STRING || cur.obj.type == .UCL_INT) then
          match E.setmode (ucl_object_tostring_forced cur.obj) with
          | none => a
          | some perm => { a with perm := perm }
        else a)
      { sum := none, uname := none, gname := none, perm := 0 }
    (EPKG_OK, pkg_addfile_attr p fname a.sum a.uname a.gname a.perm)

/-- The locals of `pkg_set_dirs_from_object` while it walks the object. -/
structure dir_attrs where
  uname : Option Bytes
  gname : Option Bytes
  perm : Nat
  try_ : Bool

/-- Source `pkg_set_dirs_from_object`. -/
def pkg_set_dirs_from_object (E : manifest_env) (p : pkg) (obj : ucl_node) : Int × pkg :=
  match obj.key with
  | none => (EPKG_FATAL, p)
  | some okey =>
    let dirname := c_str (urldecode okey).2
    let a := (ucl_iterate_object obj true).foldl (fun (a : dir_attrs) cur =>
      match cur.key with
      | none => a
      | some key =>
        if strcasecmp_eq key (str "uname") && cur.obj.type == .UCL_STRING then
          { a with uname := (ucl_object_tostring cur.obj).map c_str }
        else if strcasecmp_eq key (str "gname") && cur.obj.type == .UCL_STRING then
          { a with gname := (ucl_object_tostring cur.obj).map c_str }
        else if strcasecmp_eq key (str "perm") &&
            (cur.obj.type == .UCL_STRING || cur.obj.type == .UCL_INT) then
          match E.setmode (ucl_object_tostring_forced cur.obj) with
          | none => a
          | some perm => { a with perm := perm }
        else if strcasecmp_eq key (str "try") && cur.obj.type == .UCL_BOOLEAN then
          { a with try_ := decide (ucl_object_toint cur.obj ≠ 0) }
        else a)
      { uname := none, gname := none, perm := 0, try_ := false }
    (EPKG_OK, pkg_adddir_attr p dirname a.uname a.gname a.perm a.try_)

/-- The locals `origin` and `version` of `pkg_set_deps_from_object`, which
are set to `NULL` once, before the outer loop. -/
structure dep_attrs where
  origin : Option Bytes
  version : Option Bytes

/-- The inner loop of `pkg_set_deps_from_object` over one element. -/
def pkg_set_deps_inner (a : dep_attrs) (self : ucl_node) : dep_attrs :=
  (ucl_iterate_object self true).foldl (fun (a : dep_attrs) cur =>
    match cur.key with
    | none => a
    | some key =>
      if cur.obj.type != .UCL_STRING then
        if cur.obj.type == .UCL_INT && strcasecmp_eq key (str "version") then
          { a with version := some (ucl_object_tostring_forced cur.obj) }
        else a
      else
        let a1 : dep_attrs :=
          if strcasecmp_eq key (str "origin") then { a with origin := ucl_object_tostring cur.obj }
          else a
        if strcasecmp_eq key (str "version") then
          { a1 with version := ucl_object_tostring cur.obj }
        else a1) a

/-- Source `pkg_set_deps_from_object`. -/
def pkg_set_deps_from_object (p : pkg) (obj : ucl_node) : Int × pkg :=
  match obj.key with
  | none => (EPKG_FATAL, p)
  | some okey =>
    let r := (ucl_iterate_object obj (obj.obj.type == .UCL_ARRAY)).foldl
      (fun (st : pkg × dep_attrs) self =>
        let a := pkg_set_deps_inner st.2 self
        match a.origin, a.version with
        | some origin, some version => (pkg_adddep st.1 okey origin version, a)
        | _, _ => (st.1, a))
      (p, { origin := none, version := none })
    (EPKG_OK, r.1)

/-- One turn of the loop of `pkg_obj`. -/
def pkg_obj_step (E : manifest_env) (attr : pkg_attr) (p : pkg) (cur : ucl_node) : pkg :=
  match cur.key with
  | none => p
  | some key =>
    match attr with
    | .PKG_DEPS =>
      if cur.obj.type != .UCL_OBJECT && cur.obj.type != .UCL_ARRAY then p
      else (pkg_set_deps_from_object p cur).2
    | .PKG_DIRS =>
      if cur.obj.type != .UCL_OBJECT then p
      else (pkg_set_dirs_from_object E p cur).2
    | .PKG_USERS =>
      match cur.obj with
      | .string s => pkg_adduid p key s
      | _ => p
    | .PKG_GROUPS =>
      match cur.obj with
      | .string s => pkg_addgid p key s
      | _ => p
    | .PKG_DIRECTORIES =>
      match cur.obj with
      | .boolean b => pkg_adddir p (c_str (urldecode key).2) b
      | .object _ => (pkg_set_dirs_from_object E p cur).2
      | .string s => pkg_adddir p (c_str (urldecode key).2) (decide (s.head? = some 121))
      | _ => p
    | .PKG_FILES =>
      match cur.obj with
      | .string buf =>
        pkg_addfile p (c_str (urldecode key).2) (if buf.length = 64 then some (c_str buf) else none)
      | .object _ => (pkg_set_files_from_object E p cur).2
      | _ => p
    | .PKG_OPTIONS =>
      if cur.obj.type != .UCL_STRING && cur.obj.type != .UCL_BOOLEAN then p
      else pkg_addoption p key (ucl_object_tostring_forced cur.obj)
    | .PKG_OPTION_DEFAULTS =>
      match cur.obj with
      | .string s => pkg_addoption_default p key s
      | _ => p
    | .PKG_OPTION_DESCRIPTIONS =>
      match cur.obj with
      | .string s => pkg_addoption_description p key s
      | _ => p
    | .PKG_SCRIPTS =>
      match cur.obj with
      | .string s =>
        if script_type_str key = .PKG_SCRIPT_UNKNOWN then p
        else pkg_addscript p (c_str (urldecode s).2) (script_type_str key)
      | _ => p
    | .PKG_ANNOTATIONS =>
      match cur.obj with
      | .string s => pkg_addannotation p key s
      | _ => p
    | _ => p

/-- Source `pkg_obj`. -/
def pkg_obj (E : manifest_env) (p : pkg) (obj : ucl_node) (attr : pkg_attr) : Int × pkg :=
  (EPKG_OK, (ucl_iterate_object obj true).foldl (pkg_obj_step E attr) p)

/-- One turn of the loop of `pkg_array`. -/
def pkg_array_step (E : manifest_env) (attr : pkg_attr) (p : pkg) (cur : ucl_node) : pkg :=
  match attr with
  | .PKG_CATEGORIES =>
    match cur.obj with
    | .string s => pkg_addcategory p s
    | _ => p
  | .PKG_LICENSES =>
    match cur.obj with
    | .string s => pkg_addlicense p s
    | _ => p
  | .PKG_USERS =>
    match cur.obj with
    | .string s => pkg_adduser p s
    | .object _ => (pkg_obj E p cur attr).2
    | _ => p
  | .PKG_GROUPS =>
    match cur.obj with
    | .string s => pkg_addgroup p s
    | .object _ => (pkg_obj E p cur attr).2
    | _ => p
  | .PKG_DIRS =>
    match cur.obj with
    | .string s => pkg_adddir p s true
    | .object _ => (pkg_obj E p cur attr).2
    | _ => p
  | .PKG_SHLIBS_REQUIRED =>
    match cur.obj with
    | .string s => pkg_addshlib_required p s
    | _ => p
  | .PKG_SHLIBS_PROVIDED =>
    match cur.obj with
    | .string s => pkg_addshlib_provided p s
    | _ => p
  | .PKG_CONFLICTS =>
    match cur.obj with
    | .string s => pkg_addconflict p s
    | _ => p
  | .PKG_PROVIDES =>
    match cur.obj with
    | .string s => pkg_addprovide p s
    | _ => p
  | _ => p

/-- Source `pkg_array`. -/
def pkg_array (E : manifest_env) (p : pkg) (obj : ucl_node) (attr : pkg_attr) : Int × pkg :=
  (EPKG_OK, (ucl_iterate_object obj true).foldl (pkg_array_step E attr) p)

/-- The call `dp->parse_data(pkg, cur, type)` through the function pointer. -/
def parse_data_call (E : manifest_env) (f : parse_data_fn) (p : pkg) (cur : ucl_node)
    (attr : pkg_attr) : Int × pkg :=
  match f with
  | .pkg_string => pkg_string p cur attr
  | .pkg_obj => pkg_obj E p cur attr
  | .pkg_array => pkg_array E p cur attr
  | .pkg_int => pkg_int p cur attr

/-- One turn of the loop of `parse_manifest`: the value `parse_data` returns
is dropped. -/
def parse_manifest_step (E : manifest_env) (keys : List pkg_manifest_key) (p : pkg)
    (cur : ucl_node) : pkg :=
  match cur.key with
  | none => p
  | some key =>
    match manifest_find_key keys key with
    | none => p
    | some selected_key =>
      match HASH_FIND_UCLT selected_key.parser cur.obj.type with
      | none => p
      | some dp => (parse_data_call E dp.parse_data p cur selected_key.type).2

/-- Source `parse_manifest`. -/
def parse_manifest (E : manifest_env) (p : pkg) (keys : List pkg_manifest_key)
    (obj : ucl_object_t) : Int × pkg :=
  (EPKG_OK, (ucl_iterate_object (ucl_root obj) true).foldl (parse_manifest_step E keys) p)

/-- The test one turn of the checking loop of `pkg_parse_manifest` makes: the
key is in the registry and the kind of the value has no parser there. -/
def manifest_key_mismatch (keys : List pkg_manifest_key) (cur : ucl_node) : Bool :=
  match cur.key with
  | none => false
  | some key =>
    match manifest_find_key keys key with
    | none => false
    | some sk => (HASH_FIND_UCLT sk.parser cur.obj.type).isNone

/-- The value of `fallback` in `pkg_parse_manifest` when the fallback test is
reached (source lines 690-713). -/
def pkg_parse_manifest_fallback (E : manifest_env) (buf : Bytes)
    (keys : List pkg_manifest_key) : Bool :=
  match E.ucl_parse buf with
  | none => true
  | some none => true
  | some (some obj) => (ucl_iterate_object (ucl_root obj) true).any (manifest_key_mismatch keys)

/-- Source `pkg_parse_manifest` on the buffer `buf` of length `len`. -/
def pkg_parse_manifest (E : manifest_env) (p : pkg) (buf : Bytes)
    (keys : List pkg_manifest_key) : Int × pkg :=
  let obj : Option ucl_object_t :=
    if pkg_parse_manifest_fallback E buf keys then E.yaml_to_ucl buf
    else (E.ucl_parse buf).getD none
  match obj with
  | none => (EPKG_FATAL, p)
  | some obj => parse_manifest E p keys obj

/-! ## Manifest emitter (`pkg_manifest.c`) -/

/-- The flag bits of `pkg.h`. -/
def PKG_MANIFEST_EMIT_COMPACT : Nat := 1
def PKG_MANIFEST_EMIT_NOFILES : Nat := 2
def PKG_MANIFEST_EMIT_PRETTY : Nat := 4

/-- The name `pkg_keys[attr].name` of the ten attributes `emit_manifest`
copies.  The table `pkg_keys` is defined outside the three files; the names
are those under which `manifest_keys` registers the same attributes. -/
def pkg_key_name : pkg_attr → Bytes
  | .PKG_NAME => str "name"
  | .PKG_ORIGIN => str "origin"
  | .PKG_VERSION => str "version"
  | .PKG_ARCH => str "arch"
  | .PKG_MAINTAINER => str "maintainer"
  | .PKG_PREFIX => str "prefix"
  | .PKG_WWW => str "www"
  | .PKG_REPOPATH => str "path"
  | .PKG_CKSUM => str "sum"
  | .PKG_FLATSIZE => str "flatsize"
  | _ => []

/-- Source array `recopies` of `emit_manifest`, without its terminator. -/
def recopies : List pkg_attr :=
  [.PKG_NAME, .PKG_ORIGIN, .PKG_VERSION, .PKG_ARCH, .PKG_MAINTAINER, .PKG_PREFIX, .PKG_WWW,
   .PKG_REPOPATH, .PKG_CKSUM, .PKG_FLATSIZE]

/-- Inserting under a key when the value exists: `if (x) ucl_object_insert_key(top, x, key)`. -/
def insert_opt (top : ucl_object_t) (elt : Option ucl_object_t) (key : Bytes) : ucl_object_t :=
  match elt with
  | some e => ucl_object_insert_key top e key
  | none => top

/-- A map that is created at its first entry (`if (map == NULL) map = ...`)
and filled with one entry per element. -/
def emit_map {α : Type} (l : List α) (entry : α → Bytes × ucl_object_t) : Option ucl_object_t :=
  l.foldl (fun (map : Option ucl_object_t) a =>
    some (ucl_object_insert_key (map.getD (.object [])) (entry a).2 (entry a).1)) none

/-- A sequence that is created at its first element and appended to. -/
def emit_seq {α : Type} (l : List α) (elt : α → ucl_object_t) : Option ucl_object_t :=
  match l with
  | [] => none
  | _ => some (.array (l.map elt))

/-- The name `emit_manifest` writes for a script phase. -/
def script_types : pkg_script → Bytes
  | .PKG_SCRIPT_PRE_INSTALL => str "pre-install"
  | .PKG_SCRIPT_INSTALL => str "install"
  | .PKG_SCRIPT_POST_INSTALL => str "post-install"
  | .PKG_SCRIPT_PRE_UPGRADE => str "pre-upgrade"
  | .PKG_SCRIPT_UPGRADE => str "upgrade"
  | .PKG_SCRIPT_POST_UPGRADE => str "post-upgrade"
  | .PKG_SCRIPT_PRE_DEINSTALL => str "pre-deinstall"
  | .PKG_SCRIPT_DEINSTALL => str "deinstall"
  | .PKG_SCRIPT_POST_DEINSTALL => str "post-deinstall"
  | .PKG_SCRIPT_UNKNOWN => []

/-- The phases the loop `for (i = 0; i < PKG_NUM_SCRIPTS; i++)` visits. -/
def pkg_script_phases : List pkg_script :=
  [.PKG_SCRIPT_PRE_INSTALL, .PKG_SCRIPT_POST_INSTALL, .PKG_SCRIPT_PRE_DEINSTALL,
   .PKG_SCRIPT_POST_DEINSTALL, .PKG_SCRIPT_PRE_UPGRADE, .PKG_SCRIPT_POST_UPGRADE,
   .PKG_SCRIPT_INSTALL, .PKG_SCRIPT_DEINSTALL, .PKG_SCRIPT_UPGRADE]

/-- The part of `emit_manifest` that is guarded by the compact flag (source
lines 1022-1104): files, directories and scripts. -/
def emit_manifest_files (p : pkg) (flags : Nat) (top : ucl_object_t) : ucl_object_t :=
  if flags &&& PKG_MANIFEST_EMIT_COMPACT = 0 then
    let top1 :=
      if flags &&& PKG_MANIFEST_EMIT_NOFILES = 0 then
        let t := insert_opt top
          (emit_map p.files (fun file =>
            ((urlencode file.path).2,
             .string (match file.sum with
                      | none => str "-"
                      | some sum => if sum = [] then str "-" else sum))))
          (str "files")
        insert_opt t
          (emit_map p.dirs (fun dir =>
            ((urlencode dir.path).2, .string (if dir.try_ then str "y" else str "n"))))
          (str "directories")
      else top
    insert_opt top1
      (emit_map (pkg_script_phases.filter (fun i => (pkg_script_get p i).isSome)) (fun i =>
        (script_types i,
         .string (ucl_string_trim (urlencode ((pkg_script_get p i).getD [])).2))))
      (str "scripts")
  else top

/-- The start of `emit_manifest` (source lines 859-909): the copied scalar
attributes, comment, license logic, licenses and package size. -/
def emit_manifest_basic (p : pkg) : ucl_object_t :=
  let top : ucl_object_t := .object []
  let top := recopies.foldl (fun top attr =>
    insert_opt top (pkg_field p attr) (pkg_key_name attr)) top
  let top := insert_opt top
    ((pkg_get_string p .PKG_COMMENT).map (fun c => .string (ucl_string_trim c))) (str "comment")
  let licenselogic := pkg_get_int p .PKG_LICENSE_LOGIC
  let top :=
    if licenselogic = LICENSE_SINGLE then
      ucl_object_insert_key top (.string (str "single")) (str "licenselogic")
    else if licenselogic = LICENSE_AND then
      ucl_object_insert_key top (.string (str "and")) (str "licenselogic")
    else if licenselogic = LICENSE_OR then
      ucl_object_insert_key top (.string (str "or")) (str "licenselogic")
    else top
  let top := insert_opt top (pkg_field p .PKG_LICENSES) (str "licenses")
  let pkgsize := pkg_get_int p .PKG_PKGSIZE
  if pkgsize > 0 then ucl_object_insert_key top (.int pkgsize) (str "pkgsize") else top

/-- The description (source lines 911-914), given that it is not `NULL`. -/
def emit_manifest_desc (desc : Bytes) (top : ucl_object_t) : ucl_object_t :=
  ucl_object_insert_key top (.string (ucl_string_trim (urlencode desc).2)) (str "desc")

/-- Dependencies, categories, users, groups and shared libraries (source
lines 916-972). -/
def emit_manifest_collections (p : pkg) (top : ucl_object_t) : ucl_object_t :=
  let top := insert_opt top
    (emit_map p.deps (fun dep =>
      (dep.name, .object [(str "origin", .string dep.origin, []),
                          (str "version", .string dep.version, [])])))
    (str "deps")
  let top := insert_opt top (pkg_field p .PKG_CATEGORIES) (str "categories")
  let top := insert_opt top (emit_seq p.users (fun u => .string u.1)) (str "users")
  let top := insert_opt top (emit_seq p.groups (fun g => .string g.1)) (str "groups")
  let top := insert_opt top (emit_seq p.shlibs_required (fun n => .string n))
    (str "shlibs_required")
  insert_opt top (emit_seq p.shlibs_provided (fun n => .string n)) (str "shlibs_provided")

/-- Conflicts, provides and options (source lines 974-1009); `ov` is the
string `pkg_option_value(option)` gives for the `NULL` option. -/
def emit_manifest_options (ov : Bytes) (p : pkg) (top : ucl_object_t) : ucl_object_t :=
  let top := insert_opt top (emit_map p.conflicts (fun c => (c, .string ov))) (str "conflicts")
  let top := insert_opt top (emit_map p.provides (fun n => (n, .string ov))) (str "provides")
  insert_opt top (emit_map p.options (fun o => (o.1, .string o.2))) (str "options")

/-- The message (source lines 1106-1112). -/
def emit_manifest_message (p : pkg) (top : ucl_object_t) : ucl_object_t :=
  match pkg_get_string p .PKG_MESSAGE with
  | some m =>
    if m ≠ [] then
      ucl_object_insert_key top (.string (ucl_string_trim (urlencode m).2)) (str "message")
    else top
  | none => top

/-- The object `top` that `emit_manifest` builds (source lines 859-1112).
`option_value` is what `pkg_option_value(option)` gives in the loops over
conflicts and provides, where `option` is still `NULL`: `none` when the call
does not return.  Without a description `urlencode` is handed `NULL` and
there is no result either. -/
def emit_manifest_top (option_value : Option Bytes) (p : pkg) (flags : Nat) :
    Option ucl_object_t :=
  match pkg_get_string p .PKG_DESC with
  | none => none
  | some desc =>
    if (p.conflicts ≠ [] ∨ p.provides ≠ []) ∧ option_value = none then none
    else
      some (emit_manifest_message p (emit_manifest_files p flags
        (emit_manifest_options (option_value.getD []) p
          (emit_manifest_collections p (emit_manifest_desc desc (emit_manifest_basic p))))))

/-- The collaborator that turns an object into text,
`ucl_object_emit_sbuf(top, UCL_EMIT_YAML or UCL_EMIT_JSON_COMPACT, out)`: the
flag is true for the document-markup form. -/
structure emit_env where
  ucl_object_emit : Bool → ucl_object_t → Bytes
  option_value : Option Bytes

/-- Source `emit_manifest`: the return code and the text put into `out`;
`none` when the run does not return. -/
def emit_manifest (E : emit_env) (p : pkg) (flags : Nat) : Option (Int × Bytes) :=
  match emit_manifest_top E.option_value p flags with
  | none => none
  | some top =>
    some (EPKG_OK,
      E.ucl_object_emit (flags &&& PKG_MANIFEST_EMIT_PRETTY = PKG_MANIFEST_EMIT_PRETTY) top)

/-- The fixed order of the top-level keys of an emitted manifest. -/
def manifest_key_order : List Bytes :=
  [str "name", str "origin", str "version", str "arch", str "maintainer", str "prefix",
   str "www", str "path", str "sum", str "flatsize", str "comment", str "licenselogic",
   str "licenses", str "pkgsize", str "desc", str "deps", str "categories", str "users",
   str "groups", str "shlibs_required", str "shlibs_provided", str "conflicts",
   str "provides", str "options", str "files", str "directories", str "scripts",
   str "message"]

/-- The keys of an object stay within a list of admitted keys, in its order. -/
def KeysWithin (top : ucl_object_t) (pre : List Bytes) : Prop :=
  (∃ ms, top = .object ms) ∧ List.Sublist (ucl_object_keys top) pre

/-! ## Installer (`pkg_add.c`)

The installer talks to the catalog store, the archive reader, the script
runner, the event sink and the file system.  Every such call is appended to
a trace, and what a call answers is given by an environment that sees the
trace of the calls made before it. -/

def ARCHIVE_OK : Int := 0
def ARCHIVE_EOF : Int := 1
def ENOENT : Int := 2

/-- The calls the installer makes to its collaborators. -/
inductive add_event where
  | pkg_open2 (path : Bytes)
  | pkg_setautomatic
  | uname
  | emit_errno (func : Bytes)
  | emit_error (fmt : Bytes)
  | pkgdb_query (origin : Bytes)
  | emit_already_installed (origin : Bytes)
  | access (path : Bytes)
  | emit_missing_dep (origin : Bytes) (dep : pkg_dep)
  | pkgdb_register_pkg (origin : Bytes)
  | pkgdb_has_flag
  | pkgdb_register_finale (retcode : Int)
  | emit_install_begin (origin : Bytes)
  | emit_install_finished (origin : Bytes)
  | emit_upgrade_finished (origin : Bytes)
  | pkg_script_run (origin : Bytes) (phase : pkg_script)
  | archive_read_extract (pathname : Bytes)
  | archive_read_next_header
  | lstat (path : Bytes)
  | pkg_delete_files (origin : Bytes)
  | pkg_delete_dirs (origin : Bytes)
  | archive_read_finish
deriving DecidableEq, Repr

abbrev add_trace := List add_event

/-- What `uname` fills in. -/
structure utsname where
  machine : Bytes
  release : Bytes
deriving DecidableEq, Repr

/-- What `pkg_open2` hands back: the package read from the manifest, the
path name of the entry `ae` the stream is parked at (meaningful when the
call returns `EPKG_OK`) and the path names of the entries after it, and the
code `archive_read_next_header` returns once they are used up. -/
structure archive where
  pkg : pkg
  ae : Bytes
  rest : List Bytes
  end_ret : Int

/-- The collaborators of the installer. -/
structure add_env where
  /-- The return code of `pkg_open2` and, when it opened the archive, what it
  hands back. -/
  pkg_open2 : add_trace → Bytes → Int × Option archive
  /-- The call `uname(&u)`: `none` when it fails. -/
  uname : add_trace → Option utsname
  /-- The macro `__FreeBSD_version`. -/
  freebsd_version : Int
  /-- The call `pkgdb_query(db, origin, MATCH_EXACT)` followed by
  `pkgdb_it_next`: `none` when the iterator is `NULL`, else the code
  `pkgdb_it_next` returns. -/
  pkgdb_query : add_trace → Bytes → Option Int
  /-- The test `access(path, F_OK) == 0`. -/
  access : add_trace → Bytes → Bool
  pkgdb_register_pkg : add_trace → Bytes → Int
  /-- The value of `pkgdb_has_flag(db, PKGDB_FLAG_IN_FLIGHT)`. -/
  pkgdb_has_flag : add_trace → Int
  /-- The test `archive_read_extract(a, ae, flags) == ARCHIVE_OK`. -/
  archive_read_extract : add_trace → Bytes → Bool
  /-- Whether `lstat` finds a file: `lstat` returns 0 when it does and -1
  when it does not. -/
  lstat_found : add_trace → Bytes → Bool

/-- The call `pkg_get(pkg, attr)` of the installer: the stored string, the
empty string when none is stored. -/
def pkg_get (p : pkg) (attr : pkg_attr) : Bytes := (pkg_get_string p attr).getD []

/-- Source `dep_installed`: `none` when the iterator is `NULL` and the run
does not return. -/
def dep_installed (E : add_env) (tr : add_trace) (dep : pkg_dep) : Option (Int × add_trace) :=
  match E.pkgdb_query tr dep.origin with
  | none => none
  | some r =>
    some (if r = EPKG_OK then EX_OK else EX_IOERR, tr ++ [.pkgdb_query dep.origin])

/-- Modelled from the spec: `is_conf_file`, defined outside the three files.
A path that ends in `.pkgconf` is an installation-time template, and the path
without that suffix is put into `newpath`. -/
def is_conf_file (path : Bytes) : Option Bytes :=
  if (str ".pkgconf").isSuffixOf path then some (path.take (path.length - 8)) else none

/-- The value of `lstat(path, &st)`. -/
def lstat (E : add_env) (tr : add_trace) (path : Bytes) : Int :=
  if E.lstat_found tr path then 0 else -1

/-- The loop of `do_extract` from the entry `ae` on: the value of `ret` when
the loop is left, the value of `retcode`, and the trace. -/
def do_extract_loop (E : add_env) (end_ret : Int) :
    Bytes → List Bytes → Int → add_trace → Int × Int × add_trace
  | ae, rest, ret, tr =>
    let tr1 := tr ++ [.archive_read_extract ae]
    if ¬ E.archive_read_extract tr ae then
      (ret, EX_IOERR, tr1 ++ [.emit_error (str "archive_read_extract(): %s")])
    else
      let second : Option (Bool × add_trace) :=
        match is_conf_file ae with
        | none => none
        | some path =>
          let tr2 := tr1 ++ [.lstat path]
          if lstat E tr1 path = ENOENT then
            some (E.archive_read_extract tr2 path, tr2 ++ [.archive_read_extract path])
          else some (true, tr2)
      let tr3 := (second.map (fun x => x.2)).getD tr1
      if (second.map (fun x => x.1)).getD true = false then
        (ret, EX_IOERR, tr3 ++ [.emit_error (str "archive_read_extract(): %s")])
      else
        let tr4 := tr3 ++ [.archive_read_next_header]
        match rest with
        | [] => (end_ret, EX_OK, tr4)
        | next :: rest2 => do_extract_loop E end_ret next rest2 ARCHIVE_OK tr4

/-- Source `do_extract`, on an archive parked at its first payload entry. -/
def do_extract (E : add_env) (a : archive) (tr : add_trace) : Int × add_trace :=
  let r := do_extract_loop E a.end_ret a.ae a.rest EX_OK tr
  if r.1 ≠ ARCHIVE_EOF then
    (EX_IOERR, r.2.2 ++ [.emit_error (str "archive_read_next_header(): %s")])
  else (r.2.1, r.2.2)

/-- The test `strstr(hay, needle) != NULL`. -/
def strstr_found (hay needle : Bytes) : Bool :=
  hay.tails.any (fun t => needle.isPrefixOf t)

/-- The call `strrchr(path, '.')`: the suffix that starts at the last dot. -/
def strrchr_dot : Bytes → Option Bytes
  | [] => none
  | c :: s =>
    match strrchr_dot s with
    | some t => some t
    | none => if c = 46 then some (c :: s) else none

/-- Trailing slashes removed. -/
def strip_slashes (s : Bytes) : Bytes := (s.reverse.dropWhile (fun c => c == 47)).reverse

/-- The call `dirname(path)` of the C library: `.` for a path without a
slash, `/` for the root, else the path up to its last component, without the
slashes that end it. -/
def dirname (path : Bytes) : Bytes :=
  let p := strip_slashes path
  if p = [] then (if path = [] then str "." else str "/")
  else
    let d := (p.reverse.dropWhile (fun c => c != 47)).reverse
    if d = [] then str "."
    else if strip_slashes d = [] then str "/" else strip_slashes d

/-- The host OS-version string `pkg_add2` compares with (source lines
145-148). -/
def host_osversion (E : add_env) (u : utsname) : Bytes :=
  if strstr_found u.release (str "RELEASE") then u.release
  else u.release ++ str "-" ++ decimal E.freebsd_version

/-- The name `snprintf(dpath, sizeof(dpath), "%s/%s-%s%s", ...)` writes into
the buffer of `MAXPATHLEN + 1` bytes. -/
def dep_path (basedir ext : Bytes) (dep : pkg_dep) : Bytes :=
  (basedir ++ str "/" ++ dep.name ++ str "-" ++ dep.version ++ ext).take 1024

/-- The dependency loop of `pkg_add2` (source lines 189-206).  `recurse` is
the call `pkg_add2(db, dpath, 0, 1)`.  The result is `.error` with the value
of `retcode` at `goto cleanup`, or `.ok` when the loop ends; `none` when the
run does not return. -/
def pkg_add2_deps (E : add_env) (recurse : add_trace → Bytes → Option (Int × add_trace))
    (origin basedir ext : Bytes) :
    List pkg_dep → add_trace → Option (Except (Int × add_trace) add_trace)
  | [], tr => some (.ok tr)
  | dep :: rest, tr =>
    match dep_installed E tr dep with
    | none => none
    | some (r, tr1) =>
      if r ≠ EPKG_OK then
        let dpath := dep_path basedir ext dep
        let tr2 := tr1 ++ [.access dpath]
        if E.access tr1 dpath then
          match recurse tr2 dpath with
          | none => none
          | some (rc, tr3) =>
            if rc ≠ EPKG_OK then some (.error (EX_OSERR, tr3))
            else pkg_add2_deps E recurse origin basedir ext rest tr3
        else some (.error (EPKG_FATAL, tr2 ++ [.emit_missing_dep origin dep]))
      else pkg_add2_deps E recurse origin basedir ext rest tr1

/-- The precondition steps of `pkg_add2` from the call of `uname` on (source
lines 126-206): `.error` carries the value of `retcode` at `goto cleanup`. -/
def pkg_add2_checks (E : add_env) (recurse : add_trace → Bytes → Option (Int × add_trace))
    (path : Bytes) (pkg : pkg) (tr : add_trace) :
    Option (Except (Int × add_trace) add_trace) :=
  match E.uname tr with
  | none => some (.error (EX_OSERR, tr ++ [.uname, .emit_errno (str "uname")]))
  | some u =>
    let tr := tr ++ [.uname]
    if u.machine ≠ pkg_get pkg .PKG_ARCH then
      some (.error (EX_CONFIG, tr ++ [.emit_error (str "wrong architecture: %s instead of %s")]))
    else if host_osversion E u ≠ pkg_get pkg .PKG_OSVERSION then
      some (.error (EX_CONFIG, tr ++ [.emit_error (str "wrong OSVERSION: %s instead of %s")]))
    else
      let origin := pkg_get pkg .PKG_ORIGIN
      let tr1 := tr ++ [.pkgdb_query origin]
      match E.pkgdb_query tr origin with
      | none => some (.error (EX_IOERR, tr1))
      | some ret =>
        if ret = EPKG_OK then
          some (.error (EX_OK, tr1 ++ [.emit_already_installed origin]))
        else if ret ≠ EPKG_END then some (.error (ret, tr1))
        else
          match strrchr_dot path with
          | none => some (.error (EX_OSERR, tr1 ++ [.emit_error (str "%s has no extension")]))
          | some ext => pkg_add2_deps E recurse origin (dirname path) ext pkg.deps tr1

/-- The call `pkg_setautomatic(pkg)`. -/
def pkg_setautomatic (p : pkg) : pkg := { p with automatic := true }

/-- The package after source lines 123-124: stamped when `automatic == 1`. -/
def pkg_stamped (p : pkg) (automatic : Int) : pkg :=
  if automatic = 1 then pkg_setautomatic p else p

/-- The trace of a fresh call of `pkg_add2` when it reaches `uname`. -/
def trace_at_uname (tr : add_trace) (path : Bytes) (automatic : Int) : add_trace :=
  if automatic = 1 then tr ++ [.pkg_open2 path, .pkg_setautomatic] else tr ++ [.pkg_open2 path]

/-- The installation steps of `pkg_add2` once the preconditions hold (source
lines 208-247), up to and including `pkgdb_register_finale`. -/
def pkg_add2_install (E : add_env) (upgrade : Int) (extract : Bool) (a : archive) (pkg : pkg)
    (tr : add_trace) : Int × add_trace :=
  let origin := pkg_get pkg .PKG_ORIGIN
  let retcode := E.pkgdb_register_pkg tr origin
  let tr1 := tr ++ [.pkgdb_register_pkg origin]
  let body : Int × add_trace :=
    if retcode ≠ EPKG_OK then (retcode, tr1)
    else if E.pkgdb_has_flag tr1 = 0 then (retcode, tr1 ++ [.pkgdb_has_flag])
    else
      let tr2 := tr1 ++ [.pkgdb_has_flag]
      let tr3 :=
        if upgrade = 0 then
          tr2 ++ [.emit_install_begin origin, .pkg_script_run origin .PKG_SCRIPT_PRE_INSTALL]
        else tr2
      let ex : Int × add_trace := if extract then do_extract E a tr3 else (retcode, tr3)
      if extract ∧ ex.1 ≠ EPKG_OK then
        (ex.1, ex.2 ++ [.pkg_delete_files origin, .pkg_delete_dirs origin])
      else if upgrade ≠ 0 then
        (ex.1, ex.2 ++ [.pkg_script_run origin .PKG_SCRIPT_POST_UPGRADE,
                        .emit_upgrade_finished origin])
      else
        (ex.1, ex.2 ++ [.pkg_script_run origin .PKG_SCRIPT_POST_INSTALL,
                        .emit_install_finished origin])
  (body.1, body.2 ++ [.pkgdb_register_finale body.1])

/-- The block at the label `cleanup` of `pkg_add2`. -/
def pkg_add2_cleanup (a : Option archive) (r : Int × add_trace) : Int × add_trace :=
  match a with
  | some _ => (r.1, r.2 ++ [.archive_read_finish])
  | none => r

/-- Source `pkg_add2`.  The first argument bounds the depth of the recursion
into dependency archives; the result is `none` when the run does not return,
because that depth is exceeded or a `NULL` package or iterator is used. -/
def pkg_add2 (E : add_env) : Nat → add_trace → Bytes → Int → Int → Option (Int × add_trace)
  | 0, _, _, _, _ => none
  | fuel + 1, tr0, path, upgrade, automatic =>
    let o := E.pkg_open2 tr0 path
    if o.1 ≠ EPKG_END ∧ o.1 ≠ EPKG_OK then
      some (pkg_add2_cleanup o.2 (o.1, tr0 ++ [.pkg_open2 path]))
    else
      match o.2 with
      | none => none
      | some a =>
        let pkg := pkg_stamped a.pkg automatic
        match pkg_add2_checks E (fun tr p => pkg_add2 E fuel tr p 0 1) path pkg
            (trace_at_uname tr0 path automatic) with
        | none => none
        | some (.error r) => some (pkg_add2_cleanup (some a) r)
        | some (.ok tr2) =>
          some (pkg_add2_cleanup (some a)
            (pkg_add2_install E upgrade (decide (o.1 ≠ EPKG_END)) a pkg tr2))

/-- Source `pkg_add`. -/
def pkg_add (E : add_env) (fuel : Nat) (tr : add_trace) (path : Bytes) :
    Option (Int × add_trace) :=
  pkg_add2 E fuel tr path 0 0

/-- The calls that read or write the catalog. -/
def add_event.is_catalog : add_event → Bool
  | .pkgdb_query _ => true
  | .pkgdb_register_pkg _ => true
  | .pkgdb_has_flag => true
  | .pkgdb_register_finale _ => true
  | _ => false

/-- The calls that register a package, run a script, extract or delete an
entry, or report the begin or end of an installation. -/
def add_event.is_install : add_event → Bool
  | .pkgdb_register_pkg _ => true
  | .pkgdb_register_finale _ => true
  | .pkg_script_run _ _ => true
  | .archive_read_extract _ => true
  | .pkg_delete_files _ => true
  | .pkg_delete_dirs _ => true
  | .emit_install_begin _ => true
  | .emit_install_finished _ => true
  | .emit_upgrade_finished _ => true
  | _ => false

/-- A trace `t` continues a trace `tr` by calls none of which satisfies
`bad`. -/
def ExtendsWithout (bad : add_event → Bool) (tr t : add_trace) : Prop :=
  ∃ new, t = tr ++ new ∧ ∀ e ∈ new, bad e = false

/-! ## Incremental catalog update: the task tables (`pkg_repo_update.c`) -/

/-- Source `struct pkg_increment_task_item` (the unused `olddigest` and the
hash handle left out). -/
structure pkg_increment_task_item where
  origin : Bytes
  digest : Bytes
  offset : Int
  length : Int
deriving DecidableEq, Repr

/-- A task table (`ldel`, `ladd`): its items in the order `HASH_ITER` visits
them, which is the order of insertion. -/
abbrev TaskTable := List pkg_increment_task_item

/-- Source `pkg_repo_update_increment_item_new`: a `NULL` digest is stored as
the empty string; `HASH_ADD_KEYPTR` appends without looking for the key. -/
def pkg_repo_update_increment_item_new (head : TaskTable) (origin : Bytes)
    (digest : Option Bytes) (offset length : Int) : TaskTable :=
  head ++ [{ origin := origin, digest := digest.getD [], offset := offset, length := length }]

/-- The lookup `HASH_FIND_STR(head, origin, item)`. -/
def HASH_FIND_STR (head : TaskTable) (origin : Bytes) : Option pkg_increment_task_item :=
  head.find? (fun i => i.origin == origin)

/-- The removal `HASH_DEL(head, item)` of an item found in the table. -/
def HASH_DEL (head : TaskTable) (item : pkg_increment_task_item) : TaskTable :=
  head.erase item

/-- The call `strsep(&p, ":")`-style split on one delimiter byte: the token
returned and the new value of `p`. -/
def strsep (p : Option Bytes) (delim : Nat) : Option Bytes × Option Bytes :=
  match p with
  | none => (none, none)
  | some s =>
    match s.span (fun c => c != delim) with
    | (tok, []) => (some tok, none)
    | (tok, _ :: rest) => (some tok, some rest)

/-- The call `strtoul(s, NULL, 10)` with a 64-bit `unsigned long`: the value
and whether `errno` was set. -/
def strtoul10 (s : Bytes) : Nat × Bool :=
  let sg := strto_sign (skip_space s)
  match strto_digits 10 sg.2 none with
  | none => (0, true)
  | some v =>
    if 2 ^ 64 ≤ v then (2 ^ 64 - 1, true)
    else if sg.1 then ((2 ^ 64 - v) % 2 ^ 64, false)
    else (v, false)

/-- The cast `(long)` of an `unsigned long`. -/
def to_long (v : Nat) : Int :=
  if v % 2 ^ 64 < 2 ^ 63 then ((v % 2 ^ 64 : Nat) : Int) else ((v % 2 ^ 64 : Nat) : Int) - 2 ^ 64

/-- One parsed line of the digests file: origin, digest, offset, length. -/
structure digest_record where
  origin : Bytes
  digest : Bytes
  num_offset : Int
  num_length : Int
deriving DecidableEq, Repr

/-- The first half of the body of the digests loop (source lines 322-354):
the five `strsep` calls and the two `strtoul` calls.  An error is the value
`rc` holds at `goto cleanup`. -/
def digest_line_parse (linebuf : Bytes) : Except Int digest_record :=
  let s1 := strsep (some linebuf) 58
  let s2 := strsep s1.2 58
  let s3 := strsep s2.2 58
  let s4 := strsep s3.2 58
  let s5 := strsep s4.2 58
  match s1.1, s2.1, s3.1 with
  | some origin, some digest, some offset =>
    let o := strtoul10 offset
    if o.2 then .error EPKG_FATAL
    else
      match s5.1 with
      | some length =>
        let l := strtoul10 length
        if l.2 then .error EPKG_FATAL
        else .ok { origin := origin, digest := digest,
                   num_offset := to_long o.1, num_length := to_long l.1 }
      | none => .ok { origin := origin, digest := digest,
                      num_offset := to_long o.1, num_length := 0 }
  | _, _, _ => .error EPKG_FATAL

/-- The tables and counters of `pkg_repo_update_incremental`. -/
structure increment_state where
  ldel : TaskTable
  ladd : TaskTable
  updated : Nat
  added : Nat
  processed : Nat
deriving DecidableEq, Repr

/-- The second half of the body of the digests loop (source lines 355-378). -/
def digest_line_apply (st : increment_state) (r : digest_record) : increment_state :=
  let st := { st with processed := st.processed + 1 }
  match HASH_FIND_STR st.ldel r.origin with
  | none =>
    { st with added := st.added + 1
              ladd := pkg_repo_update_increment_item_new st.ladd r.origin (some r.digest)
                        r.num_offset r.num_length }
  | some item =>
    if r.digest = item.digest then
      { st with ldel := HASH_DEL st.ldel item }
    else
      { st with ldel := HASH_DEL st.ldel item
                ladd := pkg_repo_update_increment_item_new st.ladd r.origin (some r.digest)
                          r.num_offset r.num_length
                updated := st.updated + 1 }

/-- The digests loop (source lines 321-379) over the lines `getline` returns. -/
def load_digests (st : increment_state) : List Bytes → Except Int increment_state
  | [] => .ok st
  | linebuf :: rest =>
    match digest_line_parse linebuf with
    | .error rc => .error rc
    | .ok r => load_digests (digest_line_apply st r) rest

/-- The loop that loads the local rows (source lines 313-317): each row is
the origin and the digest `pkg_get` returned for it. -/
def load_local (rows : List (Bytes × Option Bytes)) : TaskTable :=
  rows.foldl (fun ldel row => pkg_repo_update_increment_item_new ldel row.1 row.2 4 0) []

/-- The state in which the digests loop starts. -/
def increment_init (rows : List (Bytes × Option Bytes)) : increment_state :=
  { ldel := load_local rows, ladd := [], updated := 0, added := 0, processed := 0 }

/-- The add-table item a digest line stands for. -/
def digest_record.toItem (r : digest_record) : pkg_increment_task_item :=
  { origin := r.origin, digest := r.digest, offset := r.num_offset, length := r.num_length }

/-- A digest line is new or changed with respect to a table when the table
has no item of its origin, or has one with another digest. -/
def digest_record.differs (T : TaskTable) (r : digest_record) : Bool :=
  match HASH_FIND_STR T r.origin with
  | none => true
  | some item => decide (r.digest ≠ item.digest)

/-! ## Incremental catalog update: the run (`pkg_repo_update.c`)

The calls to the catalog store, the transport and the event sink are
appended to a trace together with the code they return; what a call returns
is given by an environment that sees the trace of the calls made before. -/

def EPKG_UPTODATE : Int := 9
def SSIZE_MAX : Int := 2 ^ 63 - 1

/-- The two remote files of a repository. -/
inductive repo_file where
  | digests | manifests
deriving DecidableEq, Repr

/-- The calls `pkg_repo_update_incremental` makes to its collaborators. -/
inductive repo_event where
  | access
  | pkgdb_repo_open (rc : Int) (reuse_repo : Bool)
  | pkgdb_repo_init (rc : Int)
  | sql_exec (sql : Bytes) (rc : Int)
  | sqlite3_prepare_v2 (sql : Bytes) (ok : Bool)
  | sqlite3_bind_text
  | sqlite3_step (done : Bool)
  | sqlite3_finalize
  | pkgdb_repo_origins (found : Bool)
  | pkg_repo_fetch_meta (rc : Int)
  | pkg_repo_fetch_remote_extract_tmp (file : repo_file) (found : Bool) (t : Int) (rc : Int)
  | unlink
  | emit_notice (fmt : Bytes)
  | emit_error (fmt : Bytes)
  | emit_errno (func : Bytes)
  | pkgdb_transaction_begin (rc : Int)
  | pkgdb_transaction_rollback
  | pkgdb_transaction_commit (rc : Int)
  | emit_progress_start (msg : Bytes)
  | emit_progress_tick (cur total : Nat)
  | pkgdb_repo_remove_package (origin : Bytes) (rc : Int)
  | mmap
  | pkg_checksum_calculate
  | pkgdb_repo_add_package (origin reponame digest old_digest : Option Bytes) (rc : Int)
  | pkg_repo_add_from_manifest (origin : Bytes) (rc : Int)
  | emit_incremental_update (updated removed added processed : Nat)
  | pkgdb_repo_finalize_statements
  | sqlite3_close
deriving DecidableEq, Repr

abbrev repo_trace := List repo_event

/-- A row the iterator `pkgdb_repo_origins` yields: what `pkg_get` returns
for its origin, digest and old digest. -/
structure repo_row where
  origin : Bytes
  digest : Option Bytes
  old_digest : Option Bytes
deriving DecidableEq, Repr

/-- The collaborators of the incremental update. -/
structure repo_env where
  manifest : manifest_env
  /-- The field `repo->name`. -/
  repo_name : Bytes
  /-- The test `access(name, R_OK) != -1`. -/
  access : repo_trace → Bool
  /-- The code of `pkgdb_repo_open` and the flag `reuse_repo` it sets. -/
  pkgdb_repo_open : repo_trace → Int × Bool
  pkgdb_repo_init : repo_trace → Int
  sql_exec : repo_trace → Bytes → Int
  /-- The test `sqlite3_prepare_v2(...) == SQLITE_OK`. -/
  sqlite3_prepare_v2 : repo_trace → Bytes → Bool
  /-- The test `sqlite3_step(stmt) == SQLITE_DONE`. -/
  sqlite3_step : repo_trace → Bool
  /-- The rows of the iterator `pkgdb_repo_origins` returns: `none` for
  `NULL`. -/
  pkgdb_repo_origins : repo_trace → Option (List repo_row)
  pkg_repo_fetch_meta : repo_trace → Int
  /-- The call `pkg_repo_fetch_remote_extract_tmp(repo, file, &t, &rc)` with
  the time `t` passed in: the lines of the file (`none` for `NULL`), and the
  values of `t` and `rc` after the call. -/
  fetch : repo_trace → repo_file → Int → Option (List Bytes) × Int × Int
  pkg_checksum_is_valid : Bytes → Bool
  is_valid_abi : Bytes → Bool
  /-- The effect of `pkg_checksum_calculate(pkg, NULL)` on the package. -/
  pkg_checksum_calculate : pkg → pkg
  pkgdb_transaction_begin : repo_trace → Int
  pkgdb_transaction_commit : repo_trace → Int
  pkgdb_repo_remove_package : repo_trace → Bytes → Int
  pkgdb_repo_add_package : repo_trace → pkg → Int

/-- Source `pkg_repo_register`. -/
def pkg_repo_register (E : repo_env) (tr : repo_trace) : Int × repo_trace :=
  let create := str "CREATE TABLE IF NOT EXISTS repodata (   key TEXT UNIQUE NOT NULL,   value TEXT NOT NULL);"
  let sql := str "INSERT OR REPLACE INTO repodata (key, value) VALUES (\"packagesite\", ?1);"
  let r := E.sql_exec tr create
  let tr1 := tr ++ [.sql_exec create r]
  if r ≠ EPKG_OK then
    (EPKG_FATAL, tr1 ++ [.emit_error
      (str "Unable to register the packagesite in the database")])
  else
    let ok := E.sqlite3_prepare_v2 tr1 sql
    let tr2 := tr1 ++ [.sqlite3_prepare_v2 sql ok]
    if ¬ ok then (EPKG_FATAL, tr2 ++ [.emit_error (str "sqlite error")])
    else
      let tr3 := tr2 ++ [.sqlite3_bind_text]
      let done := E.sqlite3_step tr3
      let tr4 := tr3 ++ [.sqlite3_step done]
      if ¬ done then (EPKG_FATAL, tr4 ++ [.emit_error (str "sqlite error"), .sqlite3_finalize])
      else (EPKG_OK, tr4 ++ [.sqlite3_finalize])

/-- Source `pkg_repo_add_from_manifest` on the buffer `buf` (the bytes from
`buf` up to the length passed as `offset`): the registry `*keys` after the
call, the return code and the trace. -/
def pkg_repo_add_from_manifest (E : repo_env) (buf : Bytes) (origin digest : Bytes)
    (keys : List pkg_manifest_key) (is_legacy : Bool) (tr : repo_trace) :
    List pkg_manifest_key × Int × repo_trace :=
  let keys := pkg_manifest_keys_new keys
  let r := pkg_parse_manifest E.manifest pkg_new buf keys
  if r.1 ≠ EPKG_OK then (keys, r.1, tr)
  else if pkg_is_valid r.2 ≠ EPKG_OK then (keys, pkg_is_valid r.2, tr)
  else
    let bad_origin : repo_trace := tr ++ [.emit_error
      (str "manifest contains origin %s while we wanted to add origin %s")]
    match pkg_get_string r.2 .PKG_ORIGIN with
    | none => (keys, EPKG_FATAL, bad_origin)
    | some local_origin =>
      if local_origin ≠ origin then (keys, EPKG_FATAL, bad_origin)
      else
        match pkg_get_string r.2 .PKG_ARCH with
        | none => (keys, EPKG_FATAL, tr)
        | some pkg_arch =>
          if ¬ E.is_valid_abi pkg_arch then (keys, EPKG_FATAL, tr)
          else
            let p1 := (pkg_set r.2 .PKG_REPONAME (.string E.repo_name)).2
            let p2 :=
              if is_legacy then
                E.pkg_checksum_calculate (pkg_set p1 .PKG_OLD_DIGEST (.string digest)).2
              else (pkg_set p1 .PKG_DIGEST (.string digest)).2
            let tr1 := if is_legacy then tr ++ [.pkg_checksum_calculate] else tr
            let rc := E.pkgdb_repo_add_package tr1 p2
            (keys, rc, tr1 ++ [.pkgdb_repo_add_package (pkg_get_string p2 .PKG_ORIGIN)
              (pkg_get_string p2 .PKG_REPONAME) (pkg_get_string p2 .PKG_DIGEST)
              (pkg_get_string p2 .PKG_OLD_DIGEST) rc])

/-- The bytes of the mapped manifests file from `offset` on, `length` of
them.  Bytes outside the mapping are not modelled: the slice ends where the
mapping ends. -/
def manifest_slice (map : Bytes) (offset length : Int) : Bytes :=
  (map.drop offset.toNat).take length.toNat

/-- The block at the label `cleanup` of `pkg_repo_update_incremental`
(source lines 445-476). -/
def repo_cleanup (E : repo_env) (in_trans : Bool) (rc : Int) (tr : repo_trace) :
    Int × repo_trace :=
  let r : Int × repo_trace :=
    if in_trans then
      let tr1 := if rc ≠ EPKG_OK then tr ++ [.pkgdb_transaction_rollback] else tr
      let c := E.pkgdb_transaction_commit tr1
      (if c ≠ EPKG_OK then EPKG_FATAL else rc, tr1 ++ [.pkgdb_transaction_commit c])
    else (rc, tr)
  let tr2 := r.2 ++ [.pkgdb_repo_finalize_statements]
  let tr3 :=
    if r.1 = EPKG_OK then
      tr2 ++ [.sql_exec (str "DROP TABLE repo_update;") (E.sql_exec tr2 (str "DROP TABLE repo_update;"))]
    else tr2
  (r.1, tr3 ++ [.sqlite3_close])

/-- The loop that removes the expired entries (source lines 395-404): the
value of `rc` and the trace after it. -/
def repo_remove_loop (E : repo_env) (removed : Nat) :
    List pkg_increment_task_item → Nat → Int → repo_trace → Int × repo_trace
  | [], _, rc, tr => (rc, tr)
  | item :: rest, hash_it, rc, tr =>
    let tr1 := tr ++ [.emit_progress_tick (hash_it + 1) removed]
    if rc = EPKG_OK then
      let r := E.pkgdb_repo_remove_package tr1 item.origin
      repo_remove_loop E removed rest (hash_it + 1) r
        (tr1 ++ [.pkgdb_repo_remove_package item.origin r])
    else repo_remove_loop E removed rest (hash_it + 1) rc tr1

/-- The loop that adds the new entries (source lines 423-441). -/
def repo_add_loop (E : repo_env) (map : Bytes) (legacy_repo : Bool) (pushed : Nat) :
    List pkg_increment_task_item → Nat → List pkg_manifest_key → Int → repo_trace →
      Int × repo_trace
  | [], _, _, rc, tr => (rc, tr)
  | item :: rest, hash_it, keys, rc, tr =>
    let tr1 := tr ++ [.emit_progress_tick (hash_it + 1) pushed]
    if rc = EPKG_OK then
      let buf :=
        if item.length ≠ 0 then manifest_slice map item.offset item.length
        else manifest_slice map item.offset ((map.length : Int) - item.offset)
      let r := pkg_repo_add_from_manifest E buf item.origin item.digest keys legacy_repo tr1
      repo_add_loop E map legacy_repo pushed rest (hash_it + 1) r.1 r.2.1
        (r.2.2 ++ [.pkg_repo_add_from_manifest item.origin r.2.1])
    else repo_add_loop E map legacy_repo pushed rest (hash_it + 1) keys rc tr1

/-- The part of `pkg_repo_update_incremental` that applies the tables
(source lines 381-443), up to the label `cleanup`: the value of `rc` there
and the trace. -/
def repo_apply (E : repo_env) (st : increment_state) (map : Bytes) (legacy_repo : Bool)
    (tr : repo_trace) : Int × repo_trace :=
  let create := str "CREATE TABLE IF NOT EXISTS repo_update (x INTEGER);"
  let tr1 := tr ++ [.sql_exec create (E.sql_exec tr create)]
  let rc := E.pkgdb_transaction_begin tr1
  let tr2 := tr1 ++ [.pkgdb_transaction_begin rc]
  if rc ≠ EPKG_OK then (rc, tr2)
  else
    let removed := st.ldel.length
    let r := repo_remove_loop E removed st.ldel 0 rc
      (tr2 ++ [.emit_progress_start (str "Removing expired entries")])
    if 0 < (map.length : Int) ∧ (map.length : Int) < SSIZE_MAX then
      let a := repo_add_loop E map legacy_repo st.ladd.length st.ladd 0 [] r.1
        (r.2 ++ [.mmap, .emit_progress_start (str "Adding new entries")])
      (a.1, a.2 ++ [.emit_incremental_update st.updated removed st.added st.processed])
    else if map.length = 0 then (r.1, r.2 ++ [.emit_error (str "Empty catalog")])
    else (r.1, r.2 ++ [.emit_error (str "Catalog too large")])

/-- Source lines 381-476 of `pkg_repo_update_incremental`: applying the
tables inside the savepoint `REPO`, then the cleanup block. -/
def repo_apply_cleanup (E : repo_env) (st : increment_state) (map : Bytes)
    (legacy_repo : Bool) (tr : repo_trace) : Int × repo_trace :=
  let r := repo_apply E st map legacy_repo tr
  repo_cleanup E true r.1 r.2

/-- A remove or an add that returned a code other than `EPKG_OK`. -/
def repo_event.op_failed : repo_event → Bool
  | .pkgdb_repo_remove_package _ rc => decide (rc ≠ EPKG_OK)
  | .pkg_repo_add_from_manifest _ rc => decide (rc ≠ EPKG_OK)
  | _ => false

/-- The two calls that end a savepoint. -/
def repo_event.is_savepoint_end : repo_event → Bool
  | .pkgdb_transaction_rollback => true
  | .pkgdb_transaction_commit _ => true
  | _ => false

/-- A package for the host of `demo_env`, with the given architecture. -/
def demo_pkg (arch name origin : Bytes) (deps : List pkg_dep) : pkg :=
  { (pkg_set (pkg_set (pkg_set (pkg_set pkg_new .PKG_ARCH (.string arch)).2
      .PKG_OSVERSION (.string (str "9.2-RELEASE"))).2
      .PKG_ORIGIN (.string origin)).2 .PKG_NAME (.string name)).2 with deps := deps }

/-- An archive with one payload entry. -/
def demo_archive (p : pkg) (entry : Bytes) : archive :=
  { pkg := p, ae := entry, rest := [], end_ret := ARCHIVE_EOF }

def demo_dep (name : String) (version : String) : pkg_dep :=
  { name := str name, origin := str "misc/" ++ str name, version := str version }

def demo_bar : archive :=
  demo_archive (demo_pkg (str "amd64") (str "bar") (str "misc/bar")
    [demo_dep "baz" "0.1", demo_dep "qux" "0.2"]) (str "usr/local/bin/bar")

def demo_baz : archive :=
  demo_archive (demo_pkg (str "amd64") (str "baz") (str "misc/baz") []) (str "usr/local/bin/baz")

def demo_foo : archive :=
  demo_archive (demo_pkg (str "amd64") (str "foo") (str "misc/foo")
    [demo_dep "base" "1.0", demo_dep "baz" "0.1", demo_dep "zap" "3"])
    (str "etc/foo.cfg.pkgconf")

def demo_solo : archive :=
  demo_archive (demo_pkg (str "amd64") (str "solo") (str "misc/solo")
    [demo_dep "base" "1.0", demo_dep "qux" "0.2"]) (str "etc/solo.cfg.pkgconf")

def demo_old : archive :=
  demo_archive (demo_pkg (str "i386") (str "old") (str "misc/old") []) (str "usr/local/bin/old")

/-- A host `amd64`, `9.2-RELEASE`, whose catalog holds `misc/base` only and
whose package directory `/p` holds the archives of `bar`, `baz`, `foo`,
`solo` and `old`; every registration and extraction succeeds and no file of
a payload exists yet. -/
def demo_env : add_env :=
  { pkg_open2 := fun _ path =>
      if path = str "/p/bar-1.0.pkg" then (EPKG_OK, some demo_bar)
      else if path = str "/p/baz-0.1.pkg" then (EPKG_OK, some demo_baz)
      else if path = str "/p/foo-2.0.pkg" then (EPKG_OK, some demo_foo)
      else if path = str "/p/solo-1.0.pkg" then (EPKG_OK, some demo_solo)
      else if path = str "/p/old-1.0.pkg" then (EPKG_OK, some demo_old)
      else (EPKG_FATAL, none)
    uname := fun _ => some { machine := str "amd64", release := str "9.2-RELEASE" }
    freebsd_version := 902001
    pkgdb_query := fun _ origin => if origin = str "misc/base" then some EPKG_OK else some EPKG_END
    access := fun _ path => decide (path = str "/p/baz-0.1.pkg")
    pkgdb_register_pkg := fun _ _ => EPKG_OK
    pkgdb_has_flag := fun _ => 1
    archive_read_extract := fun _ _ => true
    lstat_found := fun _ _ => false }

/-! ## A concrete update scenario -/

/-- A repository whose catalog store accepts the savepoint and its release
but fails every removal. -/
def demo_repo_env : repo_env :=
  { manifest := { ucl_parse := fun _ => none, yaml_to_ucl := fun _ => none,
                  setmode := fun _ => none }
    repo_name := str "repo"
    access := fun _ => true
    pkgdb_repo_open := fun _ => (EPKG_OK, true)
    pkgdb_repo_init := fun _ => EPKG_OK
    sql_exec := fun _ _ => EPKG_OK
    sqlite3_prepare_v2 := fun _ _ => true
    sqlite3_step := fun _ => true
    pkgdb_repo_origins := fun _ => some []
    pkg_repo_fetch_meta := fun _ => EPKG_OK
    fetch := fun _ _ t => (some [], t, EPKG_OK)
    pkg_checksum_is_valid := fun _ => true
    is_valid_abi := fun _ => true
    pkg_checksum_calculate := fun p => p
    pkgdb_transaction_begin := fun _ => EPKG_OK
    pkgdb_transaction_commit := fun _ => EPKG_OK
    pkgdb_repo_remove_package := fun _ _ => EPKG_FATAL
    pkgdb_repo_add_package := fun _ _ => EPKG_OK }

/-- The kind of object `pkg->fields` holds for an attribute, as `pkg_get`
hands it out in `emit_manifest`: strings, 64-bit integers, and objects for
licenses, categories and annotations. -/
def pkg_field_kind : pkg_attr → ucl_type
  | .PKG_FLATSIZE => .UCL_INT
  | .PKG_PKGSIZE => .UCL_INT
  | .PKG_LICENSE_LOGIC => .UCL_INT
  | .PKG_LICENSES => .UCL_ARRAY
  | .PKG_CATEGORIES => .UCL_ARRAY
  | .PKG_ANNOTATIONS => .UCL_OBJECT
  | _ => .UCL_STRING

/-- Every object in `pkg->fields` has the kind of its attribute. -/
def pkg_fields_typed (p : pkg) : Bool :=
  p.fields.all (fun f => f.2.type == pkg_field_kind f.1)

/-- What `urlencode` writes for one byte. -/
def urlencode_byte (c : Nat) : Bytes :=
  if !isascii c || c == 37 then 37 :: printf_02x c else [c]

/-- The package `q` has the fields of `p`, except possibly the attribute
`t`. -/
def FieldsFrame (t : pkg_attr) (p q : pkg) : Prop :=
  ∀ a, a ≠ t → pkg_field q a = pkg_field p a

/-- An object built by inserting, in order, the values that exist. -/
def manifest_build (kvs : List (Bytes × Option ucl_object_t)) : ucl_object_t :=
  kvs.foldl (fun t kv => insert_opt t kv.2 kv.1) (.object [])

/-- The keys `emit_manifest` writes in compact mode for a package with the
description `desc` and without conflicts and provides, each with the value
it inserts, if any. -/
def emit_manifest_pairs (p : pkg) (desc : Bytes) : List (Bytes × Option ucl_object_t) :=
  [ (str "name", pkg_field p .PKG_NAME),
    (str "origin", pkg_field p .PKG_ORIGIN),
    (str "version", pkg_field p .PKG_VERSION),
    (str "arch", pkg_field p .PKG_ARCH),
    (str "maintainer", pkg_field p .PKG_MAINTAINER),
    (str "prefix", pkg_field p .PKG_PREFIX),
    (str "www", pkg_field p .PKG_WWW),
    (str "path", pkg_field p .PKG_REPOPATH),
    (str "sum", pkg_field p .PKG_CKSUM),
    (str "flatsize", pkg_field p .PKG_FLATSIZE),
    (str "comment", (pkg_get_string p .PKG_COMMENT).map (fun c => .string (ucl_string_trim c))),
    (str "licenselogic",
      if pkg_get_int p .PKG_LICENSE_LOGIC = LICENSE_SINGLE then some (.string (str "single"))
      else if pkg_get_int p .PKG_LICENSE_LOGIC = LICENSE_AND then some (.string (str "and"))
      else if pkg_get_int p .PKG_LICENSE_LOGIC = LICENSE_OR then some (.string (str "or"))
      else none),
    (str "licenses", pkg_field p .PKG_LICENSES),
    (str "pkgsize",
      if pkg_get_int p .PKG_PKGSIZE > 0 then some (.int (pkg_get_int p .PKG_PKGSIZE)) else none),
    (str "desc", some (.string (ucl_string_trim (urlencode desc).2))),
    (str "deps", emit_map p.deps (fun dep =>
      (dep.name, .object [(str "origin", .string dep.origin, []),
                          (str "version", .string dep.version, [])]))),
    (str "categories", pkg_field p .PKG_CATEGORIES),
    (str "users", emit_seq p.users (fun u => .string u.1)),
    (str "groups", emit_seq p.groups (fun g => .string g.1)),
    (str "shlibs_required", emit_seq p.shlibs_required (fun n => .string n)),
    (str "shlibs_provided", emit_seq p.shlibs_provided (fun n => .string n)),
    (str "options", emit_map p.options (fun o => (o.1, .string o.2))),
    (str "message",
      match pkg_get_string p .PKG_MESSAGE with
      | some m => if m ≠ [] then some (.string (ucl_string_trim (urlencode m).2)) else none
      | none => none) ]

/-- Parsing the values that exist, key by key. -/
def parse_pairs (E : manifest_env) (keys : List pkg_manifest_key) (p0 : pkg)
    (kvs : List (Bytes × Option ucl_object_t)) : pkg :=
  kvs.foldl (fun p kv =>
    match kv.2 with
    | some v => parse_manifest_step E keys p { key := some kv.1, obj := v, next := [] }
    | none => p) p0

/-! ## A concrete manifest scenario -/

/-- The package of the seed scenario, with a description that starts with a
space. -/
def demo_manifest_pkg : pkg :=
  (pkg_set (pkg_set (pkg_set (pkg_set (pkg_set (pkg_set pkg_new
    .PKG_NAME (.string (str "foo"))).2
    .PKG_ORIGIN (.string (str "misc/foo"))).2
    .PKG_VERSION (.string (str "1.0"))).2
    .PKG_ARCH (.string (str "x86:64"))).2
    .PKG_PREFIX (.string (str "/usr/local"))).2
    .PKG_DESC (.string (str " A demo\npackage"))).2

/-- An emitter whose text is not looked at. -/
def demo_emit_env : emit_env :=
  { ucl_object_emit := fun _ _ => [], option_value := none }

/-- A parser that reads back the object `demo_manifest_pkg` was emitted as. -/
def demo_manifest_env : manifest_env :=
  { ucl_parse := fun _ =>
      (emit_manifest_top none demo_manifest_pkg PKG_MANIFEST_EMIT_COMPACT).map some
    yaml_to_ucl := fun _ => none
    setmode := fun _ => none }

/-! ## URL codec: the encoding in the words of the specification -/

/-- The lowercase hexadecimal digit of a value below sixteen. -/
def hex_lower (n : Nat) : Nat := (str "0123456789abcdef").getD n 0

/-- The encoding of one byte in the words of the specification: the byte
itself when it is an ASCII byte (value below 0x80) other than `%`, and
otherwise `%` followed by the two lowercase hexadecimal digits of its value. -/
def urlencode_spec_byte (b : Nat) : Bytes :=
  if b < 128 ∧ b ≠ 37 then [b] else [37, hex_lower (b / 16), hex_lower (b % 16)]

/-- The encoding of a string in the words of the specification: the
concatenation of the encodings of its bytes, in order. -/
def urlencode_spec (s : Bytes) : Bytes := (s.map urlencode_spec_byte).flatten

/-- A hexadecimal digit (`0`-`9`, `a`-`f`, `A`-`F`). -/
def is_xdigit (c : Nat) : Bool :=
  match digitval c with
  | some v => decide (v < 16)
  | none => false

/-! ## Emitting with a digest (`pkg_manifest.c`) -/

/-- The size of a SHA-256 digest in bytes. -/
def SHA256_DIGEST_LENGTH : Nat := 32

/-- Source `pkg_emit_manifest_digest`: `len` bytes of `digest`, each written
with `sprintf("%02x")`. -/
def pkg_emit_manifest_digest (digest : List Nat) (len : Nat) : Bytes :=
  ((digest.take len).map printf_02x).flatten

/-- What a call of `pkg_emit_manifest_generic` leaves behind. -/
structure emit_generic_result where
  /-- The return code. -/
  rc : Int
  /-- The finished text of the buffer `output`: the caller's buffer when
  `out_is_a_sbuf`, a buffer of its own otherwise. -/
  output : Bytes
  /-- The bytes `fprintf` wrote to the caller's file, when `out` is a file. -/
  written : Option Bytes
  /-- The bytes handed to `SHA256_Update`, when a digest was asked for. -/
  signed : Option Bytes
  /-- The string `*pdigest`, when a digest was asked for. -/
  pdigest : Option Bytes
deriving DecidableEq, Repr

/-- Source `pkg_emit_manifest_generic`.  `SHA256` is the digest the calls
`SHA256_Init`, `SHA256_Update` and `SHA256_Final` compute of the bytes handed
to `SHA256_Update`; `want_digest` is the test `pdigest != NULL`.  The result
is `none` when `emit_manifest` does not return. -/
def pkg_emit_manifest_generic (E : emit_env) (SHA256 : Bytes → List Nat) (p : pkg)
    (flags : Nat) (want_digest : Bool) (out_is_a_sbuf : Bool) : Option emit_generic_result :=
  let sign_ctx : Option Bytes := if want_digest then some [] else none
  match emit_manifest E p flags with
  | none => none
  | some (rc, output) =>
    let sign_ctx := sign_ctx.map (fun ctx => ctx ++ output)
    some { rc := rc
           output := output
           written := if out_is_a_sbuf then none else some (c_str output ++ str "\n")
           signed := sign_ctx
           pdigest := sign_ctx.map (fun m =>
             pkg_emit_manifest_digest (SHA256 m) SHA256_DIGEST_LENGTH) }

/-- Source `pkg_emit_manifest_file`. -/
def pkg_emit_manifest_file (E : emit_env) (SHA256 : Bytes → List Nat) (p : pkg) (flags : Nat)
    (want_digest : Bool) : Option emit_generic_result :=
  pkg_emit_manifest_generic E SHA256 p flags want_digest false

/-- Source `pkg_emit_manifest_sbuf`. -/
def pkg_emit_manifest_sbuf (E : emit_env) (SHA256 : Bytes → List Nat) (p : pkg) (flags : Nat)
    (want_digest : Bool) : Option emit_generic_result :=
  pkg_emit_manifest_generic E SHA256 p flags want_digest true

/-- Source `pkg_emit_manifest`: the return code, the string `*dest` when it
was set, and what the call of `pkg_emit_manifest_sbuf` left behind. -/
def pkg_emit_manifest (E : emit_env) (SHA256 : Bytes → List Nat) (p : pkg) (flags : Nat)
    (want_digest : Bool) : Option (Int × Option Bytes × emit_generic_result) :=
  match pkg_emit_manifest_sbuf E SHA256 p flags want_digest with
  | none => none
  | some r =>
    if r.rc ≠ EPKG_OK then some (r.rc, none, r)
    else some (r.rc, some (c_str r.output), r)

/-- A string of lowercase hexadecimal digits. -/
def IsLowerHex (s : Bytes) : Prop := ∀ c ∈ s, c ∈ str "0123456789abcdef"

/-- An emitter that writes the same short text for every object. -/
def demo_text_env : emit_env :=
  { ucl_object_emit := fun _ _ => str "name: foo", option_value := none }

/-- A stand-in for the digest function: 32 bytes that tell the length of the
message. -/
def demo_digest (m : Bytes) : List Nat := List.replicate 32 (m.length % 256)

/-- A parser that reads every buffer as the manifest whose only key is
`licenselogic`, with the string `s` as its value. -/
def demo_license_env (s : Bytes) : manifest_env :=
  { ucl_parse := fun _ => some (some (.object [(str "licenselogic", .string s, [])]))
    yaml_to_ucl := fun _ => none
    setmode := fun _ => none }

/-! ## Installer: the steps after the preconditions -/

/-- The calls `do_extract` makes. -/
def add_event.is_extract_step : add_event → Bool
  | .archive_read_extract _ => true
  | .lstat _ => true
  | .archive_read_next_header => true
  | .emit_error _ => true
  | _ => false

/-- The calls that complete an installation: the post-install and
post-upgrade scripts and the events that report the end of an installation or
an upgrade. -/
def add_event.is_completion : add_event → Bool
  | .pkg_script_run _ .PKG_SCRIPT_POST_INSTALL => true
  | .pkg_script_run _ .PKG_SCRIPT_POST_UPGRADE => true
  | .emit_install_finished _ => true
  | .emit_upgrade_finished _ => true
  | _ => false

/-- The trace of `pkg_add2` when it reaches the extraction (source line
226), after a registration that succeeded and is in flight, from the trace
`tr` at the registration. -/
def trace_at_extract (tr : add_trace) (origin : Bytes) (upgrade : Int) : add_trace :=
  if upgrade = 0 then
    tr ++ [.pkgdb_register_pkg origin] ++ [.pkgdb_has_flag] ++
      [.emit_install_begin origin, .pkg_script_run origin .PKG_SCRIPT_PRE_INSTALL]
  else tr ++ [.pkgdb_register_pkg origin] ++ [.pkgdb_has_flag]

/-- The host of `demo_env` with an archive reader that fails to extract. -/
def demo_env_noextract : add_env :=
  { demo_env with archive_read_extract := fun _ _ => false }

/-- The host of `demo_env` with a catalog that holds every origin. -/
def demo_env_installed : add_env :=
  { demo_env with pkgdb_query := fun _ _ => some EPKG_OK }

/-! ## Incremental catalog update: the whole run (`pkg_repo_update.c`) -/

/-- The lines `getline` hands to a loop `while ((linelen = getline(...)) > 0)`
over a file given by its lines: the loop ends where `getline` returns no
byte. -/
def getlines (f : List Bytes) : List Bytes := f.takeWhile (fun l => !l.isEmpty)

/-- The detection of a legacy repository (source lines 288-301) on the first
line of the digests file: `.error` carries the value of `rc` at
`goto cleanup`. -/
def repo_detect_legacy (E : repo_env) (fdigests : List Bytes) : Except Int Bool :=
  match getlines fdigests with
  | [] => .ok false
  | linebuf :: _ =>
    let s1 := strsep (some linebuf) 58
    let s2 := strsep s1.2 58
    match s2.1 with
    | none => .error EPKG_FATAL
    | some digest => .ok (!E.pkg_checksum_is_valid digest)

/-- The report the digests loop makes for a line it rejects (source lines
330-351): `none` for a line it accepts. -/
def digest_line_failure (linebuf : Bytes) : Option repo_event :=
  let s1 := strsep (some linebuf) 58
  let s2 := strsep s1.2 58
  let s3 := strsep s2.2 58
  match digest_line_parse linebuf with
  | .ok _ => none
  | .error _ =>
    if s1.1.isNone ∨ s2.1.isNone ∨ s3.1.isNone then
      some (.emit_error (str "invalid digest file format"))
    else some (.emit_errno (str "strtoul"))

/-- The digest `pkg_get` hands out for a local row: the old digest for a
legacy repository. -/
def repo_row.local_digest (legacy_repo : Bool) (row : repo_row) : Option Bytes :=
  if legacy_repo then row.old_digest else row.digest

/-- Leaving `pkg_repo_update_incremental` through the label `cleanup` before
the savepoint is begun: the return code, `*mtime` and the trace. -/
def repo_cleanup_early (E : repo_env) (rc mtime : Int) (tr : repo_trace) :
    Int × Int × repo_trace :=
  ((repo_cleanup E false rc tr).1, mtime, (repo_cleanup E false rc tr).2)

/-- What the first part of `pkg_repo_update_incremental` hands on: the rows
of the local catalog, the lines of the two remote files, `*mtime` and the
trace. -/
structure repo_fetched where
  rows : List repo_row
  fdigests : List Bytes
  fmanifest : List Bytes
  mtime : Int
  tr : repo_trace

/-- The first part of `pkg_repo_update_incremental` (source lines 253-286):
opening and preparing the catalog and fetching the two remote files.
`.error` is the result of a run that ends here. -/
def repo_update_open (E : repo_env) (mtime : Int) (tr : repo_trace) :
    Except (Int × Int × repo_trace) repo_fetched :=
  let new_repo := !E.access tr
  let tr := tr ++ [.access]
  let o := E.pkgdb_repo_open tr
  let tr := tr ++ [.pkgdb_repo_open o.1 o.2]
  if o.1 ≠ EPKG_OK then .error (EPKG_FATAL, mtime, tr)
  else
    let local_t := if o.2 then mtime else 0
    let mtime := if o.2 then mtime else 0
    let rc := E.pkgdb_repo_init tr
    let tr := tr ++ [.pkgdb_repo_init rc]
    if rc ≠ EPKG_OK then .error (repo_cleanup_early E rc mtime tr)
    else
      let reg := pkg_repo_register E tr
      if reg.1 ≠ EPKG_OK then .error (repo_cleanup_early E reg.1 mtime reg.2)
      else
        match E.pkgdb_repo_origins reg.2 with
        | none =>
          .error (repo_cleanup_early E EPKG_FATAL mtime (reg.2 ++ [.pkgdb_repo_origins false]))
        | some rows =>
          let tr := reg.2 ++ [.pkgdb_repo_origins true]
          let meta_rc := E.pkg_repo_fetch_meta tr
          let tr :=
            if meta_rc = EPKG_FATAL then
              tr ++ [.pkg_repo_fetch_meta meta_rc, .emit_notice
                (str "repository %s has no meta file, using default settings")]
            else tr ++ [.pkg_repo_fetch_meta meta_rc]
          let fd := E.fetch tr .digests local_t
          let tr := tr ++ [.pkg_repo_fetch_remote_extract_tmp .digests fd.1.isSome fd.2.1 fd.2.2]
          match fd.1 with
          | none =>
            .error (repo_cleanup_early E fd.2.2 mtime
              (if fd.2.2 = EPKG_FATAL ∧ new_repo then tr ++ [.unlink] else tr))
          | some fdigests =>
            let digest_t := fd.2.1
            let fm := E.fetch tr .manifests mtime
            let tr := tr ++
              [.pkg_repo_fetch_remote_extract_tmp .manifests fm.1.isSome fm.2.1 fm.2.2]
            match fm.1 with
            | none =>
              .error (repo_cleanup_early E fm.2.2 mtime
                (if fm.2.2 = EPKG_FATAL ∧ new_repo then tr ++ [.unlink] else tr))
            | some fmanifest =>
              .ok { rows := rows, fdigests := fdigests, fmanifest := fmanifest,
                    mtime := digest_t, tr := tr }

/-- The second part of `pkg_repo_update_incremental` (source lines 288-379):
the detection of a legacy repository, the load of the local rows and the
digests loop.  `.error` is the result of a run that ends here. -/
def repo_update_diff (E : repo_env) (f : repo_fetched) :
    Except (Int × Int × repo_trace) (Bool × increment_state) :=
  match repo_detect_legacy E f.fdigests with
  | .error rc =>
    .error (repo_cleanup_early E rc f.mtime
      (f.tr ++ [.emit_error (str "invalid digest file format")]))
  | .ok legacy_repo =>
    let st0 := increment_init
      (f.rows.map (fun row => (row.origin, row.local_digest legacy_repo)))
    match load_digests st0 (getlines f.fdigests) with
    | .error rc =>
      .error (repo_cleanup_early E rc f.mtime
        (f.tr ++ ((getlines f.fdigests).findSome? digest_line_failure).toList))
    | .ok st => .ok (legacy_repo, st)

/-- Source `pkg_repo_update_incremental`, run after the calls recorded in
`tr`: the return code, the value of `*mtime` after the call, and the trace. -/
def pkg_repo_update_incremental (E : repo_env) (mtime : Int) (tr : repo_trace) :
    Int × Int × repo_trace :=
  match repo_update_open E mtime tr with
  | .error r => r
  | .ok f =>
    match repo_update_diff E f with
    | .error r => r
    | .ok (legacy_repo, st) =>
      let r := repo_apply_cleanup E st f.fmanifest.flatten legacy_repo f.tr
      (r.1, f.mtime, r.2)

/-- The call that removes a package from the catalog. -/
def repo_event.is_remove : repo_event → Bool
  | .pkgdb_repo_remove_package _ _ => true
  | _ => false

/-- The call that adds a package to the catalog. -/
def repo_event.is_add : repo_event → Bool
  | .pkgdb_repo_add_package _ _ _ _ _ => true
  | _ => false

/-- The call that begins the savepoint `REPO`. -/
def repo_event.is_begin : repo_event → Bool
  | .pkgdb_transaction_begin _ => true
  | _ => false

/-- The calls made before the savepoint is begun, and those of a cleanup
outside the savepoint. -/
def repo_event.is_setup : repo_event → Bool
  | .access => true
  | .pkgdb_repo_open _ _ => true
  | .pkgdb_repo_init _ => true
  | .sql_exec _ _ => true
  | .sqlite3_prepare_v2 _ _ => true
  | .sqlite3_bind_text => true
  | .sqlite3_step _ => true
  | .sqlite3_finalize => true
  | .pkgdb_repo_origins _ => true
  | .pkg_repo_fetch_meta _ => true
  | .pkg_repo_fetch_remote_extract_tmp _ _ _ _ => true
  | .unlink => true
  | .emit_notice _ => true
  | .emit_error _ => true
  | .emit_errno _ => true
  | .pkgdb_repo_finalize_statements => true
  | .sqlite3_close => true
  | _ => false

/-- The calls of the loop that removes the expired entries. -/
def repo_event.is_remove_step : repo_event → Bool
  | .emit_progress_start _ => true
  | .emit_progress_tick _ _ => true
  | .pkgdb_repo_remove_package _ _ => true
  | _ => false

/-- The calls of the loop that adds the new entries. -/
def repo_event.is_add_step : repo_event → Bool
  | .emit_progress_tick _ _ => true
  | .emit_error _ => true
  | .pkg_checksum_calculate => true
  | .pkgdb_repo_add_package _ _ _ _ _ => true
  | .pkg_repo_add_from_manifest _ _ => true
  | _ => false

/-- The calls of the cleanup block. -/
def repo_event.is_cleanup_step : repo_event → Bool
  | .pkgdb_transaction_rollback => true
  | .pkgdb_transaction_commit _ => true
  | .pkgdb_repo_finalize_statements => true
  | .sql_exec _ _ => true
  | .sqlite3_close => true
  | _ => false

/-- The calls between the removals and the cleanup block when the tables are
those of `st`: mapping the manifests file, the loop that adds the new
entries, and the report of the counters of `st`. -/
def repo_event.is_add_phase (st : increment_state) : repo_event → Bool
  | .mmap => true
  | .emit_progress_start _ => true
  | .emit_incremental_update u r a p =>
    decide (u = st.updated ∧ r = st.ldel.length ∧ a = st.added ∧ p = st.processed)
  | e => e.is_add_step

/-- A trace `t` continues a trace `tr` by calls all of which satisfy `ok`. -/
def RepoExtends (ok : repo_event → Bool) (tr t : repo_trace) : Prop :=
  ∃ b, t = tr ++ b ∧ ∀ e ∈ b, ok e = true

/-- The manifest of the package `c` of the update scenario. -/
def demo_update_manifest : ucl_object_t :=
  .object [(str "name", .string (str "c"), []), (str "origin", .string (str "c"), []),
           (str "version", .string (str "1.0"), []), (str "arch", .string (str "x86:64"), [])]

/-- The update scenario: the catalog holds `a` with digest `d1` and `b` with
digest `d2`; the remote digests file names `a` with `d1` and `c` with `d3`;
every call to the catalog store succeeds. -/
def demo_update_env : repo_env :=
  { demo_repo_env with
    manifest := { ucl_parse := fun _ => some (some demo_update_manifest),
                  yaml_to_ucl := fun _ => none, setmode := fun _ => none }
    pkgdb_repo_origins := fun _ => some
      [{ origin := str "a", digest := some (str "d1"), old_digest := none },
       { origin := str "b", digest := some (str "d2"), old_digest := none }]
    fetch := fun _ file t =>
      match file with
      | .digests => (some [str "a:d1:0:0:50\n", str "c:d3:50:0:50\n"], t + 1, EPKG_OK)
      | .manifests => (some [str "manifest of a\n", str "manifest of c\n"], t + 2, EPKG_OK)
    pkgdb_repo_remove_package := fun _ _ => EPKG_OK }

/-! ## Manifest parser: the checksums of the files -/

/-- Every checksum stored with a file of the package has the property `Q`; a
file whose checksum is `NULL` has none. -/
def FilesSum (Q : Bytes → Prop) (p : pkg) : Prop :=
  ∀ f ∈ p.files, ∀ s, f.sum = some s → Q s

/-- No string of the document holds a NUL byte. -/
inductive NulFree : ucl_object_t → Prop
  | object (ms : List (Bytes × ucl_object_t × List ucl_object_t)) :
      (∀ m ∈ ms, NulFree m.2.1) → (∀ m ∈ ms, ∀ o ∈ m.2.2, NulFree o) → NulFree (.object ms)
  | array (es : List ucl_object_t) : (∀ e ∈ es, NulFree e) → NulFree (.array es)
  | int (v : Int) : NulFree (.int v)
  | float (v : Int) : NulFree (.float v)
  | string (s : Bytes) : 0 ∉ s → NulFree (.string s)
  | boolean (b : Bool) : NulFree (.boolean b)
  | time (v : Int) : NulFree (.time v)
  | userdata : NulFree .userdata
  | null : NulFree .null

/-- The object of a node and the objects chained after it have the property
`N`. -/
def NodeAll (N : ucl_object_t → Prop) (n : ucl_node) : Prop :=
  N n.obj ∧ ∀ o ∈ n.next, N o

/-- A parser that reads a manifest whose only file has 64 letters `Z` as its
checksum. -/
def demo_files_env : manifest_env :=
  { ucl_parse := fun _ => some (some (.object
      [(str "files", .object [(str "/bin/x", .string (List.replicate 64 90), [])], [])]))
    yaml_to_ucl := fun _ => none
    setmode := fun _ => none }

/-- A parser that reads a manifest whose only file has, as its checksum, a
string of 64 bytes: 63 letters `a` and a NUL byte. -/
def demo_files_nul_env : manifest_env :=
  { ucl_parse := fun _ => some (some (.object
      [(str "files", .object [(str "/bin/x", .string (List.replicate 63 97 ++ [0]), [])], [])]))
    yaml_to_ucl := fun _ => none
    setmode := fun _ => none }

/-! ## Emitting files, directories and scripts -/

/-- A package with a description, one file and a post-install script. -/
def demo_script_pkg : pkg :=
  pkg_addscript (pkg_addfile (pkg_set pkg_new .PKG_DESC (.string (str "d"))).2
    (str "/bin/x") none) (str "true") .PKG_SCRIPT_POST_INSTALL

/-! ## Emitting conflicts and provides -/

/-- A package with a description, the conflict `bar-1.0` and the provide
`baz`. -/
def demo_conflict_pkg : pkg :=
  pkg_addprovide (pkg_addconflict (pkg_set pkg_new .PKG_DESC (.string (str "d"))).2
    (str "bar-1.0")) (str "baz")

/-! ## Incremental catalog update: the marker table -/

/-- The statement that drops the marker table. -/
def repo_event.is_marker_drop : repo_event → Bool
  | .sql_exec sql _ => sql == str "DROP TABLE repo_update;"
  | _ => false

/-- A call other than the statement that drops the marker table. -/
def repo_event.not_marker_drop (e : repo_event) : Bool := !e.is_marker_drop

/-- The marker table after the calls of a trace, `before` telling whether it
was there at the start: the statement that creates it and the statement that
drops it take effect when they succeed; both are made outside the savepoint,
so that a rollback leaves the table as it is. -/
def marker_table (before : Bool) (tr : repo_trace) : Bool :=
  tr.foldl (fun b e =>
    match e with
    | .sql_exec sql rc =>
      if rc = EPKG_OK then
        if sql = str "CREATE TABLE IF NOT EXISTS repo_update (x INTEGER);" then true
        else if sql = str "DROP TABLE repo_update;" then false
        else b
      else b
    | _ => b) before

/-- A run that started after the calls of `tr` and ended with the code and
trace `r`: it appended calls to `tr` of which only the last but one can be the
statement that drops the marker table, and it is exactly when the code is
`EPKG_OK`. -/
def MarkerRun (E : repo_env) (tr : repo_trace) (r : Int × repo_trace) : Prop :=
  ∃ mid, RepoExtends repo_event.not_marker_drop tr mid ∧
    r.2 = mid ++ (if r.1 = EPKG_OK then
      [.sql_exec (str "DROP TABLE repo_update;") (E.sql_exec mid (str "DROP TABLE repo_update;")),
       .sqlite3_close]
    else [])

/-! ## Incremental catalog update: a legacy repository -/

/-- The update scenario for a legacy repository: `pkg_checksum_calculate`
stores a digest of its own and leaves the other attributes as they are. -/
def demo_legacy_env : repo_env :=
  { demo_update_env with
    pkg_checksum_calculate := fun p => (pkg_set p .PKG_DIGEST (.string (str "new"))).2 }

/-! ## Incremental catalog update: a short digest line -/

/-- The update scenario with a digests file whose second line has two
fields. -/
def demo_short_env : repo_env :=
  { demo_update_env with
    fetch := fun _ file t =>
      match file with
      | .digests => (some [str "a:d1:0:0:50\n", str "c:d3\n"], t + 1, EPKG_OK)
      | .manifests => (some [str "manifest of a\n", str "manifest of c\n"], t + 2, EPKG_OK) }

/-! ## Manifest schema registry: the lookup -/

/-- The two-level lookup `parse_manifest` makes for a key and the kind of its
value (`HASH_FIND_STR`, then `HASH_FIND_UCLT`): the attribute of the key and
the parser of the kind. -/
def manifest_lookup (keys : List pkg_manifest_key) (k : Bytes) (t : ucl_type) :
    Option (pkg_attr × parse_data_fn) :=
  match manifest_find_key keys k with
  | none => none
  | some sk =>
    match HASH_FIND_UCLT sk.parser t with
    | none => none
    | some dp => some (sk.type, dp.parse_data)

/-- The first entry of the static table with a key and a kind: its attribute
and its parser. -/
def manifest_keys_first (k : Bytes) (t : ucl_type) : Option (pkg_attr × parse_data_fn) :=
  (manifest_keys.find? (fun m => m.key == k && m.valid_type == t)).map
    (fun m => (m.type, m.parse_data))

/-! ## Installer: finalising the registration -/

/-- The call that finalises the registration. -/
def add_event.is_finale : add_event → Bool
  | .pkgdb_register_finale _ => true
  | _ => false

/-! ## Installer: a registration that is not in flight -/

/-- The calls that extract an entry, run a script, or report the begin or the
end of an installation. -/
def add_event.is_install_step : add_event → Bool
  | .archive_read_extract _ => true
  | .pkg_script_run _ _ => true
  | .emit_install_begin _ => true
  | .emit_install_finished _ => true
  | .emit_upgrade_finished _ => true
  | _ => false

/-- The host of `demo_env` with a catalog whose registration succeeds and
leaves the in-flight flag clear. -/
def demo_env_noflight : add_env :=
  { demo_env with pkgdb_has_flag := fun _ => 0 }

/-! ## Manifest parser: arrays of strings -/

/-- The strings of the string members of an array, in array order. -/
def ucl_string_members (es : List ucl_object_t) : List Bytes :=
  es.filterMap ucl_object_tostring

/-- The members of the array `pkg->fields` holds for an array-valued
attribute (categories, licenses); none when the attribute is not set. -/
def pkg_array_field (p : pkg) (attr : pkg_attr) : List ucl_object_t :=
  match pkg_field p attr with
  | some (.array es) => es
  | _ => []

/-! ## Manifest parser: dependencies -/

/-- A dependency value with two objects under the name `dep`: the first has
an origin and a version, the second a version only. -/
def demo_deps_node : ucl_node :=
  ⟨some (str "dep"),
    .object [(str "origin", .string (str "misc/a"), []), (str "version", .string (str "1"), [])],
    [.object [(str "version", .int 2, [])]]⟩

/-! ## Emitting conflicts and provides: reading them back -/

/-- A parser that reads back the object `demo_conflict_pkg` is emitted as when
`pkg_option_value` returns the string `on` for the `NULL` option. -/
def demo_conflict_env : manifest_env :=
  { ucl_parse := fun _ => (emit_manifest_top (some (str "on")) demo_conflict_pkg 0).map some
    yaml_to_ucl := fun _ => none
    setmode := fun _ => none }

/-! ## Installer: the name of a dependency archive -/

/-- The final component of a path: the bytes after its last slash. -/
def basename (path : Bytes) : Bytes := (path.reverse.takeWhile (fun c => c != 47)).reverse

/-! ## Incremental catalog update: the slice of an add entry -/

/-- The update scenario with a digests file whose second line has the offset
500, past the end of the manifests file of 28 bytes. -/
def demo_range_env : repo_env :=
  { demo_update_env with
    fetch := fun _ file t =>
      match file with
      | .digests => (some [str "a:d1:0:0:50\n", str "c:d3:500:0:50\n"], t + 1, EPKG_OK)
      | .manifests => (some [str "manifest of a\n", str "manifest of c\n"], t + 2, EPKG_OK) }

/-! ## Incremental catalog update: an empty manifests file -/

/-- The update scenario with an empty manifests file. -/
def demo_empty_env : repo_env :=
  { demo_update_env with
    fetch := fun _ file t =>
      match file with
      | .digests => (some [str "a:d1:0:0:50\n", str "c:d3:50:0:50\n"], t + 1, EPKG_OK)
      | .manifests => (some [], t + 2, EPKG_OK) }

/-- The scenario of `demo_empty_env` with a catalog store that fails to
release the savepoint. -/
def demo_empty_nocommit_env : repo_env :=
  { demo_empty_env with pkgdb_transaction_commit := fun _ => EPKG_FATAL }

/-- The calls that begin the savepoint, remove a package, add one, or hand a
slice to `pkg_repo_add_from_manifest`. -/
def repo_event.is_body_op : repo_event → Bool
  | .pkgdb_transaction_begin _ => true
  | .pkgdb_repo_remove_package _ _ => true
  | .pkgdb_repo_add_package _ _ _ _ _ => true
  | .pkg_repo_add_from_manifest _ _ => true
  | _ => false

/-- The calls that add a package: the call of `pkg_repo_add_from_manifest` and
the call of `pkgdb_repo_add_package` in it. -/
def repo_event.is_add_call : repo_event → Bool
  | .pkgdb_repo_add_package _ _ _ _ _ => true
  | .pkg_repo_add_from_manifest _ _ => true
  | _ => false

/-! ## Incremental catalog update: a marker table that cannot be dropped -/

/-- The update scenario with a catalog store that fails the statement
`DROP TABLE repo_update;` and makes every other statement succeed. -/
def demo_update_nodrop_env : repo_env :=
  { demo_update_env with
    sql_exec := fun tr sql =>
      if sql = str "DROP TABLE repo_update;" then EPKG_FATAL else demo_update_env.sql_exec tr sql }

/-! ## Incremental catalog update: a digests file that repeats an origin -/

/-- The manifest of the package `a`. -/
def demo_repeat_manifest : ucl_object_t :=
  .object [(str "name", .string (str "a"), []), (str "origin", .string (str "a"), []),
           (str "version", .string (str "1.0"), []), (str "arch", .string (str "x86:64"), [])]

/-- The update scenario with a remote digests file that names the origin `a`
twice, both times with the digest `d1` the catalog has for it. -/
def demo_repeat_env : repo_env :=
  { demo_update_env with
    manifest := { ucl_parse := fun _ => some (some demo_repeat_manifest),
                  yaml_to_ucl := fun _ => none, setmode := fun _ => none }
    fetch := fun _ file t =>
      match file with
      | .digests => (some [str "a:d1:0:0:50\n", str "a:d1:0:0:50\n"], t + 1, EPKG_OK)
      | .manifests => (some [str "manifest of a\n"], t + 2, EPKG_OK) }

/-! ## Installer: the extraction of the payload -/

/-- The calls `do_extract` makes for the payload entry `e` when they succeed:
it extracts the entry; for an entry whose name ends in `.pkgconf` it looks
for the file without the suffix and, when that is not there, extracts the
entry a second time under that name; and it reads the next header. -/
def extract_chunk (e : Bytes) (c : add_trace) : Prop :=
  ∃ conf, c = .archive_read_extract e :: conf ++ [.archive_read_next_header] ∧
    ((is_conf_file e = none ∧ conf = []) ∨
     ∃ p, is_conf_file e = some p ∧
       (conf = [.lstat p] ∨ conf = [.lstat p, .archive_read_extract p]))

/-- The calls of `ex` extract the entries of the payload, one after the
other, each once. -/
def ExtractsPayload (entries : List Bytes) (ex : add_trace) : Prop :=
  ∃ chunks : List add_trace, ex = chunks.flatten ∧ List.Forall₂ extract_chunk entries chunks

/-! ## Incremental catalog update: the state of the savepoint -/

/-- The calls that change the rows of the catalog: removing a package and
adding one. -/
def repo_event.is_change : repo_event → Bool
  | .pkgdb_repo_remove_package _ _ => true
  | .pkgdb_repo_add_package _ _ _ _ _ => true
  | _ => false

/-- The three calls on a savepoint: begin, roll back and commit. -/
def repo_event.is_savepoint_call : repo_event → Bool
  | .pkgdb_transaction_begin _ => true
  | .pkgdb_transaction_rollback => true
  | .pkgdb_transaction_commit _ => true
  | _ => false

/-- Modelled from the spec: the catalog store has named savepoints with the
calls begin, commit and rollback.  The state of the savepoint `REPO` is the
changes made since it began that are neither rolled back nor released
(`pending`) and the changes released into the catalog (`committed`). -/
structure savepoint where
  pending : repo_trace
  committed : repo_trace
deriving DecidableEq, Repr

/-- Modelled from the spec: the effect of one call on the savepoint.  A begin
that succeeds starts with no pending change; a remove or an add is pending;
a rollback undoes the pending changes and leaves the savepoint open (the code
does not look at what the call returns); a commit that succeeds releases the
pending changes into the catalog. -/
def savepoint_step (s : savepoint) (e : repo_event) : savepoint :=
  match e with
  | .pkgdb_transaction_begin rc => if rc = EPKG_OK then { s with pending := [] } else s
  | .pkgdb_transaction_rollback => { s with pending := [] }
  | .pkgdb_transaction_commit rc =>
    if rc = EPKG_OK then { pending := [], committed := s.committed ++ s.pending } else s
  | e => if e.is_change then { s with pending := s.pending ++ [e] } else s

/-- The savepoint after the calls of a trace. -/
def savepoint_run (s : savepoint) (tr : repo_trace) : savepoint := tr.foldl savepoint_step s

/-! ## Incremental catalog update: an empty manifests file and a marker table that cannot be dropped -/

/-- The scenario of the empty manifests file with a catalog store that fails
the statement `DROP TABLE repo_update;` and makes every other statement
succeed. -/
def demo_empty_nodrop_env : repo_env :=
  { demo_empty_env with
    sql_exec := fun tr sql =>
      if sql = str "DROP TABLE repo_update;" then EPKG_FATAL else demo_empty_env.sql_exec tr sql }

/-! ## Installer: a run that opens no dependency archive -/

/-- The call that opens an archive. -/
def add_event.is_open : add_event → Bool
  | .pkg_open2 _ => true
  | _ => false

/-- The trace the precondition steps leave, whether they fail or not. -/
def steps_trace : Except (Int × add_trace) add_trace → add_trace
  | .error r => r.2
  | .ok t => t

/-- The installation scenario with a sibling archive file for the dependency
`base`, which is in the catalog, and for no other. -/
def demo_env_sibling : add_env :=
  { demo_env with access := fun _ path => decide (path = str "/p/base-1.0.pkg") }

/-! ## Theorems -/

theorem urldecode_hex_printf (c : Nat) (h : c < 256) :
    urldecode_hex (printf_02x c) = [c] := by
  interval_cases c <;> rfl

theorem urlencode_ok (s : Bytes) : (urlencode s).1 = EPKG_OK := by
  induction s with
  | nil => rfl
  | cons c rest ih => simp only [urlencode]; split <;> exact ih

theorem urldecode_cons_ne (c : Nat) (rest : Bytes) (h : c ≠ 37) :
    urldecode (c :: rest) = ((urldecode rest).1, c :: (urldecode rest).2) := by
  rw [urldecode.eq_def]
  simp [h]

theorem urldecode_escape (h0 h1 : Nat) (rest : Bytes) :
    urldecode (37 :: h0 :: h1 :: rest) =
      ((urldecode rest).1, urldecode_hex [h0, h1] ++ (urldecode rest).2) := by
  rw [urldecode.eq_def]
  simp

/-- C1: decoding the encoding of a C string succeeds and gives the string
back. -/
theorem urldecode_urlencode (s : Bytes) (hs : IsCString s) :
    urldecode (urlencode s).2 = (EPKG_OK, s) := by
  induction s with
  | nil => rfl
  | cons c rest ih =>
    have hc : c < 256 := (hs c (List.mem_cons_self _ _)).2
    have ih2 := ih (fun b hb => hs b (List.mem_cons_of_mem _ hb))
    simp only [urlencode]
    split
    · have hx : urldecode_hex [hexdigit (c % 256 / 16), hexdigit (c % 256 % 16)] = [c] :=
        urldecode_hex_printf c hc
      simp only [printf_02x, List.cons_append, List.nil_append]
      rw [urldecode_escape, hx, ih2]
      rfl
    · rename_i hne
      have h37 : c ≠ 37 := by
        intro h
        simp [h] at hne
      rw [urldecode_cons_ne c _ h37, ih2]

theorem urldecode_urlencode_witness :
    IsCString [65, 37, 200, 10] ∧
      urldecode (urlencode [65, 37, 200, 10]).2 = (EPKG_OK, [65, 37, 200, 10]) :=
  ⟨by decide, urldecode_urlencode [65, 37, 200, 10] (by decide)⟩

theorem HASH_FIND_STR_none {T : TaskTable} {o : Bytes} :
    HASH_FIND_STR T o = none ↔ o ∉ T.map (fun i => i.origin) := by
  unfold HASH_FIND_STR
  rw [List.find?_eq_none]
  simp only [List.mem_map, not_exists, not_and, beq_iff_eq]

theorem HASH_FIND_STR_some {T : TaskTable} {o : Bytes} {it : pkg_increment_task_item}
    (h : HASH_FIND_STR T o = some it) : it ∈ T ∧ it.origin = o := by
  unfold HASH_FIND_STR at h
  exact ⟨List.mem_of_find?_eq_some h, by simpa using List.find?_some h⟩

theorem HASH_DEL_eq_filter {T : TaskTable} {o : Bytes} {it : pkg_increment_task_item}
    (hT : (T.map (fun i => i.origin)).Nodup) (h : HASH_FIND_STR T o = some it) :
    HASH_DEL T it = T.filter (fun i => i.origin != o) := by
  obtain ⟨hmem, ho⟩ := HASH_FIND_STR_some h
  have hnd : T.Nodup := List.Nodup.of_map _ hT
  unfold HASH_DEL
  rw [List.Nodup.erase_eq_filter hnd]
  apply List.filter_congr
  intro x hx
  have hinj := List.inj_on_of_nodup_map hT
  rw [Bool.eq_iff_iff, bne_iff_ne, bne_iff_ne]
  constructor
  · intro hne he
    exact hne (hinj hx hmem (he.trans ho.symm))
  · intro hne he
    exact hne (he ▸ ho)

theorem digest_line_apply_tables (st : increment_state) (r : digest_record)
    (hT : (st.ldel.map (fun i => i.origin)).Nodup) :
    (digest_line_apply st r).ldel = st.ldel.filter (fun i => i.origin != r.origin) ∧
    (digest_line_apply st r).ladd =
      st.ladd ++ ([r].filter (digest_record.differs st.ldel)).map digest_record.toItem := by
  unfold digest_line_apply digest_record.differs
  cases hf : HASH_FIND_STR st.ldel r.origin with
  | none =>
    have hno := HASH_FIND_STR_none.mp hf
    simp only [hf, pkg_repo_update_increment_item_new, Option.getD_some, List.filter_cons,
      List.filter_nil, if_true, List.map_cons, List.map_nil, digest_record.toItem, and_true]
    symm
    rw [List.filter_eq_self]
    intro a ha
    rw [bne_iff_ne]
    intro he
    exact hno (List.mem_map.mpr ⟨a, ha, he⟩)
  | some item =>
    have hd := HASH_DEL_eq_filter hT hf
    by_cases hdg : r.digest = item.digest
    · simp [hf, hdg, hd]
    · simp [hf, hdg, hd, pkg_repo_update_increment_item_new, digest_record.toItem]

theorem HASH_FIND_STR_filter_ne (T : TaskTable) (o o2 : Bytes) (h : o2 ≠ o) :
    HASH_FIND_STR (T.filter (fun i => i.origin != o)) o2 = HASH_FIND_STR T o2 := by
  unfold HASH_FIND_STR
  rw [List.find?_filter]
  congr 1
  funext a
  by_cases ha : a.origin = o2
  · simp [ha, h]
  · simp [ha]

theorem foldl_digest_line_apply_tables (R : List digest_record) :
    ∀ st : increment_state, (st.ldel.map (fun i => i.origin)).Nodup →
      (R.map (fun r => r.origin)).Nodup →
      (R.foldl digest_line_apply st).ldel =
          st.ldel.filter (fun i => decide (i.origin ∉ R.map (fun r => r.origin))) ∧
      (R.foldl digest_line_apply st).ladd =
          st.ladd ++ (R.filter (digest_record.differs st.ldel)).map digest_record.toItem := by
  induction R with
  | nil => intro st _ _; simp
  | cons r R ih =>
    intro st hT hR
    obtain ⟨h1, h2⟩ := digest_line_apply_tables st r hT
    have hR2 : (R.map (fun r => r.origin)).Nodup := (List.nodup_cons.mp hR).2
    have hrR : r.origin ∉ R.map (fun r => r.origin) := (List.nodup_cons.mp hR).1
    have hT1 : ((digest_line_apply st r).ldel.map (fun i => i.origin)).Nodup := by
      rw [h1]
      exact List.Nodup.sublist (List.Sublist.map _ (List.filter_sublist _)) hT
    obtain ⟨i1, i2⟩ := ih (digest_line_apply st r) hT1 hR2
    rw [List.foldl_cons, i1, i2, h1, h2]
    constructor
    · rw [List.filter_filter]
      apply List.filter_congr
      intro x _
      simp only [List.map_cons, List.mem_cons, not_or, Bool.decide_and, bne_iff_ne, ne_eq,
        decide_not]
      by_cases hx : x.origin = r.origin <;> simp [hx, Bool.and_comm]
    · rw [List.append_assoc]
      congr 1
      have hcong : R.filter (digest_record.differs (st.ldel.filter (fun i => i.origin != r.origin)))
          = R.filter (digest_record.differs st.ldel) := by
        apply List.filter_congr
        intro x hx
        have hne : x.origin ≠ r.origin := by
          intro he
          exact hrR (he ▸ List.mem_map.mpr ⟨x, hx, rfl⟩)
        unfold digest_record.differs
        rw [HASH_FIND_STR_filter_ne _ _ _ hne]
      rw [hcong]
      by_cases hd : digest_record.differs st.ldel r <;> simp [List.filter_cons, hd]

theorem load_digests_of_parsed (lines : List Bytes) (R : List digest_record)
    (hwf : List.Forall₂ (fun l r => digest_line_parse l = .ok r) lines R) :
    ∀ st, load_digests st lines = .ok (R.foldl digest_line_apply st) := by
  induction hwf with
  | nil => intro st; rfl
  | cons h _ ih => intro st; simp only [load_digests, h, List.foldl_cons]; exact ih _

theorem load_local_eq_map (L : List (Bytes × Option Bytes)) :
    load_local L = L.map (fun row =>
      { origin := row.1, digest := row.2.getD [], offset := 4, length := 0 }) := by
  unfold load_local
  have h : ∀ acc : TaskTable,
      L.foldl (fun ldel row => pkg_repo_update_increment_item_new ldel row.1 row.2 4 0) acc =
        acc ++ L.map (fun row =>
          { origin := row.1, digest := row.2.getD [], offset := 4, length := 0 }) := by
    induction L with
    | nil => intro acc; simp
    | cons a L ih =>
      intro acc
      rw [List.foldl_cons, ih]
      simp [pkg_repo_update_increment_item_new]
  simpa using h []

theorem load_local_origins (L : List (Bytes × Option Bytes)) :
    (load_local L).map (fun i => i.origin) = L.map Prod.fst := by
  rw [load_local_eq_map, List.map_map]; rfl

theorem HASH_FIND_STR_load_local (L : List (Bytes × Option Bytes)) (o : Bytes) :
    HASH_FIND_STR (load_local L) o =
      (L.lookup o).map (fun d => { origin := o, digest := d.getD [], offset := 4, length := 0 }) := by
  rw [load_local_eq_map]
  unfold HASH_FIND_STR
  induction L with
  | nil => rfl
  | cons a L ih =>
    obtain ⟨k, d⟩ := a
    by_cases hk : k = o
    · subst hk; simp [List.lookup, List.find?]
    · have hk2 : (o == k) = false := by simpa using fun h => hk h.symm
      have hk3 : (k == o) = false := by simpa using hk
      simp only [List.map_cons, List.find?_cons, hk3, List.lookup, hk2]
      exact ih

/-- C2: with distinct origins on both sides, the digests loop leaves in the
delete table exactly the local origins that no digest line names, and in the
add table exactly the digest lines whose origin is new or whose digest
differs from the local one; an origin present on both sides with the same
digest is in neither table. -/
theorem incremental_tables (L : List (Bytes × Option Bytes)) (lines : List Bytes)
    (R : List digest_record)
    (hL : (L.map Prod.fst).Nodup) (hR : (R.map (fun r => r.origin)).Nodup)
    (hwf : List.Forall₂ (fun l r => digest_line_parse l = .ok r) lines R) :
    ∃ st, load_digests (increment_init L) lines = .ok st ∧
      st.ldel.map (fun i => i.origin) =
        (L.map Prod.fst).filter (fun o => decide (o ∉ R.map (fun r => r.origin))) ∧
      st.ladd = (R.filter (fun r =>
          match L.lookup r.origin with
          | none => true
          | some d => decide (r.digest ≠ d.getD []))).map digest_record.toItem ∧
      ∀ r ∈ R, L.lookup r.origin = some (some r.digest) →
        r.origin ∉ st.ldel.map (fun i => i.origin) ∧
        r.origin ∉ st.ladd.map (fun i => i.origin) := by
  have hT : ((increment_init L).ldel.map (fun i => i.origin)).Nodup := by
    simp only [increment_init]; rw [load_local_origins]; exact hL
  obtain ⟨h1, h2⟩ := foldl_digest_line_apply_tables R (increment_init L) hT hR
  have hdel : (R.foldl digest_line_apply (increment_init L)).ldel.map (fun i => i.origin) =
      (L.map Prod.fst).filter (fun o => decide (o ∉ R.map (fun r => r.origin))) := by
    rw [h1]
    simp only [increment_init]
    rw [← load_local_origins, List.filter_map]
    rfl
  have hadd : (R.foldl digest_line_apply (increment_init L)).ladd = (R.filter (fun r =>
          match L.lookup r.origin with
          | none => true
          | some d => decide (r.digest ≠ d.getD []))).map digest_record.toItem := by
    rw [h2]
    simp only [increment_init, List.nil_append]
    congr 1
    apply List.filter_congr
    intro r _
    unfold digest_record.differs
    rw [HASH_FIND_STR_load_local]
    cases L.lookup r.origin <;> rfl
  refine ⟨_, load_digests_of_parsed lines R hwf _, hdel, hadd, ?_⟩
  intro r hr hlk
  constructor
  · rw [hdel]
    intro hmem
    have := (List.mem_filter.mp hmem).2
    simp only [decide_eq_true_eq] at this
    exact this (List.mem_map.mpr ⟨r, hr, rfl⟩)
  · rw [hadd]
    intro hmem
    obtain ⟨i, hi, hio⟩ := List.mem_map.mp hmem
    obtain ⟨r2, hr2, hr2i⟩ := List.mem_map.mp hi
    have horig : r2.origin = r.origin := by rw [← hio, ← hr2i]; rfl
    have hinj := List.inj_on_of_nodup_map hR
    have heq : r2 = r := hinj (List.mem_filter.mp hr2).1 hr horig
    have hp := (List.mem_filter.mp hr2).2
    rw [heq, hlk] at hp
    simp at hp

theorem incremental_tables_witness :
    ∃ st, load_digests (increment_init [(str "a", some (str "d1")), (str "b", some (str "d2"))])
        [str "a:d1:0:0:10\n", str "c:d3:100:0\n"] = .ok st ∧
      st.ldel.map (fun i => i.origin) =
        ([(str "a", some (str "d1")), (str "b", some (str "d2"))].map Prod.fst).filter
          (fun o => decide (o ∉ [digest_record.mk (str "a") (str "d1") 0 10,
            digest_record.mk (str "c") (str "d3") 100 0].map (fun r => r.origin))) ∧
      st.ladd = ([digest_record.mk (str "a") (str "d1") 0 10,
            digest_record.mk (str "c") (str "d3") 100 0].filter (fun r =>
          match [(str "a", some (str "d1")), (str "b", some (str "d2"))].lookup r.origin with
          | none => true
          | some d => decide (r.digest ≠ d.getD []))).map digest_record.toItem ∧
      ∀ r ∈ [digest_record.mk (str "a") (str "d1") 0 10,
            digest_record.mk (str "c") (str "d3") 100 0],
        [(str "a", some (str "d1")), (str "b", some (str "d2"))].lookup r.origin
            = some (some r.digest) →
        r.origin ∉ st.ldel.map (fun i => i.origin) ∧
        r.origin ∉ st.ladd.map (fun i => i.origin) :=
  incremental_tables [(str "a", some (str "d1")), (str "b", some (str "d2"))]
    [str "a:d1:0:0:10\n", str "c:d3:100:0\n"]
    [digest_record.mk (str "a") (str "d1") 0 10, digest_record.mk (str "c") (str "d3") 100 0]
    (by decide) (by decide)
    (List.Forall₂.cons rfl (List.Forall₂.cons rfl List.Forall₂.nil))

theorem KeysWithin_insert {top : ucl_object_t} {pre : List Bytes} (e : ucl_object_t)
    (k : Bytes) (h : KeysWithin top pre) :
    KeysWithin (ucl_object_insert_key top e k) (pre ++ [k]) := by
  obtain ⟨⟨ms, rfl⟩, hs⟩ := h
  simp only [ucl_object_insert_key]
  split
  · refine ⟨⟨_, rfl⟩, ?_⟩
    have : ucl_object_keys (.object (ms.map (fun m =>
        if m.1 == k then (m.1, m.2.1, m.2.2 ++ [e]) else m))) = ucl_object_keys (.object ms) := by
      simp only [ucl_object_keys, List.map_map]
      apply List.map_congr_left
      intro m _
      simp only [Function.comp]
      split <;> rfl
    rw [this]
    exact hs.trans (List.sublist_append_left _ _)
  · refine ⟨⟨_, rfl⟩, ?_⟩
    simp only [ucl_object_keys, List.map_append, List.map_cons, List.map_nil]
    exact List.Sublist.append hs (List.Sublist.refl _)

theorem KeysWithin_skip {top : ucl_object_t} {pre : List Bytes} (k : Bytes)
    (h : KeysWithin top pre) : KeysWithin top (pre ++ [k]) :=
  ⟨h.1, h.2.trans (List.sublist_append_left _ _)⟩

theorem KeysWithin_insert_opt {top : ucl_object_t} {pre : List Bytes} (e : Option ucl_object_t)
    (k : Bytes) (h : KeysWithin top pre) :
    KeysWithin (insert_opt top e k) (pre ++ [k]) := by
  cases e with
  | none => exact KeysWithin_skip k h
  | some e => exact KeysWithin_insert e k h

theorem manifest_key_order_snoc : manifest_key_order =
    [] ++ [str "name"] ++ [str "origin"] ++ [str "version"] ++ [str "arch"] ++
    [str "maintainer"] ++ [str "prefix"] ++ [str "www"] ++ [str "path"] ++ [str "sum"] ++
    [str "flatsize"] ++ [str "comment"] ++ [str "licenselogic"] ++ [str "licenses"] ++
    [str "pkgsize"] ++ [str "desc"] ++ [str "deps"] ++ [str "categories"] ++ [str "users"] ++
    [str "groups"] ++ [str "shlibs_required"] ++ [str "shlibs_provided"] ++
    [str "conflicts"] ++ [str "provides"] ++ [str "options"] ++ [str "files"] ++
    [str "directories"] ++ [str "scripts"] ++ [str "message"] := rfl

theorem KeysWithin_nil : KeysWithin (.object []) [] := ⟨⟨[], rfl⟩, List.Sublist.slnil⟩

theorem emit_manifest_basic_KeysWithin (p : pkg) :
    KeysWithin (emit_manifest_basic p)
      ([] ++ [str "name"] ++ [str "origin"] ++ [str "version"] ++ [str "arch"] ++
        [str "maintainer"] ++ [str "prefix"] ++ [str "www"] ++ [str "path"] ++ [str "sum"] ++
        [str "flatsize"] ++ [str "comment"] ++ [str "licenselogic"] ++ [str "licenses"] ++
        [str "pkgsize"]) := by
  simp only [emit_manifest_basic, recopies, List.foldl, pkg_key_name]
  repeat' (first
    | exact KeysWithin_nil
    | apply KeysWithin_insert_opt
    | apply KeysWithin_insert
    | split
    | apply KeysWithin_skip)

theorem emit_manifest_collections_KeysWithin (p : pkg) (top : ucl_object_t) (pre : List Bytes)
    (h : KeysWithin top pre) :
    KeysWithin (emit_manifest_collections p top)
      (pre ++ [str "deps"] ++ [str "categories"] ++ [str "users"] ++ [str "groups"] ++
        [str "shlibs_required"] ++ [str "shlibs_provided"]) := by
  simp only [emit_manifest_collections]
  repeat' (first
    | exact h
    | apply KeysWithin_insert_opt)

theorem emit_manifest_options_KeysWithin (ov : Bytes) (p : pkg) (top : ucl_object_t)
    (pre : List Bytes) (h : KeysWithin top pre) :
    KeysWithin (emit_manifest_options ov p top)
      (pre ++ [str "conflicts"] ++ [str "provides"] ++ [str "options"]) := by
  simp only [emit_manifest_options]
  repeat' (first
    | exact h
    | apply KeysWithin_insert_opt)

theorem emit_manifest_files_KeysWithin (p : pkg) (flags : Nat) (top : ucl_object_t)
    (pre : List Bytes) (h : KeysWithin top pre) :
    KeysWithin (emit_manifest_files p flags top)
      (pre ++ [str "files"] ++ [str "directories"] ++ [str "scripts"]) := by
  simp only [emit_manifest_files]
  repeat' (first
    | exact h
    | apply KeysWithin_insert_opt
    | split
    | apply KeysWithin_skip)

theorem emit_manifest_message_KeysWithin (p : pkg) (top : ucl_object_t)
    (pre : List Bytes) (h : KeysWithin top pre) :
    KeysWithin (emit_manifest_message p top) (pre ++ [str "message"]) := by
  simp only [emit_manifest_message]
  repeat' (first
    | exact h
    | apply KeysWithin_insert
    | split
    | apply KeysWithin_skip)

theorem emit_manifest_top_KeysWithin (ov : Option Bytes) (p : pkg) (flags : Nat)
    (top : ucl_object_t) (h : emit_manifest_top ov p flags = some top) :
    KeysWithin top manifest_key_order := by
  rw [manifest_key_order_snoc]
  unfold emit_manifest_top at h
  split at h
  · cases h
  · split at h
    · cases h
    · cases h
      apply emit_manifest_message_KeysWithin
      apply emit_manifest_files_KeysWithin
      apply emit_manifest_options_KeysWithin
      apply emit_manifest_collections_KeysWithin
      exact KeysWithin_insert _ _ (emit_manifest_basic_KeysWithin p)


theorem manifest_key_order_nodup : manifest_key_order.Nodup := by decide

/-- C9: for every package and flag combination the top-level keys of the
object `emit_manifest` builds are, in insertion order, a duplicate-free
subsequence of the fixed key order; the object is built whenever the package
has a description and the loops over conflicts and provides return. -/
theorem emit_manifest_key_order (ov : Option Bytes) (p : pkg) (flags : Nat) :
    (∀ top, emit_manifest_top ov p flags = some top →
      List.Sublist (ucl_object_keys top) manifest_key_order ∧ (ucl_object_keys top).Nodup) ∧
    ((pkg_get_string p .PKG_DESC).isSome →
      (p.conflicts = [] ∧ p.provides = []) ∨ ov.isSome →
      (emit_manifest_top ov p flags).isSome) := by
  constructor
  · intro top h
    have hk := (emit_manifest_top_KeysWithin ov p flags top h).2
    exact ⟨hk, List.Nodup.sublist hk manifest_key_order_nodup⟩
  · intro hd hc
    unfold emit_manifest_top
    cases hdesc : pkg_get_string p .PKG_DESC with
    | none => simp [hdesc] at hd
    | some d =>
      simp only
      split
      · rename_i hbad
        rcases hc with ⟨h1, h2⟩ | h3
        · exact absurd hbad.1 (by simp [h1, h2])
        · simp [hbad.2] at h3
      · rfl

theorem emit_manifest_key_order_witness :
    (emit_manifest_top none
      (pkg_set (pkg_set pkg_new .PKG_DESC (.string (str "d"))).2 .PKG_NAME (.string (str "n"))).2
      0).map ucl_object_keys = some [str "name", str "desc"] ∧
    List.Sublist [str "name", str "desc"] manifest_key_order :=
  ⟨by decide,
   ((emit_manifest_key_order none
      (pkg_set (pkg_set pkg_new .PKG_DESC (.string (str "d"))).2 .PKG_NAME (.string (str "n"))).2
      0).1 _ rfl).1⟩

theorem manifest_key_mismatch_iff (keys : List pkg_manifest_key) (cur : ucl_node) :
    manifest_key_mismatch keys cur = true ↔
      ∃ key sk, cur.key = some key ∧ manifest_find_key keys key = some sk ∧
        HASH_FIND_UCLT sk.parser cur.obj.type = none := by
  unfold manifest_key_mismatch
  cases hk : cur.key with
  | none => simp
  | some key =>
    cases hf : manifest_find_key keys key with
    | none => simp [hf]
    | some sk => simp [hf]

/-- C10: the fallback path is taken exactly when the object-notation parser
rejects the buffer, gives no root object, or the root has a key that is in
the registry with a value whose kind has no parser registered for that key;
a key that is not in the registry does not trigger the fallback and leaves
the package as it is. -/
theorem pkg_parse_manifest_fallback_iff (E : manifest_env) (p : pkg) (buf : Bytes)
    (keys : List pkg_manifest_key) :
    (pkg_parse_manifest_fallback E buf keys = true ↔
      E.ucl_parse buf = none ∨ E.ucl_parse buf = some none ∨
      ∃ obj, E.ucl_parse buf = some (some obj) ∧
        ∃ cur ∈ ucl_iterate_object (ucl_root obj) true, ∃ key sk,
          cur.key = some key ∧ manifest_find_key keys key = some sk ∧
          HASH_FIND_UCLT sk.parser cur.obj.type = none) ∧
    (pkg_parse_manifest E p buf keys =
      if pkg_parse_manifest_fallback E buf keys then
        match E.yaml_to_ucl buf with
        | none => (EPKG_FATAL, p)
        | some obj => parse_manifest E p keys obj
      else
        match E.ucl_parse buf with
        | some (some obj) => parse_manifest E p keys obj
        | _ => (EPKG_FATAL, p)) ∧
    (∀ (q : pkg) (cur : ucl_node) (key : Bytes), cur.key = some key →
      manifest_find_key keys key = none →
      manifest_key_mismatch keys cur = false ∧ parse_manifest_step E keys q cur = q) := by
  refine ⟨?_, ?_, ?_⟩
  · unfold pkg_parse_manifest_fallback
    cases hp : E.ucl_parse buf with
    | none => simp
    | some r =>
      cases r with
      | none => simp
      | some obj =>
        simp only [List.any_eq_true, manifest_key_mismatch_iff, reduceCtorEq, false_or,
          Option.some.injEq, exists_eq_left']
  · unfold pkg_parse_manifest
    by_cases hfb : pkg_parse_manifest_fallback E buf keys = true
    · simp only [hfb, if_true]
    · simp only [hfb, if_false, Bool.false_eq_true]
      cases hp : E.ucl_parse buf with
      | none => simp [pkg_parse_manifest_fallback, hp] at hfb
      | some r =>
        cases r with
        | none => simp [pkg_parse_manifest_fallback, hp] at hfb
        | some obj => rfl
  · intro q cur key hk hf
    constructor
    · simp [manifest_key_mismatch, hk, hf]
    · simp [parse_manifest_step, hk, hf]

theorem pkg_parse_manifest_fallback_iff_witness :
    manifest_find_key (pkg_manifest_keys_new []) (str "bogus") = none ∧
    manifest_key_mismatch (pkg_manifest_keys_new [])
      { key := some (str "bogus"), obj := .int 1, next := [] } = false ∧
    parse_manifest_step
      { ucl_parse := fun _ => none, yaml_to_ucl := fun _ => none, setmode := fun _ => none }
      (pkg_manifest_keys_new []) pkg_new
      { key := some (str "bogus"), obj := .int 1, next := [] } = pkg_new :=
  ⟨by decide,
   (pkg_parse_manifest_fallback_iff
      { ucl_parse := fun _ => none, yaml_to_ucl := fun _ => none, setmode := fun _ => none }
      pkg_new [] (pkg_manifest_keys_new [])).2.2 pkg_new
      { key := some (str "bogus"), obj := .int 1, next := [] } (str "bogus") rfl (by decide)⟩

theorem ExtendsWithout.ew_refl (bad : add_event → Bool) (tr : add_trace) :
    ExtendsWithout bad tr tr := ⟨[], by simp, by simp⟩

theorem ExtendsWithout.snoc {bad : add_event → Bool} {tr t : add_trace} (e : add_event)
    (he : bad e = false) (h : ExtendsWithout bad tr t) : ExtendsWithout bad tr (t ++ [e]) := by
  obtain ⟨new, hn, hb⟩ := h
  refine ⟨new ++ [e], by rw [hn, List.append_assoc], ?_⟩
  intro x hx
  rcases List.mem_append.mp hx with hx | hx
  · exact hb x hx
  · rw [List.mem_singleton.mp hx]; exact he

theorem ExtendsWithout.snoc2 {bad : add_event → Bool} {tr t : add_trace} (e1 e2 : add_event)
    (he1 : bad e1 = false) (he2 : bad e2 = false) (h : ExtendsWithout bad tr t) :
    ExtendsWithout bad tr (t ++ [e1, e2]) := by
  have := (h.snoc e1 he1).snoc e2 he2
  simpa using this

theorem ExtendsWithout.forall_mem {bad : add_event → Bool} {t : add_trace}
    (h : ExtendsWithout bad [] t) : ∀ e ∈ t, bad e = false := by
  obtain ⟨new, hn, hb⟩ := h
  intro e he
  rw [hn] at he
  exact hb e (by simpa using he)

theorem trace_at_uname_extends (bad : add_event → Bool) (tr : add_trace) (path : Bytes)
    (automatic : Int) (h1 : bad (.pkg_open2 path) = false) (h2 : bad .pkg_setautomatic = false) :
    ExtendsWithout bad tr (trace_at_uname tr path automatic) := by
  unfold trace_at_uname
  split
  · exact ExtendsWithout.snoc2 _ _ h1 h2 (ExtendsWithout.ew_refl _ _)
  · exact ExtendsWithout.snoc _ h1 (ExtendsWithout.ew_refl _ _)

theorem pkg_get_stamped (p : pkg) (automatic : Int) (attr : pkg_attr) :
    pkg_get (pkg_stamped p automatic) attr = pkg_get p attr := by
  unfold pkg_stamped; split <;> rfl

theorem pkg_stamped_deps (p : pkg) (automatic : Int) :
    (pkg_stamped p automatic).deps = p.deps := by
  unfold pkg_stamped; split <;> rfl

/-- C5: a package whose architecture or OS version differs from the host's
makes `pkg_add2` return the configuration error, and the run makes no call
that reads or writes the catalog, runs a script, extracts an entry or reports
an installation. -/
theorem pkg_add2_arch_osversion_mismatch (E : add_env) (fuel : Nat) (path : Bytes)
    (upgrade automatic ret : Int) (a : archive) (u : utsname)
    (hopen : E.pkg_open2 [] path = (ret, some a)) (hret : ret = EPKG_OK ∨ ret = EPKG_END)
    (huname : E.uname (trace_at_uname [] path automatic) = some u)
    (hmis : u.machine ≠ pkg_get a.pkg .PKG_ARCH ∨
            host_osversion E u ≠ pkg_get a.pkg .PKG_OSVERSION) :
    ∃ tr, pkg_add2 E (fuel + 1) [] path upgrade automatic = some (EX_CONFIG, tr) ∧
      ∀ e ∈ tr, e.is_catalog = false ∧ e.is_install = false := by
  have hne : ¬ (ret ≠ EPKG_END ∧ ret ≠ EPKG_OK) := by
    rcases hret with h | h <;> simp [h]
  have hbase := trace_at_uname_extends (fun e => e.is_catalog || e.is_install) [] path automatic
    rfl rfl
  have hconv : ∀ t, ExtendsWithout (fun e => e.is_catalog || e.is_install) [] t →
      ∀ e ∈ t, e.is_catalog = false ∧ e.is_install = false := by
    intro t ht e he
    have := ht.forall_mem e he
    simpa using this
  by_cases harch : u.machine = pkg_get a.pkg .PKG_ARCH
  · have hos : host_osversion E u ≠ pkg_get a.pkg .PKG_OSVERSION := by
      rcases hmis with h | h
      · exact absurd harch h
      · exact h
    refine ⟨trace_at_uname [] path automatic ++ [.uname] ++
      [.emit_error (str "wrong OSVERSION: %s instead of %s")] ++ [.archive_read_finish], ?_, ?_⟩
    · simp only [pkg_add2, hopen, hne, if_false, pkg_add2_checks, huname, pkg_get_stamped,
        harch, hos, ne_eq, not_true_eq_false, not_false_eq_true, if_true, pkg_add2_cleanup]
    · exact hconv _ (((hbase.snoc _ rfl).snoc _ rfl).snoc _ rfl)
  · refine ⟨trace_at_uname [] path automatic ++ [.uname] ++
      [.emit_error (str "wrong architecture: %s instead of %s")] ++ [.archive_read_finish], ?_, ?_⟩
    · simp only [pkg_add2, hopen, hne, if_false, pkg_add2_checks, huname, pkg_get_stamped,
        harch, ne_eq, not_false_eq_true, if_true, pkg_add2_cleanup]
    · exact hconv _ (((hbase.snoc _ rfl).snoc _ rfl).snoc _ rfl)

theorem pkg_add2_deps_missing (E : add_env)
    (recurse : add_trace → Bytes → Option (Int × add_trace)) (origin basedir ext : Bytes)
    (pre : List pkg_dep) (dep : pkg_dep) (post : List pkg_dep) (r : Int)
    (hpre : ∀ t, ∀ d ∈ pre, E.pkgdb_query t d.origin = some EPKG_OK)
    (hdep : ∀ t, E.pkgdb_query t dep.origin = some r) (hr : r ≠ EPKG_OK)
    (hfile : ∀ t, E.access t (dep_path basedir ext dep) = false) :
    ∀ tr, pkg_add2_deps E recurse origin basedir ext (pre ++ dep :: post) tr =
      some (.error (EPKG_FATAL,
        tr ++ pre.map (fun d => .pkgdb_query d.origin) ++
          [.pkgdb_query dep.origin, .access (dep_path basedir ext dep),
           .emit_missing_dep origin dep])) := by
  induction pre with
  | nil =>
    intro tr
    have hr0 : ¬ r = 0 := hr
    simp [pkg_add2_deps, dep_installed, hdep, hr0, hfile, EX_IOERR, EPKG_OK]
  | cons d pre ih =>
    intro tr
    have hd := hpre tr d (List.mem_cons_self _ _)
    have ih2 := ih (fun t x hx => hpre t x (List.mem_cons_of_mem _ hx))
    simp [pkg_add2_deps, dep_installed, hd, EX_OK, EPKG_OK, ih2]

theorem ExtendsWithout.append_map {bad : add_event → Bool} {tr t : add_trace} {α : Type}
    (l : List α) (f : α → add_event) (hf : ∀ x, bad (f x) = false)
    (h : ExtendsWithout bad tr t) : ExtendsWithout bad tr (t ++ l.map f) := by
  obtain ⟨new, hn, hb⟩ := h
  refine ⟨new ++ l.map f, by rw [hn, List.append_assoc], ?_⟩
  intro x hx
  rcases List.mem_append.mp hx with hx | hx
  · exact hb x hx
  · obtain ⟨y, _, rfl⟩ := List.mem_map.mp hx
    exact hf y

/-- C6, amended: when the package passed the architecture and OS-version
checks, is not in the catalog, its archive path has an extension, every
dependency declared before `dep` is in the catalog, and `dep` is neither in
the catalog nor present as the sibling archive file, `pkg_add2` returns
`EPKG_FATAL`, reports `dep` as missing, and makes no call that registers a
package, runs a script or extracts an entry. -/
theorem pkg_add2_missing_dep (E : add_env) (fuel : Nat) (path : Bytes)
    (upgrade automatic ret : Int) (a : archive) (u : utsname) (ext : Bytes)
    (pre : List pkg_dep) (dep : pkg_dep) (post : List pkg_dep) (r : Int)
    (hopen : E.pkg_open2 [] path = (ret, some a)) (hret : ret = EPKG_OK ∨ ret = EPKG_END)
    (huname : E.uname (trace_at_uname [] path automatic) = some u)
    (harch : u.machine = pkg_get a.pkg .PKG_ARCH)
    (hos : host_osversion E u = pkg_get a.pkg .PKG_OSVERSION)
    (hnew : ∀ t, E.pkgdb_query t (pkg_get a.pkg .PKG_ORIGIN) = some EPKG_END)
    (hext : strrchr_dot path = some ext)
    (hdeps : a.pkg.deps = pre ++ dep :: post)
    (hpre : ∀ t, ∀ d ∈ pre, E.pkgdb_query t d.origin = some EPKG_OK)
    (hdep : ∀ t, E.pkgdb_query t dep.origin = some r) (hr : r ≠ EPKG_OK)
    (hfile : ∀ t, E.access t (dep_path (dirname path) ext dep) = false) :
    ∃ tr, pkg_add2 E (fuel + 1) [] path upgrade automatic = some (EPKG_FATAL, tr) ∧
      add_event.emit_missing_dep (pkg_get a.pkg .PKG_ORIGIN) dep ∈ tr ∧
      ∀ e ∈ tr, e.is_install = false := by
  have hne : ¬ (ret ≠ EPKG_END ∧ ret ≠ EPKG_OK) := by
    rcases hret with h | h <;> simp [h]
  have hloop := pkg_add2_deps_missing E (fun tr p => pkg_add2 E fuel tr p 0 1)
    (pkg_get a.pkg .PKG_ORIGIN) (dirname path) ext pre dep post r hpre hdep hr hfile
  have hbase := trace_at_uname_extends add_event.is_install [] path automatic rfl rfl
  have h01 : ¬ EPKG_END = EPKG_OK := by decide
  refine ⟨trace_at_uname [] path automatic ++ [.uname] ++
    [.pkgdb_query (pkg_get a.pkg .PKG_ORIGIN)] ++ pre.map (fun d => .pkgdb_query d.origin) ++
      [.pkgdb_query dep.origin, .access (dep_path (dirname path) ext dep),
       .emit_missing_dep (pkg_get a.pkg .PKG_ORIGIN) dep] ++ [.archive_read_finish], ?_, ?_, ?_⟩
  · simp only [pkg_add2, hopen, hne, if_false, pkg_add2_checks, huname, pkg_get_stamped,
      pkg_stamped_deps, harch, hos, ne_eq, not_true_eq_false, if_true, hnew, hext, hdeps, hloop,
      pkg_add2_cleanup, h01]
  · simp
  · apply ExtendsWithout.forall_mem
    have h1 := ((hbase.snoc _ (rfl : add_event.is_install .uname = false)).snoc
      (.pkgdb_query (pkg_get a.pkg .PKG_ORIGIN)) rfl).append_map pre
      (fun d => add_event.pkgdb_query d.origin) (fun _ => rfl)
    have h2 := ((h1.snoc (.pkgdb_query dep.origin) rfl).snoc
      (.access (dep_path (dirname path) ext dep)) rfl).snoc
      (.emit_missing_dep (pkg_get a.pkg .PKG_ORIGIN) dep) rfl
    have h3 := h2.snoc .archive_read_finish rfl
    simpa using h3

theorem ExtendsWithout.ew_trans {bad : add_event → Bool} {a b c : add_trace}
    (h1 : ExtendsWithout bad a b) (h2 : ExtendsWithout bad b c) : ExtendsWithout bad a c := by
  obtain ⟨n1, e1, b1⟩ := h1
  obtain ⟨n2, e2, b2⟩ := h2
  refine ⟨n1 ++ n2, by rw [e2, e1, List.append_assoc], ?_⟩
  intro x hx
  rcases List.mem_append.mp hx with hx | hx
  · exact b1 x hx
  · exact b2 x hx

theorem pkg_add2_deps_nofile (E : add_env)
    (recurse : add_trace → Bytes → Option (Int × add_trace)) (origin basedir ext : Bytes)
    (deps : List pkg_dep)
    (hfile : ∀ t, ∀ d ∈ deps, E.access t (dep_path basedir ext d) = false) :
    ∀ tr r, pkg_add2_deps E recurse origin basedir ext deps tr = some (.error r) →
      ExtendsWithout add_event.is_install tr r.2 := by
  induction deps with
  | nil =>
    intro tr r h
    simp [pkg_add2_deps] at h
  | cons d deps ih =>
    intro tr r h
    have ih2 := ih (fun t x hx => hfile t x (List.mem_cons_of_mem _ hx))
    have hf := fun t => hfile t d (List.mem_cons_self _ _)
    simp only [pkg_add2_deps, dep_installed] at h
    cases hq : E.pkgdb_query tr d.origin with
    | none => simp [hq] at h
    | some q =>
      simp only [hq, hf, Bool.false_eq_true, if_false] at h
      by_cases hr : (if q = EPKG_OK then EX_OK else EX_IOERR) ≠ EPKG_OK
      · rw [if_pos hr] at h
        simp only [Option.some.injEq, Except.error.injEq] at h
        subst h
        exact (((ExtendsWithout.ew_refl _ tr).snoc (.pkgdb_query d.origin) rfl).snoc
          (.access (dep_path basedir ext d)) rfl).snoc (.emit_missing_dep origin d) rfl
      · rw [if_neg hr] at h
        exact ((ExtendsWithout.ew_refl _ tr).snoc (.pkgdb_query d.origin) rfl).ew_trans (ih2 _ _ h)

theorem pkg_add2_checks_frame (E : add_env)
    (recurse : add_trace → Bytes → Option (Int × add_trace)) (path : Bytes)
    (pkg : pkg) (tr : add_trace) (r : Int × add_trace)
    (hfail : pkg_add2_checks E recurse path pkg tr = some (.error r))
    (hnofile : ∀ ext, strrchr_dot path = some ext →
      ∀ t, ∀ d ∈ pkg.deps, E.access t (dep_path (dirname path) ext d) = false) :
    ExtendsWithout add_event.is_install tr r.2 := by
  have h0 := ExtendsWithout.ew_refl add_event.is_install tr
  unfold pkg_add2_checks at hfail
  cases hu : E.uname tr with
  | none =>
    simp only [hu, Option.some.injEq, Except.error.injEq] at hfail
    subst hfail
    exact h0.snoc2 .uname (.emit_errno (str "uname")) rfl rfl
  | some u =>
    simp only [hu] at hfail
    have h1 := h0.snoc .uname rfl
    by_cases harch : u.machine ≠ pkg_get pkg .PKG_ARCH
    · rw [if_pos harch] at hfail
      simp only [Option.some.injEq, Except.error.injEq] at hfail
      subst hfail
      exact h1.snoc _ rfl
    · rw [if_neg harch] at hfail
      by_cases hos : host_osversion E u ≠ pkg_get pkg .PKG_OSVERSION
      · rw [if_pos hos] at hfail
        simp only [Option.some.injEq, Except.error.injEq] at hfail
        subst hfail
        exact h1.snoc _ rfl
      · rw [if_neg hos] at hfail
        have h2 := h1.snoc (.pkgdb_query (pkg_get pkg .PKG_ORIGIN)) rfl
        cases hq : E.pkgdb_query (tr ++ [.uname]) (pkg_get pkg .PKG_ORIGIN) with
        | none =>
          simp only [hq, Option.some.injEq, Except.error.injEq] at hfail
          subst hfail
          exact h2
        | some ret =>
          simp only [hq] at hfail
          by_cases hok : ret = EPKG_OK
          · rw [if_pos hok] at hfail
            simp only [Option.some.injEq, Except.error.injEq] at hfail
            subst hfail
            exact h2.snoc _ rfl
          · rw [if_neg hok] at hfail
            by_cases hend : ret ≠ EPKG_END
            · rw [if_pos hend] at hfail
              simp only [Option.some.injEq, Except.error.injEq] at hfail
              subst hfail
              exact h2
            · rw [if_neg hend] at hfail
              cases hext : strrchr_dot path with
              | none =>
                simp only [hext, Option.some.injEq, Except.error.injEq] at hfail
                subst hfail
                exact h2.snoc _ rfl
              | some ext =>
                simp only [hext] at hfail
                exact h2.ew_trans (pkg_add2_deps_nofile E recurse _ _ ext pkg.deps
                  (hnofile ext hext) _ _ hfail)

/-- C6, counterexample: `bar` is not in the catalog and declares `qux`,
which is neither in the catalog nor present as `/p/qux-0.2.pkg`; the run
returns `EPKG_FATAL`, but before that it has installed the dependency `baz`
from its sibling archive: a package was registered, a script run and an entry
extracted. -/
theorem pkg_add2_missing_dep_counterexample :
    demo_env.pkgdb_query [] (pkg_get demo_bar.pkg .PKG_ORIGIN) = some EPKG_END ∧
    demo_dep "qux" "0.2" ∈ demo_bar.pkg.deps ∧
    (∀ t, demo_env.pkgdb_query t (demo_dep "qux" "0.2").origin = some EPKG_END) ∧
    (∀ t, demo_env.access t (str "/p/qux-0.2.pkg") = false) ∧
    ∃ tr, pkg_add2 demo_env 2 [] (str "/p/bar-1.0.pkg") 0 0 = some (EPKG_FATAL, tr) ∧
      add_event.emit_missing_dep (str "misc/bar") (demo_dep "qux" "0.2") ∈ tr ∧
      add_event.pkgdb_register_pkg (str "misc/baz") ∈ tr ∧
      add_event.pkg_script_run (str "misc/baz") .PKG_SCRIPT_PRE_INSTALL ∈ tr ∧
      add_event.archive_read_extract (str "usr/local/bin/baz") ∈ tr :=
  ⟨rfl, by decide, fun _ => rfl, fun _ => rfl,
   ⟨_, rfl, by decide, by decide, by decide, by decide⟩⟩

/-- C7, counterexample: the installation of `foo` fails in dependency
resolution (`zap` is missing), after the dependency `baz` has been registered
and its payload extracted. -/
theorem pkg_add2_precondition_failure_counterexample :
    ∃ r, pkg_add2_checks demo_env (fun t p => pkg_add2 demo_env 1 t p 0 1)
        (str "/p/foo-2.0.pkg") (pkg_stamped demo_foo.pkg 0)
        (trace_at_uname [] (str "/p/foo-2.0.pkg") 0) = some (.error r) ∧
      pkg_add2 demo_env 2 [] (str "/p/foo-2.0.pkg") 0 0
        = some (EPKG_FATAL, r.2 ++ [.archive_read_finish]) ∧
      add_event.pkgdb_register_pkg (str "misc/baz") ∈ r.2 ∧
      add_event.archive_read_extract (str "usr/local/bin/baz") ∈ r.2 :=
  ⟨_, rfl, rfl, by decide, by decide⟩

/-- C8, at the failing input: the archive of `solo` is parked at the entry
`etc/solo.cfg.pkgconf` and no file `etc/solo.cfg` exists; `do_extract`
extracts the entry under its literal name only. -/
theorem do_extract_pkgconf_not_copied :
    is_conf_file demo_solo.ae = some (str "etc/solo.cfg") ∧
    demo_env.lstat_found [] (str "etc/solo.cfg") = false ∧
    do_extract demo_env demo_solo [] =
      (EX_OK, [.archive_read_extract (str "etc/solo.cfg.pkgconf"),
               .lstat (str "etc/solo.cfg"), .archive_read_next_header]) :=
  ⟨by decide, rfl, by decide⟩

theorem pkg_add2_arch_osversion_mismatch_witness :
    ∃ tr, pkg_add2 demo_env 1 [] (str "/p/old-1.0.pkg") 0 0 = some (EX_CONFIG, tr) ∧
      ∀ e ∈ tr, e.is_catalog = false ∧ e.is_install = false :=
  pkg_add2_arch_osversion_mismatch demo_env 0 (str "/p/old-1.0.pkg") 0 0 EPKG_OK demo_old
    { machine := str "amd64", release := str "9.2-RELEASE" } rfl (Or.inl rfl) rfl
    (Or.inl (by decide))

theorem pkg_add2_missing_dep_witness :
    ∃ tr, pkg_add2 demo_env 1 [] (str "/p/solo-1.0.pkg") 0 0 = some (EPKG_FATAL, tr) ∧
      add_event.emit_missing_dep (pkg_get demo_solo.pkg .PKG_ORIGIN) (demo_dep "qux" "0.2") ∈ tr ∧
      ∀ e ∈ tr, e.is_install = false :=
  pkg_add2_missing_dep demo_env 0 (str "/p/solo-1.0.pkg") 0 0 EPKG_OK demo_solo
    { machine := str "amd64", release := str "9.2-RELEASE" } (str ".pkg")
    [demo_dep "base" "1.0"] (demo_dep "qux" "0.2") [] EPKG_END
    rfl (Or.inl rfl) rfl (by decide) (by decide) (fun _ => rfl) (by decide) rfl
    (fun _ d hd => by rw [List.mem_singleton.mp hd]; rfl) (fun _ => rfl) (by decide)
    (fun _ => rfl)

theorem repo_cleanup_ok (E : repo_env) (tr : repo_trace) :
    ∃ tail, (repo_cleanup E true EPKG_OK tr).2 = tr ++ tail ∧
      repo_event.pkgdb_transaction_commit (E.pkgdb_transaction_commit tr) ∈ tail ∧
      repo_event.pkgdb_transaction_rollback ∉ tail := by
  simp only [repo_cleanup, if_true, ne_eq, not_true_eq_false, if_false]
  by_cases hc : E.pkgdb_transaction_commit tr = EPKG_OK
  · simp only [hc, not_true_eq_false, if_false, if_true, List.append_assoc]
    exact ⟨_, rfl, by simp, by simp⟩
  · have h30 : ¬ EPKG_FATAL = EPKG_OK := by decide
    simp only [hc, not_false_eq_true, if_true, h30, if_false, List.append_assoc]
    exact ⟨_, rfl, by simp, by simp⟩

theorem repo_cleanup_failed (E : repo_env) (rc : Int) (tr : repo_trace) (h : rc ≠ EPKG_OK) :
    (∃ post, (repo_cleanup E true rc tr).2 = tr ++ (.pkgdb_transaction_rollback ::
      .pkgdb_transaction_commit (E.pkgdb_transaction_commit
        (tr ++ [.pkgdb_transaction_rollback])) :: post)) ∧
    (repo_cleanup E true rc tr).1 ≠ EPKG_OK := by
  have h30 : ¬ EPKG_FATAL = EPKG_OK := by decide
  simp only [repo_cleanup, if_true, ne_eq, h, not_false_eq_true]
  by_cases hc : E.pkgdb_transaction_commit (tr ++ [.pkgdb_transaction_rollback]) = EPKG_OK
  · simp only [hc, not_true_eq_false, if_false, h, List.append_assoc]
    exact ⟨⟨_, rfl⟩, by trivial⟩
  · simp only [hc, not_false_eq_true, if_true, h30, if_false, List.append_assoc]
    exact ⟨⟨_, rfl⟩, by trivial⟩

theorem urlencode_eq_flatMap (s : Bytes) : (urlencode s).2 = s.flatMap urlencode_byte := by
  induction s with
  | nil => rfl
  | cons c rest ih =>
    simp only [urlencode, List.flatMap_cons, urlencode_byte]
    split <;> simp [ih]

theorem dropWhile_flatMap_of_head (ws : Nat → Bool) (g : Nat → Bytes)
    (hws : ∀ c, ws c = true → g c = [c])
    (hnw : ∀ c, ws c = false → ∃ h t, g c = h :: t ∧ ws h = false) (s : Bytes) :
    (s.flatMap g).dropWhile ws = (s.dropWhile ws).flatMap g := by
  induction s with
  | nil => rfl
  | cons c rest ih =>
    cases hc : ws c with
    | true =>
      simp only [List.flatMap_cons, hws c hc, List.singleton_append, List.dropWhile_cons, hc,
        if_true, ih]
    | false =>
      obtain ⟨h, t, hg, hh⟩ := hnw c hc
      simp only [List.flatMap_cons, hg, List.cons_append, List.dropWhile_cons, hh, hc,
        Bool.false_eq_true, if_false]

theorem hexdigit_not_whitespace (n : Nat) (h : n < 16) : ucl_whitespace (hexdigit n) = false := by
  interval_cases n <;> rfl

theorem urlencode_byte_whitespace (c : Nat) (h : ucl_whitespace c = true) :
    urlencode_byte c = [c] := by
  simp only [ucl_whitespace, Bool.or_eq_true, beq_iff_eq] at h
  rcases h with ((h | h) | h) | h <;> subst h <;> rfl

theorem urlencode_byte_head (c : Nat) (h : ucl_whitespace c = false) :
    ∃ x t, urlencode_byte c = x :: t ∧ ucl_whitespace x = false := by
  unfold urlencode_byte
  split
  · exact ⟨37, _, rfl, rfl⟩
  · exact ⟨c, [], rfl, h⟩

theorem urlencode_byte_last (c : Nat) (h : ucl_whitespace c = false) :
    ∃ x t, (urlencode_byte c).reverse = x :: t ∧ ucl_whitespace x = false := by
  unfold urlencode_byte
  split
  · refine ⟨hexdigit (c % 256 % 16), [hexdigit (c % 256 / 16), 37], by simp [printf_02x], ?_⟩
    exact hexdigit_not_whitespace _ (Nat.mod_lt _ (by norm_num))
  · exact ⟨c, [], rfl, h⟩

theorem reverse_flatMap_bytes (g : Nat → Bytes) (s : Bytes) :
    (s.flatMap g).reverse = s.reverse.flatMap (fun c => (g c).reverse) := by
  induction s with
  | nil => rfl
  | cons c rest ih =>
    simp only [List.flatMap_cons, List.reverse_append, ih, List.reverse_cons, List.flatMap_append,
      List.flatMap_nil, List.append_nil]

theorem ucl_string_trim_urlencode (s : Bytes) :
    ucl_string_trim (urlencode s).2 = (urlencode (ucl_string_trim s)).2 := by
  have h1 := dropWhile_flatMap_of_head ucl_whitespace urlencode_byte urlencode_byte_whitespace
    urlencode_byte_head
  have h2 := dropWhile_flatMap_of_head ucl_whitespace (fun c => (urlencode_byte c).reverse)
    (fun c hc => by simp [urlencode_byte_whitespace c hc]) urlencode_byte_last
  rw [urlencode_eq_flatMap, urlencode_eq_flatMap]
  unfold ucl_string_trim
  rw [h1, reverse_flatMap_bytes, h2, reverse_flatMap_bytes]
  simp only [List.reverse_reverse]

theorem IsCString_sublist {s t : Bytes} (h : List.Sublist t s) (hs : IsCString s) :
    IsCString t := fun b hb => hs b (h.subset hb)

theorem ucl_string_trim_sublist (s : Bytes) : List.Sublist (ucl_string_trim s) s := by
  unfold ucl_string_trim
  have h1 : List.Sublist (s.dropWhile ucl_whitespace) s := List.dropWhile_sublist _
  have h2 : List.Sublist ((s.dropWhile ucl_whitespace).reverse.dropWhile ucl_whitespace)
      (s.dropWhile ucl_whitespace).reverse := List.dropWhile_sublist _
  have h3 := List.Sublist.reverse h2
  rw [List.reverse_reverse] at h3
  exact h3.trans h1

theorem c_str_of_IsCString (s : Bytes) (h : IsCString s) : c_str s = s := by
  unfold c_str
  rw [List.takeWhile_eq_self_iff]
  intro b hb
  have := (h b hb).1
  simp only [bne_iff_ne, ne_eq]
  omega

theorem urldecode_urlencode_buf (s : Bytes) (hs : IsCString s) :
    (urldecode (urlencode s).2).2 = s := by
  induction s with
  | nil => rfl
  | cons c rest ih =>
    have hc : c < 256 := (hs c (List.mem_cons_self _ _)).2
    have ih2 := ih (fun b hb => hs b (List.mem_cons_of_mem _ hb))
    simp only [urlencode]
    split
    · simp only [printf_02x, List.cons_append, List.nil_append]
      rw [urldecode_escape]
      have hx := urldecode_hex_printf c hc
      simp only [printf_02x] at hx
      simp only [hx, ih2, List.singleton_append]
    · rename_i hne
      have h37 : c ≠ 37 := by
        intro h
        simp [h] at hne
      rw [urldecode_cons_ne c _ h37, ih2]

/-- Decoding what the emitter stores for a text gives the text without the
white space around it. -/
theorem urldecode_trim_urlencode (d : Bytes) (h : IsCString d) :
    c_str (urldecode (ucl_string_trim (urlencode d).2)).2 = ucl_string_trim d := by
  have ht := IsCString_sublist (ucl_string_trim_sublist d) h
  rw [ucl_string_trim_urlencode, urldecode_urlencode_buf _ ht]
  exact c_str_of_IsCString _ ht

theorem FieldsFrame.ff_refl (t : pkg_attr) (p : pkg) : FieldsFrame t p p := fun _ _ => rfl

theorem FieldsFrame.ff_trans {t : pkg_attr} {p q r : pkg} (h1 : FieldsFrame t p q)
    (h2 : FieldsFrame t q r) : FieldsFrame t p r :=
  fun a ha => (h2 a ha).trans (h1 a ha)

theorem FieldsFrame.of_fields {t : pkg_attr} {p q : pkg} (h : q.fields = p.fields) :
    FieldsFrame t p q := fun a _ => by unfold pkg_field; rw [h]

theorem pkg_field_pkg_set_ne (p : pkg) (t a : pkg_attr) (v : ucl_object_t) (h : a ≠ t) :
    pkg_field (pkg_set p t v).2 a = pkg_field p a := by
  have hb : (a == t) = false := by simpa using h
  simp [pkg_field, pkg_set, List.lookup, hb]

theorem pkg_field_pkg_set_self (p : pkg) (t : pkg_attr) (v : ucl_object_t) :
    pkg_field (pkg_set p t v).2 t = some v := by
  simp [pkg_field, pkg_set, List.lookup]

theorem FieldsFrame.ff_set (p : pkg) (t : pkg_attr) (v : ucl_object_t) :
    FieldsFrame t p (pkg_set p t v).2 := fun a ha => pkg_field_pkg_set_ne p t a v ha

theorem FieldsFrame.ff_add_to_array (p : pkg) (t : pkg_attr) (name : Bytes) :
    FieldsFrame t p (pkg_add_to_array p t name) := by
  unfold pkg_add_to_array
  split <;> exact FieldsFrame.ff_set _ _ _

theorem FieldsFrame.ff_annotate (p : pkg) (tag value : Bytes) :
    FieldsFrame .PKG_ANNOTATIONS p ( pkg_addannotation p tag value) := by
  unfold pkg_addannotation
  split <;> exact FieldsFrame.ff_set _ _ _

theorem FieldsFrame.ff_foldl {α : Type} (t : pkg_attr) (step : pkg → α → pkg)
    (h : ∀ p x, FieldsFrame t p (step p x)) (l : List α) :
    ∀ p, FieldsFrame t p (l.foldl step p) := by
  induction l with
  | nil => intro p; exact FieldsFrame.ff_refl t p
  | cons x l ih => intro p; exact (h p x).ff_trans (ih _)

theorem pkg_set_deps_from_object_fields (p : pkg) (obj : ucl_node) :
    (pkg_set_deps_from_object p obj).2.fields = p.fields := by
  unfold pkg_set_deps_from_object
  cases obj.key with
  | none => rfl
  | some okey =>
    simp only
    generalize ucl_iterate_object obj (obj.obj.type == ucl_type.UCL_ARRAY) = l
    have h : ∀ (st : pkg × dep_attrs), (l.foldl (fun (st : pkg × dep_attrs) self =>
        let a := pkg_set_deps_inner st.2 self
        match a.origin, a.version with
        | some origin, some version => (pkg_adddep st.1 okey origin version, a)
        | _, _ => (st.1, a)) st).1.fields = st.1.fields := by
      induction l with
      | nil => intro st; rfl
      | cons x l ih =>
        intro st
        rw [List.foldl_cons, ih]
        simp only
        split <;> rfl
    exact h _

theorem pkg_set_dirs_from_object_fields (E : manifest_env) (p : pkg) (obj : ucl_node) :
    (pkg_set_dirs_from_object E p obj).2.fields = p.fields := by
  unfold pkg_set_dirs_from_object
  cases obj.key <;> rfl

theorem pkg_set_files_from_object_fields (E : manifest_env) (p : pkg) (obj : ucl_node) :
    (pkg_set_files_from_object E p obj).2.fields = p.fields := by
  unfold pkg_set_files_from_object
  cases obj.key <;> rfl

theorem pkg_obj_step_frame (E : manifest_env) (attr : pkg_attr) (p : pkg) (cur : ucl_node) :
    FieldsFrame attr p (pkg_obj_step E attr p cur) := by
  unfold pkg_obj_step
  cases cur.key with
  | none => exact FieldsFrame.ff_refl _ _
  | some key =>
    simp only
    cases attr <;> simp only <;>
      first
      | exact FieldsFrame.ff_refl _ _
      | (split <;> first
          | exact FieldsFrame.ff_refl _ _
          | exact FieldsFrame.ff_annotate _ _ _
          | exact FieldsFrame.of_fields (pkg_set_deps_from_object_fields _ _)
          | exact FieldsFrame.of_fields (pkg_set_dirs_from_object_fields _ _ _)
          | exact FieldsFrame.of_fields (pkg_set_files_from_object_fields _ _ _)
          | (split <;> exact FieldsFrame.ff_refl _ _))

theorem pkg_obj_frame (E : manifest_env) (attr : pkg_attr) (p : pkg) (obj : ucl_node) :
    FieldsFrame attr p (pkg_obj E p obj attr).2 :=
  FieldsFrame.ff_foldl attr _ (pkg_obj_step_frame E attr) _ p

theorem pkg_array_step_frame (E : manifest_env) (attr : pkg_attr) (p : pkg) (cur : ucl_node) :
    FieldsFrame attr p (pkg_array_step E attr p cur) := by
  unfold pkg_array_step
  cases attr <;> simp only <;>
    first
    | exact FieldsFrame.ff_refl _ _
    | (split <;> first
        | exact FieldsFrame.ff_refl _ _
        | exact FieldsFrame.ff_add_to_array _ _ _
        | exact pkg_obj_frame _ _ _ _)

theorem pkg_array_frame (E : manifest_env) (attr : pkg_attr) (p : pkg) (obj : ucl_node) :
    FieldsFrame attr p (pkg_array E p obj attr).2 :=
  FieldsFrame.ff_foldl attr _ (pkg_array_step_frame E attr) _ p

theorem pkg_string_frame (attr : pkg_attr) (p : pkg) (obj : ucl_node) :
    FieldsFrame attr p (pkg_string p obj attr).2 := by
  unfold pkg_string
  cases attr <;> simp only <;>
    first
    | exact FieldsFrame.ff_set _ _ _
    | (split <;> first
        | exact FieldsFrame.ff_set _ _ _
        | (split <;> first
            | exact FieldsFrame.ff_set _ _ _
            | (split <;> first
                | exact FieldsFrame.ff_set _ _ _
                | exact FieldsFrame.ff_refl _ _)))

theorem parse_data_call_frame (E : manifest_env) (f : parse_data_fn) (attr : pkg_attr)
    (p : pkg) (cur : ucl_node) : FieldsFrame attr p (parse_data_call E f p cur attr).2 := by
  cases f
  · exact pkg_string_frame attr p cur
  · exact pkg_obj_frame E attr p cur
  · exact pkg_array_frame E attr p cur
  · exact FieldsFrame.ff_set _ _ _

theorem insert_opt_ite (top e : ucl_object_t) (k : Bytes) (c : Prop) [Decidable c] :
    (if c then ucl_object_insert_key top e k else top) =
      insert_opt top (if c then some e else none) k := by
  split <;> rfl

theorem emit_manifest_top_eq_build (ov : Option Bytes) (p : pkg) (d : Bytes)
    (hd : pkg_get_string p .PKG_DESC = some d) (hconf : p.conflicts = [])
    (hprov : p.provides = []) :
    emit_manifest_top ov p PKG_MANIFEST_EMIT_COMPACT =
      some (manifest_build (emit_manifest_pairs p d)) := by
  have hc : PKG_MANIFEST_EMIT_COMPACT &&& PKG_MANIFEST_EMIT_COMPACT ≠ 0 := by decide
  have hm : ∀ top, emit_manifest_message p top = insert_opt top
      (match pkg_get_string p .PKG_MESSAGE with
        | some m => if m ≠ [] then some (.string (ucl_string_trim (urlencode m).2)) else none
        | none => none) (str "message") := by
    intro top
    unfold emit_manifest_message
    cases pkg_get_string p .PKG_MESSAGE with
    | none => rfl
    | some m => simp only; split <;> rfl
  have hl : ∀ top : ucl_object_t,
      (if pkg_get_int p .PKG_LICENSE_LOGIC = LICENSE_SINGLE then
        ucl_object_insert_key top (.string (str "single")) (str "licenselogic")
      else if pkg_get_int p .PKG_LICENSE_LOGIC = LICENSE_AND then
        ucl_object_insert_key top (.string (str "and")) (str "licenselogic")
      else if pkg_get_int p .PKG_LICENSE_LOGIC = LICENSE_OR then
        ucl_object_insert_key top (.string (str "or")) (str "licenselogic")
      else top) = insert_opt top
        (if pkg_get_int p .PKG_LICENSE_LOGIC = LICENSE_SINGLE then some (.string (str "single"))
        else if pkg_get_int p .PKG_LICENSE_LOGIC = LICENSE_AND then some (.string (str "and"))
        else if pkg_get_int p .PKG_LICENSE_LOGIC = LICENSE_OR then some (.string (str "or"))
        else none) (str "licenselogic") := by
    intro top
    split
    · rfl
    · split
      · rfl
      · split <;> rfl
  have hnil : ∀ f : Bytes → Bytes × ucl_object_t, emit_map ([] : List Bytes) f = none :=
    fun _ => rfl
  have hnone : ∀ (top : ucl_object_t) (k : Bytes), insert_opt top none k = top := fun _ _ => rfl
  unfold emit_manifest_top
  simp only [hd, hconf, hprov, ne_eq, not_true_eq_false, or_self, false_and, if_false,
    emit_manifest_files, hc, hm, emit_manifest_options, emit_manifest_collections,
    emit_manifest_desc, emit_manifest_basic, recopies, List.foldl,
    pkg_key_name, hnil, hnone, manifest_build, emit_manifest_pairs]
  rw [hl, insert_opt_ite]
  rfl

theorem ucl_object_insert_key_fresh (ms : List (Bytes × ucl_object_t × List ucl_object_t))
    (e : ucl_object_t) (k : Bytes) (h : ∀ m ∈ ms, m.1 ≠ k) :
    ucl_object_insert_key (.object ms) e k = .object (ms ++ [(k, e, [])]) := by
  have hany : ms.any (fun m => m.1 == k) = false := by
    rw [List.any_eq_false]
    intro m hm
    simpa using h m hm
  simp [ucl_object_insert_key, hany]

theorem manifest_build_members (kvs : List (Bytes × Option ucl_object_t)) :
    ∀ ms0 : List (Bytes × ucl_object_t × List ucl_object_t),
      (kvs.map Prod.fst).Nodup → (∀ m ∈ ms0, m.1 ∉ kvs.map Prod.fst) →
      kvs.foldl (fun t kv => insert_opt t kv.2 kv.1) (.object ms0) =
        .object (ms0 ++ kvs.filterMap (fun kv => kv.2.map (fun v => (kv.1, v, [])))) := by
  induction kvs with
  | nil => intro ms0 _ _; simp
  | cons kv kvs ih =>
    intro ms0 hnd hdis
    obtain ⟨k, x⟩ := kv
    have hnd2 : (kvs.map Prod.fst).Nodup := (List.nodup_cons.mp hnd).2
    have hk : k ∉ kvs.map Prod.fst := (List.nodup_cons.mp hnd).1
    have hdis2 : ∀ m ∈ ms0, m.1 ∉ kvs.map Prod.fst := fun m hm hc =>
      hdis m hm (List.mem_cons_of_mem _ hc)
    cases x with
    | none =>
      have hins : insert_opt (.object ms0) none k = .object ms0 := rfl
      simp only [List.foldl_cons, List.filterMap_cons, Option.map_none']
      rw [hins]
      exact ih ms0 hnd2 hdis2
    | some v =>
      have hfresh : ∀ m ∈ ms0, m.1 ≠ k := fun m hm hc =>
        hdis m hm (by rw [hc]; exact List.mem_cons_self _ _)
      have hins : insert_opt (.object ms0) (some v) k =
          ucl_object_insert_key (.object ms0) v k := rfl
      simp only [List.foldl_cons, List.filterMap_cons, Option.map_some']
      rw [hins, ucl_object_insert_key_fresh ms0 v k hfresh, ih]
      · simp
      · exact hnd2
      · intro m hm
        rcases List.mem_append.mp hm with hm | hm
        · exact hdis2 m hm
        · simp only [List.mem_singleton] at hm
          rw [hm]; exact hk

theorem manifest_build_eq (kvs : List (Bytes × Option ucl_object_t))
    (hnd : (kvs.map Prod.fst).Nodup) :
    manifest_build kvs =
      .object (kvs.filterMap (fun kv => kv.2.map (fun v => (kv.1, v, [])))) := by
  have := manifest_build_members kvs [] hnd (by simp)
  simpa [manifest_build] using this

theorem foldl_filterMap_pairs (E : manifest_env) (keys : List pkg_manifest_key)
    (kvs : List (Bytes × Option ucl_object_t)) :
    ∀ p0, ((kvs.filterMap (fun kv => kv.2.map (fun v => (kv.1, v, ([] : List ucl_object_t))))).map
        (fun m => ({ key := some m.1, obj := m.2.1, next := m.2.2 } : ucl_node))).foldl
          (parse_manifest_step E keys) p0 = parse_pairs E keys p0 kvs := by
  induction kvs with
  | nil => intro p0; rfl
  | cons kv kvs ih =>
    intro p0
    obtain ⟨k, x⟩ := kv
    cases x with
    | none => simp only [List.filterMap_cons, Option.map_none', parse_pairs, List.foldl_cons]
              exact ih p0
    | some v =>
      simp only [List.filterMap_cons, Option.map_some', List.map_cons, List.foldl_cons,
        parse_pairs]
      exact ih _

theorem parse_manifest_build (E : manifest_env) (keys : List pkg_manifest_key) (p0 : pkg)
    (kvs : List (Bytes × Option ucl_object_t)) (hnd : (kvs.map Prod.fst).Nodup) :
    parse_manifest E p0 keys (manifest_build kvs) = (EPKG_OK, parse_pairs E keys p0 kvs) := by
  rw [manifest_build_eq kvs hnd]
  simp only [parse_manifest, ucl_iterate_object, ucl_root, if_true]
  rw [foldl_filterMap_pairs]

theorem manifest_find_key_some {keys : List pkg_manifest_key} {key : Bytes}
    {sk : pkg_manifest_key} (h : manifest_find_key keys key = some sk) :
    sk ∈ keys ∧ sk.key = key := by
  unfold manifest_find_key at h
  exact ⟨List.mem_of_find?_eq_some h, by simpa using List.find?_some h⟩

theorem parse_manifest_step_frame (E : manifest_env) (keys : List pkg_manifest_key) (p : pkg)
    (cur : ucl_node) (a : pkg_attr) (k : Bytes)
    (huniq : ∀ sk ∈ keys, sk.type = a → sk.key = k) (hk : cur.key ≠ some k) :
    pkg_field (parse_manifest_step E keys p cur) a = pkg_field p a := by
  unfold parse_manifest_step
  cases hck : cur.key with
  | none => rfl
  | some key =>
    simp only
    cases hf : manifest_find_key keys key with
    | none => rfl
    | some sk =>
      simp only
      cases HASH_FIND_UCLT sk.parser cur.obj.type with
      | none => rfl
      | some dp =>
        simp only
        obtain ⟨hmem, hkey⟩ := manifest_find_key_some hf
        apply parse_data_call_frame
        intro hat
        apply hk
        rw [hck, ← hkey, huniq sk hmem hat.symm]

theorem parse_pairs_frame (E : manifest_env) (keys : List pkg_manifest_key) (a : pkg_attr)
    (k : Bytes) (huniq : ∀ sk ∈ keys, sk.type = a → sk.key = k)
    (kvs : List (Bytes × Option ucl_object_t)) :
    ∀ p0, k ∉ kvs.map Prod.fst → pkg_field (parse_pairs E keys p0 kvs) a = pkg_field p0 a := by
  induction kvs with
  | nil => intro p0 _; rfl
  | cons kv kvs ih =>
    intro p0 hk
    obtain ⟨k2, x⟩ := kv
    have hk2 : k2 ≠ k := fun h => hk (by rw [h]; exact List.mem_cons_self _ _)
    have hrest : k ∉ kvs.map Prod.fst := fun h => hk (List.mem_cons_of_mem _ h)
    cases x with
    | none => exact ih p0 hrest
    | some v =>
      have := ih (parse_manifest_step E keys p0 { key := some k2, obj := v, next := [] }) hrest
      simp only [parse_pairs, List.foldl_cons] at this ⊢
      rw [this]
      exact parse_manifest_step_frame E keys p0 _ a k huniq (by simpa using hk2)

theorem ucl_object_t.string_of_type {v : ucl_object_t} (h : v.type = .UCL_STRING) :
    ∃ s, v = .string s := by
  cases v <;> simp [ucl_object_t.type] at h
  exact ⟨_, rfl⟩

theorem parse_manifest_step_string (E : manifest_env) (keys : List pkg_manifest_key) (p : pkg)
    (k : Bytes) (v : ucl_object_t) (a : pkg_attr) (sk : pkg_manifest_key)
    (hfind : manifest_find_key keys k = some sk) (ht : sk.type = a)
    (hp : HASH_FIND_UCLT sk.parser .UCL_STRING = some ⟨.UCL_STRING, .pkg_string⟩)
    (ha : a ≠ .PKG_LICENSE_LOGIC) (hv : v.type = .UCL_STRING) :
    pkg_field (parse_manifest_step E keys p { key := some k, obj := v, next := [] }) a =
      some (.string (if a = .PKG_DESC then c_str (urldecode (ucl_object_tostring_forced v)).2
                     else ucl_object_tostring_forced v)) := by
  simp only [parse_manifest_step, hfind, hv, hp, parse_data_call, ht]
  unfold pkg_string
  cases a <;> first | exact absurd rfl ha | exact pkg_field_pkg_set_self _ _ _

theorem parse_pairs_string (E : manifest_env) (keys : List pkg_manifest_key) (a : pkg_attr)
    (k : Bytes) (sk : pkg_manifest_key)
    (hfind : manifest_find_key keys k = some sk) (ht : sk.type = a)
    (hp : HASH_FIND_UCLT sk.parser .UCL_STRING = some ⟨.UCL_STRING, .pkg_string⟩)
    (ha : a ≠ .PKG_LICENSE_LOGIC)
    (huniq : ∀ sk ∈ keys, sk.type = a → sk.key = k)
    (kvs : List (Bytes × Option ucl_object_t)) :
    ∀ p0, (kvs.map Prod.fst).Nodup →
      (∀ v, kvs.lookup k = some (some v) → v.type = .UCL_STRING) →
      pkg_field (parse_pairs E keys p0 kvs) a =
        match kvs.lookup k with
        | some (some v) =>
          some (.string (if a = .PKG_DESC then c_str (urldecode (ucl_object_tostring_forced v)).2
                         else ucl_object_tostring_forced v))
        | _ => pkg_field p0 a := by
  induction kvs with
  | nil => intro p0 _ _; rfl
  | cons kv kvs ih =>
    intro p0 hnd hv
    obtain ⟨k2, x⟩ := kv
    have hnd2 : (kvs.map Prod.fst).Nodup := (List.nodup_cons.mp hnd).2
    have hk2 : k2 ∉ kvs.map Prod.fst := (List.nodup_cons.mp hnd).1
    by_cases hkk : k = k2
    · subst hkk
      have hl : ((k, x) :: kvs).lookup k = some x := by simp [List.lookup]
      rw [hl]
      have hrest := parse_pairs_frame E keys a k huniq kvs
      cases x with
      | none =>
        have := hrest p0 hk2
        simpa [parse_pairs] using this
      | some v =>
        have hvt : v.type = .UCL_STRING := hv v hl
        have := hrest (parse_manifest_step E keys p0 { key := some k, obj := v, next := [] }) hk2
        simp only [parse_pairs, List.foldl_cons] at this ⊢
        rw [this]
        exact parse_manifest_step_string E keys p0 k v a sk hfind ht hp ha hvt
    · have hl : ((k2, x) :: kvs).lookup k = kvs.lookup k := by
        have hb : (k == k2) = false := beq_eq_false_iff_ne.mpr hkk
        simp only [List.lookup, hb]
      rw [hl] at hv ⊢
      cases x with
      | none =>
        have := ih p0 hnd2 hv
        simpa [parse_pairs] using this
      | some v =>
        have := ih (parse_manifest_step E keys p0 { key := some k2, obj := v, next := [] }) hnd2 hv
        simp only [parse_pairs, List.foldl_cons] at this ⊢
        rw [this]
        rw [parse_manifest_step_frame E keys p0 _ a k huniq
          (by simpa using fun h => hkk h.symm)]

theorem pkg_fields_typed_field {p : pkg} (h : pkg_fields_typed p = true) {a : pkg_attr}
    {o : ucl_object_t} (ho : pkg_field p a = some o) : o.type = pkg_field_kind a := by
  unfold pkg_fields_typed at h
  unfold pkg_field at ho
  rw [List.all_eq_true] at h
  have hmem : (a, o) ∈ p.fields := by
    generalize p.fields = l at ho
    induction l with
    | nil => simp [List.lookup] at ho
    | cons f l ih =>
      obtain ⟨b, w⟩ := f
      by_cases hb : a = b
      · subst hb
        simp [List.lookup] at ho
        simp [ho]
      · have hbf : (a == b) = false := beq_eq_false_iff_ne.mpr hb
        simp only [List.lookup, hbf] at ho
        exact List.mem_cons_of_mem _ (ih ho)
  simpa using h (a, o) hmem

theorem ucl_object_insert_key_type (top e : ucl_object_t) (k : Bytes) :
    (ucl_object_insert_key top e k).type = top.type := by
  unfold ucl_object_insert_key
  cases top <;> try rfl
  simp only
  split <;> rfl

theorem emit_map_type {α : Type} (l : List α) (entry : α → Bytes × ucl_object_t)
    {v : ucl_object_t} (h : emit_map l entry = some v) : v.type = .UCL_OBJECT := by
  unfold emit_map at h
  have key : ∀ (l : List α) (acc : Option ucl_object_t),
      (∀ w, acc = some w → w.type = .UCL_OBJECT) →
      ∀ w, l.foldl (fun (map : Option ucl_object_t) a =>
        some (ucl_object_insert_key (map.getD (.object [])) (entry a).2 (entry a).1)) acc = some w →
        w.type = .UCL_OBJECT := by
    intro l
    induction l with
    | nil => intro acc hacc w hw; exact hacc w hw
    | cons a l ih =>
      intro acc hacc w hw
      refine ih _ ?_ w hw
      intro w2 hw2
      cases hw2
      rw [ucl_object_insert_key_type]
      cases acc with
      | none => rfl
      | some o => exact hacc o rfl
  exact key l none (by simp) v h

theorem emit_seq_type {α : Type} (l : List α) (elt : α → ucl_object_t)
    {v : ucl_object_t} (h : emit_seq l elt = some v) : v.type = .UCL_ARRAY := by
  unfold emit_seq at h
  cases l with
  | nil => simp at h
  | cons a l => simp at h; rw [← h]; rfl

theorem manifest_key_mismatch_type (keys : List pkg_manifest_key) (k : Bytes)
    (v w : ucl_object_t) (h : v.type = w.type)
    (hw : manifest_key_mismatch keys { key := some k, obj := w, next := [] } = false) :
    manifest_key_mismatch keys { key := some k, obj := v, next := [] } = false := by
  simpa only [manifest_key_mismatch, h] using hw

theorem emit_manifest_pairs_registered (p : pkg) (d : Bytes) (htyped : pkg_fields_typed p = true) :
    ∀ kv ∈ emit_manifest_pairs p d, ∀ v, kv.2 = some v →
      manifest_key_mismatch (pkg_manifest_keys_new [])
        { key := some kv.1, obj := v, next := [] } = false := by
  have hf : ∀ (a : pkg_attr) (k : Bytes) (w v : ucl_object_t), pkg_field_kind a = w.type →
      manifest_key_mismatch (pkg_manifest_keys_new []) { key := some k, obj := w, next := [] }
        = false →
      pkg_field p a = some v →
      manifest_key_mismatch (pkg_manifest_keys_new []) { key := some k, obj := v, next := [] }
        = false := fun a k w v hk hw hv =>
    manifest_key_mismatch_type _ k v w ((pkg_fields_typed_field htyped hv).trans hk) hw
  intro kv hkv v hv
  simp only [emit_manifest_pairs, List.mem_cons, List.mem_singleton, List.not_mem_nil,
    or_false] at hkv
  rcases hkv with rfl | rfl | rfl | rfl | rfl | rfl | rfl | rfl | rfl | rfl | rfl | rfl | rfl |
    rfl | rfl | rfl | rfl | rfl | rfl | rfl | rfl | rfl | rfl
  · exact hf .PKG_NAME (str "name") (.string []) v rfl (by decide) hv
  · exact hf .PKG_ORIGIN (str "origin") (.string []) v rfl (by decide) hv
  · exact hf .PKG_VERSION (str "version") (.string []) v rfl (by decide) hv
  · exact hf .PKG_ARCH (str "arch") (.string []) v rfl (by decide) hv
  · exact hf .PKG_MAINTAINER (str "maintainer") (.string []) v rfl (by decide) hv
  · exact hf .PKG_PREFIX (str "prefix") (.string []) v rfl (by decide) hv
  · exact hf .PKG_WWW (str "www") (.string []) v rfl (by decide) hv
  · exact hf .PKG_REPOPATH (str "path") (.string []) v rfl (by decide) hv
  · exact hf .PKG_CKSUM (str "sum") (.string []) v rfl (by decide) hv
  · exact hf .PKG_FLATSIZE (str "flatsize") (.int 0) v rfl (by decide) hv
  · refine manifest_key_mismatch_type _ (str "comment") v (.string []) ?_ (by decide)
    simp only at hv
    cases hc : pkg_get_string p .PKG_COMMENT with
    | none => rw [hc] at hv; cases hv
    | some c => rw [hc] at hv; cases hv; rfl
  · refine manifest_key_mismatch_type _ (str "licenselogic") v (.string []) ?_ (by decide)
    simp only at hv
    split at hv
    · cases hv; rfl
    · split at hv
      · cases hv; rfl
      · split at hv
        · cases hv; rfl
        · cases hv
  · exact hf .PKG_LICENSES (str "licenses") (.array []) v rfl (by decide) hv
  · refine manifest_key_mismatch_type _ (str "pkgsize") v (.int 0) ?_ (by decide)
    simp only at hv
    split at hv
    · cases hv; rfl
    · cases hv
  · refine manifest_key_mismatch_type _ (str "desc") v (.string []) ?_ (by decide)
    cases hv; rfl
  · exact manifest_key_mismatch_type _ (str "deps") v (.object []) (emit_map_type _ _ hv) (by decide)
  · exact hf .PKG_CATEGORIES (str "categories") (.array []) v rfl (by decide) hv
  · exact manifest_key_mismatch_type _ (str "users") v (.array []) (emit_seq_type _ _ hv) (by decide)
  · exact manifest_key_mismatch_type _ (str "groups") v (.array []) (emit_seq_type _ _ hv) (by decide)
  · exact manifest_key_mismatch_type _ (str "shlibs_required") v (.array []) (emit_seq_type _ _ hv) (by decide)
  · exact manifest_key_mismatch_type _ (str "shlibs_provided") v (.array []) (emit_seq_type _ _ hv) (by decide)
  · exact manifest_key_mismatch_type _ (str "options") v (.object []) (emit_map_type _ _ hv) (by decide)
  · refine manifest_key_mismatch_type _ (str "message") v (.string []) ?_ (by decide)
    simp only at hv
    split at hv
    · split at hv
      · cases hv; rfl
      · cases hv
    · cases hv

theorem emit_manifest_pairs_nodup (p : pkg) (d : Bytes) :
    ((emit_manifest_pairs p d).map Prod.fst).Nodup := by
  have h : (emit_manifest_pairs p d).map Prod.fst =
      [str "name", str "origin", str "version", str "arch", str "maintainer", str "prefix",
       str "www", str "path", str "sum", str "flatsize", str "comment", str "licenselogic",
       str "licenses", str "pkgsize", str "desc", str "deps", str "categories", str "users",
       str "groups", str "shlibs_required", str "shlibs_provided", str "options",
       str "message"] := rfl
  rw [h]
  decide

theorem emit_parse_no_fallback (E : manifest_env) (p : pkg) (d buf : Bytes)
    (htyped : pkg_fields_typed p = true)
    (hparse : E.ucl_parse buf = some (some (manifest_build (emit_manifest_pairs p d)))) :
    pkg_parse_manifest_fallback E buf (pkg_manifest_keys_new []) = false := by
  unfold pkg_parse_manifest_fallback
  rw [hparse]
  simp only
  rw [manifest_build_eq _ (emit_manifest_pairs_nodup p d)]
  simp only [ucl_iterate_object, ucl_root, if_true]
  rw [List.any_eq_false]
  intro n hn
  simp only [List.mem_map, List.mem_filterMap] at hn
  obtain ⟨m, ⟨kv, hkv, hm⟩, rfl⟩ := hn
  cases hx : kv.2 with
  | none => rw [hx] at hm; cases hm
  | some v =>
    rw [hx] at hm
    cases hm
    simpa using emit_manifest_pairs_registered p d htyped kv hkv v hx

theorem emit_parse_string_field (E : manifest_env) (p : pkg) (d : Bytes)
    (htyped : pkg_fields_typed p = true) (a : pkg_attr) (k : Bytes) (sk : pkg_manifest_key)
    (hfind : manifest_find_key (pkg_manifest_keys_new []) k = some sk) (ht : sk.type = a)
    (hp : HASH_FIND_UCLT sk.parser .UCL_STRING = some ⟨.UCL_STRING, .pkg_string⟩)
    (ha : a ≠ .PKG_LICENSE_LOGIC) (hdesc : a ≠ .PKG_DESC)
    (hkind : pkg_field_kind a = .UCL_STRING)
    (huniq : ∀ sk ∈ pkg_manifest_keys_new [], sk.type = a → sk.key = k)
    (hl : (emit_manifest_pairs p d).lookup k = some (pkg_field p a)) :
    pkg_get_string (parse_pairs E (pkg_manifest_keys_new []) pkg_new (emit_manifest_pairs p d)) a
      = pkg_get_string p a := by
  have hty : ∀ v, (emit_manifest_pairs p d).lookup k = some (some v) → v.type = .UCL_STRING := by
    intro v hv
    rw [hl] at hv
    exact (pkg_fields_typed_field htyped (Option.some.inj hv)).trans hkind
  have h := parse_pairs_string E (pkg_manifest_keys_new []) a k sk hfind ht hp ha huniq
    (emit_manifest_pairs p d) pkg_new (emit_manifest_pairs_nodup p d) hty
  unfold pkg_get_string
  rw [h, hl]
  cases hf : pkg_field p a with
  | none => rfl
  | some o =>
    obtain ⟨s, rfl⟩ := ucl_object_t.string_of_type
      ((pkg_fields_typed_field htyped hf).trans hkind)
    simp [hdesc, ucl_object_tostring_forced]

/-- Claim C4, amended.  Take a package whose attribute values have the kind
of their attribute, whose description is the C string `d`, and that has no
conflicts and no provides, and let the notation library read back from the
emitted text the object it was emitted from.  Then `emit_manifest` in compact
mode returns `EPKG_OK`, `pkg_parse_manifest` on its output with the schema
registry returns `EPKG_OK` without using the fallback, name, origin, version,
arch and prefix of the parsed package are those of the original, and its
description is `d` without its leading and trailing white space. -/
theorem emit_parse_roundtrip (Ee : emit_env) (Ep : manifest_env) (p : pkg) (d : Bytes)
    (htyped : pkg_fields_typed p = true)
    (hd : pkg_get_string p .PKG_DESC = some d) (hcs : IsCString d)
    (hconf : p.conflicts = []) (hprov : p.provides = [])
    (hrt : ∀ top, emit_manifest_top Ee.option_value p PKG_MANIFEST_EMIT_COMPACT = some top →
      Ep.ucl_parse (Ee.ucl_object_emit false top) = some (some top)) :
    ∃ buf q, emit_manifest Ee p PKG_MANIFEST_EMIT_COMPACT = some (EPKG_OK, buf) ∧
      pkg_parse_manifest_fallback Ep buf (pkg_manifest_keys_new []) = false ∧
      pkg_parse_manifest Ep pkg_new buf (pkg_manifest_keys_new []) = (EPKG_OK, q) ∧
      (∀ a ∈ [pkg_attr.PKG_NAME, .PKG_ORIGIN, .PKG_VERSION, .PKG_ARCH, .PKG_PREFIX],
        pkg_get_string q a = pkg_get_string p a) ∧
      pkg_get_string q .PKG_DESC = some (ucl_string_trim d) := by
  have htop := emit_manifest_top_eq_build Ee.option_value p d hd hconf hprov
  have hparse := hrt _ htop
  have hfb := emit_parse_no_fallback Ep p d _ htyped hparse
  refine ⟨Ee.ucl_object_emit false (manifest_build (emit_manifest_pairs p d)),
    parse_pairs Ep (pkg_manifest_keys_new []) pkg_new (emit_manifest_pairs p d), ?_, hfb, ?_, ?_, ?_⟩
  · unfold emit_manifest
    rw [htop]
    rfl
  · unfold pkg_parse_manifest
    simp only [hfb, hparse, Option.getD_some, Bool.false_eq_true, if_false]
    exact parse_manifest_build Ep _ pkg_new _ (emit_manifest_pairs_nodup p d)
  · intro a ha
    simp only [List.mem_cons, List.mem_singleton, List.not_mem_nil, or_false] at ha
    rcases ha with rfl | rfl | rfl | rfl | rfl
    · exact emit_parse_string_field Ep p d htyped .PKG_NAME (str "name")
        ⟨str "name", .PKG_NAME, [⟨.UCL_STRING, .pkg_string⟩, ⟨.UCL_INT, .pkg_string⟩]⟩
        (by decide) rfl (by decide) (by decide) (by decide) rfl (by decide) rfl
    · exact emit_parse_string_field Ep p d htyped .PKG_ORIGIN (str "origin")
        ⟨str "origin", .PKG_ORIGIN, [⟨.UCL_STRING, .pkg_string⟩]⟩
        (by decide) rfl (by decide) (by decide) (by decide) rfl (by decide) rfl
    · exact emit_parse_string_field Ep p d htyped .PKG_VERSION (str "version")
        ⟨str "version", .PKG_VERSION, [⟨.UCL_STRING, .pkg_string⟩, ⟨.UCL_INT, .pkg_string⟩]⟩
        (by decide) rfl (by decide) (by decide) (by decide) rfl (by decide) rfl
    · exact emit_parse_string_field Ep p d htyped .PKG_ARCH (str "arch")
        ⟨str "arch", .PKG_ARCH, [⟨.UCL_STRING, .pkg_string⟩]⟩
        (by decide) rfl (by decide) (by decide) (by decide) rfl (by decide) rfl
    · exact emit_parse_string_field Ep p d htyped .PKG_PREFIX (str "prefix")
        ⟨str "prefix", .PKG_PREFIX, [⟨.UCL_STRING, .pkg_string⟩]⟩
        (by decide) rfl (by decide) (by decide) (by decide) rfl (by decide) rfl
  · have hty : ∀ v, (emit_manifest_pairs p d).lookup (str "desc") = some (some v) →
        v.type = .UCL_STRING := by
      intro v hv
      have hl : (emit_manifest_pairs p d).lookup (str "desc") =
          some (some (.string (ucl_string_trim (urlencode d).2))) := rfl
      rw [hl] at hv
      cases hv
      rfl
    have h := parse_pairs_string Ep (pkg_manifest_keys_new []) .PKG_DESC (str "desc")
      ⟨str "desc", .PKG_DESC, [⟨.UCL_STRING, .pkg_string⟩]⟩ (by decide) rfl (by decide)
      (by decide) (by decide) (emit_manifest_pairs p d) pkg_new
      (emit_manifest_pairs_nodup p d) hty
    have hl : (emit_manifest_pairs p d).lookup (str "desc") =
        some (some (.string (ucl_string_trim (urlencode d).2))) := rfl
    unfold pkg_get_string
    rw [h, hl]
    simp only [ucl_object_tostring_forced, if_true]
    rw [urldecode_trim_urlencode d hcs]

/-- Claim C4, counterexample.  The package `demo_manifest_pkg` is valid and
its description starts with a space.  `emit_manifest` in compact mode returns
`EPKG_OK`; the notation library reads the emitted object back;
`pkg_parse_manifest` returns `EPKG_OK`; and the description of the parsed
package has lost the leading space, so it is not the description of the
original. -/
theorem emit_parse_desc_counterexample :
    pkg_is_valid demo_manifest_pkg = EPKG_OK ∧
    emit_manifest demo_emit_env demo_manifest_pkg PKG_MANIFEST_EMIT_COMPACT
      = some (EPKG_OK, []) ∧
    demo_manifest_env.ucl_parse [] =
      (emit_manifest_top demo_emit_env.option_value demo_manifest_pkg
        PKG_MANIFEST_EMIT_COMPACT).map some ∧
    (pkg_parse_manifest demo_manifest_env pkg_new [] (pkg_manifest_keys_new [])).1 = EPKG_OK ∧
    pkg_get_string (pkg_parse_manifest demo_manifest_env pkg_new []
      (pkg_manifest_keys_new [])).2 .PKG_DESC = some (str "A demo\npackage") ∧
    pkg_get_string demo_manifest_pkg .PKG_DESC = some (str " A demo\npackage") :=
  ⟨by decide, by decide, rfl, by decide, by decide, by decide⟩

theorem emit_parse_roundtrip_witness :
    pkg_fields_typed demo_manifest_pkg = true ∧
    pkg_get_string demo_manifest_pkg .PKG_DESC = some (str " A demo\npackage") ∧
    ∃ buf q, emit_manifest demo_emit_env demo_manifest_pkg PKG_MANIFEST_EMIT_COMPACT
        = some (EPKG_OK, buf) ∧
      pkg_parse_manifest_fallback demo_manifest_env buf (pkg_manifest_keys_new []) = false ∧
      pkg_parse_manifest demo_manifest_env pkg_new buf (pkg_manifest_keys_new [])
        = (EPKG_OK, q) ∧
      (∀ a ∈ [pkg_attr.PKG_NAME, .PKG_ORIGIN, .PKG_VERSION, .PKG_ARCH, .PKG_PREFIX],
        pkg_get_string q a = pkg_get_string demo_manifest_pkg a) ∧
      pkg_get_string q .PKG_DESC = some (ucl_string_trim (str " A demo\npackage")) :=
  ⟨by decide, by decide,
   emit_parse_roundtrip demo_emit_env demo_manifest_env demo_manifest_pkg
     (str " A demo\npackage") (by decide) (by decide) (by unfold IsCString; decide) rfl rfl
     (fun _ h => congrArg (Option.map some) h)⟩

theorem urlencode_byte_spec (b : Nat) (h : b < 256) : urlencode_byte b = urlencode_spec_byte b := by
  interval_cases b <;> rfl

/-- Claim C12.  For every C string `s`, `urlencode` returns `EPKG_OK` and
puts into the buffer the concatenation, over the bytes of `s` in order, of
the byte itself when it is ASCII and not `%`, and otherwise of `%` followed by
the two lowercase hexadecimal digits of its unsigned value. -/
theorem urlencode_refines_spec (s : Bytes) (hs : IsCString s) :
    urlencode s = (EPKG_OK, urlencode_spec s) := by
  have h2 : (urlencode s).2 = urlencode_spec s := by
    rw [urlencode_eq_flatMap]
    unfold urlencode_spec
    rw [List.flatMap]
    congr 1
    apply List.map_congr_left
    intro b hb
    exact urlencode_byte_spec b (hs b hb).2
  exact Prod.ext (urlencode_ok s) h2

theorem urlencode_refines_spec_witness :
    IsCString [97, 37, 233, 10] ∧
    urlencode [97, 37, 233, 10] = (EPKG_OK, urlencode_spec [97, 37, 233, 10]) ∧
    urlencode_spec [97, 37, 233, 10] = str "a%25%e9\n" :=
  ⟨by unfold IsCString; decide, urlencode_refines_spec _ (by unfold IsCString; decide), by decide⟩

theorem urldecode_code (s : Bytes) :
    (urldecode s).1 = EPKG_OK ∨ ((urldecode s).1 = EPKG_FATAL ∧ s.getLast? = some 37) := by
  induction s using urldecode.induct with
  | case1 => left; rfl
  | case2 c rest hc ih =>
    rw [urldecode_cons_ne c rest hc]
    rcases ih with h | ⟨h, hl⟩
    · left; exact h
    · right
      refine ⟨h, ?_⟩
      cases rest with
      | nil => simp at hl
      | cons x xs => simpa [List.getLast?_cons_cons] using hl
  | case3 c hc =>
    have : c = 37 := by simpa using hc
    subst this
    right; exact ⟨by simp [urldecode], rfl⟩
  | case4 c hc h0 =>
    have : c = 37 := by simpa using hc
    subst this
    left; simp [urldecode]
  | case5 c hc h0 h1 rest2 ih =>
    have : c = 37 := by simpa using hc
    subst this
    rw [urldecode_escape]
    rcases ih with h | ⟨h, hl⟩
    · left; exact h
    · right
      refine ⟨h, ?_⟩
      cases rest2 with
      | nil => simp at hl
      | cons x xs => simpa [List.getLast?_cons_cons] using hl

theorem urldecode_append_percent (pre : Bytes) (h : 37 ∉ pre) :
    urldecode (pre ++ [37]) = (EPKG_FATAL, pre) := by
  induction pre with
  | nil => simp [urldecode]
  | cons c rest ih =>
    have hc : c ≠ 37 := fun e => h (by simp [e])
    have hr : 37 ∉ rest := fun e => h (List.mem_cons_of_mem _ e)
    rw [List.cons_append, urldecode_cons_ne c _ hc, ih hr]

theorem strtol16_no_digit (h0 : Nat) (t : Bytes) (hx : is_xdigit h0 = false)
    (hsp : isspace h0 = false) (hplus : h0 ≠ 43) (hminus : h0 ≠ 45) (ht : t.length ≤ 1) :
    strtol16 (h0 :: t) = (0, true) := by
  have hskip : skip_space (h0 :: t) = h0 :: t := by simp [skip_space, hsp]
  have hsign : strto_sign (h0 :: t) = (false, h0 :: t) := by
    unfold strto_sign
    split
    · rename_i heq; cases heq; exact absurd rfl hminus
    · rename_i heq; cases heq; exact absurd rfl hplus
    · rfl
  have hpre : strto_prefix16 (h0 :: t) = h0 :: t := by
    unfold strto_prefix16
    split
    · rename_i heq
      cases heq
      simp at ht
    · rfl
  have hdig : strto_digits 16 (h0 :: t) none = none := by
    unfold strto_digits
    unfold is_xdigit at hx
    cases hd : digitval h0 with
    | none => rfl
    | some d =>
      rw [hd] at hx
      simp only [decide_eq_false_iff_not, not_lt] at hx
      simp [hx]
  simp only [strtol16, hskip, hsign, hpre, hdig]

/-- Claim C13, amended.  `urldecode` returns `EPKG_OK` or `EPKG_FATAL`; it
returns `EPKG_FATAL` only when the input ends in `%`, and it does so for every
input that has no `%` but at its end; a `%` followed by two characters, or by
one character and the end of the input, is copied to the output unchanged
with them when the first of them is neither a hexadecimal digit, white space
nor a sign, so that `strtol` converts nothing. -/
theorem urldecode_outcome (s : Bytes) :
    ((urldecode s).1 = EPKG_OK ∨ (urldecode s).1 = EPKG_FATAL) ∧
    ((urldecode s).1 = EPKG_FATAL → s.getLast? = some 37) ∧
    (37 ∉ s → urldecode (s ++ [37]) = (EPKG_FATAL, s)) ∧
    (∀ h0 h1, is_xdigit h0 = false → isspace h0 = false → h0 ≠ 43 → h0 ≠ 45 →
      urldecode (37 :: h0 :: h1 :: s) =
        ((urldecode s).1, 37 :: h0 :: h1 :: (urldecode s).2)) ∧
    (∀ h0, is_xdigit h0 = false → isspace h0 = false → h0 ≠ 43 → h0 ≠ 45 →
      urldecode [37, h0] = (EPKG_OK, [37, h0])) := by
  refine ⟨?_, ?_, urldecode_append_percent s, ?_, ?_⟩
  · rcases urldecode_code s with h | h
    · exact Or.inl h
    · exact Or.inr h.1
  · intro hf
    rcases urldecode_code s with h | h
    · rw [h] at hf; exact absurd hf (by decide)
    · exact h.2
  · intro h0 h1 hx hsp hp hm
    rw [urldecode_escape]
    simp only [urldecode_hex, strtol16_no_digit h0 [h1] hx hsp hp hm (by simp), if_true,
      List.cons_append, List.nil_append]
  · intro h0 hx hsp hp hm
    simp only [urldecode, urldecode_hex, strtol16_no_digit h0 [] hx hsp hp hm (by simp)]
    simp

/-- Claim C13, counterexample.  On the input `%`, and on `abc%`, `urldecode`
returns `EPKG_FATAL`, and the `%` is not copied to the output. -/
theorem urldecode_outcome_counterexample :
    urldecode (str "%") = (EPKG_FATAL, []) ∧ urldecode (str "abc%") = (EPKG_FATAL, str "abc") := by
  decide

theorem urldecode_outcome_witness :
    urldecode (str "%g1zz") = ((urldecode (str "zz")).1, str "%g1" ++ (urldecode (str "zz")).2) ∧
    (urldecode (str "zz%")).1 = EPKG_FATAL ∧ (str "zz%").getLast? = some 37 :=
  ⟨(urldecode_outcome (str "zz")).2.2.2.1 103 49 (by decide) (by decide) (by decide) (by decide),
   by decide,
   (urldecode_outcome (str "zz%")).2.1 (by decide)⟩

theorem find_key_chain (ms : List (Bytes × ucl_object_t × List ucl_object_t))
    (e : ucl_object_t) (k k2 : Bytes) :
    ((ms.map (fun m => if m.1 == k2 then (m.1, m.2.1, m.2.2 ++ [e]) else m)).find?
        (fun m => m.1 == k)).map (fun m => m.2.1) =
      (ms.find? (fun m => m.1 == k)).map (fun m => m.2.1) := by
  induction ms with
  | nil => rfl
  | cons m ms ih =>
    have hkey : (if m.1 == k2 then (m.1, m.2.1, m.2.2 ++ [e]) else m).1 = m.1 := by
      split <;> rfl
    have hval : (if m.1 == k2 then (m.1, m.2.1, m.2.2 ++ [e]) else m).2.1 = m.2.1 := by
      split <;> rfl
    rw [List.map_cons, List.find?_cons, List.find?_cons, hkey]
    cases hb : m.1 == k with
    | true => simp only [Option.map_some', hval]
    | false => exact ih

theorem ucl_object_find_key_insert_ne (top e : ucl_object_t) (k k2 : Bytes) (h : k2 ≠ k) :
    ucl_object_find_key (ucl_object_insert_key top e k2) k = ucl_object_find_key top k := by
  cases top with
  | object ms =>
    simp only [ucl_object_insert_key]
    split
    · simp only [ucl_object_find_key]
      exact find_key_chain ms e k k2
    · simp only [ucl_object_find_key, List.find?_append]
      have : (k2 == k) = false := beq_eq_false_iff_ne.mpr h
      simp [this]
  | _ => rfl

theorem ucl_object_find_key_insert_opt_ne (top : ucl_object_t) (e : Option ucl_object_t)
    (k k2 : Bytes) (h : k2 ≠ k) :
    ucl_object_find_key (insert_opt top e k2) k = ucl_object_find_key top k := by
  cases e with
  | none => rfl
  | some e => exact ucl_object_find_key_insert_ne top e k k2 h

theorem ucl_object_find_key_insert_new (top e : ucl_object_t) (k : Bytes) (pre : List Bytes)
    (hw : KeysWithin top pre) (hk : k ∉ pre) :
    ucl_object_find_key (ucl_object_insert_key top e k) k = some e := by
  obtain ⟨⟨ms, rfl⟩, hs⟩ := hw
  have hfresh : ∀ m ∈ ms, m.1 ≠ k := by
    intro m hm hmk
    apply hk
    apply hs.subset
    simp only [ucl_object_keys, List.mem_map]
    exact ⟨m, hm, hmk⟩
  have hany : ms.any (fun m => m.1 == k) = false := by
    rw [List.any_eq_false]
    intro m hm
    simpa using hfresh m hm
  have hfind : ms.find? (fun m => m.1 == k) = none := by
    rw [List.find?_eq_none]
    intro m hm
    simpa using hfresh m hm
  simp [ucl_object_insert_key, hany, ucl_object_find_key, List.find?_append, hfind]

theorem emit_manifest_top_desc (ov : Option Bytes) (p : pkg) (flags : Nat)
    (top : ucl_object_t) (d : Bytes) (h : emit_manifest_top ov p flags = some top)
    (hd : pkg_get_string p .PKG_DESC = some d) :
    ucl_object_find_key top (str "desc") = some (.string (ucl_string_trim (urlencode d).2)) := by
  unfold emit_manifest_top at h
  rw [hd] at h
  simp only at h
  split at h
  · cases h
  · cases h
    have hbase : ucl_object_find_key (emit_manifest_desc d (emit_manifest_basic p)) (str "desc")
        = some (.string (ucl_string_trim (urlencode d).2)) :=
      ucl_object_find_key_insert_new _ _ _ _ (emit_manifest_basic_KeysWithin p) (by decide)
    have hmsg : ∀ t, ucl_object_find_key (emit_manifest_message p t) (str "desc") =
        ucl_object_find_key t (str "desc") := by
      intro t
      unfold emit_manifest_message
      split
      · split
        · exact ucl_object_find_key_insert_ne _ _ _ _ (by decide)
        · rfl
      · rfl
    have hfiles : ∀ t, ucl_object_find_key (emit_manifest_files p flags t) (str "desc") =
        ucl_object_find_key t (str "desc") := by
      intro t
      unfold emit_manifest_files
      split
      · split
        · simp only
          rw [ucl_object_find_key_insert_opt_ne _ _ _ _ (by decide),
            ucl_object_find_key_insert_opt_ne _ _ _ _ (by decide),
            ucl_object_find_key_insert_opt_ne _ _ _ _ (by decide)]
        · simp only
          rw [ucl_object_find_key_insert_opt_ne _ _ _ _ (by decide)]
      · rfl
    have hopt : ∀ t, ucl_object_find_key (emit_manifest_options (ov.getD []) p t) (str "desc") =
        ucl_object_find_key t (str "desc") := by
      intro t
      unfold emit_manifest_options
      simp only
      rw [ucl_object_find_key_insert_opt_ne _ _ _ _ (by decide),
        ucl_object_find_key_insert_opt_ne _ _ _ _ (by decide),
        ucl_object_find_key_insert_opt_ne _ _ _ _ (by decide)]
    have hcol : ∀ t, ucl_object_find_key (emit_manifest_collections p t) (str "desc") =
        ucl_object_find_key t (str "desc") := by
      intro t
      unfold emit_manifest_collections
      simp only
      rw [ucl_object_find_key_insert_opt_ne _ _ _ _ (by decide),
        ucl_object_find_key_insert_opt_ne _ _ _ _ (by decide),
        ucl_object_find_key_insert_opt_ne _ _ _ _ (by decide),
        ucl_object_find_key_insert_opt_ne _ _ _ _ (by decide),
        ucl_object_find_key_insert_opt_ne _ _ _ _ (by decide),
        ucl_object_find_key_insert_opt_ne _ _ _ _ (by decide)]
    rw [hmsg, hfiles, hopt, hcol, hbase]

theorem hexdigit_ge (n : Nat) : 48 ≤ hexdigit n := by
  unfold hexdigit; split <;> omega

theorem hexdigit_eq_zero_char {n : Nat} (h : hexdigit n = 48) : n = 0 := by
  unfold hexdigit at h; split at h <;> omega

theorem urlencode_count_newline (s : Bytes) : (urlencode s).2.count 10 = s.count 10 := by
  induction s with
  | nil => rfl
  | cons c rest ih =>
    simp only [urlencode]
    have h1 := hexdigit_ge (c % 256 / 16)
    have h2 := hexdigit_ge (c % 256 % 16)
    split
    · rename_i henc
      have hc : c ≠ 10 := by
        intro e; subst e; simp [isascii] at henc
      have e1 : ¬ (37 : Nat) = 10 := by decide
      have e2 : ¬ hexdigit (c % 256 / 16) = 10 := by omega
      have e3 : ¬ hexdigit (c % 256 % 16) = 10 := by omega
      simp only [printf_02x, List.cons_append, List.nil_append, List.count_cons, ih, beq_iff_eq,
        e1, e2, e3, hc, if_false, Nat.add_zero]
    · simp only [List.count_cons, ih]

theorem urlencode_no_percent_zero (s : Bytes) (hs : IsCString s) :
    ¬ [37, 48] <:+: (urlencode s).2 := by
  induction s with
  | nil => simp [urlencode]
  | cons c rest ih =>
    have hrest : IsCString rest := fun b hb => hs b (List.mem_cons_of_mem _ hb)
    have hc : c < 256 := (hs c (List.mem_cons_self _ _)).2
    have ih := ih hrest
    have h1 := hexdigit_ge (c % 256 / 16)
    have h2 := hexdigit_ge (c % 256 % 16)
    simp only [urlencode]
    split
    · rename_i henc
      have hx0 : hexdigit (c % 256 / 16) ≠ 48 := by
        intro e
        have hz := hexdigit_eq_zero_char e
        have : 128 ≤ c ∨ c = 37 := by
          simp only [isascii, Bool.or_eq_true, Bool.not_eq_true', decide_eq_false_iff_not,
            not_lt, beq_iff_eq] at henc
          exact henc
        omega
      simp only [printf_02x, List.cons_append, List.nil_append]
      intro hin
      rw [List.infix_cons_iff] at hin
      rcases hin with hp | hin
      · rw [List.cons_prefix_cons, List.cons_prefix_cons] at hp
        exact hx0 hp.2.1.symm
      · rw [List.infix_cons_iff] at hin
        rcases hin with hp | hin
        · rw [List.cons_prefix_cons] at hp
          omega
        · rw [List.infix_cons_iff] at hin
          rcases hin with hp | hin
          · rw [List.cons_prefix_cons] at hp
            omega
          · exact ih hin
    · rename_i henc
      have hc37 : c ≠ 37 := by
        intro e; subst e; simp at henc
      intro hin
      rw [List.infix_cons_iff] at hin
      rcases hin with hp | hin
      · rw [List.cons_prefix_cons] at hp
        exact hc37 hp.1.symm
      · exact ih hin

theorem ucl_string_trim_isInfix (s : Bytes) : ucl_string_trim s <:+: s := by
  unfold ucl_string_trim
  have h1 : s.dropWhile ucl_whitespace <:+ s := List.dropWhile_suffix _
  have h2 : ((s.dropWhile ucl_whitespace).reverse.dropWhile ucl_whitespace).reverse <+:
      s.dropWhile ucl_whitespace := by
    rw [← List.reverse_suffix, List.reverse_reverse]
    exact List.dropWhile_suffix _
  exact h2.isInfix.trans h1.isInfix

/-- Claim C14, amended.  For every package whose description is the C string
`d`, the value `emit_manifest` inserts under `desc` is the URL-encoding of `d`
with leading and trailing white space removed, which is the URL-encoding of
the trimmed description: it holds as many raw newline bytes as the trimmed
description does, and nowhere the characters `%0a`. -/
theorem emit_manifest_desc_newline (ov : Option Bytes) (p : pkg) (flags : Nat)
    (top : ucl_object_t) (d : Bytes) (htop : emit_manifest_top ov p flags = some top)
    (hd : pkg_get_string p .PKG_DESC = some d) (hcs : IsCString d) :
    ∃ v, ucl_object_find_key top (str "desc") = some (.string v) ∧
      v = ucl_string_trim (urlencode d).2 ∧
      v = (urlencode (ucl_string_trim d)).2 ∧
      v.count 10 = (ucl_string_trim d).count 10 ∧
      ¬ str "%0a" <:+: v := by
  refine ⟨_, emit_manifest_top_desc ov p flags top d htop hd, rfl,
    ucl_string_trim_urlencode d, ?_, ?_⟩
  · rw [ucl_string_trim_urlencode, urlencode_count_newline]
  · intro hin
    have h1 : [37, 48] <:+: str "%0a" := ⟨[], [97], rfl⟩
    exact urlencode_no_percent_zero d hcs
      ((h1.trans hin).trans (ucl_string_trim_isInfix _))

/-- Claim C14, counterexample.  The description of `demo_manifest_pkg` holds a
newline between `demo` and `package`; the value `emit_manifest` inserts under
`desc` holds that newline as a raw byte and does not hold `%0a`. -/
theorem emit_manifest_desc_newline_counterexample :
    pkg_get_string demo_manifest_pkg .PKG_DESC = some (str " A demo\npackage") ∧
    (emit_manifest_top none demo_manifest_pkg PKG_MANIFEST_EMIT_COMPACT).isSome = true ∧
    (∀ top, emit_manifest_top none demo_manifest_pkg PKG_MANIFEST_EMIT_COMPACT = some top →
      ucl_object_find_key top (str "desc") = some (.string (str "A demo\npackage"))) ∧
    10 ∈ str "A demo\npackage" ∧ ¬ str "%0a" <:+: str "A demo\npackage" := by
  refine ⟨by decide, by decide, ?_, by decide, by decide⟩
  intro top h
  cases h
  rfl

theorem emit_manifest_desc_newline_witness :
    ∃ v, ucl_object_find_key
        (manifest_build (emit_manifest_pairs demo_manifest_pkg (str " A demo\npackage")))
        (str "desc") = some (.string v) ∧
      v = ucl_string_trim (urlencode (str " A demo\npackage")).2 ∧
      v = (urlencode (ucl_string_trim (str " A demo\npackage"))).2 ∧
      v.count 10 = (ucl_string_trim (str " A demo\npackage")).count 10 ∧
      ¬ str "%0a" <:+: v :=
  emit_manifest_desc_newline none demo_manifest_pkg PKG_MANIFEST_EMIT_COMPACT _
    (str " A demo\npackage")
    (emit_manifest_top_eq_build none demo_manifest_pkg _ (by decide) rfl rfl) (by decide)
    (by unfold IsCString; decide)

theorem hexdigit_lower (n : Nat) (h : n < 16) : hexdigit n ∈ str "0123456789abcdef" := by
  interval_cases n <;> decide

theorem pkg_emit_manifest_digest_length (digest : List Nat) (len : Nat)
    (h : len ≤ digest.length) : (pkg_emit_manifest_digest digest len).length = 2 * len := by
  unfold pkg_emit_manifest_digest
  have : ∀ l : List Nat, ((l.map printf_02x).flatten).length = 2 * l.length := by
    intro l
    induction l with
    | nil => rfl
    | cons a l ih => simp [printf_02x, ih]; omega
  rw [this, List.length_take]
  omega

theorem pkg_emit_manifest_digest_hex (digest : List Nat) (len : Nat) :
    IsLowerHex (pkg_emit_manifest_digest digest len) := by
  unfold pkg_emit_manifest_digest IsLowerHex
  intro c hc
  simp only [List.mem_flatten, List.mem_map] at hc
  obtain ⟨l, ⟨b, _, rfl⟩, hcl⟩ := hc
  simp only [printf_02x, List.mem_cons, List.mem_singleton, List.not_mem_nil, or_false] at hcl
  rcases hcl with rfl | rfl
  · exact hexdigit_lower _ (by omega)
  · exact hexdigit_lower _ (by omega)

theorem emit_manifest_rc (E : emit_env) (p : pkg) (flags : Nat) (rc : Int) (text : Bytes)
    (h : emit_manifest E p flags = some (rc, text)) : rc = EPKG_OK := by
  unfold emit_manifest at h
  split at h
  · cases h
  · cases h; rfl

/-- Claim C11, amended.  Whenever `emit_manifest` returns, with the text
`text` in the buffer, and a digest is asked for, each of the three variants
hands `SHA256_Update` exactly `text` and returns as digest the 64 lowercase
hexadecimal characters of its SHA-256; the buffer variant leaves `text` in the
caller's buffer, the string variant returns a copy of it, and the file
variant writes it followed by a newline, which the digest does not cover. -/
theorem pkg_emit_manifest_digest_of_text (E : emit_env) (SHA256 : Bytes → List Nat) (p : pkg)
    (flags : Nat) (rc : Int) (text : Bytes)
    (hsha : ∀ m, (SHA256 m).length = SHA256_DIGEST_LENGTH)
    (hemit : emit_manifest E p flags = some (rc, text)) :
    (pkg_emit_manifest_digest (SHA256 text) SHA256_DIGEST_LENGTH).length = 64 ∧
    IsLowerHex (pkg_emit_manifest_digest (SHA256 text) SHA256_DIGEST_LENGTH) ∧
    pkg_emit_manifest_sbuf E SHA256 p flags true =
      some { rc := rc, output := text, written := none, signed := some text,
             pdigest := some (pkg_emit_manifest_digest (SHA256 text) SHA256_DIGEST_LENGTH) } ∧
    pkg_emit_manifest_file E SHA256 p flags true =
      some { rc := rc, output := text, written := some (c_str text ++ str "\n"),
             signed := some text,
             pdigest := some (pkg_emit_manifest_digest (SHA256 text) SHA256_DIGEST_LENGTH) } ∧
    pkg_emit_manifest E SHA256 p flags true =
      some (EPKG_OK, some (c_str text),
        { rc := rc, output := text, written := none, signed := some text,
          pdigest := some (pkg_emit_manifest_digest (SHA256 text) SHA256_DIGEST_LENGTH) }) := by
  have hrc := emit_manifest_rc E p flags rc text hemit
  have hs : pkg_emit_manifest_sbuf E SHA256 p flags true =
      some { rc := rc, output := text, written := none, signed := some text,
             pdigest := some (pkg_emit_manifest_digest (SHA256 text) SHA256_DIGEST_LENGTH) } := by
    simp [pkg_emit_manifest_sbuf, pkg_emit_manifest_generic, hemit]
  refine ⟨?_, pkg_emit_manifest_digest_hex _ _, hs, ?_, ?_⟩
  · rw [pkg_emit_manifest_digest_length _ _ (by rw [hsha])]
    rfl
  · simp [pkg_emit_manifest_file, pkg_emit_manifest_generic, hemit]
  · simp [pkg_emit_manifest, hs, hrc]

/-- Claim C11, counterexample.  In the file variant the caller's file
receives the text and a newline, while the digest is the one of the text
alone: the bytes delivered are not the bytes the digest is computed of. -/
theorem pkg_emit_manifest_file_counterexample :
    (pkg_emit_manifest_file demo_text_env demo_digest demo_manifest_pkg
      PKG_MANIFEST_EMIT_COMPACT true).map (fun r => (r.written, r.signed))
      = some (some (str "name: foo\n"), some (str "name: foo")) ∧
    (pkg_emit_manifest_file demo_text_env demo_digest demo_manifest_pkg
      PKG_MANIFEST_EMIT_COMPACT true).map (fun r => r.pdigest)
      = some (some (pkg_emit_manifest_digest (demo_digest (str "name: foo"))
          SHA256_DIGEST_LENGTH)) ∧
    pkg_emit_manifest_digest (demo_digest (str "name: foo")) SHA256_DIGEST_LENGTH ≠
      pkg_emit_manifest_digest (demo_digest (str "name: foo\n")) SHA256_DIGEST_LENGTH := by
  decide

theorem pkg_emit_manifest_digest_of_text_witness :
    (pkg_emit_manifest_digest (demo_digest (str "name: foo")) SHA256_DIGEST_LENGTH).length = 64 ∧
    IsLowerHex (pkg_emit_manifest_digest (demo_digest (str "name: foo")) SHA256_DIGEST_LENGTH) ∧
    pkg_emit_manifest_sbuf demo_text_env demo_digest demo_manifest_pkg
        PKG_MANIFEST_EMIT_COMPACT true =
      some { rc := EPKG_OK, output := str "name: foo", written := none,
             signed := some (str "name: foo"),
             pdigest := some (pkg_emit_manifest_digest (demo_digest (str "name: foo"))
               SHA256_DIGEST_LENGTH) } ∧
    pkg_emit_manifest_file demo_text_env demo_digest demo_manifest_pkg
        PKG_MANIFEST_EMIT_COMPACT true =
      some { rc := EPKG_OK, output := str "name: foo",
             written := some (c_str (str "name: foo") ++ str "\n"),
             signed := some (str "name: foo"),
             pdigest := some (pkg_emit_manifest_digest (demo_digest (str "name: foo"))
               SHA256_DIGEST_LENGTH) } ∧
    pkg_emit_manifest demo_text_env demo_digest demo_manifest_pkg
        PKG_MANIFEST_EMIT_COMPACT true =
      some (EPKG_OK, some (c_str (str "name: foo")),
        { rc := EPKG_OK, output := str "name: foo", written := none,
          signed := some (str "name: foo"),
          pdigest := some (pkg_emit_manifest_digest (demo_digest (str "name: foo"))
            SHA256_DIGEST_LENGTH) }) :=
  pkg_emit_manifest_digest_of_text demo_text_env demo_digest demo_manifest_pkg
    PKG_MANIFEST_EMIT_COMPACT EPKG_OK (str "name: foo")
    (fun m => List.length_replicate _ _) (by decide)

/-- C20, at the failing input: for the manifest whose `licenselogic` is the
string `custom`, `pkg_string` returns `EPKG_FATAL`, but `parse_manifest` drops
that code: `pkg_parse_manifest` takes the primary path, returns `EPKG_OK` and
leaves the license logic unset.  The five accepted strings are stored as the
claim says. -/
theorem pkg_parse_manifest_license_logic :
    (pkg_string pkg_new ⟨some (str "licenselogic"), .string (str "custom"), []⟩
      .PKG_LICENSE_LOGIC).1 = EPKG_FATAL ∧
    pkg_parse_manifest_fallback (demo_license_env (str "custom")) []
      (pkg_manifest_keys_new []) = false ∧
    (pkg_parse_manifest (demo_license_env (str "custom")) pkg_new []
      (pkg_manifest_keys_new [])).1 = EPKG_OK ∧
    (pkg_field (pkg_parse_manifest (demo_license_env (str "custom")) pkg_new []
      (pkg_manifest_keys_new [])).2 .PKG_LICENSE_LOGIC).isNone = true ∧
    [str "single", str "or", str "dual", str "and", str "multi"].map (fun s =>
      pkg_get_int (pkg_parse_manifest (demo_license_env s) pkg_new []
        (pkg_manifest_keys_new [])).2 .PKG_LICENSE_LOGIC)
      = [LICENSE_SINGLE, LICENSE_OR, LICENSE_OR, LICENSE_AND, LICENSE_AND] := by
  refine ⟨by decide, by decide, by decide, by decide, by decide⟩

theorem do_extract_loop_steps (E : add_env) (end_ret : Int) (rest : List Bytes) :
    ∀ (ae : Bytes) (ret : Int) (tr : add_trace),
      ExtendsWithout (fun e => !e.is_extract_step) tr
        (do_extract_loop E end_ret ae rest ret tr).2.2 := by
  induction rest with
  | nil =>
    intro ae ret tr
    have h0 := ExtendsWithout.ew_refl (fun e => !e.is_extract_step) tr
    have h1 := h0.snoc (.archive_read_extract ae) rfl
    unfold do_extract_loop
    simp only
    split
    · exact h1.snoc _ rfl
    · cases hc : is_conf_file ae with
      | none =>
        simp only [Option.map_none', Option.getD_none]
        split
        · exact h1.snoc _ rfl
        · exact h1.snoc _ rfl
      | some path =>
        simp only
        split
        · simp only [Option.map_some', Option.getD_some]
          split
          · exact (((h1.snoc (.lstat path) rfl).snoc (.archive_read_extract path) rfl).snoc _ rfl)
          · exact (((h1.snoc (.lstat path) rfl).snoc (.archive_read_extract path) rfl).snoc _ rfl)
        · simp only [Option.map_some', Option.getD_some]
          split
          · exact ((h1.snoc (.lstat path) rfl).snoc _ rfl)
          · exact ((h1.snoc (.lstat path) rfl).snoc _ rfl)
  | cons next rest2 ih =>
    intro ae ret tr
    have h0 := ExtendsWithout.ew_refl (fun e => !e.is_extract_step) tr
    have h1 := h0.snoc (.archive_read_extract ae) rfl
    unfold do_extract_loop
    simp only
    split
    · exact h1.snoc _ rfl
    · cases hc : is_conf_file ae with
      | none =>
        simp only [Option.map_none', Option.getD_none]
        split
        · exact h1.snoc _ rfl
        · exact (h1.snoc .archive_read_next_header rfl).ew_trans (ih _ _ _)
      | some path =>
        simp only
        split
        · simp only [Option.map_some', Option.getD_some]
          split
          · exact (((h1.snoc (.lstat path) rfl).snoc (.archive_read_extract path) rfl).snoc _ rfl)
          · exact (((h1.snoc (.lstat path) rfl).snoc (.archive_read_extract path) rfl).snoc
              .archive_read_next_header rfl).ew_trans (ih _ _ _)
        · simp only [Option.map_some', Option.getD_some]
          split
          · exact ((h1.snoc (.lstat path) rfl).snoc _ rfl)
          · exact ((h1.snoc (.lstat path) rfl).snoc .archive_read_next_header rfl).ew_trans
              (ih _ _ _)

theorem do_extract_steps (E : add_env) (a : archive) (tr : add_trace) :
    ExtendsWithout (fun e => !e.is_extract_step) tr (do_extract E a tr).2 := by
  unfold do_extract
  have h := do_extract_loop_steps E a.end_ret a.rest a.ae EX_OK tr
  simp only
  split
  · exact h.snoc _ rfl
  · exact h

theorem pkg_add2_install_eq (E : add_env) (upgrade automatic : Int) (extract : Bool)
    (a : archive) (tr : add_trace)
    (hreg : E.pkgdb_register_pkg tr (pkg_get a.pkg .PKG_ORIGIN) = EPKG_OK)
    (hflag : E.pkgdb_has_flag (tr ++ [.pkgdb_register_pkg (pkg_get a.pkg .PKG_ORIGIN)]) ≠ 0) :
    pkg_add2_install E upgrade extract a (pkg_stamped a.pkg automatic) tr =
      (let origin := pkg_get a.pkg .PKG_ORIGIN
       let tr3 := trace_at_extract tr origin upgrade
       let ex : Int × add_trace := if extract then do_extract E a tr3 else (EPKG_OK, tr3)
       let body : Int × add_trace :=
         if extract ∧ ex.1 ≠ EPKG_OK then
           (ex.1, ex.2 ++ [.pkg_delete_files origin, .pkg_delete_dirs origin])
         else if upgrade ≠ 0 then
           (ex.1, ex.2 ++ [.pkg_script_run origin .PKG_SCRIPT_POST_UPGRADE,
                           .emit_upgrade_finished origin])
         else
           (ex.1, ex.2 ++ [.pkg_script_run origin .PKG_SCRIPT_POST_INSTALL,
                           .emit_install_finished origin])
       (body.1, body.2 ++ [.pkgdb_register_finale body.1])) := by
  unfold pkg_add2_install trace_at_extract
  simp only [pkg_get_stamped, hreg, hflag, ne_eq, not_true_eq_false, if_false]

/-- Claim C17.  When the archive has a payload, the preconditions hold, the
registration succeeds and is in flight, and `do_extract` returns an error
code, then `pkg_add2` deletes the files of the package, then its directories,
then finalises the registration with that code and returns it; after the
registration it neither runs a post-install or post-upgrade script nor
reports the end of an installation or upgrade. -/
theorem pkg_add2_extract_failure (E : add_env) (fuel : Nat) (path : Bytes)
    (upgrade automatic : Int) (a : archive) (tr : add_trace) (origin : Bytes) (rc : Int)
    (tr_ex : add_trace)
    (hopen : E.pkg_open2 [] path = (EPKG_OK, some a))
    (hchk : pkg_add2_checks E (fun t p => pkg_add2 E fuel t p 0 1) path
      (pkg_stamped a.pkg automatic) (trace_at_uname [] path automatic) = some (.ok tr))
    (horigin : origin = pkg_get a.pkg .PKG_ORIGIN)
    (hreg : E.pkgdb_register_pkg tr origin = EPKG_OK)
    (hflag : E.pkgdb_has_flag (tr ++ [.pkgdb_register_pkg origin]) ≠ 0)
    (hex : do_extract E a (trace_at_extract tr origin upgrade) = (rc, tr_ex))
    (hfail : rc ≠ EPKG_OK) :
    pkg_add2 E (fuel + 1) [] path upgrade automatic =
      some (rc, tr_ex ++ [.pkg_delete_files origin, .pkg_delete_dirs origin,
        .pkgdb_register_finale rc, .archive_read_finish]) ∧
    ∃ new, tr_ex ++ [.pkg_delete_files origin, .pkg_delete_dirs origin,
        .pkgdb_register_finale rc, .archive_read_finish] = tr ++ new ∧
      ∀ e ∈ new, e.is_completion = false := by
  subst horigin
  obtain ⟨ex, hexs, hsteps⟩ := do_extract_steps E a
    (trace_at_extract tr (pkg_get a.pkg .PKG_ORIGIN) upgrade)
  rw [hex] at hexs
  simp only at hexs
  constructor
  · have hinst := pkg_add2_install_eq E upgrade automatic true a tr hreg hflag
    simp only [if_true, true_and, hex, hfail, ne_eq, not_false_eq_true] at hinst
    have hne : ¬ (EPKG_OK ≠ EPKG_END ∧ EPKG_OK ≠ EPKG_OK) := by simp
    have hdec : decide (EPKG_OK ≠ EPKG_END) = true := by decide
    simp only [pkg_add2, hopen, hne, if_false, hchk, hdec, hinst, pkg_add2_cleanup,
      List.append_assoc, List.cons_append, List.nil_append]
  · have hbase : ∃ pre, trace_at_extract tr (pkg_get a.pkg .PKG_ORIGIN) upgrade = tr ++ pre ∧
        ∀ e ∈ pre, e.is_completion = false := by
      unfold trace_at_extract
      split
      · exact ⟨[.pkgdb_register_pkg (pkg_get a.pkg .PKG_ORIGIN), .pkgdb_has_flag,
          .emit_install_begin (pkg_get a.pkg .PKG_ORIGIN),
          .pkg_script_run (pkg_get a.pkg .PKG_ORIGIN) .PKG_SCRIPT_PRE_INSTALL],
          by simp only [List.append_assoc, List.cons_append, List.nil_append],
          by intro e he; simp only [List.mem_cons, List.mem_singleton, List.not_mem_nil,
               or_false] at he; rcases he with rfl | rfl | rfl | rfl <;> rfl⟩
      · exact ⟨[.pkgdb_register_pkg (pkg_get a.pkg .PKG_ORIGIN), .pkgdb_has_flag],
          by simp only [List.append_assoc, List.cons_append, List.nil_append],
          by intro e he; simp only [List.mem_cons, List.mem_singleton, List.not_mem_nil,
               or_false] at he; rcases he with rfl | rfl <;> rfl⟩
    obtain ⟨pre, hpre, hprec⟩ := hbase
    refine ⟨pre ++ ex ++ [.pkg_delete_files (pkg_get a.pkg .PKG_ORIGIN),
             .pkg_delete_dirs (pkg_get a.pkg .PKG_ORIGIN),
             .pkgdb_register_finale rc, .archive_read_finish], ?_, ?_⟩
    · rw [hexs, hpre]; simp only [List.append_assoc]
    · intro e he
      simp only [List.mem_append, List.mem_cons, List.mem_singleton, List.not_mem_nil,
        or_false] at he
      rcases he with (he | he) | he
      · exact hprec e he
      · have := hsteps e he
        cases e <;> simp_all [add_event.is_extract_step, add_event.is_completion]
      · rcases he with rfl | rfl | rfl | rfl <;> rfl

theorem pkg_add2_extract_failure_witness :
    pkg_add2 demo_env_noextract 1 [] (str "/p/baz-0.1.pkg") 0 0 =
      some (EX_IOERR,
        [.pkg_open2 (str "/p/baz-0.1.pkg"), .uname, .pkgdb_query (str "misc/baz"),
         .pkgdb_register_pkg (str "misc/baz"), .pkgdb_has_flag,
         .emit_install_begin (str "misc/baz"),
         .pkg_script_run (str "misc/baz") .PKG_SCRIPT_PRE_INSTALL,
         .archive_read_extract (str "usr/local/bin/baz"),
         .emit_error (str "archive_read_extract(): %s"),
         .emit_error (str "archive_read_next_header(): %s")] ++
        [.pkg_delete_files (str "misc/baz"), .pkg_delete_dirs (str "misc/baz"),
         .pkgdb_register_finale EX_IOERR, .archive_read_finish]) ∧
    ∃ new,
        [.pkg_open2 (str "/p/baz-0.1.pkg"), .uname, .pkgdb_query (str "misc/baz"),
         .pkgdb_register_pkg (str "misc/baz"), .pkgdb_has_flag,
         .emit_install_begin (str "misc/baz"),
         .pkg_script_run (str "misc/baz") .PKG_SCRIPT_PRE_INSTALL,
         .archive_read_extract (str "usr/local/bin/baz"),
         .emit_error (str "archive_read_extract(): %s"),
         .emit_error (str "archive_read_next_header(): %s")] ++
        [.pkg_delete_files (str "misc/baz"), .pkg_delete_dirs (str "misc/baz"),
         .pkgdb_register_finale EX_IOERR, .archive_read_finish] =
        [add_event.pkg_open2 (str "/p/baz-0.1.pkg"), .uname, .pkgdb_query (str "misc/baz")]
          ++ new ∧
      ∀ e ∈ new, e.is_completion = false :=
  pkg_add2_extract_failure demo_env_noextract 0 (str "/p/baz-0.1.pkg") 0 0 demo_baz
    [.pkg_open2 (str "/p/baz-0.1.pkg"), .uname, .pkgdb_query (str "misc/baz")]
    (str "misc/baz") EX_IOERR _ rfl rfl (by decide) rfl (by decide) rfl
    (by decide)

/-- Claim C18.  When the package passes the architecture and OS-version
checks and the catalog query for its origin finds a row, `pkg_add2` reports
that the package is already installed and returns success; the run consists
of opening the archive, `uname`, that one query, the event and closing the
archive, so nothing is registered, no dependency is looked at, no script is
run and no entry is extracted. -/
theorem pkg_add2_already_installed (E : add_env) (fuel : Nat) (path : Bytes)
    (upgrade automatic ret : Int) (a : archive) (u : utsname) (origin : Bytes)
    (hopen : E.pkg_open2 [] path = (ret, some a)) (hret : ret = EPKG_OK ∨ ret = EPKG_END)
    (huname : E.uname (trace_at_uname [] path automatic) = some u)
    (harch : u.machine = pkg_get a.pkg .PKG_ARCH)
    (hos : host_osversion E u = pkg_get a.pkg .PKG_OSVERSION)
    (horigin : origin = pkg_get a.pkg .PKG_ORIGIN)
    (hq : E.pkgdb_query (trace_at_uname [] path automatic ++ [.uname]) origin = some EPKG_OK) :
    pkg_add2 E (fuel + 1) [] path upgrade automatic =
      some (EX_OK, trace_at_uname [] path automatic ++
        [.uname, .pkgdb_query origin, .emit_already_installed origin, .archive_read_finish]) ∧
    ∀ e ∈ trace_at_uname [] path automatic ++
        [.uname, .pkgdb_query origin, .emit_already_installed origin, .archive_read_finish],
      e.is_install = false := by
  subst horigin
  have hne : ¬ (ret ≠ EPKG_END ∧ ret ≠ EPKG_OK) := by
    rcases hret with h | h <;> simp [h]
  constructor
  · simp only [pkg_add2, hopen, hne, if_false, pkg_add2_checks, huname, pkg_get_stamped,
      harch, hos, ne_eq, not_true_eq_false, hq, if_true, pkg_add2_cleanup,
      List.append_assoc, List.cons_append, List.nil_append]
  · have hbase := trace_at_uname_extends (fun e => e.is_install) [] path automatic rfl rfl
    have h4 := (((hbase.snoc .uname rfl).snoc (.pkgdb_query (pkg_get a.pkg .PKG_ORIGIN)) rfl).snoc
      (.emit_already_installed (pkg_get a.pkg .PKG_ORIGIN)) rfl).snoc .archive_read_finish rfl
    have := h4.forall_mem
    simpa only [List.append_assoc, List.cons_append, List.nil_append] using this

theorem pkg_add2_already_installed_witness :
    pkg_add2 demo_env_installed 1 [] (str "/p/baz-0.1.pkg") 0 0 =
      some (EX_OK, trace_at_uname [] (str "/p/baz-0.1.pkg") 0 ++
        [.uname, .pkgdb_query (str "misc/baz"), .emit_already_installed (str "misc/baz"),
         .archive_read_finish]) ∧
    ∀ e ∈ trace_at_uname [] (str "/p/baz-0.1.pkg") 0 ++
        [.uname, .pkgdb_query (str "misc/baz"), .emit_already_installed (str "misc/baz"),
         .archive_read_finish],
      e.is_install = false :=
  pkg_add2_already_installed demo_env_installed 0 (str "/p/baz-0.1.pkg") 0 0 EPKG_OK demo_baz
    { machine := str "amd64", release := str "9.2-RELEASE" } (str "misc/baz")
    rfl (Or.inl rfl) rfl (by decide) (by decide) (by decide) rfl

theorem do_extract_loop_payload (E : add_env) (end_ret : Int) :
    ∀ (rest : List Bytes) (ae : Bytes) (ret : Int) (tr : add_trace),
      (do_extract_loop E end_ret ae rest ret tr).2.1 = EX_OK →
      ∃ ex, (do_extract_loop E end_ret ae rest ret tr).2.2 = tr ++ ex ∧
        ExtractsPayload (ae :: rest) ex := by
  intro rest
  induction rest with
  | nil =>
    intro ae ret tr h
    unfold do_extract_loop at h ⊢
    simp only at h ⊢
    split at h
    · exact absurd (show EX_IOERR = EX_OK from h) (by decide)
    · rw [if_neg (by assumption)]
      split at h
      · exact absurd (show EX_IOERR = EX_OK from h) (by decide)
      · rw [if_neg (by assumption)]
        cases hc : is_conf_file ae with
        | none =>
          refine ⟨[.archive_read_extract ae, .archive_read_next_header], by simp,
            [[.archive_read_extract ae, .archive_read_next_header]], by simp, ?_⟩
          exact List.Forall₂.cons ⟨[], rfl, Or.inl ⟨hc, rfl⟩⟩ List.Forall₂.nil
        | some p =>
          simp only
          by_cases hl : lstat E (tr ++ [.archive_read_extract ae]) p = ENOENT
          · refine ⟨[.archive_read_extract ae, .lstat p, .archive_read_extract p,
                .archive_read_next_header], by simp [hl],
              [[.archive_read_extract ae, .lstat p, .archive_read_extract p,
                .archive_read_next_header]], by simp, ?_⟩
            exact List.Forall₂.cons ⟨[.lstat p, .archive_read_extract p], rfl,
              Or.inr ⟨p, hc, Or.inr rfl⟩⟩ List.Forall₂.nil
          · refine ⟨[.archive_read_extract ae, .lstat p, .archive_read_next_header],
              by simp [hl],
              [[.archive_read_extract ae, .lstat p, .archive_read_next_header]], by simp, ?_⟩
            exact List.Forall₂.cons ⟨[.lstat p], rfl, Or.inr ⟨p, hc, Or.inl rfl⟩⟩
              List.Forall₂.nil
  | cons next rest2 ih =>
    intro ae ret tr h
    unfold do_extract_loop at h ⊢
    simp only at h ⊢
    split at h
    · exact absurd (show EX_IOERR = EX_OK from h) (by decide)
    · rw [if_neg (by assumption)]
      split at h
      · exact absurd (show EX_IOERR = EX_OK from h) (by decide)
      · rw [if_neg (by assumption)]
        obtain ⟨ex, hex, chunks, hj, hch⟩ := ih next ARCHIVE_OK _ h
        rw [hex]
        cases hc : is_conf_file ae with
        | none =>
          refine ⟨[.archive_read_extract ae, .archive_read_next_header] ++ ex, by simp,
            [.archive_read_extract ae, .archive_read_next_header] :: chunks, by simp [hj], ?_⟩
          exact List.Forall₂.cons ⟨[], rfl, Or.inl ⟨hc, rfl⟩⟩ hch
        | some p =>
          simp only
          by_cases hl : lstat E (tr ++ [.archive_read_extract ae]) p = ENOENT
          · refine ⟨[.archive_read_extract ae, .lstat p, .archive_read_extract p,
                .archive_read_next_header] ++ ex, by simp [hl],
              [.archive_read_extract ae, .lstat p, .archive_read_extract p,
                .archive_read_next_header] :: chunks, by simp [hj], ?_⟩
            exact List.Forall₂.cons ⟨[.lstat p, .archive_read_extract p], rfl,
              Or.inr ⟨p, hc, Or.inr rfl⟩⟩ hch
          · refine ⟨[.archive_read_extract ae, .lstat p, .archive_read_next_header] ++ ex,
              by simp [hl],
              [.archive_read_extract ae, .lstat p, .archive_read_next_header] :: chunks,
              by simp [hj], ?_⟩
            exact List.Forall₂.cons ⟨[.lstat p], rfl, Or.inr ⟨p, hc, Or.inl rfl⟩⟩ hch

theorem do_extract_payload (E : add_env) (a : archive) (tr tr_ex : add_trace)
    (h : do_extract E a tr = (EPKG_OK, tr_ex)) :
    ∃ ex, tr_ex = tr ++ ex ∧ ExtractsPayload (a.ae :: a.rest) ex := by
  unfold do_extract at h
  simp only at h
  split at h
  · exact absurd (show EX_IOERR = EPKG_OK from congrArg Prod.fst h) (by decide)
  · have h1 := congrArg Prod.fst h
    have h2 := congrArg Prod.snd h
    simp only at h1 h2
    rw [← h2]
    exact do_extract_loop_payload E a.end_ret a.rest a.ae EX_OK tr h1

/-- Claim C19.  When the preconditions hold, the registration succeeds and is
in flight and the extraction, if the archive has a payload, succeeds, then
`pkg_add2` returns `EPKG_OK` and, from the registration on, makes these calls
in this order, each once: register; on a run that is not an upgrade the
install-begin event and the pre-install script; the extraction steps, which
extract every entry of the payload, one after the other, each once (none when
the archive holds metadata only); the post-install script and the
install-finished event, or on an upgrade the post-upgrade script and the
upgrade-finished event; finalise the registration; close the archive. -/
theorem pkg_add2_install_order (E : add_env) (fuel : Nat) (path : Bytes)
    (upgrade automatic ret : Int) (a : archive) (tr : add_trace) (origin : Bytes)
    (tr_ex : add_trace)
    (hopen : E.pkg_open2 [] path = (ret, some a)) (hret : ret = EPKG_OK ∨ ret = EPKG_END)
    (hchk : pkg_add2_checks E (fun t p => pkg_add2 E fuel t p 0 1) path
      (pkg_stamped a.pkg automatic) (trace_at_uname [] path automatic) = some (.ok tr))
    (horigin : origin = pkg_get a.pkg .PKG_ORIGIN)
    (hreg : E.pkgdb_register_pkg tr origin = EPKG_OK)
    (hflag : E.pkgdb_has_flag (tr ++ [.pkgdb_register_pkg origin]) ≠ 0)
    (hex : if ret = EPKG_END then tr_ex = trace_at_extract tr origin upgrade
           else do_extract E a (trace_at_extract tr origin upgrade) = (EPKG_OK, tr_ex)) :
    ∃ ex, (∀ e ∈ ex, e.is_extract_step = true) ∧ (ret = EPKG_END → ex = []) ∧
      (ret ≠ EPKG_END → ExtractsPayload (a.ae :: a.rest) ex) ∧
      pkg_add2 E (fuel + 1) [] path upgrade automatic =
        some (EPKG_OK,
          tr ++ [.pkgdb_register_pkg origin, .pkgdb_has_flag] ++
            (if upgrade = 0 then
               [.emit_install_begin origin, .pkg_script_run origin .PKG_SCRIPT_PRE_INSTALL]
             else []) ++
            ex ++
            (if upgrade = 0 then
               [.pkg_script_run origin .PKG_SCRIPT_POST_INSTALL, .emit_install_finished origin]
             else
               [.pkg_script_run origin .PKG_SCRIPT_POST_UPGRADE, .emit_upgrade_finished origin])
            ++ [.pkgdb_register_finale EPKG_OK, .archive_read_finish]) := by
  subst horigin
  have hne : ¬ (ret ≠ EPKG_END ∧ ret ≠ EPKG_OK) := by
    rcases hret with h | h <;> simp [h]
  have hshape : trace_at_extract tr (pkg_get a.pkg .PKG_ORIGIN) upgrade =
      tr ++ [.pkgdb_register_pkg (pkg_get a.pkg .PKG_ORIGIN), .pkgdb_has_flag] ++
        (if upgrade = 0 then
           [.emit_install_begin (pkg_get a.pkg .PKG_ORIGIN),
            .pkg_script_run (pkg_get a.pkg .PKG_ORIGIN) .PKG_SCRIPT_PRE_INSTALL]
         else []) := by
    unfold trace_at_extract
    split <;> simp
  by_cases hend : ret = EPKG_END
  · rw [if_pos hend] at hex
    refine ⟨[], by simp, fun _ => rfl, fun h => absurd hend h, ?_⟩
    have hinst := pkg_add2_install_eq E upgrade automatic false a tr hreg hflag
    have hdec : decide (ret ≠ EPKG_END) = false := by simp [hend]
    simp only [pkg_add2, hopen, hne, if_false, hchk, hdec, hinst, pkg_add2_cleanup]
    rw [hshape]
    by_cases hu : upgrade = 0 <;> simp [hu]
  · rw [if_neg hend] at hex
    obtain ⟨ex, hexs, hsteps⟩ := do_extract_steps E a
      (trace_at_extract tr (pkg_get a.pkg .PKG_ORIGIN) upgrade)
    rw [hex] at hexs
    simp only at hexs
    obtain ⟨ex2, hex2, hpay⟩ := do_extract_payload E a _ _ hex
    have hsame : ex2 = ex := List.append_cancel_left (hex2.symm.trans hexs)
    refine ⟨ex, fun e he => by simpa using hsteps e he, fun h => absurd h hend,
      fun _ => hsame ▸ hpay, ?_⟩
    have hinst := pkg_add2_install_eq E upgrade automatic true a tr hreg hflag
    have hdec : decide (ret ≠ EPKG_END) = true := by simp [hend]
    simp only [pkg_add2, hopen, hne, if_false, hchk, hdec, hinst, pkg_add2_cleanup, hex]
    rw [hexs, hshape]
    by_cases hu : upgrade = 0 <;> simp [hu]

theorem pkg_add2_install_order_witness :
    (∃ ex, (∀ e ∈ ex, e.is_extract_step = true) ∧ (EPKG_OK = EPKG_END → ex = []) ∧
      (EPKG_OK ≠ EPKG_END → ExtractsPayload (demo_baz.ae :: demo_baz.rest) ex) ∧
      pkg_add2 demo_env 1 [] (str "/p/baz-0.1.pkg") 0 0 =
        some (EPKG_OK,
          [.pkg_open2 (str "/p/baz-0.1.pkg"), .uname, .pkgdb_query (str "misc/baz")] ++
            [.pkgdb_register_pkg (str "misc/baz"), .pkgdb_has_flag] ++
            (if (0 : Int) = 0 then
               [.emit_install_begin (str "misc/baz"),
                .pkg_script_run (str "misc/baz") .PKG_SCRIPT_PRE_INSTALL]
             else []) ++
            ex ++
            (if (0 : Int) = 0 then
               [.pkg_script_run (str "misc/baz") .PKG_SCRIPT_POST_INSTALL,
                .emit_install_finished (str "misc/baz")]
             else
               [.pkg_script_run (str "misc/baz") .PKG_SCRIPT_POST_UPGRADE,
                .emit_upgrade_finished (str "misc/baz")])
            ++ [.pkgdb_register_finale EPKG_OK, .archive_read_finish])) ∧
    demo_baz.ae :: demo_baz.rest = [str "usr/local/bin/baz"] ∧
    pkg_add2 demo_env 1 [] (str "/p/baz-0.1.pkg") 0 0 =
      some (EPKG_OK,
        [.pkg_open2 (str "/p/baz-0.1.pkg"), .uname, .pkgdb_query (str "misc/baz"),
         .pkgdb_register_pkg (str "misc/baz"), .pkgdb_has_flag,
         .emit_install_begin (str "misc/baz"),
         .pkg_script_run (str "misc/baz") .PKG_SCRIPT_PRE_INSTALL,
         .archive_read_extract (str "usr/local/bin/baz"), .archive_read_next_header,
         .pkg_script_run (str "misc/baz") .PKG_SCRIPT_POST_INSTALL,
         .emit_install_finished (str "misc/baz"),
         .pkgdb_register_finale EPKG_OK, .archive_read_finish]) :=
  ⟨pkg_add2_install_order demo_env 0 (str "/p/baz-0.1.pkg") 0 0 EPKG_OK demo_baz
    [.pkg_open2 (str "/p/baz-0.1.pkg"), .uname, .pkgdb_query (str "misc/baz")]
    (str "misc/baz")
    ([.pkg_open2 (str "/p/baz-0.1.pkg"), .uname, .pkgdb_query (str "misc/baz"),
      .pkgdb_register_pkg (str "misc/baz"), .pkgdb_has_flag,
      .emit_install_begin (str "misc/baz"),
      .pkg_script_run (str "misc/baz") .PKG_SCRIPT_PRE_INSTALL,
      .archive_read_extract (str "usr/local/bin/baz"), .archive_read_next_header])
    rfl (Or.inl rfl) rfl (by decide) rfl (by decide) rfl, by decide, by decide⟩

theorem RepoExtends.re_refl (ok : repo_event → Bool) (tr : repo_trace) : RepoExtends ok tr tr :=
  ⟨[], by simp, by simp⟩

theorem RepoExtends.re_trans {ok : repo_event → Bool} {a b c : repo_trace}
    (h1 : RepoExtends ok a b) (h2 : RepoExtends ok b c) : RepoExtends ok a c := by
  obtain ⟨n1, e1, b1⟩ := h1
  obtain ⟨n2, e2, b2⟩ := h2
  refine ⟨n1 ++ n2, by rw [e2, e1, List.append_assoc], ?_⟩
  intro x hx
  rcases List.mem_append.mp hx with hx | hx
  · exact b1 x hx
  · exact b2 x hx

theorem RepoExtends.re_append {ok : repo_event → Bool} {tr t : repo_trace} (l : repo_trace)
    (hl : ∀ e ∈ l, ok e = true) (h : RepoExtends ok tr t) : RepoExtends ok tr (t ++ l) :=
  h.re_trans ⟨l, rfl, hl⟩

theorem RepoExtends.re_snoc {ok : repo_event → Bool} {tr t : repo_trace} (e : repo_event)
    (he : ok e = true) (h : RepoExtends ok tr t) : RepoExtends ok tr (t ++ [e]) :=
  h.re_append [e] (by simpa using he)

theorem pkg_repo_register_setup (E : repo_env) (tr : repo_trace) :
    RepoExtends repo_event.is_setup tr (pkg_repo_register E tr).2 := by
  have h0 := RepoExtends.re_refl repo_event.is_setup tr
  unfold pkg_repo_register
  simp only
  split
  · exact (h0.re_snoc _ rfl).re_snoc _ rfl
  · split
    · exact ((h0.re_snoc _ rfl).re_snoc _ rfl).re_snoc _ rfl
    · split
      · exact ((((h0.re_snoc _ rfl).re_snoc _ rfl).re_snoc _ rfl).re_snoc _ rfl).re_append _
          (by simp [repo_event.is_setup])
      · exact ((((h0.re_snoc _ rfl).re_snoc _ rfl).re_snoc _ rfl).re_snoc _ rfl).re_snoc _ rfl

theorem repo_cleanup_early_setup (E : repo_env) (rc mtime : Int) (tr : repo_trace) :
    RepoExtends repo_event.is_setup tr (repo_cleanup_early E rc mtime tr).2.2 := by
  have h0 := RepoExtends.re_refl repo_event.is_setup tr
  unfold repo_cleanup_early repo_cleanup
  simp only [Bool.false_eq_true, if_false]
  split
  · exact ((h0.re_snoc _ rfl).re_snoc _ rfl).re_snoc _ rfl
  · exact (h0.re_snoc _ rfl).re_snoc _ rfl

theorem repo_update_open_error (E : repo_env) (mtime : Int) (tr : repo_trace)
    (r : Int × Int × repo_trace) (h : repo_update_open E mtime tr = .error r) :
    RepoExtends repo_event.is_setup tr r.2.2 := by
  unfold repo_update_open at h
  simp only at h
  repeat' split at h
  all_goals
    cases h
    repeat' first
      | exact RepoExtends.re_refl _ _
      | exact RepoExtends.re_trans (by
          repeat' first
            | exact RepoExtends.re_refl _ _
            | apply RepoExtends.re_snoc _ rfl
            | apply RepoExtends.re_append _ (by simp [repo_event.is_setup])
            | exact RepoExtends.re_trans (by
                repeat' first
                  | exact RepoExtends.re_refl _ _
                  | apply RepoExtends.re_snoc _ rfl) (pkg_repo_register_setup _ _))
          (repo_cleanup_early_setup _ _ _ _)
      | apply RepoExtends.re_snoc _ rfl

theorem repo_update_open_ok (E : repo_env) (mtime : Int) (tr : repo_trace)
    (f : repo_fetched) (h : repo_update_open E mtime tr = .ok f) :
    RepoExtends repo_event.is_setup tr f.tr ∧
    (∃ t, E.pkgdb_repo_origins t = some f.rows) ∧
    (∃ t mt, (E.fetch t .digests mt).1 = some f.fdigests) := by
  unfold repo_update_open at h
  simp only at h
  repeat' split at h
  all_goals first
    | (cases h
       refine ⟨?_, ⟨_, by assumption⟩, ⟨_, _, by assumption⟩⟩
       repeat' first
         | exact RepoExtends.re_refl _ _
         | apply RepoExtends.re_snoc _ rfl
         | apply RepoExtends.re_append _ (by simp [repo_event.is_setup])
         | exact RepoExtends.re_trans (by
             repeat' first
               | exact RepoExtends.re_refl _ _
               | apply RepoExtends.re_snoc _ rfl) (pkg_repo_register_setup _ _))
    | cases h

theorem repo_update_diff_error (E : repo_env) (f : repo_fetched)
    (r : Int × Int × repo_trace) (h : repo_update_diff E f = .error r) :
    RepoExtends repo_event.is_setup f.tr r.2.2 := by
  unfold repo_update_diff at h
  simp only at h
  split at h
  · cases h
    exact ((RepoExtends.re_refl _ _).re_snoc _ rfl).re_trans (repo_cleanup_early_setup _ _ _ _)
  · split at h
    · cases h
      refine ((RepoExtends.re_refl _ _).re_append _ ?_).re_trans
        (repo_cleanup_early_setup _ _ _ _)
      intro e he
      rw [Option.mem_toList] at he
      obtain ⟨l, _, hl⟩ := List.exists_of_findSome?_eq_some he
      unfold digest_line_failure at hl
      simp only at hl
      split at hl
      · cases hl
      · split at hl <;> (cases hl; rfl)
    · cases h

theorem repo_update_diff_ok (E : repo_env) (f : repo_fetched) (legacy_repo : Bool)
    (st : increment_state) (h : repo_update_diff E f = .ok (legacy_repo, st)) :
    repo_detect_legacy E f.fdigests = .ok legacy_repo ∧
    load_digests (increment_init
      (f.rows.map (fun row => (row.origin, row.local_digest legacy_repo))))
      (getlines f.fdigests) = .ok st := by
  unfold repo_update_diff at h
  simp only at h
  split at h
  · cases h
  · rename_i lr hlr
    split at h
    · cases h
    · rename_i st2 hst
      cases h
      exact ⟨hlr, hst⟩

theorem RepoExtends.re_mono {ok ok2 : repo_event → Bool} {tr t : repo_trace}
    (hm : ∀ e, ok e = true → ok2 e = true) (h : RepoExtends ok tr t) : RepoExtends ok2 tr t := by
  obtain ⟨b, hb, hok⟩ := h
  exact ⟨b, hb, fun e he => hm e (hok e he)⟩

theorem repo_remove_loop_steps (E : repo_env) (removed : Nat)
    (items : List pkg_increment_task_item) :
    ∀ hash_it rc tr, RepoExtends repo_event.is_remove_step tr
      (repo_remove_loop E removed items hash_it rc tr).2 := by
  induction items with
  | nil => intro _ _ tr; exact RepoExtends.re_refl _ tr
  | cons item rest ih =>
    intro hash_it rc tr
    simp only [repo_remove_loop]
    have htick := (RepoExtends.re_refl repo_event.is_remove_step tr).re_snoc
      (.emit_progress_tick (hash_it + 1) removed) rfl
    split
    · exact (htick.re_snoc _ rfl).re_trans (ih _ _ _)
    · exact htick.re_trans (ih _ _ _)

theorem pkg_repo_add_from_manifest_steps (E : repo_env) (buf origin digest : Bytes)
    (keys : List pkg_manifest_key) (is_legacy : Bool) (tr : repo_trace) :
    RepoExtends repo_event.is_add_step tr
      (pkg_repo_add_from_manifest E buf origin digest keys is_legacy tr).2.2 := by
  have h0 := RepoExtends.re_refl repo_event.is_add_step tr
  unfold pkg_repo_add_from_manifest
  simp only
  repeat' split
  all_goals first
    | exact h0
    | exact h0.re_snoc _ rfl
    | exact (h0.re_snoc _ rfl).re_snoc _ rfl

theorem repo_add_loop_steps (E : repo_env) (map : Bytes) (legacy_repo : Bool) (pushed : Nat)
    (items : List pkg_increment_task_item) :
    ∀ hash_it keys rc tr, RepoExtends repo_event.is_add_step tr
      (repo_add_loop E map legacy_repo pushed items hash_it keys rc tr).2 := by
  induction items with
  | nil => intro _ _ _ tr; exact RepoExtends.re_refl _ tr
  | cons item rest ih =>
    intro hash_it keys rc tr
    simp only [repo_add_loop]
    have htick := (RepoExtends.re_refl repo_event.is_add_step tr).re_snoc
      (.emit_progress_tick (hash_it + 1) pushed) rfl
    split
    · exact ((htick.re_trans (pkg_repo_add_from_manifest_steps _ _ _ _ _ _ _)).re_snoc _
        rfl).re_trans (ih _ _ _ _)
    · exact htick.re_trans (ih _ _ _ _)

theorem repo_cleanup_trans (E : repo_env) (rc : Int) (tr : repo_trace) :
    ∃ tail, (repo_cleanup E true rc tr).2 = tr ++ tail ∧
      (∀ e ∈ tail, e.is_cleanup_step = true) ∧
      ∃ c, repo_event.pkgdb_transaction_commit c ∈ tail := by
  have h30 : ¬ EPKG_FATAL = EPKG_OK := by decide
  simp only [repo_cleanup, if_true, ne_eq]
  by_cases hrc : rc = EPKG_OK
  · by_cases hc : E.pkgdb_transaction_commit tr = EPKG_OK
    · simp only [hrc, hc, not_true_eq_false, if_false, if_true, List.append_assoc]
      exact ⟨_, rfl, by simp [repo_event.is_cleanup_step], ⟨EPKG_OK, by simp⟩⟩
    · simp only [hrc, hc, not_true_eq_false, not_false_eq_true, if_true, h30, if_false,
        List.append_assoc]
      exact ⟨_, rfl, by simp [repo_event.is_cleanup_step], ⟨E.pkgdb_transaction_commit tr, by simp⟩⟩
  · by_cases hc : E.pkgdb_transaction_commit (tr ++ [.pkgdb_transaction_rollback]) = EPKG_OK
    · simp only [hrc, hc, not_true_eq_false, not_false_eq_true, if_false, if_true,
        List.append_assoc]
      exact ⟨_, rfl, by simp [repo_event.is_cleanup_step], ⟨EPKG_OK, by simp⟩⟩
    · simp only [hrc, hc, not_false_eq_true, if_true, h30, if_false, List.append_assoc]
      exact ⟨_, rfl, by simp [repo_event.is_cleanup_step], ⟨E.pkgdb_transaction_commit (tr ++ [.pkgdb_transaction_rollback]), by simp⟩⟩

theorem repo_apply_shape (E : repo_env) (st : increment_state) (map : Bytes)
    (legacy_repo : Bool) (tr : repo_trace) :
    ∃ r0 rc rem adds,
      (repo_apply E st map legacy_repo tr).2 =
        tr ++ [.sql_exec (str "CREATE TABLE IF NOT EXISTS repo_update (x INTEGER);") r0] ++
          [.pkgdb_transaction_begin rc] ++ rem ++ adds ∧
      (∀ e ∈ rem, e.is_remove_step = true) ∧
      (∀ e ∈ adds, e.is_add_phase st = true) := by
  unfold repo_apply
  simp only
  generalize E.sql_exec tr _ = r0
  generalize E.pkgdb_transaction_begin _ = rc
  split
  · exact ⟨r0, rc, [], [], by simp, by simp, by simp⟩
  · have hrem := repo_remove_loop_steps E st.ldel.length st.ldel 0 rc
      (tr ++ [.sql_exec (str "CREATE TABLE IF NOT EXISTS repo_update (x INTEGER);") r0] ++
        [.pkgdb_transaction_begin rc] ++
        [.emit_progress_start (str "Removing expired entries")])
    generalize repo_remove_loop _ _ _ _ _ _ = R at hrem ⊢
    obtain ⟨rem, hrem, hremok⟩ := hrem
    have hremok2 : ∀ e ∈ repo_event.emit_progress_start (str "Removing expired entries") :: rem,
        e.is_remove_step = true := by
      intro e he
      rcases List.mem_cons.mp he with rfl | he
      · rfl
      · exact hremok e he
    split
    · have hadd := repo_add_loop_steps E map legacy_repo st.ladd.length st.ladd 0 [] R.1
        (R.2 ++ [.mmap, .emit_progress_start (str "Adding new entries")])
      generalize repo_add_loop _ _ _ _ _ _ _ _ _ = A at hadd ⊢
      obtain ⟨loop, hloop, hloopok⟩ := hadd
      refine ⟨r0, rc, .emit_progress_start (str "Removing expired entries") :: rem,
        [.mmap, .emit_progress_start (str "Adding new entries")] ++ loop ++
          [.emit_incremental_update st.updated st.ldel.length st.added st.processed],
        ?_, hremok2, ?_⟩
      · simp only [hloop, hrem, List.append_assoc, List.cons_append, List.nil_append]
      · intro e he
        simp only [List.mem_append, List.mem_cons, List.mem_singleton, List.not_mem_nil,
          or_false] at he
        rcases he with ((rfl | rfl) | he) | rfl
        · rfl
        · rfl
        · have := hloopok e he
          cases e <;> simp_all [repo_event.is_add_step, repo_event.is_add_phase]
        · simp [repo_event.is_add_phase]
    · split
      · refine ⟨r0, rc, .emit_progress_start (str "Removing expired entries") :: rem,
          [.emit_error (str "Empty catalog")], ?_, hremok2,
          by simp [repo_event.is_add_phase, repo_event.is_add_step]⟩
        simp only [hrem, List.append_assoc, List.cons_append, List.nil_append]
      · refine ⟨r0, rc, .emit_progress_start (str "Removing expired entries") :: rem,
          [.emit_error (str "Catalog too large")], ?_, hremok2,
          by simp [repo_event.is_add_phase, repo_event.is_add_step]⟩
        simp only [hrem, List.append_assoc, List.cons_append, List.nil_append]

theorem repo_apply_cleanup_shape (E : repo_env) (st : increment_state) (map : Bytes)
    (legacy_repo : Bool) (tr : repo_trace) :
    ∃ r0 rc rem adds tail,
      (repo_apply_cleanup E st map legacy_repo tr).2 =
        tr ++ [.sql_exec (str "CREATE TABLE IF NOT EXISTS repo_update (x INTEGER);") r0] ++
          [.pkgdb_transaction_begin rc] ++ rem ++ adds ++ tail ∧
      (∀ e ∈ rem, e.is_remove_step = true) ∧
      (∀ e ∈ adds, e.is_add_phase st = true) ∧
      (∀ e ∈ tail, e.is_cleanup_step = true) ∧
      ∃ c, repo_event.pkgdb_transaction_commit c ∈ tail := by
  obtain ⟨r0, rc, rem, adds, hshape, hrem, hadds⟩ := repo_apply_shape E st map legacy_repo tr
  unfold repo_apply_cleanup
  obtain ⟨tail, htail, hcl, hcommit⟩ := repo_cleanup_trans E
    (repo_apply E st map legacy_repo tr).1 (repo_apply E st map legacy_repo tr).2
  exact ⟨r0, rc, rem, adds, tail, by rw [htail, hshape], hrem, hadds, hcl, hcommit⟩

theorem digest_line_apply_counters (st : increment_state) (r : digest_record) :
    (digest_line_apply st r).processed = st.processed + 1 ∧
    (digest_line_apply st r).added =
      st.added + (if (HASH_FIND_STR st.ldel r.origin).isNone then 1 else 0) ∧
    (digest_line_apply st r).updated =
      st.updated + (match HASH_FIND_STR st.ldel r.origin with
        | some item => if r.digest ≠ item.digest then 1 else 0
        | none => 0) := by
  unfold digest_line_apply
  cases hf : HASH_FIND_STR st.ldel r.origin with
  | none => simp [hf]
  | some item =>
    by_cases hd : r.digest = item.digest <;> simp [hf, hd]

theorem foldl_digest_line_apply_counters (R : List digest_record) :
    ∀ st : increment_state, (st.ldel.map (fun i => i.origin)).Nodup →
      (R.map (fun r => r.origin)).Nodup →
      (R.foldl digest_line_apply st).processed = st.processed + R.length ∧
      (R.foldl digest_line_apply st).added = st.added +
        (R.filter (fun r => (HASH_FIND_STR st.ldel r.origin).isNone)).length ∧
      (R.foldl digest_line_apply st).updated = st.updated +
        (R.filter (fun r => match HASH_FIND_STR st.ldel r.origin with
          | some item => decide (r.digest ≠ item.digest)
          | none => false)).length := by
  induction R with
  | nil => intro st _ _; simp
  | cons r R ih =>
    intro st hT hR
    obtain ⟨h1, _⟩ := digest_line_apply_tables st r hT
    obtain ⟨c1, c2, c3⟩ := digest_line_apply_counters st r
    have hR2 : (R.map (fun r => r.origin)).Nodup := (List.nodup_cons.mp hR).2
    have hrR : r.origin ∉ R.map (fun r => r.origin) := (List.nodup_cons.mp hR).1
    have hT1 : ((digest_line_apply st r).ldel.map (fun i => i.origin)).Nodup := by
      rw [h1]
      exact List.Nodup.sublist (List.Sublist.map _ (List.filter_sublist _)) hT
    obtain ⟨i1, i2, i3⟩ := ih (digest_line_apply st r) hT1 hR2
    have hfind : ∀ x ∈ R, HASH_FIND_STR (digest_line_apply st r).ldel x.origin =
        HASH_FIND_STR st.ldel x.origin := by
      intro x hx
      have hne : x.origin ≠ r.origin := by
        intro he
        exact hrR (he ▸ List.mem_map.mpr ⟨x, hx, rfl⟩)
      rw [h1, HASH_FIND_STR_filter_ne _ _ _ hne]
    have hf1 : R.filter (fun x => (HASH_FIND_STR (digest_line_apply st r).ldel x.origin).isNone)
        = R.filter (fun x => (HASH_FIND_STR st.ldel x.origin).isNone) := by
      apply List.filter_congr
      intro x hx
      rw [hfind x hx]
    have hf2 : R.filter (fun x => match HASH_FIND_STR (digest_line_apply st r).ldel x.origin with
          | some item => decide (x.digest ≠ item.digest)
          | none => false)
        = R.filter (fun x => match HASH_FIND_STR st.ldel x.origin with
          | some item => decide (x.digest ≠ item.digest)
          | none => false) := by
      apply List.filter_congr
      intro x hx
      rw [hfind x hx]
    rw [List.foldl_cons, i1, i2, i3, c1, c2, c3, hf1, hf2]
    refine ⟨by simp only [List.length_cons]; omega, ?_, ?_⟩
    · cases hf : HASH_FIND_STR st.ldel r.origin with
      | none => simp [List.filter_cons, hf]; omega
      | some item => simp [List.filter_cons, hf]
    · cases hf : HASH_FIND_STR st.ldel r.origin with
      | none => simp [List.filter_cons, hf]
      | some item =>
        by_cases hd : r.digest = item.digest
        · simp [List.filter_cons, hf, hd]
        · simp [List.filter_cons, hf, hd]; omega

theorem lookup_local_none (rows : List repo_row) (legacy_repo : Bool) (o : Bytes) :
    ((rows.map (fun row => (row.origin, row.local_digest legacy_repo))).lookup o).isNone =
      decide (o ∉ rows.map (fun row => row.origin)) := by
  induction rows with
  | nil => rfl
  | cons row rest ih =>
    by_cases h : o = row.origin
    · subst h; simp [List.lookup]
    · have hb : (o == row.origin) = false := beq_eq_false_iff_ne.mpr h
      simp only [List.map_cons, List.lookup, hb, ih, List.mem_cons, h, false_or]

theorem lookup_local_differs (rows : List repo_row) (legacy_repo : Bool) (o dg : Bytes)
    (hL : (rows.map (fun row => row.origin)).Nodup) :
    (match (rows.map (fun row => (row.origin, row.local_digest legacy_repo))).lookup o with
      | some d => decide (dg ≠ d.getD [])
      | none => false) =
      decide (∃ row ∈ rows, row.origin = o ∧ (row.local_digest legacy_repo).getD [] ≠ dg) := by
  induction rows with
  | nil => simp [List.lookup]
  | cons row rest ih =>
    have hrest : (rest.map (fun row => row.origin)).Nodup := (List.nodup_cons.mp hL).2
    have hrow : row.origin ∉ rest.map (fun row => row.origin) := (List.nodup_cons.mp hL).1
    by_cases h : o = row.origin
    · subst h
      have hno : ¬ ∃ r2 ∈ rest, r2.origin = row.origin ∧
          (r2.local_digest legacy_repo).getD [] ≠ dg := by
        rintro ⟨r2, hr2, ho, _⟩
        exact hrow (List.mem_map.mpr ⟨r2, hr2, ho⟩)
      simp only [List.map_cons, List.lookup, beq_self_eq_true, List.mem_cons, exists_eq_or_imp,
        true_and, hno, or_false]
      by_cases hd : dg = (row.local_digest legacy_repo).getD []
      · simp [hd]
      · have hd2 : ¬ (row.local_digest legacy_repo).getD [] = dg := fun e => hd e.symm
        simp [hd, hd2]
    · have hb : (o == row.origin) = false := beq_eq_false_iff_ne.mpr h
      have h2 : ¬ row.origin = o := fun e => h e.symm
      simp only [List.map_cons, List.lookup, hb, ih hrest, List.mem_cons, exists_eq_or_imp, h2,
        false_and, false_or]

/-- The counters and the delete table the digests loop leaves, in terms of
the local rows and the digest lines. -/
theorem increment_counters (rows : List repo_row) (legacy_repo : Bool) (R : List digest_record)
    (hL : (rows.map (fun row => row.origin)).Nodup) (hR : (R.map (fun r => r.origin)).Nodup) :
    (R.foldl digest_line_apply (increment_init
      (rows.map (fun row => (row.origin, row.local_digest legacy_repo))))).processed
      = R.length ∧
    (R.foldl digest_line_apply (increment_init
      (rows.map (fun row => (row.origin, row.local_digest legacy_repo))))).added
      = (R.filter (fun d => decide (d.origin ∉ rows.map (fun row => row.origin)))).length ∧
    (R.foldl digest_line_apply (increment_init
      (rows.map (fun row => (row.origin, row.local_digest legacy_repo))))).updated
      = (R.filter (fun d => decide (∃ row ∈ rows, row.origin = d.origin ∧
          (row.local_digest legacy_repo).getD [] ≠ d.digest))).length ∧
    (R.foldl digest_line_apply (increment_init
      (rows.map (fun row => (row.origin, row.local_digest legacy_repo))))).ldel.length
      = (rows.filter (fun row => decide (row.origin ∉ R.map (fun r => r.origin)))).length := by
  have hT : ((increment_init
      (rows.map (fun row => (row.origin, row.local_digest legacy_repo)))).ldel.map
        (fun i => i.origin)).Nodup := by
    simp only [increment_init]
    rw [load_local_origins, List.map_map]
    exact hL
  obtain ⟨c1, c2, c3⟩ := foldl_digest_line_apply_counters R _ hT hR
  obtain ⟨t1, _⟩ := foldl_digest_line_apply_tables R _ hT hR
  refine ⟨?_, ?_, ?_, ?_⟩
  · rw [c1]; simp [increment_init]
  · rw [c2]
    simp only [increment_init, Nat.zero_add]
    congr 1
    apply List.filter_congr
    intro d _
    rw [HASH_FIND_STR_load_local, Option.isNone_map', lookup_local_none]
  · rw [c3]
    simp only [increment_init, Nat.zero_add]
    congr 1
    apply List.filter_congr
    intro d _
    rw [HASH_FIND_STR_load_local, ← lookup_local_differs rows legacy_repo d.origin d.digest hL]
    cases (rows.map (fun row => (row.origin, row.local_digest legacy_repo))).lookup d.origin
      <;> rfl
  · rw [t1]
    simp only [increment_init]
    rw [load_local_eq_map, List.map_map, List.filter_map, List.length_map]
    rfl

theorem RepoExtends.of_nil {ok : repo_event → Bool} {t : repo_trace}
    (h : RepoExtends ok [] t) : ∀ e ∈ t, ok e = true := by
  obtain ⟨b, hb, hok⟩ := h
  rw [hb]
  simpa using hok

theorem pkg_repo_update_incremental_shape (E : repo_env) (mtime : Int) :
    (∀ e ∈ (pkg_repo_update_incremental E mtime []).2.2, e.is_setup = true) ∨
    ∃ f legacy_repo st pre rc rem adds tail,
      repo_update_open E mtime [] = .ok f ∧
      repo_update_diff E f = .ok (legacy_repo, st) ∧
      (pkg_repo_update_incremental E mtime []).2.2 =
        pre ++ [.pkgdb_transaction_begin rc] ++ rem ++ adds ++ tail ∧
      (∀ e ∈ pre, e.is_setup = true) ∧
      (∀ e ∈ rem, e.is_remove_step = true) ∧
      (∀ e ∈ adds, e.is_add_phase st = true) ∧
      (∀ e ∈ tail, e.is_cleanup_step = true) ∧
      ∃ c, repo_event.pkgdb_transaction_commit c ∈ tail := by
  cases ho : repo_update_open E mtime [] with
  | error r =>
    left
    have hT : (pkg_repo_update_incremental E mtime []).2.2 = r.2.2 := by
      simp only [pkg_repo_update_incremental, ho]
    rw [hT]
    exact (repo_update_open_error E mtime [] r ho).of_nil
  | ok f =>
    have hf := (repo_update_open_ok E mtime [] f ho).1
    cases hd : repo_update_diff E f with
    | error r =>
      left
      have hT : (pkg_repo_update_incremental E mtime []).2.2 = r.2.2 := by
        simp only [pkg_repo_update_incremental, ho, hd]
      rw [hT]
      exact (hf.re_trans (repo_update_diff_error E f r hd)).of_nil
    | ok ls =>
      obtain ⟨legacy_repo, st⟩ := ls
      right
      have hT : (pkg_repo_update_incremental E mtime []).2.2 =
          (repo_apply_cleanup E st f.fmanifest.flatten legacy_repo f.tr).2 := by
        simp only [pkg_repo_update_incremental, ho, hd]
      obtain ⟨r0, rc, rem, adds, tail, hshape, hrem, hadds, htail, hcommit⟩ :=
        repo_apply_cleanup_shape E st f.fmanifest.flatten legacy_repo f.tr
      refine ⟨f, legacy_repo, st,
        f.tr ++ [.sql_exec (str "CREATE TABLE IF NOT EXISTS repo_update (x INTEGER);") r0],
        rc, rem, adds, tail, rfl, hd, hT.trans hshape, ?_, hrem, hadds, htail, hcommit⟩
      exact (hf.re_snoc _ rfl).of_nil

theorem append_eq_split {α : Type} {A B l1 l2 : List α} {e : α}
    (h : A ++ B = l1 ++ e :: l2) :
    (∃ a2, A = l1 ++ e :: a2 ∧ l2 = a2 ++ B) ∨ (∃ b1, l1 = A ++ b1 ∧ B = b1 ++ e :: l2) := by
  rcases List.append_eq_append_iff.mp h with ⟨a', h1, h2⟩ | ⟨c', h1, h2⟩
  · right
    exact ⟨a', h1, h2⟩
  · cases c' with
    | nil =>
      right
      refine ⟨[], ?_, ?_⟩
      · simpa using h1.symm
      · simpa using h2.symm
    | cons x c2 =>
      left
      simp only [List.cons_append, List.cons.injEq] at h2
      obtain ⟨rfl, h2⟩ := h2
      exact ⟨c2, h1, h2⟩

theorem repo_event.setup_plain {e : repo_event} (h : e.is_setup = true) :
    e.is_remove = false ∧ e.is_add = false ∧ e.is_savepoint_end = false := by
  cases e <;> simp_all [repo_event.is_setup, repo_event.is_remove, repo_event.is_add,
    repo_event.is_savepoint_end]

theorem repo_event.remove_step_plain {e : repo_event} (h : e.is_remove_step = true) :
    e.is_add = false ∧ e.is_savepoint_end = false := by
  cases e <;> simp_all [repo_event.is_remove_step, repo_event.is_add,
    repo_event.is_savepoint_end]

theorem repo_event.add_phase_plain {st : increment_state} {e : repo_event}
    (h : e.is_add_phase st = true) : e.is_remove = false ∧ e.is_savepoint_end = false := by
  cases e <;> simp_all [repo_event.is_add_phase, repo_event.is_add_step, repo_event.is_remove,
    repo_event.is_savepoint_end]

theorem repo_event.cleanup_step_plain {e : repo_event} (h : e.is_cleanup_step = true) :
    e.is_remove = false ∧ e.is_add = false := by
  cases e <;> simp_all [repo_event.is_cleanup_step, repo_event.is_remove, repo_event.is_add]

/-- Claim C15.  Wherever a call that adds a package stands in the trace of a
run of `pkg_repo_update_incremental`, no call that removes a package follows
it; and wherever a call that removes or adds a package stands, the begin of
the savepoint stands before it, no commit or rollback stands before it, and a
commit or rollback follows it. -/
theorem repo_update_order (E : repo_env) (mtime : Int) (l1 : repo_trace) (e : repo_event)
    (l2 : repo_trace)
    (hT : (pkg_repo_update_incremental E mtime []).2.2 = l1 ++ e :: l2) :
    (e.is_add = true → ∀ x ∈ l2, x.is_remove = false) ∧
    (e.is_remove = true ∨ e.is_add = true →
      (∃ rc, repo_event.pkgdb_transaction_begin rc ∈ l1) ∧
      (∀ x ∈ l1, x.is_savepoint_end = false) ∧
      (∃ x ∈ l2, x.is_savepoint_end = true)) := by
  rcases pkg_repo_update_incremental_shape E mtime with hall |
    ⟨f, legacy_repo, st, pre, rc, rem, adds, tail, _, _, hshape, hpre, hrem, hadds, htail,
      ⟨c, hc⟩⟩
  · have he : e.is_setup = true := hall e (by rw [hT]; simp)
    obtain ⟨h1, h2, _⟩ := repo_event.setup_plain he
    refine ⟨fun h => ?_, fun h => ?_⟩
    · rw [h2] at h; cases h
    · rcases h with h | h
      · rw [h1] at h; cases h
      · rw [h2] at h; cases h
  · rw [hT] at hshape
    have hend_tail : ∃ x ∈ tail, x.is_savepoint_end = true := ⟨_, hc, rfl⟩
    have hpre_begin : ∀ x ∈ pre ++ [repo_event.pkgdb_transaction_begin rc],
        x.is_savepoint_end = false := by
      intro x hx
      rcases List.mem_append.mp hx with hx | hx
      · exact (repo_event.setup_plain (hpre x hx)).2.2
      · rw [List.mem_singleton.mp hx]; rfl
    rcases append_eq_split hshape.symm with ⟨a2, hA, hl2⟩ | ⟨b1, _, hB⟩
    · rcases append_eq_split hA with ⟨a3, hA3, ha2⟩ | ⟨b1, hl1, hadd⟩
      · rcases append_eq_split hA3 with ⟨a4, hA4, ha3⟩ | ⟨b1, hl1, hremeq⟩
        · -- the call stands before the removals: it is a setup call or the begin
          have hmem : e ∈ pre ++ [repo_event.pkgdb_transaction_begin rc] := by
            rw [hA4]; simp
          have h1 : e.is_remove = false ∧ e.is_add = false := by
            rcases List.mem_append.mp hmem with hx | hx
            · exact ⟨(repo_event.setup_plain (hpre e hx)).1,
                (repo_event.setup_plain (hpre e hx)).2.1⟩
            · rw [List.mem_singleton.mp hx]; exact ⟨rfl, rfl⟩
          refine ⟨fun h => ?_, fun h => ?_⟩
          · rw [h1.2] at h; cases h
          · rcases h with h | h
            · rw [h1.1] at h; cases h
            · rw [h1.2] at h; cases h
        · -- the call is one of the removals
          have he : e.is_remove_step = true := hrem e (by rw [hremeq]; simp)
          refine ⟨fun h => ?_, fun _ => ⟨⟨rc, ?_⟩, ?_, ?_⟩⟩
          · rw [(repo_event.remove_step_plain he).1] at h; cases h
          · rw [hl1]; simp
          · intro x hx
            rw [hl1] at hx
            rcases List.mem_append.mp hx with hx | hx
            · exact hpre_begin x hx
            · exact (repo_event.remove_step_plain (hrem x (by rw [hremeq]; simp [hx]))).2
          · obtain ⟨x, hx, hxe⟩ := hend_tail
            exact ⟨x, by rw [hl2]; simp [hx], hxe⟩
      · -- the call is in the add phase
        refine ⟨fun _ => ?_, fun _ => ⟨⟨rc, ?_⟩, ?_, ?_⟩⟩
        · intro x hx
          rw [hl2] at hx
          rcases List.mem_append.mp hx with hx | hx
          · exact (repo_event.add_phase_plain (hadds x (by rw [hadd]; simp [hx]))).1
          · exact (repo_event.cleanup_step_plain (htail x hx)).1
        · rw [hl1]; simp
        · intro x hx
          rw [hl1] at hx
          rcases List.mem_append.mp hx with hx | hx
          · rcases List.mem_append.mp hx with hx | hx
            · exact hpre_begin x hx
            · exact (repo_event.remove_step_plain (hrem x hx)).2
          · exact (repo_event.add_phase_plain (hadds x (by rw [hadd]; simp [hx]))).2
        · obtain ⟨x, hx, hxe⟩ := hend_tail
          exact ⟨x, by rw [hl2]; simp [hx], hxe⟩
    · -- the call is in the cleanup block
      have he : e.is_cleanup_step = true := htail e (by rw [hB]; simp)
      obtain ⟨h1, h2⟩ := repo_event.cleanup_step_plain he
      refine ⟨fun h => ?_, fun h => ?_⟩
      · rw [h2] at h; cases h
      · rcases h with h | h
        · rw [h1] at h; cases h
        · rw [h2] at h; cases h

theorem repo_update_order_witness :
    (pkg_repo_update_incremental demo_update_env 7 []).2.2 =
      (pkg_repo_update_incremental demo_update_env 7 []).2.2.take 20 ++
        repo_event.pkgdb_repo_add_package (some (str "c")) (some (str "repo"))
          (some (str "d3")) none EPKG_OK ::
        (pkg_repo_update_incremental demo_update_env 7 []).2.2.drop 21 ∧
    ((repo_event.pkgdb_repo_add_package (some (str "c")) (some (str "repo"))
          (some (str "d3")) none EPKG_OK).is_add = true →
      ∀ x ∈ (pkg_repo_update_incremental demo_update_env 7 []).2.2.drop 21,
        x.is_remove = false) ∧
    ((repo_event.pkgdb_repo_add_package (some (str "c")) (some (str "repo"))
          (some (str "d3")) none EPKG_OK).is_remove = true ∨
      (repo_event.pkgdb_repo_add_package (some (str "c")) (some (str "repo"))
          (some (str "d3")) none EPKG_OK).is_add = true →
      (∃ rc, repo_event.pkgdb_transaction_begin rc ∈
        (pkg_repo_update_incremental demo_update_env 7 []).2.2.take 20) ∧
      (∀ x ∈ (pkg_repo_update_incremental demo_update_env 7 []).2.2.take 20,
        x.is_savepoint_end = false) ∧
      (∃ x ∈ (pkg_repo_update_incremental demo_update_env 7 []).2.2.drop 21,
        x.is_savepoint_end = true)) :=
  ⟨by decide, repo_update_order demo_update_env 7 _ _ _ (by decide)⟩

theorem getlines_of_nonempty (lines : List Bytes) (h : ∀ l ∈ lines, l ≠ []) :
    getlines lines = lines := by
  unfold getlines
  rw [List.takeWhile_eq_self_iff]
  intro l hl
  cases l with
  | nil => exact absurd rfl (h [] hl)
  | cons _ _ => rfl

/-- C16 (as amended).  Let the catalog hand out the rows `rows` and the remote
digests file have the lines `lines`, which parse to the records `R`, with
distinct origins on both sides.  Then every report of counters that a run of
`pkg_repo_update_incremental` makes says: processed is the number of digest
lines, added the number of lines whose origin no local row has, updated the
number of lines whose origin a local row has with another digest, and removed
the number of local rows whose origin no line names. -/
theorem repo_update_counters (E : repo_env) (mtime : Int) (rows : List repo_row)
    (lines : List Bytes) (R : List digest_record) (legacy_repo : Bool)
    (horigins : ∀ t, E.pkgdb_repo_origins t = some rows)
    (hfetch : ∀ t mt, (E.fetch t .digests mt).1 = some lines)
    (hlines : ∀ l ∈ lines, l ≠ [])
    (hwf : List.Forall₂ (fun l r => digest_line_parse l = .ok r) lines R)
    (hL : (rows.map (fun row => row.origin)).Nodup)
    (hR : (R.map (fun r => r.origin)).Nodup)
    (hlegacy : repo_detect_legacy E lines = .ok legacy_repo)
    (updated removed added processed : Nat)
    (hrep : repo_event.emit_incremental_update updated removed added processed ∈
      (pkg_repo_update_incremental E mtime []).2.2) :
    processed = R.length ∧
    added = (R.filter (fun d => decide (d.origin ∉ rows.map (fun row => row.origin)))).length ∧
    updated = (R.filter (fun d => decide (∃ row ∈ rows, row.origin = d.origin ∧
      (row.local_digest legacy_repo).getD [] ≠ d.digest))).length ∧
    removed = (rows.filter (fun row => decide (row.origin ∉ R.map (fun r => r.origin)))).length
    := by
  rcases pkg_repo_update_incremental_shape E mtime with hall |
    ⟨f, lr, st, pre, rc, rem, adds, tail, hopen, hdiff, hshape, hpre, hrem, hadds, htail, _⟩
  · have := hall _ hrep
    cases this
  · obtain ⟨_, ⟨t1, ht1⟩, ⟨t2, mt, ht2⟩⟩ := repo_update_open_ok E mtime [] f hopen
    have hrows : f.rows = rows := by
      rw [horigins] at ht1; exact (Option.some.inj ht1).symm
    have hfd : f.fdigests = lines := by
      rw [hfetch] at ht2; exact (Option.some.inj ht2).symm
    obtain ⟨hdet, hload⟩ := repo_update_diff_ok E f lr st hdiff
    rw [hfd, hlegacy] at hdet
    have hlr : lr = legacy_repo := by cases hdet; rfl
    subst hlr
    rw [hfd, hrows, getlines_of_nonempty lines hlines, load_digests_of_parsed lines R hwf] at hload
    have hst : st = R.foldl digest_line_apply (increment_init
        (rows.map (fun row => (row.origin, row.local_digest lr)))) := by
      cases hload; rfl
    obtain ⟨c1, c2, c3, c4⟩ := increment_counters rows lr R hL hR
    rw [← hst] at c1 c2 c3 c4
    rw [hshape] at hrep
    simp only [List.mem_append, List.mem_singleton] at hrep
    rcases hrep with (((hx | hx) | hx) | hx) | hx
    · have := hpre _ hx; cases this
    · cases hx
    · have := hrem _ hx; cases this
    · have := hadds _ hx
      simp only [repo_event.is_add_phase, decide_eq_true_eq] at this
      obtain ⟨h1, h2, h3, h4⟩ := this
      exact ⟨h4.trans c1, h3.trans c2, h1.trans c3, h2.trans c4⟩
    · have := htail _ hx; cases this

theorem repo_update_counters_witness :
    repo_event.emit_incremental_update 0 1 1 2 ∈
      (pkg_repo_update_incremental demo_update_env 7 []).2.2 ∧
    (2 = [digest_record.mk (str "a") (str "d1") 0 50,
          digest_record.mk (str "c") (str "d3") 50 50].length ∧
     1 = ([digest_record.mk (str "a") (str "d1") 0 50,
           digest_record.mk (str "c") (str "d3") 50 50].filter (fun d => decide (d.origin ∉
        [repo_row.mk (str "a") (some (str "d1")) none,
         repo_row.mk (str "b") (some (str "d2")) none].map (fun row => row.origin)))).length ∧
     0 = ([digest_record.mk (str "a") (str "d1") 0 50,
           digest_record.mk (str "c") (str "d3") 50 50].filter (fun d => decide (∃ row ∈
        [repo_row.mk (str "a") (some (str "d1")) none,
         repo_row.mk (str "b") (some (str "d2")) none], row.origin = d.origin ∧
        (row.local_digest false).getD [] ≠ d.digest))).length ∧
     1 = ([repo_row.mk (str "a") (some (str "d1")) none,
           repo_row.mk (str "b") (some (str "d2")) none].filter (fun row =>
        decide (row.origin ∉ [digest_record.mk (str "a") (str "d1") 0 50,
          digest_record.mk (str "c") (str "d3") 50 50].map (fun r => r.origin)))).length) :=
  ⟨by decide,
   repo_update_counters demo_update_env 7
    [repo_row.mk (str "a") (some (str "d1")) none, repo_row.mk (str "b") (some (str "d2")) none]
    [str "a:d1:0:0:50\n", str "c:d3:50:0:50\n"]
    [digest_record.mk (str "a") (str "d1") 0 50, digest_record.mk (str "c") (str "d3") 50 50]
    false (fun _ => rfl) (fun _ _ => rfl) (by decide)
    (List.Forall₂.cons rfl (List.Forall₂.cons rfl List.Forall₂.nil))
    (by decide) (by decide) rfl 0 1 1 2 (by decide)⟩

theorem foldl_invariant {α β : Type} (P : β → Prop) (f : β → α → β) (l : List α)
    (h : ∀ b, ∀ x ∈ l, P b → P (f b x)) : ∀ b, P b → P (l.foldl f b) := by
  induction l with
  | nil => intro b hb; exact hb
  | cons x l ih =>
    intro b hb
    exact ih (fun b y hy => h b y (List.mem_cons_of_mem _ hy)) _ (h b x (List.mem_cons_self _ _) hb)

theorem c_str_no_nul (b : Bytes) : 0 ∉ c_str b := by
  intro h
  have := List.mem_takeWhile_imp h
  simp at this

theorem c_str_length_le (b : Bytes) : (c_str b).length ≤ b.length := by
  unfold c_str
  exact (List.takeWhile_sublist _).length_le

theorem c_str_of_no_nul (b : Bytes) (h : 0 ∉ b) : c_str b = b := by
  unfold c_str
  rw [List.takeWhile_eq_self_iff]
  intro c hc
  simp only [bne_iff_ne, ne_eq]
  intro h0
  exact h (h0 ▸ hc)

theorem c_str_idem (b : Bytes) : c_str (c_str b) = c_str b :=
  c_str_of_no_nul _ (c_str_no_nul b)

theorem FilesSum.of_files {Q : Bytes → Prop} {p q : pkg} (hp : FilesSum Q p)
    (h : q.files = p.files) : FilesSum Q q := by
  unfold FilesSum
  rw [h]
  exact hp

theorem FilesSum.addfile_attr {Q : Bytes → Prop} {p : pkg} (hp : FilesSum Q p) (path : Bytes)
    (sum uname gname : Option Bytes) (perm : Nat) (hs : ∀ s, sum = some s → Q s) :
    FilesSum Q (pkg_addfile_attr p path sum uname gname perm) := by
  intro f hf s hfs
  simp only [pkg_addfile_attr, List.mem_append, List.mem_singleton] at hf
  rcases hf with hf | hf
  · exact hp f hf s hfs
  · subst hf
    exact hs s hfs

theorem ucl_chain_all (N : ucl_object_t → Prop) (key : Option Bytes) :
    ∀ (nx : List ucl_object_t) (o : ucl_object_t), N o → (∀ x ∈ nx, N x) →
      ∀ c ∈ ucl_chain key o nx, NodeAll N c := by
  intro nx
  induction nx with
  | nil =>
    intro o ho _ c hc
    simp only [ucl_chain, List.mem_singleton] at hc
    subst hc
    exact ⟨ho, fun x hx => by cases hx⟩
  | cons n rest ih =>
    intro o ho hnx c hc
    simp only [ucl_chain, List.mem_cons] at hc
    rcases hc with hc | hc
    · subst hc
      exact ⟨ho, hnx⟩
    · exact ih n (hnx n (List.mem_cons_self _ _))
        (fun x hx => hnx x (List.mem_cons_of_mem _ hx)) c hc

theorem ucl_iterate_all_true (n : ucl_node) (b : Bool) :
    ∀ c ∈ ucl_iterate_object n b, NodeAll (fun _ => True) c :=
  fun _ _ => ⟨trivial, fun _ _ => trivial⟩

theorem ucl_iterate_nul_free (n : ucl_node) (b : Bool) (hn : NodeAll NulFree n) :
    ∀ c ∈ ucl_iterate_object n b, NodeAll NulFree c := by
  intro c hc
  unfold ucl_iterate_object at hc
  split at hc
  · split at hc
    · rename_i ms hms
      simp only [List.mem_map] at hc
      obtain ⟨m, hm, rfl⟩ := hc
      have h1 := hn.1
      rw [hms] at h1
      cases h1 with
      | object _ ha hb => exact ⟨ha m hm, hb m hm⟩
    · rename_i es hes
      simp only [List.mem_map] at hc
      obtain ⟨e, he, rfl⟩ := hc
      have h1 := hn.1
      rw [hes] at h1
      cases h1 with
      | array _ ha => exact ⟨ha e he, fun x hx => by cases hx⟩
    · exact ucl_chain_all NulFree _ _ _ hn.1 hn.2 c hc
  · exact ucl_chain_all NulFree _ _ _ hn.1 hn.2 c hc

theorem pkg_set_deps_from_object_files (p : pkg) (obj : ucl_node) :
    (pkg_set_deps_from_object p obj).2.files = p.files := by
  unfold pkg_set_deps_from_object
  cases obj.key with
  | none => rfl
  | some okey =>
    simp only
    generalize ucl_iterate_object obj (obj.obj.type == ucl_type.UCL_ARRAY) = l
    have h : ∀ (st : pkg × dep_attrs), (l.foldl (fun (st : pkg × dep_attrs) self =>
        let a := pkg_set_deps_inner st.2 self
        match a.origin, a.version with
        | some origin, some version => (pkg_adddep st.1 okey origin version, a)
        | _, _ => (st.1, a)) st).1.files = st.1.files := by
      induction l with
      | nil => intro st; rfl
      | cons x l ih =>
        intro st
        rw [List.foldl_cons, ih]
        simp only
        split <;> rfl
    exact h _

theorem pkg_set_dirs_from_object_files (E : manifest_env) (p : pkg) (obj : ucl_node) :
    (pkg_set_dirs_from_object E p obj).2.files = p.files := by
  unfold pkg_set_dirs_from_object
  cases obj.key <;> rfl

theorem pkg_set_files_from_object_sum (Q : Bytes → Prop) (N : ucl_object_t → Prop)
    (hN : ∀ n, NodeAll N n → ∀ c ∈ ucl_iterate_object n true, NodeAll N c)
    (hobj : ∀ s, N (.string s) → strlen s = 64 → Q (c_str s))
    (E : manifest_env) (p : pkg) (obj : ucl_node) (hn : NodeAll N obj)
    (hp : FilesSum Q p) : FilesSum Q (pkg_set_files_from_object E p obj).2 := by
  unfold pkg_set_files_from_object
  cases obj.key with
  | none => exact hp
  | some okey =>
    simp only
    apply FilesSum.addfile_attr hp
    apply foldl_invariant (fun (a : file_attrs) => ∀ s, a.sum = some s → Q s)
    · intro a x hx ha
      have hxn := (hN obj hn x hx).1
      cases x.key with
      | none => exact ha
      | some key =>
        simp only
        split
        · exact ha
        · split
          · exact ha
          · split
            · rename_i h3
              intro s hs
              simp only [Bool.and_eq_true, beq_iff_eq] at h3
              simp only at hs
              cases hxo : x.obj with
              | string v =>
                rw [hxo] at hs h3 hxn
                simp only [ucl_object_tostring, Option.map_some', Option.some.injEq] at hs
                subst hs
                exact hobj v hxn (by simpa [ucl_object_tostring] using h3.2)
              | _ =>
                rw [hxo] at hs
                simp [ucl_object_tostring] at hs
            · split
              · split <;> exact ha
              · exact ha
    · intro s hs
      cases hs

theorem pkg_obj_step_sum (Q : Bytes → Prop) (N : ucl_object_t → Prop)
    (hN : ∀ n, NodeAll N n → ∀ c ∈ ucl_iterate_object n true, NodeAll N c)
    (hstr : ∀ s, N (.string s) → s.length = 64 → Q (c_str s))
    (hobj : ∀ s, N (.string s) → strlen s = 64 → Q (c_str s))
    (E : manifest_env) (attr : pkg_attr) (p : pkg) (cur : ucl_node) (hn : NodeAll N cur)
    (hp : FilesSum Q p) : FilesSum Q (pkg_obj_step E attr p cur) := by
  unfold pkg_obj_step
  cases cur.key with
  | none => exact hp
  | some key =>
    simp only
    cases attr
    case PKG_FILES =>
      simp only
      split
      · rename_i buf hbuf
        apply FilesSum.addfile_attr hp
        intro s hs
        split at hs
        · rename_i hlen
          cases hs
          have h1 := hn.1
          rw [hbuf] at h1
          exact hstr buf h1 hlen
        · cases hs
      · exact pkg_set_files_from_object_sum Q N hN hobj _ _ _ hn hp
      · exact hp
    all_goals simp only
    all_goals first
      | exact hp
      | (split <;> first
          | exact hp
          | exact hp.of_files rfl
          | exact hp.of_files (pkg_set_deps_from_object_files _ _)
          | exact hp.of_files (pkg_set_dirs_from_object_files _ _ _)
          | (unfold pkg_addannotation; split <;> exact hp.of_files rfl)
          | (split <;> exact hp))

theorem pkg_obj_sum (Q : Bytes → Prop) (N : ucl_object_t → Prop)
    (hN : ∀ n, NodeAll N n → ∀ c ∈ ucl_iterate_object n true, NodeAll N c)
    (hstr : ∀ s, N (.string s) → s.length = 64 → Q (c_str s))
    (hobj : ∀ s, N (.string s) → strlen s = 64 → Q (c_str s))
    (E : manifest_env) (attr : pkg_attr) (p : pkg) (obj : ucl_node) (hn : NodeAll N obj)
    (hp : FilesSum Q p) : FilesSum Q (pkg_obj E p obj attr).2 :=
  foldl_invariant (FilesSum Q) _ _
    (fun b x hx hb => pkg_obj_step_sum Q N hN hstr hobj E attr b x (hN obj hn x hx) hb) p hp

theorem pkg_add_to_array_files (p : pkg) (t : pkg_attr) (name : Bytes) :
    (pkg_add_to_array p t name).files = p.files := by
  unfold pkg_add_to_array
  split <;> rfl

theorem pkg_array_step_sum (Q : Bytes → Prop) (N : ucl_object_t → Prop)
    (hN : ∀ n, NodeAll N n → ∀ c ∈ ucl_iterate_object n true, NodeAll N c)
    (hstr : ∀ s, N (.string s) → s.length = 64 → Q (c_str s))
    (hobj : ∀ s, N (.string s) → strlen s = 64 → Q (c_str s))
    (E : manifest_env) (attr : pkg_attr) (p : pkg) (cur : ucl_node) (hn : NodeAll N cur)
    (hp : FilesSum Q p) : FilesSum Q (pkg_array_step E attr p cur) := by
  unfold pkg_array_step
  cases attr <;> simp only <;>
    first
    | exact hp
    | (split <;> first
        | exact hp
        | exact hp.of_files rfl
        | exact hp.of_files (pkg_add_to_array_files _ _ _)
        | exact pkg_obj_sum Q N hN hstr hobj _ _ _ _ hn hp)

theorem pkg_array_sum (Q : Bytes → Prop) (N : ucl_object_t → Prop)
    (hN : ∀ n, NodeAll N n → ∀ c ∈ ucl_iterate_object n true, NodeAll N c)
    (hstr : ∀ s, N (.string s) → s.length = 64 → Q (c_str s))
    (hobj : ∀ s, N (.string s) → strlen s = 64 → Q (c_str s))
    (E : manifest_env) (attr : pkg_attr) (p : pkg) (obj : ucl_node) (hn : NodeAll N obj)
    (hp : FilesSum Q p) : FilesSum Q (pkg_array E p obj attr).2 :=
  foldl_invariant (FilesSum Q) _ _
    (fun b x hx hb => pkg_array_step_sum Q N hN hstr hobj E attr b x (hN obj hn x hx) hb) p hp

theorem pkg_string_files (attr : pkg_attr) (p : pkg) (obj : ucl_node) :
    (pkg_string p obj attr).2.files = p.files := by
  unfold pkg_string
  cases attr <;> simp only <;>
    first
    | rfl
    | (split <;> first
        | rfl
        | (split <;> first
            | rfl
            | (split <;> rfl)))

theorem parse_data_call_sum (Q : Bytes → Prop) (N : ucl_object_t → Prop)
    (hN : ∀ n, NodeAll N n → ∀ c ∈ ucl_iterate_object n true, NodeAll N c)
    (hstr : ∀ s, N (.string s) → s.length = 64 → Q (c_str s))
    (hobj : ∀ s, N (.string s) → strlen s = 64 → Q (c_str s))
    (E : manifest_env) (f : parse_data_fn) (attr : pkg_attr)
    (p : pkg) (cur : ucl_node) (hn : NodeAll N cur) (hp : FilesSum Q p) :
    FilesSum Q (parse_data_call E f p cur attr).2 := by
  cases f
  · exact hp.of_files (pkg_string_files attr p cur)
  · exact pkg_obj_sum Q N hN hstr hobj E attr p cur hn hp
  · exact pkg_array_sum Q N hN hstr hobj E attr p cur hn hp
  · exact hp.of_files rfl

theorem parse_manifest_step_sum (Q : Bytes → Prop) (N : ucl_object_t → Prop)
    (hN : ∀ n, NodeAll N n → ∀ c ∈ ucl_iterate_object n true, NodeAll N c)
    (hstr : ∀ s, N (.string s) → s.length = 64 → Q (c_str s))
    (hobj : ∀ s, N (.string s) → strlen s = 64 → Q (c_str s))
    (E : manifest_env) (keys : List pkg_manifest_key) (p : pkg)
    (cur : ucl_node) (hn : NodeAll N cur) (hp : FilesSum Q p) :
    FilesSum Q (parse_manifest_step E keys p cur) := by
  unfold parse_manifest_step
  split
  · exact hp
  · split
    · exact hp
    · split
      · exact hp
      · exact parse_data_call_sum Q N hN hstr hobj _ _ _ _ _ hn hp

theorem parse_manifest_sum (Q : Bytes → Prop) (N : ucl_object_t → Prop)
    (hN : ∀ n, NodeAll N n → ∀ c ∈ ucl_iterate_object n true, NodeAll N c)
    (hstr : ∀ s, N (.string s) → s.length = 64 → Q (c_str s))
    (hobj : ∀ s, N (.string s) → strlen s = 64 → Q (c_str s))
    (E : manifest_env) (keys : List pkg_manifest_key) (p : pkg) (o : ucl_object_t)
    (ho : N o) (hp : FilesSum Q p) : FilesSum Q (parse_manifest E p keys o).2 :=
  foldl_invariant (FilesSum Q) _ _
    (fun b x hx hb => parse_manifest_step_sum Q N hN hstr hobj E keys b x
      (hN (ucl_root o) ⟨ho, fun _ h => (by cases h)⟩ x hx) hb) p hp

theorem FilesSum.of_cases {Q : Bytes → Prop} {p : pkg}
    (h : ∀ f ∈ p.files, f.sum = none ∨ ∃ s, f.sum = some s ∧ Q s) : FilesSum Q p := by
  intro f hf s hs
  rcases h f hf with h | ⟨s1, h1, h2⟩
  · rw [h] at hs; cases hs
  · rw [h1] at hs; cases hs; exact h2

theorem FilesSum.cases {Q : Bytes → Prop} {p : pkg} (h : FilesSum Q p) :
    ∀ f ∈ p.files, f.sum = none ∨ ∃ s, f.sum = some s ∧ Q s := by
  intro f hf
  cases hs : f.sum with
  | none => exact Or.inl rfl
  | some s => exact Or.inr ⟨s, rfl, h f hf s hs⟩

/-- C21 (as amended): every file of the package `pkg_parse_manifest` leaves
has a checksum that is absent or a string of at most 64 bytes none of which
is NUL, whatever the document, the registry and the collaborators are, when
that holds of the package handed in (as it does of a new package, which has no
file); and when no string of the document the parser reads holds a NUL byte,
every checksum that is there is exactly 64 bytes long, when that holds of the
package handed in. -/
theorem pkg_parse_manifest_file_sum (E : manifest_env) (p : pkg) (buf : Bytes)
    (keys : List pkg_manifest_key) :
    ((∀ f ∈ p.files, f.sum = none ∨ ∃ s, f.sum = some s ∧ s.length ≤ 64 ∧ 0 ∉ s) →
      ∀ f ∈ (pkg_parse_manifest E p buf keys).2.files,
        f.sum = none ∨ ∃ s, f.sum = some s ∧ s.length ≤ 64 ∧ 0 ∉ s) ∧
    ((∀ o, E.ucl_parse buf = some (some o) → NulFree o) →
      (∀ o, E.yaml_to_ucl buf = some o → NulFree o) →
      (∀ f ∈ p.files, f.sum = none ∨ ∃ s, f.sum = some s ∧ s.length = 64) →
      ∀ f ∈ (pkg_parse_manifest E p buf keys).2.files,
        f.sum = none ∨ ∃ s, f.sum = some s ∧ s.length = 64) := by
  constructor
  · intro hp
    apply FilesSum.cases
    unfold pkg_parse_manifest
    simp only
    split
    · exact FilesSum.of_cases hp
    · exact parse_manifest_sum _ (fun _ => True) (fun n _ => ucl_iterate_all_true n true)
        (fun s _ h => ⟨h ▸ c_str_length_le s, c_str_no_nul s⟩)
        (fun s _ h => ⟨Nat.le_of_eq h, c_str_no_nul s⟩) E keys p _ trivial
        (FilesSum.of_cases hp)
  · intro hu hy hp
    apply FilesSum.cases
    unfold pkg_parse_manifest
    simp only
    split
    · exact FilesSum.of_cases hp
    · rename_i o ho
      have hno : NulFree o := by
        split at ho
        · exact hy o ho
        · cases hup : E.ucl_parse buf with
          | none => rw [hup] at ho; cases ho
          | some oo =>
            rw [hup] at ho
            simp only [Option.getD_some] at ho
            subst ho
            exact hu o hup
      refine parse_manifest_sum _ NulFree (fun n hn => ucl_iterate_nul_free n true hn)
        ?_ ?_ E keys p _ hno (FilesSum.of_cases hp)
      · intro s hs h
        cases hs with
        | string _ h0 => rw [c_str_of_no_nul s h0]; exact h
      · intro s hs h
        cases hs with
        | string _ h0 =>
          unfold strlen at h
          rw [c_str_of_no_nul s h0] at h ⊢
          exact h

theorem pkg_parse_manifest_file_sum_witness :
    (pkg_parse_manifest demo_files_env pkg_new [] (pkg_manifest_keys_new [])).2.files ≠ [] ∧
    (∀ f ∈ (pkg_parse_manifest demo_files_env pkg_new [] (pkg_manifest_keys_new [])).2.files,
      f.sum = none ∨ ∃ s, f.sum = some s ∧ s.length ≤ 64 ∧ 0 ∉ s) ∧
    (∀ f ∈ (pkg_parse_manifest demo_files_env pkg_new [] (pkg_manifest_keys_new [])).2.files,
      f.sum = none ∨ ∃ s, f.sum = some s ∧ s.length = 64) :=
  ⟨by decide,
    (pkg_parse_manifest_file_sum demo_files_env pkg_new [] (pkg_manifest_keys_new [])).1
      (fun f hf => (by cases hf)),
    (pkg_parse_manifest_file_sum demo_files_env pkg_new [] (pkg_manifest_keys_new [])).2
      (fun o ho => by
        cases ho
        refine NulFree.object _ ?_ ?_
        · intro m hm
          simp only [List.mem_singleton] at hm
          subst hm
          refine NulFree.object _ ?_ ?_
          · intro m hm
            simp only [List.mem_singleton] at hm
            subst hm
            exact NulFree.string _ (by decide)
          · intro m hm
            simp only [List.mem_singleton] at hm
            subst hm
            intro o ho
            cases ho
        · intro m hm
          simp only [List.mem_singleton] at hm
          subst hm
          intro o ho
          cases ho)
      (fun o ho => by cases ho)
      (fun f hf => (by cases hf))⟩

/-- C21 (counterexample): a manifest whose file has 64 letters `Z` as its
checksum is parsed into a file that carries them, and `Z` is no lowercase
hexadecimal digit; and a manifest whose file has, as its checksum, 63 letters
`a` and a NUL byte is parsed into a file whose checksum is the 63 letters: it
is not empty and it is not 64 bytes long. -/
theorem pkg_parse_manifest_file_sum_counterexample :
    ((pkg_parse_manifest demo_files_env pkg_new [] (pkg_manifest_keys_new [])).2.files =
      [{ path := str "/bin/x", sum := some (List.replicate 64 90), uname := none,
         gname := none, perm := 0 }] ∧
    List.replicate 64 90 ≠ [] ∧ (List.replicate 64 90).length = 64 ∧
    ¬ IsLowerHex (List.replicate 64 90)) ∧
    ((pkg_parse_manifest demo_files_nul_env pkg_new [] (pkg_manifest_keys_new [])).2.files =
      [{ path := str "/bin/x", sum := some (List.replicate 63 97), uname := none,
         gname := none, perm := 0 }] ∧
    List.replicate 63 97 ≠ [] ∧ (List.replicate 63 97).length ≠ 64) := by
  refine ⟨⟨by decide, by decide, by decide, ?_⟩, by decide, by decide, by decide⟩
  intro h
  exact absurd (h 90 (by decide)) (by decide)

theorem mem_keys_insert_opt {top : ucl_object_t} (hobj : ∃ ms, top = .object ms)
    (e : Option ucl_object_t) (k k1 : Bytes) :
    k1 ∈ ucl_object_keys (insert_opt top e k) ↔
      k1 ∈ ucl_object_keys top ∨ (k1 = k ∧ e.isSome = true) := by
  obtain ⟨ms, rfl⟩ := hobj
  cases e with
  | none => simp [insert_opt]
  | some e =>
    simp only [insert_opt, ucl_object_insert_key, Option.isSome_some, and_true]
    split
    · rename_i hany
      have hk : ucl_object_keys (.object (ms.map (fun m =>
          if m.1 == k then (m.1, m.2.1, m.2.2 ++ [e]) else m))) =
          ucl_object_keys (.object ms) := by
        simp only [ucl_object_keys, List.map_map]
        apply List.map_congr_left
        intro m _
        simp only [Function.comp]
        split <;> rfl
      rw [hk]
      constructor
      · exact Or.inl
      · rintro (h | h)
        · exact h
        · subst h
          simp only [List.any_eq_true, beq_iff_eq] at hany
          obtain ⟨m, hm, hmk⟩ := hany
          simp only [ucl_object_keys, List.mem_map]
          exact ⟨m, hm, hmk⟩
    · simp [ucl_object_keys]

theorem insert_opt_object {top : ucl_object_t} (hobj : ∃ ms, top = .object ms)
    (e : Option ucl_object_t) (k : Bytes) : ∃ ms, insert_opt top e k = .object ms := by
  obtain ⟨ms, rfl⟩ := hobj
  cases e with
  | none => exact ⟨ms, rfl⟩
  | some e =>
    simp only [insert_opt, ucl_object_insert_key]
    split <;> exact ⟨_, rfl⟩

theorem emit_map_foldl_isSome {α : Type} (entry : α → Bytes × ucl_object_t) (l : List α) :
    ∀ (m : Option ucl_object_t), m.isSome = true →
      (l.foldl (fun (map : Option ucl_object_t) a =>
        some (ucl_object_insert_key (map.getD (.object [])) (entry a).2 (entry a).1))
        m).isSome = true := by
  induction l with
  | nil => intro m h; exact h
  | cons x l ih => intro m _; exact ih _ rfl

theorem emit_map_isSome {α : Type} (l : List α) (entry : α → Bytes × ucl_object_t) :
    (emit_map l entry).isSome = true ↔ l ≠ [] := by
  unfold emit_map
  cases l with
  | nil => simp
  | cons a l =>
    simp only [List.foldl_cons, ne_eq, reduceCtorEq, not_false_eq_true, iff_true]
    exact emit_map_foldl_isSome entry l _ rfl

theorem emit_manifest_files_mem (p : pkg) (flags : Nat) (top : ucl_object_t)
    (hobj : ∃ ms, top = .object ms) (k1 : Bytes) :
    k1 ∈ ucl_object_keys (emit_manifest_files p flags top) ↔
      k1 ∈ ucl_object_keys top ∨
      (k1 = str "files" ∧ flags &&& PKG_MANIFEST_EMIT_COMPACT = 0 ∧
        flags &&& PKG_MANIFEST_EMIT_NOFILES = 0 ∧ p.files ≠ []) ∨
      (k1 = str "directories" ∧ flags &&& PKG_MANIFEST_EMIT_COMPACT = 0 ∧
        flags &&& PKG_MANIFEST_EMIT_NOFILES = 0 ∧ p.dirs ≠ []) ∨
      (k1 = str "scripts" ∧ flags &&& PKG_MANIFEST_EMIT_COMPACT = 0 ∧
        pkg_script_phases.filter (fun i => (pkg_script_get p i).isSome) ≠ []) := by
  unfold emit_manifest_files
  by_cases hc : flags &&& PKG_MANIFEST_EMIT_COMPACT = 0
  · by_cases hn : flags &&& PKG_MANIFEST_EMIT_NOFILES = 0
    · simp only [hc, hn, if_true, true_and]
      rw [mem_keys_insert_opt (insert_opt_object (insert_opt_object hobj _ _) _ _),
        mem_keys_insert_opt (insert_opt_object hobj _ _), mem_keys_insert_opt hobj,
        emit_map_isSome, emit_map_isSome, emit_map_isSome]
      tauto
    · simp only [hc, hn, if_true, if_false, true_and, false_and, and_false, false_or]
      rw [mem_keys_insert_opt hobj, emit_map_isSome]
  · simp [hc]

theorem emit_manifest_files_object (p : pkg) (flags : Nat) (top : ucl_object_t)
    (hobj : ∃ ms, top = .object ms) : ∃ ms, emit_manifest_files p flags top = .object ms := by
  unfold emit_manifest_files
  split
  · split
    · exact insert_opt_object (insert_opt_object (insert_opt_object hobj _ _) _ _) _ _
    · exact insert_opt_object hobj _ _
  · exact hobj

theorem emit_manifest_message_mem (p : pkg) (top : ucl_object_t)
    (hobj : ∃ ms, top = .object ms) (k1 : Bytes) (hk : k1 ≠ str "message") :
    k1 ∈ ucl_object_keys (emit_manifest_message p top) ↔ k1 ∈ ucl_object_keys top := by
  unfold emit_manifest_message
  cases pkg_get_string p .PKG_MESSAGE with
  | none => rfl
  | some m =>
    simp only
    split
    · have := mem_keys_insert_opt hobj
        (some (.string (ucl_string_trim (urlencode m).2))) (str "message") k1
      simp only [insert_opt] at this
      rw [this]
      simp [hk]
    · rfl

/-- C22 (as amended): in the object `emit_manifest` builds, the keys `files`
and `directories` are present exactly when neither the compact flag nor the
no-files flag is set and the package has a file (a directory), and the key
`scripts` is present exactly when the compact flag is not set and the package
has a script of one of the nine phases: the no-files flag does not keep the
scripts out.  With the compact flag set none of the three keys is present. -/
theorem emit_manifest_files_keys (ov : Option Bytes) (p : pkg) (flags : Nat)
    (top : ucl_object_t) (h : emit_manifest_top ov p flags = some top) :
    (str "files" ∈ ucl_object_keys top ↔
      flags &&& PKG_MANIFEST_EMIT_COMPACT = 0 ∧ flags &&& PKG_MANIFEST_EMIT_NOFILES = 0 ∧
        p.files ≠ []) ∧
    (str "directories" ∈ ucl_object_keys top ↔
      flags &&& PKG_MANIFEST_EMIT_COMPACT = 0 ∧ flags &&& PKG_MANIFEST_EMIT_NOFILES = 0 ∧
        p.dirs ≠ []) ∧
    (str "scripts" ∈ ucl_object_keys top ↔
      flags &&& PKG_MANIFEST_EMIT_COMPACT = 0 ∧
        ∃ i ∈ pkg_script_phases, (pkg_script_get p i).isSome = true) ∧
    (flags &&& PKG_MANIFEST_EMIT_COMPACT ≠ 0 →
      str "files" ∉ ucl_object_keys top ∧ str "directories" ∉ ucl_object_keys top ∧
      str "scripts" ∉ ucl_object_keys top) := by
  unfold emit_manifest_top at h
  split at h
  · cases h
  · rename_i desc _
    split at h
    · cases h
    · cases h
      have hT : KeysWithin (emit_manifest_options (ov.getD []) p
          (emit_manifest_collections p (emit_manifest_desc desc (emit_manifest_basic p)))) _ :=
        emit_manifest_options_KeysWithin (ov.getD []) p _ _
          (emit_manifest_collections_KeysWithin p _ _
            (KeysWithin_insert (.string (ucl_string_trim (urlencode desc).2)) (str "desc")
              (emit_manifest_basic_KeysWithin p)))
      generalize emit_manifest_options (ov.getD []) p
        (emit_manifest_collections p (emit_manifest_desc desc (emit_manifest_basic p))) = T
        at hT ⊢
      have hobj := hT.1
      have hnot : ∀ k1, k1 = str "files" ∨ k1 = str "directories" ∨ k1 = str "scripts" →
          k1 ∉ ucl_object_keys T := by
        intro k1 hk hmem
        have := hT.2.subset hmem
        rcases hk with rfl | rfl | rfl <;> revert this <;> decide
      have hscr : pkg_script_phases.filter (fun i => (pkg_script_get p i).isSome) ≠ [] ↔
          ∃ i ∈ pkg_script_phases, (pkg_script_get p i).isSome = true := by
        rw [ne_eq, List.filter_eq_nil_iff]
        push_neg
        rfl
      have key : ∀ k1, k1 ≠ str "message" →
          (k1 ∈ ucl_object_keys (emit_manifest_message p (emit_manifest_files p flags T)) ↔
            k1 ∈ ucl_object_keys T ∨
            (k1 = str "files" ∧ flags &&& PKG_MANIFEST_EMIT_COMPACT = 0 ∧
              flags &&& PKG_MANIFEST_EMIT_NOFILES = 0 ∧ p.files ≠ []) ∨
            (k1 = str "directories" ∧ flags &&& PKG_MANIFEST_EMIT_COMPACT = 0 ∧
              flags &&& PKG_MANIFEST_EMIT_NOFILES = 0 ∧ p.dirs ≠ []) ∨
            (k1 = str "scripts" ∧ flags &&& PKG_MANIFEST_EMIT_COMPACT = 0 ∧
              pkg_script_phases.filter (fun i => (pkg_script_get p i).isSome) ≠ [])) := by
        intro k1 hk
        rw [emit_manifest_message_mem p _ (emit_manifest_files_object p flags _ hobj) k1 hk,
          emit_manifest_files_mem p flags _ hobj k1]
      have hf := key (str "files") (by decide)
      have hd := key (str "directories") (by decide)
      have hs := key (str "scripts") (by decide)
      have nf := hnot (str "files") (Or.inl rfl)
      have nd := hnot (str "directories") (Or.inr (Or.inl rfl))
      have ns := hnot (str "scripts") (Or.inr (Or.inr rfl))
      have e1 : ¬ str "files" = str "directories" := by decide
      have e2 : ¬ str "files" = str "scripts" := by decide
      have e3 : ¬ str "directories" = str "files" := by decide
      have e4 : ¬ str "directories" = str "scripts" := by decide
      have e5 : ¬ str "scripts" = str "files" := by decide
      have e6 : ¬ str "scripts" = str "directories" := by decide
      simp only [nf, nd, ns, e1, e2, e3, e4, e5, e6, false_or, false_and, or_false, true_and,
        hscr] at hf hd hs
      refine ⟨hf, hd, hs, ?_⟩
      intro hc
      rw [hf, hd, hs]
      exact ⟨fun h => hc h.1, fun h => hc h.1, fun h => hc h.1⟩

theorem emit_manifest_files_keys_witness :
    emit_manifest_top none demo_script_pkg 0 =
      some (.object [(str "desc", .string (str "d"), []),
        (str "files", .object [(str "/bin/x", .string (str "-"), [])], []),
        (str "scripts", .object [(str "post-install", .string (str "true"), [])], [])]) ∧
    (str "scripts" ∈ ucl_object_keys (.object [(str "desc", .string (str "d"), []),
        (str "files", .object [(str "/bin/x", .string (str "-"), [])], []),
        (str "scripts", .object [(str "post-install", .string (str "true"), [])], [])]) ↔
      0 &&& PKG_MANIFEST_EMIT_COMPACT = 0 ∧
        ∃ i ∈ pkg_script_phases, (pkg_script_get demo_script_pkg i).isSome = true) :=
  ⟨rfl, (emit_manifest_files_keys none demo_script_pkg 0 _ rfl).2.2.1⟩

/-- C22 (counterexample): with the no-files flag set and the compact flag
clear, the object built for a package with a script has the key `scripts`. -/
theorem emit_manifest_files_keys_counterexample :
    PKG_MANIFEST_EMIT_NOFILES &&& PKG_MANIFEST_EMIT_NOFILES ≠ 0 ∧
    (emit_manifest_top none demo_script_pkg PKG_MANIFEST_EMIT_NOFILES).map ucl_object_keys =
      some [str "desc", str "scripts"] ∧
    (emit_manifest_top none demo_script_pkg PKG_MANIFEST_EMIT_COMPACT).map ucl_object_keys =
      some [str "desc"] :=
  ⟨by decide, by decide, by decide⟩

/-- C23: for a package with the conflict `bar-1.0` and the provide `baz`,
`emit_manifest` does not return when `pkg_option_value` does not return for
the `NULL` option; when it returns a string (here `on`), that string is the
value under both keys, where the claim has `bar-1.0` and `baz`. -/
theorem emit_manifest_conflicts_value :
    emit_manifest_top none demo_conflict_pkg 0 = none ∧
    (emit_manifest_top (some (str "on")) demo_conflict_pkg 0).bind
        (fun top => ucl_object_find_key top (str "conflicts")) =
      some (.object [(str "bar-1.0", .string (str "on"), [])]) ∧
    (emit_manifest_top (some (str "on")) demo_conflict_pkg 0).bind
        (fun top => ucl_object_find_key top (str "provides")) =
      some (.object [(str "baz", .string (str "on"), [])]) ∧
    str "on" ≠ str "bar-1.0" ∧ str "on" ≠ str "baz" :=
  ⟨rfl, rfl, rfl, by decide, by decide⟩

theorem not_marker_drop_plain (e : repo_event) (h : ∀ sql rc, e ≠ .sql_exec sql rc) :
    e.not_marker_drop = true := by
  cases e <;> first | rfl | exact absurd rfl (h _ _)

theorem repo_cleanup_marker (E : repo_env) (in_trans : Bool) (rc : Int) (tr0 tr : repo_trace)
    (h : RepoExtends repo_event.not_marker_drop tr0 tr) :
    MarkerRun E tr0 (repo_cleanup E in_trans rc tr) := by
  unfold MarkerRun repo_cleanup
  cases in_trans
  · simp only [Bool.false_eq_true, if_false]
    by_cases hrc : rc = EPKG_OK
    · simp only [hrc, if_true]
      exact ⟨tr ++ [.pkgdb_repo_finalize_statements],
        h.re_snoc .pkgdb_repo_finalize_statements rfl, by simp⟩
    · simp only [hrc, if_false]
      exact ⟨tr ++ [.pkgdb_repo_finalize_statements, .sqlite3_close],
        h.re_append _ (by simp [repo_event.not_marker_drop, repo_event.is_marker_drop]),
        by simp⟩
  · simp only [if_true]
    have hT : RepoExtends repo_event.not_marker_drop tr0
        (if rc ≠ EPKG_OK then tr ++ [.pkgdb_transaction_rollback] else tr) := by
      split
      · exact h.re_snoc .pkgdb_transaction_rollback rfl
      · exact h
    generalize (if rc ≠ EPKG_OK then tr ++ [repo_event.pkgdb_transaction_rollback] else tr) = T
      at hT ⊢
    generalize E.pkgdb_transaction_commit T = c
    by_cases hok : (if c ≠ EPKG_OK then EPKG_FATAL else rc) = EPKG_OK
    · simp only [hok, if_true]
      exact ⟨T ++ [.pkgdb_transaction_commit c, .pkgdb_repo_finalize_statements],
        hT.re_append _ (by simp [repo_event.not_marker_drop, repo_event.is_marker_drop]),
        by simp⟩
    · simp only [hok, if_false]
      exact ⟨T ++ [.pkgdb_transaction_commit c, .pkgdb_repo_finalize_statements, .sqlite3_close],
        hT.re_append _ (by simp [repo_event.not_marker_drop, repo_event.is_marker_drop]),
        by simp⟩

theorem pkg_repo_register_marker (E : repo_env) (tr : repo_trace) :
    RepoExtends repo_event.not_marker_drop tr (pkg_repo_register E tr).2 := by
  have h0 := RepoExtends.re_refl repo_event.not_marker_drop tr
  have hc : ∀ r, repo_event.not_marker_drop (.sql_exec (str "CREATE TABLE IF NOT EXISTS repodata (   key TEXT UNIQUE NOT NULL,   value TEXT NOT NULL);") r) = true := by
    intro r
    simp only [repo_event.not_marker_drop, repo_event.is_marker_drop]
    decide
  unfold pkg_repo_register
  simp only
  split
  · exact (h0.re_snoc _ (hc _)).re_snoc _ rfl
  · split
    · exact ((h0.re_snoc _ (hc _)).re_snoc _ rfl).re_snoc _ rfl
    · split
      · exact ((((h0.re_snoc _ (hc _)).re_snoc _ rfl).re_snoc _ rfl).re_snoc _ rfl).re_append _
          (by simp [repo_event.not_marker_drop, repo_event.is_marker_drop])
      · exact ((((h0.re_snoc _ (hc _)).re_snoc _ rfl).re_snoc _ rfl).re_snoc _ rfl).re_snoc _ rfl

theorem repo_cleanup_early_marker (E : repo_env) (rc mtime : Int) (tr0 tr : repo_trace)
    (h : RepoExtends repo_event.not_marker_drop tr0 tr) :
    MarkerRun E tr0 ((repo_cleanup_early E rc mtime tr).1, (repo_cleanup_early E rc mtime tr).2.2) :=
  repo_cleanup_marker E false rc tr0 tr h

theorem repo_update_open_error_marker (E : repo_env) (mtime : Int) (tr : repo_trace)
    (r : Int × Int × repo_trace) (h : repo_update_open E mtime tr = .error r) :
    MarkerRun E tr (r.1, r.2.2) := by
  have h30 : ¬ EPKG_FATAL = EPKG_OK := by decide
  unfold repo_update_open at h
  simp only at h
  repeat' split at h
  · cases h
    refine ⟨?mid, ?h1, ?h2⟩
    case h2 =>
      simp only [h30, if_false]
      exact (List.append_nil _).symm
    case h1 =>
      exact RepoExtends.re_append _
        (by simp [repo_event.not_marker_drop, repo_event.is_marker_drop])
        (RepoExtends.re_snoc .access rfl (RepoExtends.re_refl _ _))
  all_goals first
    | (cases h
       apply repo_cleanup_early_marker
       repeat' first
         | exact RepoExtends.re_refl _ _
         | exact RepoExtends.re_trans (by
             repeat' first
               | exact RepoExtends.re_refl _ _
               | apply RepoExtends.re_snoc _ rfl) (pkg_repo_register_marker _ _)
         | apply RepoExtends.re_snoc _ rfl
         | apply RepoExtends.re_append _
             (by simp [repo_event.not_marker_drop, repo_event.is_marker_drop]))
    | cases h

theorem repo_update_open_ok_marker (E : repo_env) (mtime : Int) (tr : repo_trace)
    (f : repo_fetched) (h : repo_update_open E mtime tr = .ok f) :
    RepoExtends repo_event.not_marker_drop tr f.tr := by
  unfold repo_update_open at h
  simp only at h
  repeat' split at h
  all_goals first
    | (cases h
       repeat' first
         | exact RepoExtends.re_refl _ _
         | exact RepoExtends.re_trans (by
             repeat' first
               | exact RepoExtends.re_refl _ _
               | apply RepoExtends.re_snoc _ rfl) (pkg_repo_register_marker _ _)
         | apply RepoExtends.re_snoc _ rfl
         | apply RepoExtends.re_append _
             (by simp [repo_event.not_marker_drop, repo_event.is_marker_drop]))

theorem repo_update_diff_error_marker (E : repo_env) (f : repo_fetched) (tr0 : repo_trace)
    (h0 : RepoExtends repo_event.not_marker_drop tr0 f.tr)
    (r : Int × Int × repo_trace) (h : repo_update_diff E f = .error r) :
    MarkerRun E tr0 (r.1, r.2.2) := by
  unfold repo_update_diff at h
  simp only at h
  split at h
  · cases h
    exact repo_cleanup_early_marker _ _ _ _ _ (h0.re_snoc _ rfl)
  · split at h
    · cases h
      refine repo_cleanup_early_marker _ _ _ _ _ (h0.re_append _ ?_)
      intro e he
      rw [Option.mem_toList] at he
      obtain ⟨l, _, hl⟩ := List.exists_of_findSome?_eq_some he
      unfold digest_line_failure at hl
      simp only at hl
      split at hl
      · cases hl
      · split at hl <;> (cases hl; rfl)
    · cases h

theorem repo_apply_marker (E : repo_env) (st : increment_state) (map : Bytes)
    (legacy_repo : Bool) (tr : repo_trace) :
    RepoExtends repo_event.not_marker_drop tr (repo_apply E st map legacy_repo tr).2 := by
  obtain ⟨r0, rc, rem, adds, hshape, hrem, hadds⟩ := repo_apply_shape E st map legacy_repo tr
  refine ⟨[.sql_exec (str "CREATE TABLE IF NOT EXISTS repo_update (x INTEGER);") r0] ++
    [.pkgdb_transaction_begin rc] ++ rem ++ adds,
    by rw [hshape]; simp only [List.append_assoc], ?_⟩
  intro e he
  simp only [List.mem_append, List.mem_cons, List.mem_singleton, List.not_mem_nil,
    or_false] at he
  rcases he with ((rfl | rfl) | he) | he
  · simp only [repo_event.not_marker_drop, repo_event.is_marker_drop]
    decide
  · rfl
  · have := hrem e he
    cases e <;> first | rfl | simp [repo_event.is_remove_step] at this
  · have := hadds e he
    cases e <;> first | rfl | simp [repo_event.is_add_phase, repo_event.is_add_step] at this

theorem pkg_repo_update_incremental_marker (E : repo_env) (mtime : Int) (tr : repo_trace) :
    MarkerRun E tr ((pkg_repo_update_incremental E mtime tr).1,
      (pkg_repo_update_incremental E mtime tr).2.2) := by
  cases ho : repo_update_open E mtime tr with
  | error r =>
    have hT : pkg_repo_update_incremental E mtime tr = r := by
      simp only [pkg_repo_update_incremental, ho]
    rw [hT]
    exact repo_update_open_error_marker E mtime tr r ho
  | ok f =>
    have hf := repo_update_open_ok_marker E mtime tr f ho
    cases hd : repo_update_diff E f with
    | error r =>
      have hT : pkg_repo_update_incremental E mtime tr = r := by
        simp only [pkg_repo_update_incremental, ho, hd]
      rw [hT]
      exact repo_update_diff_error_marker E f tr hf r hd
    | ok ls =>
      obtain ⟨legacy_repo, st⟩ := ls
      have hT : pkg_repo_update_incremental E mtime tr =
          ((repo_apply_cleanup E st f.fmanifest.flatten legacy_repo f.tr).1, f.mtime,
            (repo_apply_cleanup E st f.fmanifest.flatten legacy_repo f.tr).2) := by
        simp only [pkg_repo_update_incremental, ho, hd]
      rw [hT]
      exact repo_cleanup_marker E true _ tr _ (hf.re_trans (repo_apply_marker _ _ _ _ _))

theorem marker_table_append (b : Bool) (l1 l2 : repo_trace) :
    marker_table b (l1 ++ l2) = marker_table (marker_table b l1) l2 := by
  unfold marker_table
  rw [List.foldl_append]

theorem marker_table_kept (l : repo_trace) (h : ∀ e ∈ l, e.not_marker_drop = true) :
    marker_table true l = true := by
  induction l with
  | nil => rfl
  | cons e l ih =>
    have he := h e (List.mem_cons_self _ _)
    have hl : ∀ x ∈ l, x.not_marker_drop = true := fun x hx => h x (List.mem_cons_of_mem _ hx)
    have hstep : marker_table true (e :: l) = marker_table true l := by
      cases e with
      | sql_exec sql rc =>
        simp only [repo_event.not_marker_drop, repo_event.is_marker_drop, Bool.not_eq_true',
          beq_eq_false_iff_ne, ne_eq] at he
        simp only [marker_table, List.foldl_cons, he, if_false]
        split <;> simp
      | _ => rfl
    rw [hstep]
    exact ih hl

theorem marker_table_created (before : Bool) (l : repo_trace)
    (h : ∀ e ∈ l, e.not_marker_drop = true)
    (hc : repo_event.sql_exec (str "CREATE TABLE IF NOT EXISTS repo_update (x INTEGER);")
      EPKG_OK ∈ l) :
    marker_table before l = true := by
  obtain ⟨l1, l2, rfl⟩ := List.append_of_mem hc
  rw [marker_table_append]
  have hl2 : ∀ x ∈ l2, x.not_marker_drop = true :=
    fun x hx => h x (List.mem_append_right _ (List.mem_cons_of_mem _ hx))
  have hstep : marker_table (marker_table before l1)
      (.sql_exec (str "CREATE TABLE IF NOT EXISTS repo_update (x INTEGER);") EPKG_OK :: l2) =
      marker_table true l2 := by
    simp [marker_table]
  rw [hstep]
  exact marker_table_kept l2 hl2

/-- C24 (as amended): a run of `pkg_repo_update_incremental` executes the
statement that drops the marker table `repo_update` exactly when it returns
`EPKG_OK`, as its last statement before the handle is closed, and the table
is gone when that statement succeeds; a run that created the marker table and
returns another code executes no such statement, so that the table is there
when the function returns. -/
theorem repo_update_marker (E : repo_env) (mtime : Int) (tr : repo_trace) :
    ∃ b, (pkg_repo_update_incremental E mtime tr).2.2 = tr ++ b ∧
      ((∃ e ∈ b, e.is_marker_drop = true) ↔
        (pkg_repo_update_incremental E mtime tr).1 = EPKG_OK) ∧
      ((pkg_repo_update_incremental E mtime tr).1 = EPKG_OK →
        ∃ pre rc, b = pre ++ [.sql_exec (str "DROP TABLE repo_update;") rc, .sqlite3_close] ∧
          (∀ e ∈ pre, e.is_marker_drop = false) ∧
          (rc = EPKG_OK → ∀ before, marker_table before (tr ++ b) = false)) ∧
      ((pkg_repo_update_incremental E mtime tr).1 ≠ EPKG_OK →
        repo_event.sql_exec (str "CREATE TABLE IF NOT EXISTS repo_update (x INTEGER);")
          EPKG_OK ∈ b →
        ∀ before, marker_table before (tr ++ b) = true) := by
  obtain ⟨mid, ⟨pre, rfl, hpre⟩, htr⟩ := pkg_repo_update_incremental_marker E mtime tr
  simp only at htr
  have hpre2 : ∀ e ∈ pre, e.is_marker_drop = false := by
    intro e he
    have := hpre e he
    simpa [repo_event.not_marker_drop] using this
  by_cases hok : (pkg_repo_update_incremental E mtime tr).1 = EPKG_OK
  · rw [if_pos hok] at htr
    refine ⟨pre ++ [.sql_exec (str "DROP TABLE repo_update;")
        (E.sql_exec (tr ++ pre) (str "DROP TABLE repo_update;")), .sqlite3_close],
      by rw [htr, List.append_assoc], ?_, ?_, fun h => absurd hok h⟩
    · simp only [hok, iff_true]
      exact ⟨.sql_exec (str "DROP TABLE repo_update;")
        (E.sql_exec (tr ++ pre) (str "DROP TABLE repo_update;")), by simp,
        by simp [repo_event.is_marker_drop]⟩
    · intro _
      refine ⟨pre, _, rfl, hpre2, ?_⟩
      intro hrc before
      rw [hrc, ← List.append_assoc, marker_table_append]
      simp [marker_table]
      decide
  · rw [if_neg hok, List.append_nil] at htr
    refine ⟨pre, htr, ?_, fun h => absurd h hok, ?_⟩
    · simp only [hok, iff_false, not_exists, not_and]
      intro e he
      simp [hpre2 e he]
    · intro _ hc before
      rw [marker_table_append]
      exact marker_table_created _ pre hpre hc

theorem repo_update_marker_witness :
    (pkg_repo_update_incremental demo_update_env 7 []).1 = EPKG_OK ∧
    ∃ b, (pkg_repo_update_incremental demo_update_env 7 []).2.2 = [] ++ b ∧
      ((∃ e ∈ b, e.is_marker_drop = true) ↔
        (pkg_repo_update_incremental demo_update_env 7 []).1 = EPKG_OK) ∧
      ((pkg_repo_update_incremental demo_update_env 7 []).1 = EPKG_OK →
        ∃ pre rc, b = pre ++ [.sql_exec (str "DROP TABLE repo_update;") rc, .sqlite3_close] ∧
          (∀ e ∈ pre, e.is_marker_drop = false) ∧
          (rc = EPKG_OK → ∀ before, marker_table before ([] ++ b) = false)) ∧
      ((pkg_repo_update_incremental demo_update_env 7 []).1 ≠ EPKG_OK →
        repo_event.sql_exec (str "CREATE TABLE IF NOT EXISTS repo_update (x INTEGER);")
          EPKG_OK ∈ b →
        ∀ before, marker_table before ([] ++ b) = true) :=
  ⟨by decide, repo_update_marker demo_update_env 7 []⟩

/-- C25: in the update scenario the caller's time is 7, the digests file is
fetched with the modification time 8 and the manifests file with 9; the run
succeeds and writes back 8, the time of the digests file, where the maximum
of the two is 9. -/
theorem repo_update_mtime_digests :
    (pkg_repo_update_incremental demo_update_env 7 []).1 = EPKG_OK ∧
    repo_event.pkg_repo_fetch_remote_extract_tmp .digests true 8 EPKG_OK ∈
      (pkg_repo_update_incremental demo_update_env 7 []).2.2 ∧
    repo_event.pkg_repo_fetch_remote_extract_tmp .manifests true 9 EPKG_OK ∈
      (pkg_repo_update_incremental demo_update_env 7 []).2.2 ∧
    (pkg_repo_update_incremental demo_update_env 7 []).2.1 = 8 ∧
    max (8 : Int) 9 = 9 := by
  refine ⟨by decide, by decide, by decide, by decide, by decide⟩

theorem pkg_get_string_pkg_set_self (p : pkg) (t : pkg_attr) (s : Bytes) :
    pkg_get_string (pkg_set p t (.string s)).2 t = some s := by
  simp [pkg_get_string, pkg_field_pkg_set_self]

theorem pkg_get_string_pkg_set_ne (p : pkg) (t a : pkg_attr) (v : ucl_object_t) (h : a ≠ t) :
    pkg_get_string (pkg_set p t v).2 a = pkg_get_string p a := by
  simp [pkg_get_string, pkg_field_pkg_set_ne p t a v h]

/-- C26: `pkg_repo_add_from_manifest` calls `pkgdb_repo_add_package` exactly
when the slice parsed, the package is valid, its origin is the origin of the
digest line and its architecture is a supported ABI; when it makes no such
call it returns a code other than `EPKG_OK`.  The package it adds has the
name of the repository as its repository name and the digest of the digest
line as its digest, or as its old digest for a legacy repository, where
`pkg_checksum_calculate` runs in between and is taken to leave these two
attributes as they are. -/
theorem pkg_repo_add_from_manifest_guard (E : repo_env) (buf origin digest : Bytes)
    (keys : List pkg_manifest_key) (is_legacy : Bool) (tr : repo_trace) :
    ∃ b, (pkg_repo_add_from_manifest E buf origin digest keys is_legacy tr).2.2 = tr ++ b ∧
      ((∃ e ∈ b, e.is_add = true) ↔
        (pkg_parse_manifest E.manifest pkg_new buf (pkg_manifest_keys_new keys)).1 = EPKG_OK ∧
        pkg_is_valid (pkg_parse_manifest E.manifest pkg_new buf
          (pkg_manifest_keys_new keys)).2 = EPKG_OK ∧
        pkg_get_string (pkg_parse_manifest E.manifest pkg_new buf
          (pkg_manifest_keys_new keys)).2 .PKG_ORIGIN = some origin ∧
        ∃ arch, pkg_get_string (pkg_parse_manifest E.manifest pkg_new buf
          (pkg_manifest_keys_new keys)).2 .PKG_ARCH = some arch ∧
          E.is_valid_abi arch = true) ∧
      ((∀ e ∈ b, e.is_add = false) →
        (pkg_repo_add_from_manifest E buf origin digest keys is_legacy tr).2.1 ≠ EPKG_OK) ∧
      (∀ o n d od rc, repo_event.pkgdb_repo_add_package o n d od rc ∈ b →
        rc = (pkg_repo_add_from_manifest E buf origin digest keys is_legacy tr).2.1 ∧
        (is_legacy = false → n = some E.repo_name ∧ d = some digest) ∧
        (is_legacy = true →
          (∀ q, pkg_get_string (E.pkg_checksum_calculate q) .PKG_REPONAME =
              pkg_get_string q .PKG_REPONAME ∧
            pkg_get_string (E.pkg_checksum_calculate q) .PKG_OLD_DIGEST =
              pkg_get_string q .PKG_OLD_DIGEST) →
          n = some E.repo_name ∧ od = some digest)) := by
  have h30 : EPKG_FATAL ≠ EPKG_OK := by decide
  unfold pkg_repo_add_from_manifest
  simp only
  generalize pkg_parse_manifest E.manifest pkg_new buf (pkg_manifest_keys_new keys) = r
  by_cases h1 : r.1 = EPKG_OK
  swap
  · refine ⟨[], by simp [h1], by simp [h1], by simp [h1], by simp⟩
  by_cases h2 : pkg_is_valid r.2 = EPKG_OK
  swap
  · refine ⟨[], by simp [h1, h2], by simp [h1, h2], by simp [h1, h2], by simp⟩
  cases h3 : pkg_get_string r.2 .PKG_ORIGIN with
  | none =>
    refine ⟨[.emit_error (str "manifest contains origin %s while we wanted to add origin %s")],
      by simp [h1, h2], by simp [h1, h2, repo_event.is_add], by simp [h1, h2, h30], by simp⟩
  | some local_origin =>
    by_cases h4 : local_origin = origin
    swap
    · refine ⟨[.emit_error (str "manifest contains origin %s while we wanted to add origin %s")],
        by simp [h1, h2, h4], by simp [h1, h2, h4, repo_event.is_add],
        by simp [h1, h2, h4, h30], by simp⟩
    cases h5 : pkg_get_string r.2 .PKG_ARCH with
    | none => refine ⟨[], by simp [h1, h2, h4], by simp [h1, h2, h4], by simp [h1, h2, h4, h30], by simp⟩
    | some pkg_arch =>
      by_cases h6 : E.is_valid_abi pkg_arch = true
      swap
      · refine ⟨[], by simp [h1, h2, h4, h6], by simp [h1, h2, h4, h6],
          by simp [h1, h2, h4, h6, h30], by simp⟩
      cases is_legacy with
      | false =>
        refine ⟨[_], by simp only [h1, h2, h4, h6]; simp; rfl, ?_, ?_, ?_⟩
        · simp [h1, h2, h4, h6, repo_event.is_add]
        · simp [repo_event.is_add]
        · intro o n d od rc hmem
          simp only [List.mem_singleton, repo_event.pkgdb_repo_add_package.injEq] at hmem
          obtain ⟨_, hn, hd, _, hrc⟩ := hmem
          refine ⟨by simp [h1, h2, h4, h6, hrc], ?_, by simp⟩
          intro _
          rw [hn, hd]
          exact ⟨by rw [pkg_get_string_pkg_set_ne _ _ _ _ (by decide),
            pkg_get_string_pkg_set_self], pkg_get_string_pkg_set_self _ _ _⟩
      | true =>
        refine ⟨[.pkg_checksum_calculate, _], by simp only [h1, h2, h4, h6]; simp; rfl, ?_, ?_, ?_⟩
        · simp [h1, h2, h4, h6, repo_event.is_add]
        · simp [repo_event.is_add]
        · intro o n d od rc hmem
          simp only [List.mem_cons, List.mem_singleton, reduceCtorEq, false_or,
            List.not_mem_nil, or_false, repo_event.pkgdb_repo_add_package.injEq] at hmem
          obtain ⟨_, hn, _, hod, hrc⟩ := hmem
          refine ⟨by simp [h1, h2, h4, h6, hrc], by simp, ?_⟩
          intro _ hcalc
          rw [hn, hod, (hcalc _).1, (hcalc _).2]
          exact ⟨by rw [pkg_get_string_pkg_set_ne _ _ _ _ (by decide),
            pkg_get_string_pkg_set_self], pkg_get_string_pkg_set_self _ _ _⟩

theorem pkg_repo_add_from_manifest_guard_witness :
    (pkg_repo_add_from_manifest demo_legacy_env [] (str "c") (str "d3") [] true []).2 =
      (EPKG_OK, [.pkg_checksum_calculate,
        .pkgdb_repo_add_package (some (str "c")) (some (str "repo")) (some (str "new"))
          (some (str "d3")) EPKG_OK]) ∧
    (pkg_repo_add_from_manifest demo_legacy_env [] (str "b") (str "d3") [] true []).2 =
      (EPKG_FATAL,
        [.emit_error (str "manifest contains origin %s while we wanted to add origin %s")]) ∧
    ∃ b, (pkg_repo_add_from_manifest demo_legacy_env [] (str "c") (str "d3") [] true []).2.2 =
        [] ++ b ∧
      ((∃ e ∈ b, e.is_add = true) ↔
        (pkg_parse_manifest demo_legacy_env.manifest pkg_new []
          (pkg_manifest_keys_new [])).1 = EPKG_OK ∧
        pkg_is_valid (pkg_parse_manifest demo_legacy_env.manifest pkg_new []
          (pkg_manifest_keys_new [])).2 = EPKG_OK ∧
        pkg_get_string (pkg_parse_manifest demo_legacy_env.manifest pkg_new []
          (pkg_manifest_keys_new [])).2 .PKG_ORIGIN = some (str "c") ∧
        ∃ arch, pkg_get_string (pkg_parse_manifest demo_legacy_env.manifest pkg_new []
          (pkg_manifest_keys_new [])).2 .PKG_ARCH = some arch ∧
          demo_legacy_env.is_valid_abi arch = true) ∧
      ((∀ e ∈ b, e.is_add = false) →
        (pkg_repo_add_from_manifest demo_legacy_env [] (str "c") (str "d3") [] true []).2.1 ≠
          EPKG_OK) ∧
      (∀ o n d od rc, repo_event.pkgdb_repo_add_package o n d od rc ∈ b →
        rc = (pkg_repo_add_from_manifest demo_legacy_env [] (str "c") (str "d3") [] true
          []).2.1 ∧
        (true = false → n = some demo_legacy_env.repo_name ∧ d = some (str "d3")) ∧
        (true = true →
          (∀ q, pkg_get_string (demo_legacy_env.pkg_checksum_calculate q) .PKG_REPONAME =
              pkg_get_string q .PKG_REPONAME ∧
            pkg_get_string (demo_legacy_env.pkg_checksum_calculate q) .PKG_OLD_DIGEST =
              pkg_get_string q .PKG_OLD_DIGEST) →
          n = some demo_legacy_env.repo_name ∧ od = some (str "d3"))) :=
  ⟨by decide, by decide,
    pkg_repo_add_from_manifest_guard demo_legacy_env [] (str "c") (str "d3") [] true []⟩

theorem strsep_count (s : Bytes) (d : Nat) :
    ∃ tok, (strsep (some s) d).1 = some tok ∧
      (((strsep (some s) d).2 = none ∧ s.count d = 0) ∨
        ∃ r, (strsep (some s) d).2 = some r ∧ s.count d = r.count d + 1) := by
  induction s with
  | nil => exact ⟨[], rfl, Or.inl ⟨rfl, rfl⟩⟩
  | cons c s ih =>
    by_cases hc : c = d
    · subst hc
      refine ⟨[], ?_, Or.inr ⟨s, ?_, ?_⟩⟩
      · simp [strsep, List.span_eq_take_drop, List.takeWhile, List.dropWhile]
      · simp [strsep, List.span_eq_take_drop, List.takeWhile, List.dropWhile]
      · simp
    · obtain ⟨tok, h1, h2⟩ := ih
      have hne : (c != d) = true := by simpa using hc
      have hcount : (c :: s).count d = s.count d := by
        rw [List.count_cons]
        simp [hc]
      simp only [strsep, List.span_eq_take_drop, List.takeWhile, List.dropWhile, hne] at h1 h2 ⊢
      rw [hcount]
      cases hdw : List.dropWhile (fun c => c != d) s with
      | nil =>
        rw [hdw] at h1 h2
        simp only at h1 h2 ⊢
        refine ⟨_, rfl, ?_⟩
        rcases h2 with h2 | ⟨r, h2, _⟩
        · exact Or.inl ⟨trivial, h2.2⟩
        · cases h2
      | cons x rest =>
        rw [hdw] at h1 h2
        simp only at h1 h2 ⊢
        refine ⟨_, rfl, ?_⟩
        rcases h2 with h2 | ⟨r, h2, h3⟩
        · cases h2.1
        · exact Or.inr ⟨r, h2, h3⟩

theorem strsep_none (d : Nat) : strsep none d = (none, none) := rfl

theorem digest_line_parse_short (l : Bytes) (h : l.count 58 < 2) :
    digest_line_parse l = .error EPKG_FATAL := by
  unfold digest_line_parse
  simp only
  obtain ⟨t1, h1, h1r⟩ := strsep_count l 58
  generalize strsep (some l) 58 = s1 at h1 h1r ⊢
  rcases h1r with ⟨h1n, _⟩ | ⟨r1, h1s, hc1⟩
  · simp only [h1, h1n, strsep_none]
  · obtain ⟨t2, h2, h2r⟩ := strsep_count r1 58
    rw [h1s]
    generalize strsep (some r1) 58 = s2 at h2 h2r ⊢
    rcases h2r with ⟨h2n, _⟩ | ⟨r2, _, hc2⟩
    · simp only [h1, h2, h2n, strsep_none]
    · omega

theorem digest_line_parse_fields (l : Bytes) (h : l.count 58 = 2 ∨ l.count 58 = 3) :
    ∃ origin digest offset,
      (strsep (some l) 58).1 = some origin ∧
      (strsep (strsep (some l) 58).2 58).1 = some digest ∧
      (strsep (strsep (strsep (some l) 58).2 58).2 58).1 = some offset ∧
      digest_line_parse l =
        if (strtoul10 offset).2 then .error EPKG_FATAL
        else .ok { origin := origin, digest := digest,
                   num_offset := to_long (strtoul10 offset).1, num_length := 0 } := by
  unfold digest_line_parse
  simp only
  obtain ⟨t1, h1, h1r⟩ := strsep_count l 58
  generalize strsep (some l) 58 = s1 at h1 h1r ⊢
  rcases h1r with ⟨_, hc1⟩ | ⟨r1, h1s, hc1⟩
  · omega
  obtain ⟨t2, h2, h2r⟩ := strsep_count r1 58
  rw [h1s]
  generalize strsep (some r1) 58 = s2 at h2 h2r ⊢
  rcases h2r with ⟨_, hc2⟩ | ⟨r2, h2s, hc2⟩
  · omega
  obtain ⟨t3, h3, h3r⟩ := strsep_count r2 58
  rw [h2s]
  generalize strsep (some r2) 58 = s3 at h3 h3r ⊢
  refine ⟨t1, t2, t3, h1, h2, h3, ?_⟩
  rcases h3r with ⟨h3n, _⟩ | ⟨r3, h3s, hc3⟩
  · simp only [h1, h2, h3, h3n, strsep_none]
  · obtain ⟨t4, h4, h4r⟩ := strsep_count r3 58
    rw [h3s]
    generalize strsep (some r3) 58 = s4 at h4 h4r ⊢
    rcases h4r with ⟨h4n, _⟩ | ⟨r4, _, hc4⟩
    · simp only [h1, h2, h3, h4n, strsep_none]
    · omega

theorem load_digests_error (lines : List Bytes) :
    ∀ st, (∃ l ∈ lines, digest_line_parse l = .error EPKG_FATAL) →
      load_digests st lines = .error EPKG_FATAL := by
  induction lines with
  | nil => intro st h; obtain ⟨l, hl, _⟩ := h; cases hl
  | cons x rest ih =>
    intro st h
    obtain ⟨l, hl, he⟩ := h
    unfold load_digests
    cases hx : digest_line_parse x with
    | error rc =>
      have : rc = EPKG_FATAL := by
        unfold digest_line_parse at hx
        simp only at hx
        repeat' split at hx
        all_goals first
          | (cases hx; rfl)
          | cases hx
      rw [this]
    | ok r =>
      simp only
      rcases List.mem_cons.mp hl with rfl | hl
      · rw [hx] at he; cases he
      · exact ih _ ⟨l, hl, he⟩

theorem repo_update_diff_short (E : repo_env) (f : repo_fetched)
    (h : ∃ l ∈ getlines f.fdigests, digest_line_parse l = .error EPKG_FATAL) :
    ∃ r, repo_update_diff E f = .error r ∧ r.1 = EPKG_FATAL := by
  have hcl : ∀ t, (repo_cleanup_early E EPKG_FATAL f.mtime t).1 = EPKG_FATAL := by
    intro t
    simp [repo_cleanup_early, repo_cleanup]
  unfold repo_update_diff
  cases hdl : repo_detect_legacy E f.fdigests with
  | error rc =>
    have : rc = EPKG_FATAL := by
      unfold repo_detect_legacy at hdl
      split at hdl
      · cases hdl
      · simp only at hdl
        split at hdl
        · cases hdl; rfl
        · cases hdl
    subst this
    exact ⟨_, rfl, hcl _⟩
  | ok legacy_repo =>
    simp only
    rw [load_digests_error _ _ h]
    exact ⟨_, rfl, hcl _⟩

theorem repo_event.setup_plain2 (e : repo_event) (h : e.is_setup = true) :
    e.is_begin = false ∧ e.is_remove = false ∧ e.is_add = false := by
  cases e <;> first | exact ⟨rfl, rfl, rfl⟩ | cases h

/-- C27 (as amended): once both files are fetched, a digests file with a
line of fewer than three `:`-separated fields (fewer than two `:`) makes
`pkg_repo_update_incremental` return `EPKG_FATAL` without beginning the
savepoint and without a remove or an add.  A line of three or four fields is
accepted with the length 0 when `strtoul` converts its offset field without
setting `errno`, and is rejected with `EPKG_FATAL` when it does not. -/
theorem repo_update_digest_fields (E : repo_env) (mtime : Int) (tr : repo_trace)
    (f : repo_fetched) (hopen : repo_update_open E mtime tr = .ok f) :
    ((∃ l ∈ getlines f.fdigests, l.count 58 < 2) →
      (pkg_repo_update_incremental E mtime tr).1 = EPKG_FATAL ∧
      ∃ b, (pkg_repo_update_incremental E mtime tr).2.2 = tr ++ b ∧
        ∀ e ∈ b, e.is_begin = false ∧ e.is_remove = false ∧ e.is_add = false) ∧
    (∀ l : Bytes, l.count 58 = 2 ∨ l.count 58 = 3 →
      ∃ origin digest offset,
        (strsep (some l) 58).1 = some origin ∧
        (strsep (strsep (some l) 58).2 58).1 = some digest ∧
        (strsep (strsep (strsep (some l) 58).2 58).2 58).1 = some offset ∧
        ((strtoul10 offset).2 = false →
          digest_line_parse l =
            .ok (digest_record.mk origin digest (to_long (strtoul10 offset).1) 0)) ∧
        ((strtoul10 offset).2 = true → digest_line_parse l = .error EPKG_FATAL)) := by
  constructor
  · rintro ⟨l, hl, hcount⟩
    obtain ⟨r, hr, hfatal⟩ := repo_update_diff_short E f
      ⟨l, hl, digest_line_parse_short l hcount⟩
    have hT : pkg_repo_update_incremental E mtime tr = r := by
      simp only [pkg_repo_update_incremental, hopen, hr]
    rw [hT]
    refine ⟨hfatal, ?_⟩
    obtain ⟨b, hb, hok⟩ := (repo_update_open_ok E mtime tr f hopen).1.re_trans
      (repo_update_diff_error E f r hr)
    exact ⟨b, hb, fun e he => repo_event.setup_plain2 e (hok e he)⟩
  · intro l hl
    obtain ⟨origin, digest, offset, h1, h2, h3, hp⟩ := digest_line_parse_fields l hl
    refine ⟨origin, digest, offset, h1, h2, h3, ?_, ?_⟩
    · intro ho
      rw [hp, if_neg (by simp [ho])]
    · intro ho
      rw [hp, if_pos ho]

theorem repo_update_digest_fields_witness :
    (∃ l ∈ getlines [str "a:d1:0:0:50\n", str "c:d3\n"], l.count 58 < 2) ∧
    (pkg_repo_update_incremental demo_short_env 7 []).1 = EPKG_FATAL ∧
    ∃ b, (pkg_repo_update_incremental demo_short_env 7 []).2.2 = [] ++ b ∧
      ∀ e ∈ b, e.is_begin = false ∧ e.is_remove = false ∧ e.is_add = false :=
  ⟨⟨str "c:d3\n", by decide, by decide⟩,
    (repo_update_digest_fields demo_short_env 7 []
      { rows := [{ origin := str "a", digest := some (str "d1"), old_digest := none },
                 { origin := str "b", digest := some (str "d2"), old_digest := none }],
        fdigests := [str "a:d1:0:0:50\n", str "c:d3\n"],
        fmanifest := [str "manifest of a\n", str "manifest of c\n"],
        mtime := 8,
        tr := (pkg_repo_update_incremental demo_short_env 7 []).2.2.take 12 } rfl).1
      ⟨str "c:d3\n", by decide, by decide⟩⟩

/-- C27 (counterexample): the line `a:d1:18446744073709551616` has three
fields and is rejected with `EPKG_FATAL`: its offset does not fit an
`unsigned long`, and `strtoul` sets `errno`. -/
theorem repo_update_digest_fields_counterexample :
    (str "a:d1:18446744073709551616\n").count 58 = 2 ∧
    (strsep (strsep (strsep (some (str "a:d1:18446744073709551616\n")) 58).2 58).2 58).1 =
      some (str "18446744073709551616\n") ∧
    (strtoul10 (str "18446744073709551616\n")).2 = true ∧
    digest_line_parse (str "a:d1:18446744073709551616\n") = .error EPKG_FATAL ∧
    digest_line_parse (str "a:d1:7\n") = .ok (digest_record.mk (str "a") (str "d1") 7 0) :=
  ⟨by decide, by decide, by decide, rfl, rfl⟩

theorem manifest_lookup_absent (k : Bytes) (t : ucl_type)
    (hk : k ∉ manifest_keys.map (fun m => m.key)) :
    manifest_lookup (pkg_manifest_keys_new []) k t = none ∧ manifest_keys_first k t = none := by
  constructor
  · have hR : ∀ x ∈ pkg_manifest_keys_new [], x.key ∈ manifest_keys.map (fun m => m.key) := by
      decide
    have : manifest_find_key (pkg_manifest_keys_new []) k = none := by
      unfold manifest_find_key
      rw [List.find?_eq_none]
      intro x hx
      simp only [beq_iff_eq]
      intro he
      exact hk (he ▸ hR x hx)
    simp [manifest_lookup, this]
  · unfold manifest_keys_first
    have : manifest_keys.find? (fun m => m.key == k && m.valid_type == t) = none := by
      rw [List.find?_eq_none]
      intro x hx
      simp only [Bool.and_eq_true, beq_iff_eq, not_and]
      intro he
      exact absurd (he ▸ List.mem_map.mpr ⟨x, hx, rfl⟩) hk
    rw [this]
    rfl

theorem manifest_lookup_present (k : Bytes) (t : ucl_type)
    (hk : k ∈ manifest_keys.map (fun m => m.key)) :
    manifest_lookup (pkg_manifest_keys_new []) k t = manifest_keys_first k t := by
  simp only [manifest_keys, List.map_cons, List.map_nil, List.mem_cons, List.not_mem_nil,
    or_false] at hk
  rcases hk with h | h | h | h | h | h | h | h | h | h | h | h | h | h | h | h | h | h | h | h |
    h | h | h | h | h | h | h | h | h | h | h | h | h | h | h | h | h
  all_goals
    subst h
    cases t <;> decide

/-- C28: in the registry `pkg_manifest_keys_new` builds from an empty one, the
lookup by key and then by kind of value finds a parser exactly when the static
table has an entry with the key and the kind, and it finds the attribute and
the parser of the first such entry; a second call leaves the registry as it
is. -/
theorem pkg_manifest_keys_new_lookup (k : Bytes) (t : ucl_type) :
    manifest_lookup (pkg_manifest_keys_new []) k t = manifest_keys_first k t ∧
    ((manifest_lookup (pkg_manifest_keys_new []) k t).isSome = true ↔
      ∃ m ∈ manifest_keys, m.key = k ∧ m.valid_type = t) ∧
    pkg_manifest_keys_new (pkg_manifest_keys_new []) = pkg_manifest_keys_new [] := by
  have h1 : manifest_lookup (pkg_manifest_keys_new []) k t = manifest_keys_first k t := by
    by_cases hk : k ∈ manifest_keys.map (fun m => m.key)
    · exact manifest_lookup_present k t hk
    · rw [(manifest_lookup_absent k t hk).1, (manifest_lookup_absent k t hk).2]
  refine ⟨h1, ?_, by decide⟩
  rw [h1]
  unfold manifest_keys_first
  rw [Option.isSome_map', List.find?_isSome]
  simp

theorem ExtendsWithout.ew_mono {bad bad2 : add_event → Bool} {tr t : add_trace}
    (hm : ∀ e, bad e = false → bad2 e = false) (h : ExtendsWithout bad tr t) :
    ExtendsWithout bad2 tr t := by
  obtain ⟨new, hn, hb⟩ := h
  exact ⟨new, hn, fun e he => hm e (hb e he)⟩

theorem do_extract_no_finale (E : add_env) (a : archive) (tr : add_trace) :
    ExtendsWithout add_event.is_finale tr (do_extract E a tr).2 := by
  refine (do_extract_steps E a tr).ew_mono ?_
  intro e he
  cases e <;> first | rfl | simp [add_event.is_extract_step] at he

theorem pkg_add2_install_finale (E : add_env) (upgrade : Int) (extract : Bool) (a : archive)
    (pkg : pkg) (tr : add_trace) :
    ∃ mid, (pkg_add2_install E upgrade extract a pkg tr).2 =
        tr ++ [.pkgdb_register_pkg (pkg_get pkg .PKG_ORIGIN)] ++ mid ++
          [.pkgdb_register_finale (pkg_add2_install E upgrade extract a pkg tr).1] ∧
      ∀ e ∈ mid, e.is_finale = false := by
  have h0 := ExtendsWithout.ew_refl add_event.is_finale
    (tr ++ [.pkgdb_register_pkg (pkg_get pkg .PKG_ORIGIN)])
  have hbody : ExtendsWithout add_event.is_finale
      (tr ++ [.pkgdb_register_pkg (pkg_get pkg .PKG_ORIGIN)])
      (if E.pkgdb_register_pkg tr (pkg_get pkg .PKG_ORIGIN) ≠ EPKG_OK then
        (E.pkgdb_register_pkg tr (pkg_get pkg .PKG_ORIGIN),
          tr ++ [.pkgdb_register_pkg (pkg_get pkg .PKG_ORIGIN)])
      else if E.pkgdb_has_flag (tr ++ [.pkgdb_register_pkg (pkg_get pkg .PKG_ORIGIN)]) = 0 then
        (E.pkgdb_register_pkg tr (pkg_get pkg .PKG_ORIGIN),
          tr ++ [.pkgdb_register_pkg (pkg_get pkg .PKG_ORIGIN)] ++ [.pkgdb_has_flag])
      else
        let tr2 := tr ++ [.pkgdb_register_pkg (pkg_get pkg .PKG_ORIGIN)] ++ [.pkgdb_has_flag]
        let tr3 :=
          if upgrade = 0 then
            tr2 ++ [.emit_install_begin (pkg_get pkg .PKG_ORIGIN),
              .pkg_script_run (pkg_get pkg .PKG_ORIGIN) .PKG_SCRIPT_PRE_INSTALL]
          else tr2
        let ex : Int × add_trace :=
          if extract then do_extract E a tr3
          else (E.pkgdb_register_pkg tr (pkg_get pkg .PKG_ORIGIN), tr3)
        if extract ∧ ex.1 ≠ EPKG_OK then
          (ex.1, ex.2 ++ [.pkg_delete_files (pkg_get pkg .PKG_ORIGIN),
            .pkg_delete_dirs (pkg_get pkg .PKG_ORIGIN)])
        else if upgrade ≠ 0 then
          (ex.1, ex.2 ++ [.pkg_script_run (pkg_get pkg .PKG_ORIGIN) .PKG_SCRIPT_POST_UPGRADE,
                          .emit_upgrade_finished (pkg_get pkg .PKG_ORIGIN)])
        else
          (ex.1, ex.2 ++ [.pkg_script_run (pkg_get pkg .PKG_ORIGIN) .PKG_SCRIPT_POST_INSTALL,
                          .emit_install_finished (pkg_get pkg .PKG_ORIGIN)])).2 := by
    split
    · exact h0
    · split
      · exact h0.snoc _ rfl
      · simp only
        have h3 : ExtendsWithout add_event.is_finale
            (tr ++ [.pkgdb_register_pkg (pkg_get pkg .PKG_ORIGIN)])
            (if upgrade = 0 then
              tr ++ [.pkgdb_register_pkg (pkg_get pkg .PKG_ORIGIN)] ++ [.pkgdb_has_flag] ++
                [.emit_install_begin (pkg_get pkg .PKG_ORIGIN),
                  .pkg_script_run (pkg_get pkg .PKG_ORIGIN) .PKG_SCRIPT_PRE_INSTALL]
            else tr ++ [.pkgdb_register_pkg (pkg_get pkg .PKG_ORIGIN)] ++ [.pkgdb_has_flag]) := by
          split
          · exact (h0.snoc _ rfl).snoc2 _ _ rfl rfl
          · exact h0.snoc _ rfl
        generalize (if upgrade = 0 then
              tr ++ [add_event.pkgdb_register_pkg (pkg_get pkg .PKG_ORIGIN)] ++
                [add_event.pkgdb_has_flag] ++
                [add_event.emit_install_begin (pkg_get pkg .PKG_ORIGIN),
                  add_event.pkg_script_run (pkg_get pkg .PKG_ORIGIN) .PKG_SCRIPT_PRE_INSTALL]
            else tr ++ [add_event.pkgdb_register_pkg (pkg_get pkg .PKG_ORIGIN)] ++
              [add_event.pkgdb_has_flag]) = tr3 at h3 ⊢
        have hex : ExtendsWithout add_event.is_finale
            (tr ++ [.pkgdb_register_pkg (pkg_get pkg .PKG_ORIGIN)])
            (if extract then do_extract E a tr3
              else (E.pkgdb_register_pkg tr (pkg_get pkg .PKG_ORIGIN), tr3)).2 := by
          split
          · exact h3.ew_trans (do_extract_no_finale E a tr3)
          · exact h3
        generalize (if extract = true then do_extract E a tr3
              else (E.pkgdb_register_pkg tr (pkg_get pkg .PKG_ORIGIN), tr3)) = ex at hex ⊢
        split
        · exact hex.snoc2 _ _ rfl rfl
        · split
          · exact hex.snoc2 _ _ rfl rfl
          · exact hex.snoc2 _ _ rfl rfl
  obtain ⟨mid, hmid, hok⟩ := hbody
  refine ⟨mid, ?_, hok⟩
  unfold pkg_add2_install
  simp only
  rw [hmid]

/-- C29 (as amended): a run of `pkg_add2` that reaches the registration
finalises it exactly once, as its last call before the archive is closed, with
the code the run returns.  A run that leaves before the registration (the
archive cannot be opened, or a precondition step fails or finds the package
installed) goes to the label `cleanup` and calls `pkgdb_register_finale`
nowhere: after the precondition steps it only closes the archive, and when no
dependency archive is installed on the way the whole run makes no such
call. -/
theorem pkg_add2_register_finale (E : add_env) (fuel : Nat) (tr0 : add_trace) (path : Bytes)
    (upgrade automatic : Int) :
    (∀ a tr2, (E.pkg_open2 tr0 path).1 = EPKG_OK ∨ (E.pkg_open2 tr0 path).1 = EPKG_END →
      (E.pkg_open2 tr0 path).2 = some a →
      pkg_add2_checks E (fun t p => pkg_add2 E fuel t p 0 1) path
        (pkg_stamped a.pkg automatic) (trace_at_uname tr0 path automatic) = some (.ok tr2) →
      ∃ rc mid, pkg_add2 E (fuel + 1) tr0 path upgrade automatic =
          some (rc, tr2 ++ [.pkgdb_register_pkg (pkg_get a.pkg .PKG_ORIGIN)] ++ mid ++
            [.pkgdb_register_finale rc, .archive_read_finish]) ∧
        ∀ e ∈ mid, e.is_finale = false) ∧
    (∀ a r, (E.pkg_open2 tr0 path).1 = EPKG_OK ∨ (E.pkg_open2 tr0 path).1 = EPKG_END →
      (E.pkg_open2 tr0 path).2 = some a →
      pkg_add2_checks E (fun t p => pkg_add2 E fuel t p 0 1) path
        (pkg_stamped a.pkg automatic) (trace_at_uname tr0 path automatic) = some (.error r) →
      pkg_add2 E (fuel + 1) tr0 path upgrade automatic =
          some (r.1, r.2 ++ [.archive_read_finish]) ∧
        ((∀ ext, strrchr_dot path = some ext →
            ∀ t, ∀ d ∈ a.pkg.deps, E.access t (dep_path (dirname path) ext d) = false) →
          ∃ new, r.2 ++ [.archive_read_finish] = tr0 ++ new ∧
            ∀ e ∈ new, e.is_finale = false)) ∧
    ((E.pkg_open2 tr0 path).1 ≠ EPKG_END ∧ (E.pkg_open2 tr0 path).1 ≠ EPKG_OK →
      ∃ new, pkg_add2 E (fuel + 1) tr0 path upgrade automatic =
          some ((E.pkg_open2 tr0 path).1, tr0 ++ new) ∧
        ∀ e ∈ new, e.is_finale = false) := by
  refine ⟨?_, ?_, ?_⟩
  · intro a tr2 hret ha hchk
    have hne : ¬ ((E.pkg_open2 tr0 path).1 ≠ EPKG_END ∧ (E.pkg_open2 tr0 path).1 ≠ EPKG_OK) := by
      rcases hret with h | h <;> simp [h]
    obtain ⟨mid, hmid, hok⟩ := pkg_add2_install_finale E upgrade
      (decide ((E.pkg_open2 tr0 path).1 ≠ EPKG_END)) a (pkg_stamped a.pkg automatic) tr2
    rw [pkg_get_stamped] at hmid
    refine ⟨(pkg_add2_install E upgrade (decide ((E.pkg_open2 tr0 path).1 ≠ EPKG_END)) a
      (pkg_stamped a.pkg automatic) tr2).1, mid, ?_, hok⟩
    simp only [pkg_add2, hne, if_false, ha, hchk, pkg_add2_cleanup]
    rw [hmid]
    simp only [List.append_assoc, List.singleton_append]
  · intro a r hret ha hchk
    have hne : ¬ ((E.pkg_open2 tr0 path).1 ≠ EPKG_END ∧ (E.pkg_open2 tr0 path).1 ≠ EPKG_OK) := by
      rcases hret with h | h <;> simp [h]
    refine ⟨by simp only [pkg_add2, hne, if_false, ha, hchk, pkg_add2_cleanup], ?_⟩
    intro hnofile
    have hbase := trace_at_uname_extends add_event.is_install tr0 path automatic rfl rfl
    have hframe := pkg_add2_checks_frame E _ path _ _ r hchk
      (by rw [pkg_stamped_deps]; exact hnofile)
    refine (((hbase.ew_trans hframe).snoc .archive_read_finish rfl).ew_mono ?_)
    intro e he
    cases e <;> first | rfl | simp [add_event.is_install] at he
  · intro hfail
    cases ho2 : (E.pkg_open2 tr0 path).2 with
    | none =>
      refine ⟨[.pkg_open2 path], ?_, by simp [add_event.is_finale]⟩
      simp only [pkg_add2, ho2, pkg_add2_cleanup]
      rw [if_pos hfail]
    | some a =>
      refine ⟨[.pkg_open2 path, .archive_read_finish], ?_, by simp [add_event.is_finale]⟩
      simp only [pkg_add2, ho2, pkg_add2_cleanup]
      rw [if_pos hfail]
      simp only [List.append_assoc, List.singleton_append]

theorem pkg_add2_register_finale_witness :
    pkg_add2 demo_env 1 [] (str "/p/baz-0.1.pkg") 0 0 =
      some (EPKG_OK, [.pkg_open2 (str "/p/baz-0.1.pkg"), .uname,
        .pkgdb_query (str "misc/baz"), .pkgdb_register_pkg (str "misc/baz"), .pkgdb_has_flag,
        .emit_install_begin (str "misc/baz"),
        .pkg_script_run (str "misc/baz") .PKG_SCRIPT_PRE_INSTALL,
        .archive_read_extract (str "usr/local/bin/baz"), .archive_read_next_header,
        .pkg_script_run (str "misc/baz") .PKG_SCRIPT_POST_INSTALL,
        .emit_install_finished (str "misc/baz"), .pkgdb_register_finale EPKG_OK,
        .archive_read_finish]) ∧
    ∃ rc mid, pkg_add2 demo_env 1 [] (str "/p/baz-0.1.pkg") 0 0 =
        some (rc, [.pkg_open2 (str "/p/baz-0.1.pkg"), .uname, .pkgdb_query (str "misc/baz")] ++
          [.pkgdb_register_pkg (pkg_get demo_baz.pkg .PKG_ORIGIN)] ++ mid ++
          [.pkgdb_register_finale rc, .archive_read_finish]) ∧
      ∀ e ∈ mid, e.is_finale = false :=
  ⟨rfl, (pkg_add2_register_finale demo_env 0 [] (str "/p/baz-0.1.pkg") 0 0).1 demo_baz _
    (Or.inl rfl) rfl rfl⟩

/-- C29 (counterexample): the archive of `old` is for another architecture;
the run returns `EX_CONFIG` and finalises nothing.  On a host whose catalog
holds every origin the run for `baz` returns `EX_OK` and finalises nothing
either. -/
theorem pkg_add2_register_finale_counterexample :
    pkg_add2 demo_env 1 [] (str "/p/old-1.0.pkg") 0 0 =
      some (EX_CONFIG, [.pkg_open2 (str "/p/old-1.0.pkg"), .uname,
        .emit_error (str "wrong architecture: %s instead of %s"), .archive_read_finish]) ∧
    pkg_add2 demo_env_installed 1 [] (str "/p/baz-0.1.pkg") 0 0 =
      some (EX_OK, [.pkg_open2 (str "/p/baz-0.1.pkg"), .uname, .pkgdb_query (str "misc/baz"),
        .emit_already_installed (str "misc/baz"), .archive_read_finish]) ∧
    (∀ e ∈ [add_event.pkg_open2 (str "/p/old-1.0.pkg"), .uname,
        .emit_error (str "wrong architecture: %s instead of %s"), .archive_read_finish],
      e.is_finale = false) :=
  ⟨rfl, rfl, by decide⟩

/-- C30 (as amended): when the registration fails, or succeeds and the
in-flight flag is clear, `pkg_add2` extracts no entry, runs no script and
reports neither the begin nor the end of an installation; it finalises the
registration with the code `pkgdb_register_pkg` returned and returns that
code, which is a failure code in the first case and `EPKG_OK` in the
second. -/
theorem pkg_add2_registration_abort (E : add_env) (fuel : Nat) (path : Bytes)
    (upgrade automatic ret : Int) (a : archive) (tr : add_trace) (origin : Bytes)
    (hopen : E.pkg_open2 [] path = (ret, some a)) (hret : ret = EPKG_OK ∨ ret = EPKG_END)
    (hchk : pkg_add2_checks E (fun t p => pkg_add2 E fuel t p 0 1) path
      (pkg_stamped a.pkg automatic) (trace_at_uname [] path automatic) = some (.ok tr))
    (horigin : origin = pkg_get a.pkg .PKG_ORIGIN)
    (habort : E.pkgdb_register_pkg tr origin ≠ EPKG_OK ∨
      E.pkgdb_has_flag (tr ++ [.pkgdb_register_pkg origin]) = 0) :
    ∃ new, pkg_add2 E (fuel + 1) [] path upgrade automatic =
        some (E.pkgdb_register_pkg tr origin, tr ++ new) ∧
      (∀ e ∈ new, e.is_install_step = false) ∧
      add_event.pkgdb_register_finale (E.pkgdb_register_pkg tr origin) ∈ new ∧
      (E.pkgdb_register_pkg tr origin ≠ EPKG_OK → new =
        [.pkgdb_register_pkg origin, .pkgdb_register_finale (E.pkgdb_register_pkg tr origin),
         .archive_read_finish]) ∧
      (E.pkgdb_register_pkg tr origin = EPKG_OK → new =
        [.pkgdb_register_pkg origin, .pkgdb_has_flag, .pkgdb_register_finale EPKG_OK,
         .archive_read_finish]) := by
  have hne : ¬ (ret ≠ EPKG_END ∧ ret ≠ EPKG_OK) := by
    rcases hret with h | h <;> simp [h]
  subst horigin
  by_cases hreg : E.pkgdb_register_pkg tr (pkg_get a.pkg .PKG_ORIGIN) = EPKG_OK
  · have hflag : E.pkgdb_has_flag (tr ++ [.pkgdb_register_pkg (pkg_get a.pkg .PKG_ORIGIN)]) = 0 := by
      rcases habort with h | h
      · exact absurd hreg h
      · exact h
    refine ⟨[.pkgdb_register_pkg (pkg_get a.pkg .PKG_ORIGIN), .pkgdb_has_flag,
      .pkgdb_register_finale EPKG_OK, .archive_read_finish], ?_, by simp [add_event.is_install_step],
      by simp [hreg], fun h => absurd hreg h, fun _ => rfl⟩
    simp only [pkg_add2, hopen, hne, if_false, hchk, pkg_add2_cleanup, pkg_add2_install,
      pkg_get_stamped, hreg, hflag, ne_eq, not_true_eq_false, if_true, List.append_assoc,
      List.singleton_append, List.cons_append, List.nil_append]
  · refine ⟨[.pkgdb_register_pkg (pkg_get a.pkg .PKG_ORIGIN),
      .pkgdb_register_finale (E.pkgdb_register_pkg tr (pkg_get a.pkg .PKG_ORIGIN)),
      .archive_read_finish], ?_, by simp [add_event.is_install_step], by simp, fun _ => rfl,
      fun h => absurd h hreg⟩
    simp only [pkg_add2, hopen, hne, if_false, hchk, pkg_add2_cleanup, pkg_add2_install,
      pkg_get_stamped, hreg, ne_eq, not_false_eq_true, if_true, List.append_assoc,
      List.singleton_append, List.cons_append, List.nil_append]

theorem pkg_add2_registration_abort_witness :
    (demo_env_noflight.pkgdb_register_pkg
        [.pkg_open2 (str "/p/baz-0.1.pkg"), .uname, .pkgdb_query (str "misc/baz")]
        (str "misc/baz") ≠ EPKG_OK ∨
      demo_env_noflight.pkgdb_has_flag
        ([.pkg_open2 (str "/p/baz-0.1.pkg"), .uname, .pkgdb_query (str "misc/baz")] ++
          [.pkgdb_register_pkg (str "misc/baz")]) = 0) ∧
    ∃ new, pkg_add2 demo_env_noflight 1 [] (str "/p/baz-0.1.pkg") 0 0 =
        some (demo_env_noflight.pkgdb_register_pkg
          [.pkg_open2 (str "/p/baz-0.1.pkg"), .uname, .pkgdb_query (str "misc/baz")]
          (str "misc/baz"),
          [.pkg_open2 (str "/p/baz-0.1.pkg"), .uname, .pkgdb_query (str "misc/baz")] ++ new) ∧
      (∀ e ∈ new, e.is_install_step = false) ∧
      add_event.pkgdb_register_finale (demo_env_noflight.pkgdb_register_pkg
          [.pkg_open2 (str "/p/baz-0.1.pkg"), .uname, .pkgdb_query (str "misc/baz")]
          (str "misc/baz")) ∈ new ∧
      (demo_env_noflight.pkgdb_register_pkg
          [.pkg_open2 (str "/p/baz-0.1.pkg"), .uname, .pkgdb_query (str "misc/baz")]
          (str "misc/baz") ≠ EPKG_OK → new =
        [.pkgdb_register_pkg (str "misc/baz"),
         .pkgdb_register_finale (demo_env_noflight.pkgdb_register_pkg
          [.pkg_open2 (str "/p/baz-0.1.pkg"), .uname, .pkgdb_query (str "misc/baz")]
          (str "misc/baz")), .archive_read_finish]) ∧
      (demo_env_noflight.pkgdb_register_pkg
          [.pkg_open2 (str "/p/baz-0.1.pkg"), .uname, .pkgdb_query (str "misc/baz")]
          (str "misc/baz") = EPKG_OK → new =
        [.pkgdb_register_pkg (str "misc/baz"), .pkgdb_has_flag, .pkgdb_register_finale EPKG_OK,
         .archive_read_finish]) :=
  ⟨Or.inr rfl,
    pkg_add2_registration_abort demo_env_noflight 0 (str "/p/baz-0.1.pkg") 0 0 EPKG_OK demo_baz
      [.pkg_open2 (str "/p/baz-0.1.pkg"), .uname, .pkgdb_query (str "misc/baz")]
      (str "misc/baz") rfl (Or.inl rfl) rfl rfl (Or.inr rfl)⟩

/-- C30 (counterexample): the registration of `baz` succeeds and the
in-flight flag is clear; the run extracts nothing and returns `EPKG_OK`. -/
theorem pkg_add2_registration_abort_counterexample :
    demo_env_noflight.pkgdb_register_pkg
      [.pkg_open2 (str "/p/baz-0.1.pkg"), .uname, .pkgdb_query (str "misc/baz")]
      (str "misc/baz") = EPKG_OK ∧
    demo_env_noflight.pkgdb_has_flag
      [.pkg_open2 (str "/p/baz-0.1.pkg"), .uname, .pkgdb_query (str "misc/baz"),
       .pkgdb_register_pkg (str "misc/baz")] = 0 ∧
    pkg_add2 demo_env_noflight 1 [] (str "/p/baz-0.1.pkg") 0 0 =
      some (EPKG_OK, [.pkg_open2 (str "/p/baz-0.1.pkg"), .uname,
        .pkgdb_query (str "misc/baz"), .pkgdb_register_pkg (str "misc/baz"), .pkgdb_has_flag,
        .pkgdb_register_finale EPKG_OK, .archive_read_finish]) :=
  ⟨rfl, rfl, rfl⟩

/-- C36: the name `emit_manifest` writes for each of the nine script phases is
mapped back to that phase by `script_type_str`, and `script_type_str` gives
the unknown phase for every string that is not one of the nine names. -/
theorem script_type_str_script_types (i : pkg_script) (s : Bytes) :
    (i ∈ pkg_script_phases → script_type_str (script_types i) = i) ∧
    ((∀ j ∈ pkg_script_phases, s ≠ script_types j) →
      script_type_str s = .PKG_SCRIPT_UNKNOWN) ∧
    (script_type_str s ≠ .PKG_SCRIPT_UNKNOWN →
      script_type_str s ∈ pkg_script_phases ∧ s = script_types (script_type_str s)) := by
  refine ⟨?_, ?_, ?_⟩
  · intro _
    cases i <;> rfl
  · intro h
    have h1 := h .PKG_SCRIPT_PRE_INSTALL (by decide)
    have h2 := h .PKG_SCRIPT_INSTALL (by decide)
    have h3 := h .PKG_SCRIPT_POST_INSTALL (by decide)
    have h4 := h .PKG_SCRIPT_PRE_UPGRADE (by decide)
    have h5 := h .PKG_SCRIPT_UPGRADE (by decide)
    have h6 := h .PKG_SCRIPT_POST_UPGRADE (by decide)
    have h7 := h .PKG_SCRIPT_PRE_DEINSTALL (by decide)
    have h8 := h .PKG_SCRIPT_DEINSTALL (by decide)
    have h9 := h .PKG_SCRIPT_POST_DEINSTALL (by decide)
    simp only [script_types] at h1 h2 h3 h4 h5 h6 h7 h8 h9
    simp only [script_type_str, h1, h2, h3, h4, h5, h6, h7, h8, h9, if_false]
  · intro h
    unfold script_type_str at h ⊢
    repeat' split
    all_goals first
      | exact absurd rfl h
      | (rename_i hs; subst hs; exact ⟨by decide, rfl⟩)
      | (simp_all)

theorem script_type_str_script_types_witness :
    pkg_script.PKG_SCRIPT_POST_INSTALL ∈ pkg_script_phases ∧
    script_types .PKG_SCRIPT_POST_INSTALL = str "post-install" ∧
    script_type_str (script_types .PKG_SCRIPT_POST_INSTALL) = .PKG_SCRIPT_POST_INSTALL ∧
    script_type_str (str "post-remove") = .PKG_SCRIPT_UNKNOWN :=
  ⟨by decide, rfl,
    (script_type_str_script_types .PKG_SCRIPT_POST_INSTALL (str "post-remove")).1 (by decide),
    (script_type_str_script_types .PKG_SCRIPT_POST_INSTALL (str "post-remove")).2.1
      (by decide)⟩

theorem pkg_array_field_add (p : pkg) (attr : pkg_attr) (s : Bytes) :
    pkg_array_field (pkg_add_to_array p attr s) attr = pkg_array_field p attr ++ [.string s] := by
  have hset : ∀ v, pkg_array_field (pkg_set p attr (.array v)).2 attr = v := by
    intro v
    unfold pkg_array_field
    rw [pkg_field_pkg_set_self]
  unfold pkg_add_to_array
  cases hf : pkg_field p attr with
  | none => simp only [hset]; simp [pkg_array_field, hf]
  | some o =>
    cases o <;> simp only [hset] <;> simp [pkg_array_field, hf]

theorem pkg_array_field_foldl (attr : pkg_attr) (l : List Bytes) :
    ∀ p, pkg_array_field (l.foldl (fun q s => pkg_add_to_array q attr s) p) attr =
      pkg_array_field p attr ++ l.map (fun s => .string s) := by
  induction l with
  | nil => intro p; simp
  | cons s l ih =>
    intro p
    rw [List.foldl_cons, ih, pkg_array_field_add]
    simp

theorem pkg_array_step_strings (E : manifest_env) (attr : pkg_attr)
    (hattr : attr = .PKG_CATEGORIES ∨ attr = .PKG_LICENSES) (es : List ucl_object_t) :
    ∀ p, (es.map (fun e => ({ key := none, obj := e, next := [] } : ucl_node))).foldl
        (pkg_array_step E attr) p =
      (ucl_string_members es).foldl (fun q s => pkg_add_to_array q attr s) p := by
  induction es with
  | nil => intro p; rfl
  | cons e es ih =>
    intro p
    rw [List.map_cons, List.foldl_cons, ih]
    rcases hattr with rfl | rfl <;>
      cases e <;> rfl

/-- C31: for a categories or licenses array, `pkg_array` returns `EPKG_OK` and
appends to the attribute exactly the string members of the array, in array
order: a member of another kind adds nothing and the members after it are
still added.  The other attributes and the collections of the package stay as
they are. -/
theorem pkg_array_string_members (E : manifest_env) (p : pkg) (obj : ucl_node)
    (attr : pkg_attr) (es : List ucl_object_t)
    (hattr : attr = .PKG_CATEGORIES ∨ attr = .PKG_LICENSES) (hobj : obj.obj = .array es) :
    (pkg_array E p obj attr).1 = EPKG_OK ∧
    (pkg_array E p obj attr).2 =
      (ucl_string_members es).foldl (fun q s => pkg_add_to_array q attr s) p ∧
    pkg_array_field (pkg_array E p obj attr).2 attr =
      pkg_array_field p attr ++ (ucl_string_members es).map (fun s => .string s) ∧
    (∀ a, a ≠ attr → pkg_field (pkg_array E p obj attr).2 a = pkg_field p a) := by
  have h : (pkg_array E p obj attr).2 =
      (ucl_string_members es).foldl (fun q s => pkg_add_to_array q attr s) p := by
    simp only [pkg_array, ucl_iterate_object, hobj, if_true]
    exact pkg_array_step_strings E attr hattr es p
  refine ⟨rfl, h, ?_, pkg_array_frame E attr p obj⟩
  rw [h, pkg_array_field_foldl]

theorem pkg_array_string_members_witness :
    ucl_string_members [.string (str "net"), .int 3, .string (str "www")] =
      [str "net", str "www"] ∧
    (pkg_array demo_files_env pkg_new
      ⟨some (str "categories"), .array [.string (str "net"), .int 3, .string (str "www")], []⟩
      .PKG_CATEGORIES).1 = EPKG_OK ∧
    pkg_array_field (pkg_array demo_files_env pkg_new
      ⟨some (str "categories"), .array [.string (str "net"), .int 3, .string (str "www")], []⟩
      .PKG_CATEGORIES).2 .PKG_CATEGORIES =
      pkg_array_field pkg_new .PKG_CATEGORIES ++
        (ucl_string_members [.string (str "net"), .int 3, .string (str "www")]).map
          (fun s => .string s) :=
  ⟨rfl,
    (pkg_array_string_members demo_files_env pkg_new
      ⟨some (str "categories"), .array [.string (str "net"), .int 3, .string (str "www")], []⟩
      .PKG_CATEGORIES _ (Or.inl rfl) rfl).1,
    (pkg_array_string_members demo_files_env pkg_new
      ⟨some (str "categories"), .array [.string (str "net"), .int 3, .string (str "www")], []⟩
      .PKG_CATEGORIES _ (Or.inl rfl) rfl).2.2.1⟩

/-- C33: for the name `dep` with the two objects `{origin: misc/a, version: 1}`
and `{version: 2}`, `pkg_set_deps_from_object` adds two dependencies: the
second object has no origin and is added with the origin of the first. -/
theorem pkg_set_deps_from_object_stale_origin :
    (pkg_set_deps_inner { origin := none, version := none }
      ⟨some (str "dep"), .object [(str "version", .int 2, [])], []⟩).origin = none ∧
    (pkg_set_deps_from_object pkg_new demo_deps_node).1 = EPKG_OK ∧
    (pkg_set_deps_from_object pkg_new demo_deps_node).2.deps =
      [{ name := str "dep", origin := str "misc/a", version := str "1" },
       { name := str "dep", origin := str "misc/a", version := str "2" }] :=
  ⟨by decide, by decide, by decide⟩

/-- C32: for a package with a conflict and a provide, `emit_manifest` writes
nothing when `pkg_option_value` does not return for the `NULL` option; when it
returns, the keys `conflicts` and `provides` are written as objects, the
registry has a parser for arrays only under both keys, and parsing the object
takes the fallback path. -/
theorem emit_manifest_conflicts_fallback :
    emit_manifest_top none demo_conflict_pkg 0 = none ∧
    ((emit_manifest_top (some (str "on")) demo_conflict_pkg 0).bind
      (fun top => ucl_object_find_key top (str "conflicts"))).map ucl_object_t.type =
        some .UCL_OBJECT ∧
    ((emit_manifest_top (some (str "on")) demo_conflict_pkg 0).bind
      (fun top => ucl_object_find_key top (str "provides"))).map ucl_object_t.type =
        some .UCL_OBJECT ∧
    manifest_lookup (pkg_manifest_keys_new []) (str "conflicts") .UCL_OBJECT = none ∧
    manifest_lookup (pkg_manifest_keys_new []) (str "conflicts") .UCL_ARRAY =
      some (.PKG_CONFLICTS, .pkg_array) ∧
    manifest_lookup (pkg_manifest_keys_new []) (str "provides") .UCL_OBJECT = none ∧
    manifest_lookup (pkg_manifest_keys_new []) (str "provides") .UCL_ARRAY =
      some (.PKG_PROVIDES, .pkg_array) ∧
    pkg_parse_manifest_fallback demo_conflict_env [] (pkg_manifest_keys_new []) = true :=
  ⟨rfl, by decide, by decide, by decide, by decide, by decide, by decide, by decide⟩

theorem strrchr_dot_none {s : Bytes} : strrchr_dot s = none ↔ 46 ∉ s := by
  induction s with
  | nil => simp [strrchr_dot]
  | cons c s ih =>
    unfold strrchr_dot
    cases h : strrchr_dot s with
    | some t =>
      have : 46 ∈ s := by
        by_contra hn
        rw [ih.mpr hn] at h
        cases h
      simp [this]
    | none =>
      have hs := ih.mp h
      by_cases hc : c = 46
      · simp [hc]
      · have hc2 : ¬ 46 = c := fun e => hc e.symm
        simp [hc, hc2, hs]

theorem strrchr_dot_suffix {s ext : Bytes} (h : strrchr_dot s = some ext) :
    ∃ pre, s = pre ++ ext ∧ ext.head? = some 46 ∧ 46 ∉ ext.tail := by
  induction s with
  | nil => simp [strrchr_dot] at h
  | cons c s ih =>
    unfold strrchr_dot at h
    cases hs : strrchr_dot s with
    | some t =>
      rw [hs] at h
      simp only [Option.some.injEq] at h
      subst h
      obtain ⟨pre, hpre, h1, h2⟩ := ih hs
      exact ⟨c :: pre, by rw [hpre]; rfl, h1, h2⟩
    | none =>
      rw [hs] at h
      simp only at h
      split at h
      · rename_i hc
        simp only [Option.some.injEq] at h
        subst h
        exact ⟨[], rfl, by simp [hc], by simpa using strrchr_dot_none.mp hs⟩
      · cases h

theorem strrchr_dot_append (a b : Bytes) (h : 46 ∈ b) :
    strrchr_dot (a ++ b) = strrchr_dot b := by
  induction a with
  | nil => rfl
  | cons c a ih =>
    rw [List.cons_append, strrchr_dot, ih]
    cases hb : strrchr_dot b with
    | some t => rfl
    | none => exact absurd h (strrchr_dot_none.mp hb)

theorem basename_suffix (path : Bytes) : ∃ dir, path = dir ++ basename path := by
  refine ⟨(path.reverse.dropWhile (fun c => c != 47)).reverse, ?_⟩
  unfold basename
  rw [← List.reverse_append, List.takeWhile_append_dropWhile, List.reverse_reverse]

/-- C35 (as amended): for a dependency that is not in the catalog, the name
`pkg_add2` probes is the first 1024 bytes of: the directory `dirname` gives
for the archive path, `/`, the name of the dependency, `-`, its version, and
the suffix of the archive path that starts at its last `.`.  That suffix is
the extension of the file name when the final component of the path has a
`.`; the name is probed whole when it has at most 1024 bytes. -/
theorem pkg_add2_dep_probe (E : add_env)
    (recurse : add_trace → Bytes → Option (Int × add_trace)) (origin path ext : Bytes)
    (dep : pkg_dep) (rest : List pkg_dep) (tr : add_trace) (q : Int)
    (hext : strrchr_dot path = some ext)
    (hq : E.pkgdb_query tr dep.origin = some q) (hmiss : q ≠ EPKG_OK) :
    pkg_add2_deps E recurse origin (dirname path) ext (dep :: rest) tr =
      (if E.access (tr ++ [.pkgdb_query dep.origin]) (dep_path (dirname path) ext dep) then
        match recurse (tr ++ [.pkgdb_query dep.origin,
            .access (dep_path (dirname path) ext dep)]) (dep_path (dirname path) ext dep) with
        | none => none
        | some (rc, tr3) =>
          if rc ≠ EPKG_OK then some (.error (EX_OSERR, tr3))
          else pkg_add2_deps E recurse origin (dirname path) ext rest tr3
      else some (.error (EPKG_FATAL, tr ++ [.pkgdb_query dep.origin,
        .access (dep_path (dirname path) ext dep), .emit_missing_dep origin dep]))) ∧
    dep_path (dirname path) ext dep =
      (dirname path ++ str "/" ++ dep.name ++ str "-" ++ dep.version ++ ext).take 1024 ∧
    ((dirname path ++ str "/" ++ dep.name ++ str "-" ++ dep.version ++ ext).length ≤ 1024 →
      dep_path (dirname path) ext dep =
        dirname path ++ str "/" ++ dep.name ++ str "-" ++ dep.version ++ ext) ∧
    (∃ pre, path = pre ++ ext ∧ ext.head? = some 46 ∧ 46 ∉ ext.tail) ∧
    (46 ∈ basename path →
      strrchr_dot (basename path) = some ext ∧
      ∃ pre, basename path = pre ++ ext ∧ ext.head? = some 46 ∧ 46 ∉ ext.tail) := by
  refine ⟨?_, rfl, ?_, strrchr_dot_suffix hext, ?_⟩
  · have hr : (if q = EPKG_OK then EX_OK else EX_IOERR) ≠ EPKG_OK := by
      rw [if_neg hmiss]
      decide
    simp only [pkg_add2_deps, dep_installed, hq, hr, ne_eq, not_false_eq_true, if_true,
      List.append_assoc, List.singleton_append, List.cons_append, List.nil_append]
  · intro hlen
    unfold dep_path
    exact List.take_of_length_le hlen
  · intro hdot
    obtain ⟨dir, hdir⟩ := basename_suffix path
    have hb : strrchr_dot (basename path) = some ext := by
      rw [← strrchr_dot_append dir _ hdot, ← hdir]
      exact hext
    exact ⟨hb, strrchr_dot_suffix hb⟩

theorem pkg_add2_dep_probe_witness :
    strrchr_dot (str "/p/bar-1.0.pkg") = some (str ".pkg") ∧
    dirname (str "/p/bar-1.0.pkg") = str "/p" ∧
    basename (str "/p/bar-1.0.pkg") = str "bar-1.0.pkg" ∧
    dep_path (dirname (str "/p/bar-1.0.pkg")) (str ".pkg") (demo_dep "qux" "0.2") =
      (dirname (str "/p/bar-1.0.pkg") ++ str "/" ++ (demo_dep "qux" "0.2").name ++ str "-" ++
        (demo_dep "qux" "0.2").version ++ str ".pkg").take 1024 ∧
    dep_path (dirname (str "/p/bar-1.0.pkg")) (str ".pkg") (demo_dep "qux" "0.2") =
      str "/p/qux-0.2.pkg" :=
  ⟨by decide, by decide, by decide,
    (pkg_add2_dep_probe demo_env (fun _ _ => none) (str "misc/bar") (str "/p/bar-1.0.pkg")
      (str ".pkg") (demo_dep "qux" "0.2") [] [] EPKG_END (by decide) rfl (by decide)).2.1,
    by decide⟩

/-- C35 (counterexample): the archive `/p.d/bar` has no `.` in its file name;
the extension is taken from the directory, and the name probed for the
dependency `qux` is `/p.d/qux-0.2.d/bar`. -/
theorem pkg_add2_dep_probe_counterexample :
    basename (str "/p.d/bar") = str "bar" ∧ 46 ∉ basename (str "/p.d/bar") ∧
    strrchr_dot (str "/p.d/bar") = some (str ".d/bar") ∧
    dirname (str "/p.d/bar") = str "/p.d" ∧
    pkg_add2_deps demo_env (fun _ _ => none) (str "misc/bar") (dirname (str "/p.d/bar"))
        (str ".d/bar") [demo_dep "qux" "0.2"] [] =
      some (.error (EPKG_FATAL, [.pkgdb_query (str "misc/qux"),
        .access (str "/p.d/qux-0.2.d/bar"),
        .emit_missing_dep (str "misc/bar") (demo_dep "qux" "0.2")])) :=
  ⟨by decide, by decide, by decide, by decide, rfl⟩

theorem digest_line_apply_disjoint (st : increment_state) (r : digest_record)
    (hT : (st.ldel.map (fun i => i.origin)).Nodup)
    (hD : ∀ i ∈ st.ladd, i.origin ∉ st.ldel.map (fun i => i.origin)) :
    ((digest_line_apply st r).ldel.map (fun i => i.origin)).Nodup ∧
    (∀ i ∈ (digest_line_apply st r).ladd,
      i.origin ∉ (digest_line_apply st r).ldel.map (fun i => i.origin)) := by
  obtain ⟨h1, h2⟩ := digest_line_apply_tables st r hT
  rw [h1, h2]
  refine ⟨List.Nodup.sublist (List.Sublist.map _ (List.filter_sublist _)) hT, ?_⟩
  intro i hi hmem
  obtain ⟨x, hx, hxo⟩ := List.mem_map.mp hmem
  have hxf := List.mem_filter.mp hx
  rcases List.mem_append.mp hi with hi | hi
  · exact hD i hi (List.mem_map.mpr ⟨x, hxf.1, hxo⟩)
  · obtain ⟨y, hy, hyo⟩ := List.mem_map.mp hi
    have hyr : y = r := by
      have := (List.mem_filter.mp hy).1
      simpa using this
    have hne : x.origin ≠ r.origin := by simpa using hxf.2
    apply hne
    rw [hxo, ← hyo, hyr]
    rfl

theorem foldl_digest_line_apply_disjoint (R : List digest_record) :
    ∀ st : increment_state, (st.ldel.map (fun i => i.origin)).Nodup →
      (∀ i ∈ st.ladd, i.origin ∉ st.ldel.map (fun i => i.origin)) →
      ∀ i ∈ (R.foldl digest_line_apply st).ladd,
        i.origin ∉ (R.foldl digest_line_apply st).ldel.map (fun i => i.origin) := by
  induction R with
  | nil => intro st _ hD; exact hD
  | cons r R ih =>
    intro st hT hD
    obtain ⟨h1, h2⟩ := digest_line_apply_disjoint st r hT hD
    exact ih _ h1 h2

/-- C38 (as amended): for a local snapshot with distinct origins and a
well-formed digest list, after the digest lines are processed no origin is in
both the add table and the delete table, whether or not the list repeats an
origin; the add table has at most one entry per origin when the list names
each origin once. -/
theorem incremental_tables_disjoint (L : List (Bytes × Option Bytes)) (lines : List Bytes)
    (R : List digest_record) (hL : (L.map Prod.fst).Nodup)
    (hwf : List.Forall₂ (fun l r => digest_line_parse l = .ok r) lines R) :
    ∃ st, load_digests (increment_init L) lines = .ok st ∧
      (∀ i ∈ st.ladd, i.origin ∉ st.ldel.map (fun i => i.origin)) ∧
      ((R.map (fun r => r.origin)).Nodup → (st.ladd.map (fun i => i.origin)).Nodup) := by
  have hT : ((increment_init L).ldel.map (fun i => i.origin)).Nodup := by
    simp only [increment_init]; rw [load_local_origins]; exact hL
  refine ⟨_, load_digests_of_parsed lines R hwf _, ?_, ?_⟩
  · exact foldl_digest_line_apply_disjoint R _ hT (by simp [increment_init])
  · intro hR
    obtain ⟨_, h2⟩ := foldl_digest_line_apply_tables R (increment_init L) hT hR
    rw [h2]
    simp only [increment_init, List.nil_append, List.map_map]
    refine List.Nodup.sublist ?_ hR
    have : (fun (i : pkg_increment_task_item) => i.origin) ∘ digest_record.toItem =
        fun r => r.origin := rfl
    rw [this]
    exact List.Sublist.map _ (List.filter_sublist _)

theorem incremental_tables_disjoint_witness :
    ([(str "a", some (str "d1")), (str "b", some (str "d2"))].map Prod.fst).Nodup ∧
    ∃ st, load_digests (increment_init [(str "a", some (str "d1")), (str "b", some (str "d2"))])
        [str "a:d9:0:0:50\n", str "a:d1:0:0:50\n"] = .ok st ∧
      (∀ i ∈ st.ladd, i.origin ∉ st.ldel.map (fun i => i.origin)) ∧
      (([digest_record.mk (str "a") (str "d9") 0 50,
          digest_record.mk (str "a") (str "d1") 0 50].map (fun r => r.origin)).Nodup →
        (st.ladd.map (fun i => i.origin)).Nodup) :=
  ⟨by decide,
    incremental_tables_disjoint [(str "a", some (str "d1")), (str "b", some (str "d2"))]
      [str "a:d9:0:0:50\n", str "a:d1:0:0:50\n"]
      [digest_record.mk (str "a") (str "d9") 0 50, digest_record.mk (str "a") (str "d1") 0 50]
      (by decide) (List.Forall₂.cons rfl (List.Forall₂.cons rfl List.Forall₂.nil))⟩

/-- C38 (counterexample): the catalog holds `a` with the digest `d1`, and the
digest list names `a` twice, with `d9` and with `d1`; the add table ends with
two entries for `a`. -/
theorem incremental_tables_disjoint_counterexample :
    ∃ st, load_digests (increment_init [(str "a", some (str "d1"))])
        [str "a:d9:0:0:50\n", str "a:d1:0:0:50\n"] = .ok st ∧
      st.ladd.map (fun i => i.origin) = [str "a", str "a"] ∧
      st.ladd.map (fun i => i.digest) = [str "d9", str "d1"] ∧
      ¬ (st.ladd.map (fun i => i.origin)).Nodup :=
  ⟨_, rfl, by decide, by decide, by decide⟩

/-- C34 (as amended): for an add entry with offset `o` and length `l` that
lie inside the mapped buffer of `n` bytes (`0 ≤ o`, `0 ≤ l`, `o + l ≤ n`), the
bytes the loop hands to `pkg_repo_add_from_manifest` are the `l` bytes of the
buffer from `o` on when `l` is not 0, and the `n - o` bytes from `o` to the
end when `l` is 0. -/
theorem repo_add_loop_slice (E : repo_env) (map : Bytes) (legacy_repo : Bool) (pushed : Nat)
    (item : pkg_increment_task_item) (rest : List pkg_increment_task_item) (hash_it : Nat)
    (keys : List pkg_manifest_key) (tr : repo_trace)
    (ho : 0 ≤ item.offset) (hl : 0 ≤ item.length)
    (hin : item.offset + item.length ≤ (map.length : Int)) :
    ∃ buf, repo_add_loop E map legacy_repo pushed (item :: rest) hash_it keys EPKG_OK tr =
        repo_add_loop E map legacy_repo pushed rest (hash_it + 1)
          (pkg_repo_add_from_manifest E buf item.origin item.digest keys legacy_repo
            (tr ++ [.emit_progress_tick (hash_it + 1) pushed])).1
          (pkg_repo_add_from_manifest E buf item.origin item.digest keys legacy_repo
            (tr ++ [.emit_progress_tick (hash_it + 1) pushed])).2.1
          ((pkg_repo_add_from_manifest E buf item.origin item.digest keys legacy_repo
            (tr ++ [.emit_progress_tick (hash_it + 1) pushed])).2.2 ++
            [.pkg_repo_add_from_manifest item.origin
              (pkg_repo_add_from_manifest E buf item.origin item.digest keys legacy_repo
                (tr ++ [.emit_progress_tick (hash_it + 1) pushed])).2.1]) ∧
      (item.length ≠ 0 → buf.length = item.length.toNat) ∧
      (item.length = 0 → buf.length = map.length - item.offset.toNat) ∧
      (∀ i, i < buf.length → buf[i]? = map[item.offset.toNat + i]?) := by
  have hon : item.offset.toNat ≤ map.length := by omega
  by_cases hz : item.length = 0
  · refine ⟨map.drop item.offset.toNat, ?_, fun h => absurd hz h, fun _ => by simp, ?_⟩
    · have hb : manifest_slice map item.offset ((map.length : Int) - item.offset) =
          map.drop item.offset.toNat := by
        unfold manifest_slice
        apply List.take_of_length_le
        rw [List.length_drop]
        omega
      simp only [repo_add_loop, hz, ne_eq, not_true_eq_false, if_false, if_true, hb]
    · intro i _
      rw [List.getElem?_drop]
  · refine ⟨(map.drop item.offset.toNat).take item.length.toNat, ?_, ?_, fun h => absurd h hz, ?_⟩
    · simp only [repo_add_loop, hz, ne_eq, not_false_eq_true, if_true, manifest_slice]
    · intro _
      rw [List.length_take, List.length_drop]
      omega
    · intro i hi
      rw [List.length_take] at hi
      rw [List.getElem?_take_of_lt (by omega), List.getElem?_drop]

theorem repo_add_loop_slice_witness :
    (0 : Int) ≤ 14 ∧ (0 : Int) ≤ 14 ∧ (14 : Int) + 14 ≤ ((str "manifest of a\nmanifest of c\n").length : Int) ∧
    ∃ buf, repo_add_loop demo_update_env (str "manifest of a\nmanifest of c\n") false 1
        [{ origin := str "c", digest := str "d3", offset := 14, length := 14 }] 0 [] EPKG_OK [] =
        repo_add_loop demo_update_env (str "manifest of a\nmanifest of c\n") false 1 [] (0 + 1)
          (pkg_repo_add_from_manifest demo_update_env buf (str "c") (str "d3") [] false
            ([] ++ [.emit_progress_tick (0 + 1) 1])).1
          (pkg_repo_add_from_manifest demo_update_env buf (str "c") (str "d3") [] false
            ([] ++ [.emit_progress_tick (0 + 1) 1])).2.1
          ((pkg_repo_add_from_manifest demo_update_env buf (str "c") (str "d3") [] false
            ([] ++ [.emit_progress_tick (0 + 1) 1])).2.2 ++
            [.pkg_repo_add_from_manifest (str "c")
              (pkg_repo_add_from_manifest demo_update_env buf (str "c") (str "d3") [] false
                ([] ++ [.emit_progress_tick (0 + 1) 1])).2.1]) ∧
      ((14 : Int) ≠ 0 → buf.length = (14 : Int).toNat) ∧
      ((14 : Int) = 0 → buf.length = (str "manifest of a\nmanifest of c\n").length -
        (14 : Int).toNat) ∧
      (∀ i, i < buf.length →
        buf[i]? = (str "manifest of a\nmanifest of c\n")[(14 : Int).toNat + i]?) :=
  ⟨by decide, by decide, by decide,
    repo_add_loop_slice demo_update_env (str "manifest of a\nmanifest of c\n") false 1
      { origin := str "c", digest := str "d3", offset := 14, length := 14 } [] 0 [] []
      (by decide) (by decide) (by decide)⟩

/-- C34 (counterexample): the digests file gives the package `c` the offset
500 and the length 50, and the manifests file has 28 bytes; the run hands the
entry to `pkg_repo_add_from_manifest` all the same and adds the package: no
byte of the range from 500 to 550 is inside the buffer. -/
theorem repo_add_loop_slice_counterexample :
    load_digests (increment_init [(str "a", some (str "d1")), (str "b", some (str "d2"))])
        [str "a:d1:0:0:50\n", str "c:d3:500:0:50\n"] =
      .ok { ldel := [{ origin := str "b", digest := str "d2", offset := 4, length := 0 }],
            ladd := [{ origin := str "c", digest := str "d3", offset := 500, length := 50 }],
            updated := 0, added := 1, processed := 2 } ∧
    ([str "manifest of a\n", str "manifest of c\n"].flatten).length = 28 ∧
    ¬ ((500 : Int) ≤ 28) ∧
    manifest_slice ([str "manifest of a\n", str "manifest of c\n"].flatten) 500 50 = [] ∧
    (pkg_repo_update_incremental demo_range_env 7 []).1 = EPKG_OK ∧
    repo_event.pkg_repo_add_from_manifest (str "c") EPKG_OK ∈
      (pkg_repo_update_incremental demo_range_env 7 []).2.2 :=
  ⟨rfl, by decide, by decide, by decide, by decide, by decide⟩

theorem repo_cleanup_result (E : repo_env) (rc : Int) (tr : repo_trace) :
    ∃ tail, (repo_cleanup E true rc tr).2 = tr ++ tail ∧
      (∀ e ∈ tail, e.is_body_op = false) ∧
      ((repo_cleanup E true rc tr).1 = EPKG_OK ↔
        rc = EPKG_OK ∧ repo_event.pkgdb_transaction_commit EPKG_OK ∈ tail) ∧
      ((repo_cleanup E true rc tr).1 = EPKG_OK →
        repo_event.pkgdb_transaction_rollback ∉ tail ∧
        ∃ d, tail = [.pkgdb_transaction_commit EPKG_OK, .pkgdb_repo_finalize_statements,
          .sql_exec (str "DROP TABLE repo_update;") d, .sqlite3_close]) := by
  have h30 : ¬ EPKG_FATAL = EPKG_OK := by decide
  simp only [repo_cleanup, if_true, ne_eq]
  by_cases hrc : rc = EPKG_OK
  · by_cases hc : E.pkgdb_transaction_commit tr = EPKG_OK
    · simp only [hrc, hc, not_true_eq_false, if_false, if_true, List.append_assoc]
      exact ⟨_, rfl, by simp [repo_event.is_body_op], by simp, fun _ => ⟨by simp, _, rfl⟩⟩
    · simp only [hrc, hc, not_true_eq_false, not_false_eq_true, if_true, h30, if_false,
        List.append_assoc]
      exact ⟨_, rfl, by simp [repo_event.is_body_op], by simp [Ne.symm hc], fun h => h.elim⟩
  · by_cases hc : E.pkgdb_transaction_commit (tr ++ [.pkgdb_transaction_rollback]) = EPKG_OK
    · simp only [hrc, hc, not_true_eq_false, not_false_eq_true, if_false, if_true,
        List.append_assoc]
      exact ⟨_, rfl, by simp [repo_event.is_body_op], by simp [hrc], fun h => h.elim⟩
    · simp only [hrc, hc, not_false_eq_true, if_true, h30, if_false, List.append_assoc]
      exact ⟨_, rfl, by simp [repo_event.is_body_op], by simp [hrc], fun h => h.elim⟩

theorem repo_remove_loop_result (E : repo_env) (removed : Nat)
    (items : List pkg_increment_task_item) :
    ∀ hash_it rc tr, ∃ rb, (repo_remove_loop E removed items hash_it rc tr).2 = tr ++ rb ∧
      (∀ e ∈ rb, e.is_remove_step = true) ∧
      ((repo_remove_loop E removed items hash_it rc tr).1 = EPKG_OK ↔
        rc = EPKG_OK ∧ ∀ o r, repo_event.pkgdb_repo_remove_package o r ∈ rb → r = EPKG_OK) := by
  induction items with
  | nil => intro _ rc tr; exact ⟨[], by simp [repo_remove_loop], by simp, by simp [repo_remove_loop]⟩
  | cons item rest ih =>
    intro hash_it rc tr
    simp only [repo_remove_loop]
    split
    · rename_i hrc
      obtain ⟨rb, h1, h2, h3⟩ := ih (hash_it + 1)
        (E.pkgdb_repo_remove_package (tr ++ [.emit_progress_tick (hash_it + 1) removed])
          item.origin)
        (tr ++ [.emit_progress_tick (hash_it + 1) removed] ++
          [.pkgdb_repo_remove_package item.origin
            (E.pkgdb_repo_remove_package (tr ++ [.emit_progress_tick (hash_it + 1) removed])
              item.origin)])
      refine ⟨[.emit_progress_tick (hash_it + 1) removed,
        .pkgdb_repo_remove_package item.origin
          (E.pkgdb_repo_remove_package (tr ++ [.emit_progress_tick (hash_it + 1) removed])
            item.origin)] ++ rb, ?_, ?_, ?_⟩
      · rw [h1]; simp only [List.append_assoc, List.cons_append, List.nil_append]
      · intro e he
        rcases List.mem_append.mp he with he | he
        · simp only [List.mem_cons, List.mem_singleton, List.not_mem_nil, or_false] at he
          rcases he with rfl | rfl <;> rfl
        · exact h2 e he
      · rw [h3]
        simp only [hrc, true_and, List.cons_append, List.nil_append, List.mem_cons,
          reduceCtorEq, false_or, repo_event.pkgdb_repo_remove_package.injEq]
        constructor
        · rintro ⟨ha, hb⟩ o r (⟨rfl, rfl⟩ | hm)
          · exact ha
          · exact hb o r hm
        · intro h
          exact ⟨h _ _ (Or.inl ⟨rfl, rfl⟩), fun o r hm => h o r (Or.inr hm)⟩
    · rename_i hrc
      obtain ⟨rb, h1, h2, h3⟩ := ih (hash_it + 1) rc
        (tr ++ [.emit_progress_tick (hash_it + 1) removed])
      refine ⟨[.emit_progress_tick (hash_it + 1) removed] ++ rb, ?_, ?_, ?_⟩
      · rw [h1]; simp only [List.append_assoc]
      · intro e he
        rcases List.mem_append.mp he with he | he
        · simp only [List.mem_singleton] at he
          subst he
          rfl
        · exact h2 e he
      · rw [h3]
        simp [hrc]

theorem repo_apply_empty (E : repo_env) (st : increment_state) (map : Bytes)
    (legacy_repo : Bool) (tr : repo_trace)
    (hmap : ¬ (0 < (map.length : Int) ∧ (map.length : Int) < SSIZE_MAX)) :
    ∃ body, (repo_apply E st map legacy_repo tr).2 = tr ++ body ∧
      (∀ e ∈ body, e.is_savepoint_end = false ∧ e.is_add_call = false) ∧
      ((repo_apply E st map legacy_repo tr).1 = EPKG_OK ↔
        repo_event.pkgdb_transaction_begin EPKG_OK ∈ body ∧
        ∀ o r, repo_event.pkgdb_repo_remove_package o r ∈ body → r = EPKG_OK) := by
  unfold repo_apply
  simp only
  generalize E.sql_exec tr _ = r0
  generalize E.pkgdb_transaction_begin _ = bc
  by_cases hb : bc = EPKG_OK
  · subst hb
    simp only [ne_eq, not_true_eq_false, if_false, hmap]
    obtain ⟨rb, h1, h2, h3⟩ := repo_remove_loop_result E st.ldel.length st.ldel 0 EPKG_OK
      (tr ++ [.sql_exec (str "CREATE TABLE IF NOT EXISTS repo_update (x INTEGER);") r0] ++
        [.pkgdb_transaction_begin EPKG_OK] ++
        [.emit_progress_start (str "Removing expired entries")])
    generalize repo_remove_loop _ _ _ _ _ _ = R at h1 h3 ⊢
    have hrb : ∀ e ∈ rb, e.is_savepoint_end = false ∧ e.is_add_call = false ∧
        (∀ c, e ≠ .pkgdb_transaction_begin c) := by
      intro e he
      have := h2 e he
      cases e <;> first
        | (cases this; done)
        | exact ⟨rfl, rfl, fun _ h => (by cases h)⟩
    have key : ∀ msg : Bytes, ∃ body, R.2 ++ [repo_event.emit_error msg] = tr ++ body ∧
        (∀ e ∈ body, e.is_savepoint_end = false ∧ e.is_add_call = false) ∧
        (R.1 = EPKG_OK ↔ repo_event.pkgdb_transaction_begin EPKG_OK ∈ body ∧
          ∀ o r, repo_event.pkgdb_repo_remove_package o r ∈ body → r = EPKG_OK) := by
      intro msg
      refine ⟨[.sql_exec (str "CREATE TABLE IF NOT EXISTS repo_update (x INTEGER);") r0,
        .pkgdb_transaction_begin EPKG_OK,
        .emit_progress_start (str "Removing expired entries")] ++ rb ++ [.emit_error msg],
        by rw [h1]; simp only [List.append_assoc, List.cons_append, List.nil_append], ?_, ?_⟩
      · intro e he
        simp only [List.mem_append, List.mem_cons, List.mem_singleton, List.not_mem_nil,
          or_false] at he
        rcases he with ((rfl | rfl | rfl) | he) | rfl
        · exact ⟨rfl, rfl⟩
        · exact ⟨rfl, rfl⟩
        · exact ⟨rfl, rfl⟩
        · exact ⟨(hrb e he).1, (hrb e he).2.1⟩
        · exact ⟨rfl, rfl⟩
      · rw [h3]
        simp only [true_and, List.mem_append, List.mem_cons, List.mem_singleton,
          List.not_mem_nil, or_false, reduceCtorEq, false_or, or_true, true_or]
    split
    · exact key _
    · exact key _
  · simp only [hb, ne_eq, not_false_eq_true, if_true]
    refine ⟨[.sql_exec (str "CREATE TABLE IF NOT EXISTS repo_update (x INTEGER);") r0,
      .pkgdb_transaction_begin bc], by simp, by simp [repo_event.is_savepoint_end,
        repo_event.is_add_call], ?_⟩
    simp [hb, Ne.symm hb]

/-- C24 (counterexample): in the update scenario with a store that fails the
statement that drops the marker table, the run creates the table, returns
`EPKG_OK` and executes the statement, whose failure it does not look at: the
table is there when the function returns. -/
theorem repo_update_marker_counterexample :
    (pkg_repo_update_incremental demo_update_nodrop_env 7 []).1 = EPKG_OK ∧
    repo_event.sql_exec (str "CREATE TABLE IF NOT EXISTS repo_update (x INTEGER);") EPKG_OK ∈
      (pkg_repo_update_incremental demo_update_nodrop_env 7 []).2.2 ∧
    repo_event.sql_exec (str "DROP TABLE repo_update;") EPKG_FATAL ∈
      (pkg_repo_update_incremental demo_update_nodrop_env 7 []).2.2 ∧
    marker_table false (pkg_repo_update_incremental demo_update_nodrop_env 7 []).2.2 = true :=
  ⟨by decide, by decide, by decide, by decide⟩

/-- C16 (counterexample): the catalog holds `a` with digest `d1` and `b` with
digest `d2`, and the two lines of the digests file both name `a` with `d1`.
Both lines parse, no line names an origin that the catalog lacks, and the run
succeeds and reports one added package (0 updated, 1 removed, 2 processed). -/
theorem repo_update_counters_counterexample :
    (pkg_repo_update_incremental demo_repeat_env 7 []).1 = EPKG_OK ∧
    repo_event.emit_incremental_update 0 1 1 2 ∈
      (pkg_repo_update_incremental demo_repeat_env 7 []).2.2 ∧
    demo_repeat_env.pkgdb_repo_origins [] = some
      [repo_row.mk (str "a") (some (str "d1")) none,
       repo_row.mk (str "b") (some (str "d2")) none] ∧
    (demo_repeat_env.fetch [] .digests 7).1 = some [str "a:d1:0:0:50\n", str "a:d1:0:0:50\n"] ∧
    List.Forall₂ (fun l r => digest_line_parse l = .ok r)
      [str "a:d1:0:0:50\n", str "a:d1:0:0:50\n"]
      [digest_record.mk (str "a") (str "d1") 0 50, digest_record.mk (str "a") (str "d1") 0 50] ∧
    ([digest_record.mk (str "a") (str "d1") 0 50,
      digest_record.mk (str "a") (str "d1") 0 50].filter (fun d => decide (d.origin ∉
        [repo_row.mk (str "a") (some (str "d1")) none,
         repo_row.mk (str "b") (some (str "d2")) none].map (fun row => row.origin)))).length = 0 :=
  ⟨by decide, by decide, rfl, rfl,
    List.Forall₂.cons rfl (List.Forall₂.cons rfl List.Forall₂.nil), by decide⟩

theorem savepoint_run_append (s : savepoint) (a b : repo_trace) :
    savepoint_run s (a ++ b) = savepoint_run (savepoint_run s a) b := by
  simp [savepoint_run, List.foldl_append]

theorem savepoint_run_plain (l : repo_trace) (h : ∀ e ∈ l, e.is_savepoint_call = false) :
    ∀ s, savepoint_run s l =
      { pending := s.pending ++ l.filter repo_event.is_change, committed := s.committed } := by
  induction l with
  | nil => intro s; simp [savepoint_run]
  | cons x l ih =>
    intro s
    have hx := h x (List.mem_cons_self _ _)
    have hl := ih (fun e he => h e (List.mem_cons_of_mem _ he))
    have hstep : savepoint_run s (x :: l) = savepoint_run (savepoint_step s x) l := rfl
    rw [hstep, hl]
    cases x <;> first
      | (simp [repo_event.is_savepoint_call] at hx; done)
      | simp [savepoint_step, repo_event.is_change]

theorem repo_apply_shape_begin (E : repo_env) (st : increment_state) (map : Bytes)
    (legacy_repo : Bool) (tr : repo_trace) :
    ∃ rem adds,
      (repo_apply E st map legacy_repo tr).2 =
        tr ++ [.sql_exec (str "CREATE TABLE IF NOT EXISTS repo_update (x INTEGER);")
            (E.sql_exec tr (str "CREATE TABLE IF NOT EXISTS repo_update (x INTEGER);"))] ++
          [.pkgdb_transaction_begin (E.pkgdb_transaction_begin (tr ++ [.sql_exec
            (str "CREATE TABLE IF NOT EXISTS repo_update (x INTEGER);")
            (E.sql_exec tr (str "CREATE TABLE IF NOT EXISTS repo_update (x INTEGER);"))]))] ++
          rem ++ adds ∧
      (∀ e ∈ rem, e.is_remove_step = true) ∧
      (∀ e ∈ adds, e.is_add_phase st = true) := by
  unfold repo_apply
  simp only
  generalize E.sql_exec tr _ = r0
  generalize E.pkgdb_transaction_begin _ = rc
  split
  · exact ⟨[], [], by simp, by simp, by simp⟩
  · have hrem := repo_remove_loop_steps E st.ldel.length st.ldel 0 rc
      (tr ++ [.sql_exec (str "CREATE TABLE IF NOT EXISTS repo_update (x INTEGER);") r0] ++
        [.pkgdb_transaction_begin rc] ++
        [.emit_progress_start (str "Removing expired entries")])
    generalize repo_remove_loop _ _ _ _ _ _ = R at hrem ⊢
    obtain ⟨rem, hrem, hremok⟩ := hrem
    have hremok2 : ∀ e ∈ repo_event.emit_progress_start (str "Removing expired entries") :: rem,
        e.is_remove_step = true := by
      intro e he
      rcases List.mem_cons.mp he with rfl | he
      · rfl
      · exact hremok e he
    split
    · have hadd := repo_add_loop_steps E map legacy_repo st.ladd.length st.ladd 0 [] R.1
        (R.2 ++ [.mmap, .emit_progress_start (str "Adding new entries")])
      generalize repo_add_loop _ _ _ _ _ _ _ _ _ = A at hadd ⊢
      obtain ⟨loop, hloop, hloopok⟩ := hadd
      refine ⟨.emit_progress_start (str "Removing expired entries") :: rem,
        [.mmap, .emit_progress_start (str "Adding new entries")] ++ loop ++
          [.emit_incremental_update st.updated st.ldel.length st.added st.processed],
        ?_, hremok2, ?_⟩
      · simp only [hloop, hrem, List.append_assoc, List.cons_append, List.nil_append]
      · intro e he
        simp only [List.mem_append, List.mem_cons, List.mem_singleton, List.not_mem_nil,
          or_false] at he
        rcases he with ((rfl | rfl) | he) | rfl
        · rfl
        · rfl
        · have := hloopok e he
          cases e <;> simp_all [repo_event.is_add_step, repo_event.is_add_phase]
        · simp [repo_event.is_add_phase]
    · split
      · refine ⟨.emit_progress_start (str "Removing expired entries") :: rem,
          [.emit_error (str "Empty catalog")], ?_, hremok2,
          by simp [repo_event.is_add_phase, repo_event.is_add_step]⟩
        simp only [hrem, List.append_assoc, List.cons_append, List.nil_append]
      · refine ⟨.emit_progress_start (str "Removing expired entries") :: rem,
          [.emit_error (str "Catalog too large")], ?_, hremok2,
          by simp [repo_event.is_add_phase, repo_event.is_add_step]⟩
        simp only [hrem, List.append_assoc, List.cons_append, List.nil_append]

theorem savepoint_run_body (r0 : Int) (st : increment_state) (rem adds : repo_trace)
    (hrem : ∀ e ∈ rem, e.is_remove_step = true) (hadds : ∀ e ∈ adds, e.is_add_phase st = true)
    (s : savepoint) :
    savepoint_run s ([.sql_exec (str "CREATE TABLE IF NOT EXISTS repo_update (x INTEGER);") r0,
        .pkgdb_transaction_begin EPKG_OK] ++ rem ++ adds) =
      { pending := ([repo_event.sql_exec
            (str "CREATE TABLE IF NOT EXISTS repo_update (x INTEGER);") r0,
          .pkgdb_transaction_begin EPKG_OK] ++ rem ++ adds).filter repo_event.is_change,
        committed := s.committed } := by
  have hplain : ∀ e ∈ rem ++ adds, e.is_savepoint_call = false := by
    intro e he
    rcases List.mem_append.mp he with he | he
    · have := hrem e he
      cases e <;> first | rfl | simp [repo_event.is_remove_step] at this
    · have := hadds e he
      cases e <;> first
        | rfl
        | simp [repo_event.is_add_phase, repo_event.is_add_step] at this
  rw [List.append_assoc, savepoint_run_append, savepoint_run_plain _ hplain]
  simp [savepoint_run, savepoint_step, repo_event.is_change]

theorem repo_apply_begin_failed (E : repo_env) (st : increment_state) (map : Bytes)
    (legacy_repo : Bool) (tr : repo_trace)
    (h : E.pkgdb_transaction_begin (tr ++ [.sql_exec
      (str "CREATE TABLE IF NOT EXISTS repo_update (x INTEGER);")
      (E.sql_exec tr (str "CREATE TABLE IF NOT EXISTS repo_update (x INTEGER);"))]) ≠ EPKG_OK) :
    (repo_apply E st map legacy_repo tr).1 ≠ EPKG_OK := by
  unfold repo_apply
  simp only [ne_eq, h, not_false_eq_true, if_true]

/-- C37 (as amended): when the manifests file is empty or too large to map,
`pkg_repo_update_incremental` adds no package, and it returns `EPKG_OK`
exactly when the savepoint began, every remove succeeded and the call that
commits the savepoint succeeded; the savepoint is then not rolled back, the
removes of the run, all of which succeeded, are what the commit releases into
the catalog, and the statement that drops the marker table is executed as the
last before the handle is closed, after which the table is gone when the
statement succeeded. -/
theorem repo_update_empty_catalog (E : repo_env) (mtime : Int) (tr : repo_trace)
    (f : repo_fetched) (legacy_repo : Bool) (st : increment_state)
    (hopen : repo_update_open E mtime tr = .ok f)
    (hdiff : repo_update_diff E f = .ok (legacy_repo, st))
    (hmap : ¬ (0 < (f.fmanifest.flatten.length : Int) ∧
      (f.fmanifest.flatten.length : Int) < SSIZE_MAX)) :
    ∃ b, (pkg_repo_update_incremental E mtime tr).2.2 = f.tr ++ b ∧
      (∀ e ∈ b, e.is_add_call = false) ∧
      ((pkg_repo_update_incremental E mtime tr).1 = EPKG_OK ↔
        repo_event.pkgdb_transaction_begin EPKG_OK ∈ b ∧
        (∀ o r, repo_event.pkgdb_repo_remove_package o r ∈ b → r = EPKG_OK) ∧
        repo_event.pkgdb_transaction_commit EPKG_OK ∈ b) ∧
      ((pkg_repo_update_incremental E mtime tr).1 = EPKG_OK →
        repo_event.pkgdb_transaction_rollback ∉ b ∧
        (∃ pre d, b = pre ++ [.pkgdb_transaction_commit EPKG_OK,
          .pkgdb_repo_finalize_statements, .sql_exec (str "DROP TABLE repo_update;") d,
          .sqlite3_close] ∧
          (d = EPKG_OK → ∀ before, marker_table before (f.tr ++ b) = false)) ∧
        (∀ s, (savepoint_run s b).committed = s.committed ++ b.filter repo_event.is_change) ∧
        (∀ e ∈ b.filter repo_event.is_change,
          ∃ o, e = .pkgdb_repo_remove_package o EPKG_OK)) := by
  have hT : pkg_repo_update_incremental E mtime tr =
      ((repo_apply_cleanup E st f.fmanifest.flatten legacy_repo f.tr).1, f.mtime,
        (repo_apply_cleanup E st f.fmanifest.flatten legacy_repo f.tr).2) := by
    simp only [pkg_repo_update_incremental, hopen, hdiff]
  rw [hT]
  simp only [repo_apply_cleanup]
  obtain ⟨body, hb1, hb2, hb3⟩ := repo_apply_empty E st f.fmanifest.flatten legacy_repo f.tr hmap
  obtain ⟨tail, ht1, ht2, ht3, ht4⟩ := repo_cleanup_result E
    (repo_apply E st f.fmanifest.flatten legacy_repo f.tr).1
    (repo_apply E st f.fmanifest.flatten legacy_repo f.tr).2
  have htail : ∀ e ∈ tail, e.is_add_call = false ∧ (∀ c, e ≠ .pkgdb_transaction_begin c) ∧
      (∀ o r, e ≠ .pkgdb_repo_remove_package o r) := by
    intro e he
    have := ht2 e he
    cases e <;> first
      | (cases this; done)
      | exact ⟨rfl, fun _ h => (by cases h), fun _ _ h => (by cases h)⟩
  have hbody : ∀ e ∈ body, ∀ c, e ≠ .pkgdb_transaction_commit c := by
    intro e he c hc
    have := (hb2 e he).1
    rw [hc] at this
    simp [repo_event.is_savepoint_end] at this
  have hroll : repo_event.pkgdb_transaction_rollback ∉ body := by
    intro he
    have := (hb2 _ he).1
    simp [repo_event.is_savepoint_end] at this
  have hadd : ∀ e ∈ body ++ tail, e.is_add_call = false := by
    intro e he
    rcases List.mem_append.mp he with he | he
    · exact (hb2 e he).2
    · exact (htail e he).1
  have hiff : (repo_cleanup E true (repo_apply E st f.fmanifest.flatten legacy_repo f.tr).1
        (repo_apply E st f.fmanifest.flatten legacy_repo f.tr).2).1 = EPKG_OK ↔
      repo_event.pkgdb_transaction_begin EPKG_OK ∈ body ++ tail ∧
      (∀ o r, repo_event.pkgdb_repo_remove_package o r ∈ body ++ tail → r = EPKG_OK) ∧
      repo_event.pkgdb_transaction_commit EPKG_OK ∈ body ++ tail := by
    rw [ht3, hb3]
    simp only [List.mem_append]
    constructor
    · rintro ⟨⟨h1, h2⟩, h3⟩
      refine ⟨Or.inl h1, ?_, Or.inr h3⟩
      rintro o r (hm | hm)
      · exact h2 o r hm
      · exact absurd rfl ((htail _ hm).2.2 o r)
    · rintro ⟨h1, h2, h3⟩
      refine ⟨⟨?_, fun o r hm => h2 o r (Or.inl hm)⟩, ?_⟩
      · rcases h1 with h1 | h1
        · exact h1
        · exact absurd rfl ((htail _ h1).2.1 EPKG_OK)
      · rcases h3 with h3 | h3
        · exact absurd rfl (hbody _ h3 EPKG_OK)
        · exact h3
  refine ⟨body ++ tail, by rw [ht1, hb1, List.append_assoc], hadd, hiff, ?_⟩
  intro hok
  obtain ⟨hr, d, hd⟩ := ht4 hok
  have hrc := (ht3.mp hok).1
  have hbegin : E.pkgdb_transaction_begin (f.tr ++ [.sql_exec
      (str "CREATE TABLE IF NOT EXISTS repo_update (x INTEGER);")
      (E.sql_exec f.tr (str "CREATE TABLE IF NOT EXISTS repo_update (x INTEGER);"))]) =
      EPKG_OK := by
    by_contra hne
    exact repo_apply_begin_failed E st f.fmanifest.flatten legacy_repo f.tr hne hrc
  obtain ⟨rem, adds, hshape, hrem, hadds⟩ :=
    repo_apply_shape_begin E st f.fmanifest.flatten legacy_repo f.tr
  rw [hbegin] at hshape
  have hbeq : body = [.sql_exec (str "CREATE TABLE IF NOT EXISTS repo_update (x INTEGER);")
      (E.sql_exec f.tr (str "CREATE TABLE IF NOT EXISTS repo_update (x INTEGER);")),
      .pkgdb_transaction_begin EPKG_OK] ++ rem ++ adds := by
    have := hb1.symm.trans hshape
    simp only [List.append_assoc] at this
    have := List.append_cancel_left this
    simpa using this
  have hstate := fun s => savepoint_run_body
    (E.sql_exec f.tr (str "CREATE TABLE IF NOT EXISTS repo_update (x INTEGER);")) st rem adds
    hrem hadds s
  rw [← hbeq] at hstate
  refine ⟨?_, ⟨body, d, by rw [hd], ?_⟩, ?_, ?_⟩
  · intro he
    rcases List.mem_append.mp he with he | he
    · exact hroll he
    · exact hr he
  · intro hdok before
    rw [hd, hdok, ← List.append_assoc, marker_table_append]
    simp [marker_table]
    decide
  · intro s
    rw [savepoint_run_append, hstate, hd]
    simp [savepoint_run, savepoint_step, repo_event.is_change]
  · intro e he
    rw [List.mem_filter] at he
    have h1 := hadd e he.1
    have h2 := he.2
    cases e <;> first
      | (simp [repo_event.is_change] at h2; done)
      | (simp [repo_event.is_add_call] at h1; done)
      | (rename_i o r
         exact ⟨o, by rw [(hiff.mp hok).2.1 o r he.1]⟩)

theorem repo_update_empty_catalog_witness :
    (pkg_repo_update_incremental demo_empty_env 7 []).1 = EPKG_OK ∧
    ∃ b, (pkg_repo_update_incremental demo_empty_env 7 []).2.2 =
        (pkg_repo_update_incremental demo_empty_env 7 []).2.2.take 12 ++ b ∧
      (∀ e ∈ b, e.is_add_call = false) ∧
      ((pkg_repo_update_incremental demo_empty_env 7 []).1 = EPKG_OK ↔
        repo_event.pkgdb_transaction_begin EPKG_OK ∈ b ∧
        (∀ o r, repo_event.pkgdb_repo_remove_package o r ∈ b → r = EPKG_OK) ∧
        repo_event.pkgdb_transaction_commit EPKG_OK ∈ b) ∧
      ((pkg_repo_update_incremental demo_empty_env 7 []).1 = EPKG_OK →
        repo_event.pkgdb_transaction_rollback ∉ b ∧
        (∃ pre d, b = pre ++ [.pkgdb_transaction_commit EPKG_OK,
          .pkgdb_repo_finalize_statements, .sql_exec (str "DROP TABLE repo_update;") d,
          .sqlite3_close] ∧
          (d = EPKG_OK → ∀ before, marker_table before
            ((pkg_repo_update_incremental demo_empty_env 7 []).2.2.take 12 ++ b) = false)) ∧
        (∀ s, (savepoint_run s b).committed = s.committed ++ b.filter repo_event.is_change) ∧
        (∀ e ∈ b.filter repo_event.is_change,
          ∃ o, e = .pkgdb_repo_remove_package o EPKG_OK)) :=
  ⟨by decide,
    repo_update_empty_catalog demo_empty_env 7 []
      ⟨[⟨str "a", some (str "d1"), none⟩, ⟨str "b", some (str "d2"), none⟩],
        [str "a:d1:0:0:50\n", str "c:d3:50:0:50\n"], [], 8,
        (pkg_repo_update_incremental demo_empty_env 7 []).2.2.take 12⟩
      false
      ⟨[⟨str "b", str "d2", 4, 0⟩], [⟨str "c", str "d3", 50, 50⟩], 0, 1, 2⟩
      rfl rfl (by decide)⟩

/-- C37 (counterexample): the manifests file is empty, the savepoint begins
and the only remove succeeds, but the call that commits the savepoint fails;
the run returns `EPKG_FATAL`.  And with a store that commits the savepoint
and fails the statement that drops the marker table, the run returns
`EPKG_OK` and the table is there when it returns. -/
theorem repo_update_empty_catalog_counterexample :
    ((pkg_repo_update_incremental demo_empty_nocommit_env 7 []).1 = EPKG_FATAL ∧
    repo_event.pkgdb_transaction_begin EPKG_OK ∈
      (pkg_repo_update_incremental demo_empty_nocommit_env 7 []).2.2 ∧
    repo_event.pkgdb_repo_remove_package (str "b") EPKG_OK ∈
      (pkg_repo_update_incremental demo_empty_nocommit_env 7 []).2.2 ∧
    (∀ e ∈ (pkg_repo_update_incremental demo_empty_nocommit_env 7 []).2.2,
      e.op_failed = false) ∧
    repo_event.emit_error (str "Empty catalog") ∈
      (pkg_repo_update_incremental demo_empty_nocommit_env 7 []).2.2 ∧
    repo_event.pkgdb_transaction_commit EPKG_FATAL ∈
      (pkg_repo_update_incremental demo_empty_nocommit_env 7 []).2.2) ∧
    ((pkg_repo_update_incremental demo_empty_nodrop_env 7 []).1 = EPKG_OK ∧
    repo_event.emit_error (str "Empty catalog") ∈
      (pkg_repo_update_incremental demo_empty_nodrop_env 7 []).2.2 ∧
    repo_event.pkgdb_transaction_commit EPKG_OK ∈
      (pkg_repo_update_incremental demo_empty_nodrop_env 7 []).2.2 ∧
    repo_event.sql_exec (str "DROP TABLE repo_update;") EPKG_FATAL ∈
      (pkg_repo_update_incremental demo_empty_nodrop_env 7 []).2.2 ∧
    marker_table false (pkg_repo_update_incremental demo_empty_nodrop_env 7 []).2.2 = true) :=
  ⟨⟨by decide, by decide, by decide, by decide, by decide, by decide⟩,
    by decide, by decide, by decide, by decide, by decide⟩

theorem ExtendsWithout.any {bad : add_event → Bool} {tr t : add_trace}
    (h : ExtendsWithout bad tr t) : ExtendsWithout (fun _ => false) tr t :=
  h.ew_mono (fun _ _ => rfl)

theorem ExtendsWithout.of_append (tr new : add_trace) :
    ExtendsWithout (fun _ => false) tr (tr ++ new) := ⟨new, rfl, fun _ _ => rfl⟩

theorem pkg_add2_install_extends (E : add_env) (upgrade : Int) (extract : Bool) (a : archive)
    (pkg : pkg) (tr : add_trace) :
    ExtendsWithout (fun _ => false) tr (pkg_add2_install E upgrade extract a pkg tr).2 := by
  obtain ⟨mid, h, _⟩ := pkg_add2_install_finale E upgrade extract a pkg tr
  rw [h, List.append_assoc, List.append_assoc]
  exact ExtendsWithout.of_append _ _

theorem pkg_add2_deps_extends (E : add_env)
    (recurse : add_trace → Bytes → Option (Int × add_trace))
    (hrec : ∀ t p rc t2, recurse t p = some (rc, t2) → ExtendsWithout (fun _ => false) t t2)
    (origin basedir ext : Bytes) (deps : List pkg_dep) :
    ∀ tr x, pkg_add2_deps E recurse origin basedir ext deps tr = some x →
      ExtendsWithout (fun _ => false) tr (steps_trace x) := by
  induction deps with
  | nil =>
    intro tr x h
    simp only [pkg_add2_deps, Option.some.injEq] at h
    subst h
    exact ExtendsWithout.ew_refl _ tr
  | cons d deps ih =>
    intro tr x h
    simp only [pkg_add2_deps, dep_installed] at h
    cases hq : E.pkgdb_query tr d.origin with
    | none => simp [hq] at h
    | some q =>
      simp only [hq] at h
      have h1 := (ExtendsWithout.ew_refl (fun _ => false) tr).snoc (.pkgdb_query d.origin) rfl
      by_cases hr : (if q = EPKG_OK then EX_OK else EX_IOERR) ≠ EPKG_OK
      · rw [if_pos hr] at h
        have h2 := h1.snoc (.access (dep_path basedir ext d)) rfl
        by_cases hacc : E.access (tr ++ [.pkgdb_query d.origin]) (dep_path basedir ext d) = true
        · rw [if_pos hacc] at h
          split at h
          · cases h
          · rename_i rc tr3 hrc
            have h3 := h2.ew_trans (hrec _ _ _ _ hrc)
            split at h
            · simp only [Option.some.injEq] at h
              subst h
              exact h3
            · exact h3.ew_trans (ih _ _ h)
        · rw [if_neg hacc] at h
          simp only [Option.some.injEq] at h
          subst h
          exact h2.snoc _ rfl
      · rw [if_neg hr] at h
        exact h1.ew_trans (ih _ _ h)

theorem pkg_add2_checks_extends (E : add_env)
    (recurse : add_trace → Bytes → Option (Int × add_trace))
    (hrec : ∀ t p rc t2, recurse t p = some (rc, t2) → ExtendsWithout (fun _ => false) t t2)
    (path : Bytes) (pkg : pkg) (tr : add_trace) (x : Except (Int × add_trace) add_trace)
    (h : pkg_add2_checks E recurse path pkg tr = some x) :
    ExtendsWithout (fun _ => false) tr (steps_trace x) := by
  have h0 := ExtendsWithout.ew_refl (fun _ => false) tr
  unfold pkg_add2_checks at h
  cases hu : E.uname tr with
  | none =>
    simp only [hu, Option.some.injEq] at h
    subst h
    exact h0.snoc2 .uname (.emit_errno (str "uname")) rfl rfl
  | some u =>
    simp only [hu] at h
    have h1 := h0.snoc .uname rfl
    split at h
    · simp only [Option.some.injEq] at h
      subst h
      exact h1.snoc _ rfl
    · split at h
      · simp only [Option.some.injEq] at h
        subst h
        exact h1.snoc _ rfl
      · have h2 := h1.snoc (.pkgdb_query (pkg_get pkg .PKG_ORIGIN)) rfl
        cases hq : E.pkgdb_query (tr ++ [.uname]) (pkg_get pkg .PKG_ORIGIN) with
        | none =>
          simp only [hq, Option.some.injEq] at h
          subst h
          exact h2
        | some ret =>
          simp only [hq] at h
          split at h
          · simp only [Option.some.injEq] at h
            subst h
            exact h2.snoc _ rfl
          · split at h
            · simp only [Option.some.injEq] at h
              subst h
              exact h2
            · cases hext : strrchr_dot path with
              | none =>
                simp only [hext, Option.some.injEq] at h
                subst h
                exact h2.snoc _ rfl
              | some ext =>
                simp only [hext] at h
                exact h2.ew_trans (pkg_add2_deps_extends E recurse hrec _ _ ext pkg.deps _ _ h)

theorem pkg_add2_opens (E : add_env) :
    ∀ (fuel : Nat) (tr : add_trace) (path : Bytes) (upgrade automatic rc : Int) (t : add_trace),
      pkg_add2 E fuel tr path upgrade automatic = some (rc, t) →
      ∃ rest, t = tr ++ .pkg_open2 path :: rest := by
  intro fuel
  induction fuel with
  | zero => intro tr path upgrade automatic rc t h; simp [pkg_add2] at h
  | succ fuel ih =>
    intro tr path upgrade automatic rc t h
    have hrec : ∀ t p rc t2, pkg_add2 E fuel t p 0 1 = some (rc, t2) →
        ExtendsWithout (fun _ => false) t t2 := by
      intro t p rc t2 hr
      obtain ⟨rest, hrest⟩ := ih t p 0 1 rc t2 hr
      exact ⟨_, hrest, fun _ _ => rfl⟩
    have hbase : ∃ rest, trace_at_uname tr path automatic = tr ++ .pkg_open2 path :: rest := by
      unfold trace_at_uname
      split
      · exact ⟨[.pkg_setautomatic], rfl⟩
      · exact ⟨[], rfl⟩
    obtain ⟨r0, hr0⟩ := hbase
    have key : ∀ t2, ExtendsWithout (fun _ => false) (trace_at_uname tr path automatic) t2 →
        ∃ rest, t2 = tr ++ .pkg_open2 path :: rest := by
      rintro t2 ⟨n, hn, _⟩
      exact ⟨r0 ++ n, by rw [hn, hr0]; simp⟩
    simp only [pkg_add2] at h
    split at h
    · unfold pkg_add2_cleanup at h
      split at h
      · simp only [Option.some.injEq, Prod.mk.injEq] at h
        exact ⟨[.archive_read_finish], by rw [← h.2]; simp⟩
      · simp only [Option.some.injEq, Prod.mk.injEq] at h
        exact ⟨[], by rw [← h.2]⟩
    · split at h
      · cases h
      · rename_i a ha
        cases hc : pkg_add2_checks E (fun tr p => pkg_add2 E fuel tr p 0 1) path
            (pkg_stamped a.pkg automatic) (trace_at_uname tr path automatic) with
        | none => simp [hc] at h
        | some x =>
          have hx := pkg_add2_checks_extends E _ hrec path _ _ x hc
          cases x with
          | error r =>
            simp only [steps_trace] at hx
            simp only [hc, pkg_add2_cleanup, Option.some.injEq, Prod.mk.injEq] at h
            obtain ⟨rest, hrest⟩ := key _ hx
            exact ⟨rest ++ [.archive_read_finish], by rw [← h.2, hrest]; simp⟩
          | ok tr2 =>
            simp only [steps_trace] at hx
            simp only [hc, pkg_add2_cleanup, Option.some.injEq, Prod.mk.injEq] at h
            obtain ⟨rest, hrest⟩ := key _
              (hx.ew_trans (pkg_add2_install_extends E upgrade _ a _ tr2))
            exact ⟨rest ++ [.archive_read_finish], by rw [← h.2, hrest]; simp⟩

theorem ExtendsWithout.not_mem {bad : add_event → Bool} {tr t : add_trace}
    (h : ExtendsWithout bad tr t) (pre post : add_trace) (e : add_event)
    (ht : t = tr ++ pre ++ e :: post) : bad e = false := by
  obtain ⟨new, hn, hb⟩ := h
  rw [hn, List.append_assoc] at ht
  have := List.append_cancel_left ht
  exact hb e (by rw [this]; simp)

theorem ExtendsWithout.drop {bad : add_event → Bool} {tr t : add_trace}
    (h : ExtendsWithout bad tr t) (pre : add_trace)
    (hp : ExtendsWithout (fun _ => false) (tr ++ pre) t) : ExtendsWithout bad (tr ++ pre) t := by
  obtain ⟨new, hn, hb⟩ := h
  obtain ⟨n2, hn2, _⟩ := hp
  refine ⟨n2, hn2, ?_⟩
  rw [hn, List.append_assoc] at hn2
  have := List.append_cancel_left hn2
  intro e he
  exact hb e (by rw [this]; simp [he])

theorem pkg_add2_deps_noopen (E : add_env)
    (recurse : add_trace → Bytes → Option (Int × add_trace))
    (hrec : ∀ t p rc t2, recurse t p = some (rc, t2) → ∃ rest, t2 = t ++ .pkg_open2 p :: rest)
    (origin basedir ext : Bytes) (deps : List pkg_dep) :
    ∀ tr r, pkg_add2_deps E recurse origin basedir ext deps tr = some (.error r) →
      ExtendsWithout add_event.is_open tr r.2 →
      ExtendsWithout add_event.is_install tr r.2 := by
  have hrec2 : ∀ t p rc t2, recurse t p = some (rc, t2) →
      ExtendsWithout (fun _ => false) t t2 := by
    intro t p rc t2 hr
    obtain ⟨rest, hrest⟩ := hrec t p rc t2 hr
    exact ⟨_, hrest, fun _ _ => rfl⟩
  induction deps with
  | nil =>
    intro tr r h
    simp [pkg_add2_deps] at h
  | cons d deps ih =>
    intro tr r h hno
    have hall := pkg_add2_deps_extends E recurse hrec2 origin basedir ext (d :: deps) tr _ h
    simp only [pkg_add2_deps, dep_installed] at h
    cases hq : E.pkgdb_query tr d.origin with
    | none => simp [hq] at h
    | some q =>
      simp only [hq] at h
      have h1 := (ExtendsWithout.ew_refl add_event.is_install tr).snoc
        (.pkgdb_query d.origin) rfl
      by_cases hr : (if q = EPKG_OK then EX_OK else EX_IOERR) ≠ EPKG_OK
      · rw [if_pos hr] at h
        by_cases hacc : E.access (tr ++ [.pkgdb_query d.origin]) (dep_path basedir ext d) = true
        · rw [if_pos hacc] at h
          split at h
          · cases h
          · rename_i rc tr3 hrc
            obtain ⟨rest, hrest⟩ := hrec _ _ _ _ hrc
            have h3 : ExtendsWithout (fun _ => false) tr3 r.2 := by
              split at h
              · simp only [Option.some.injEq, Except.error.injEq] at h
                subst h
                exact ExtendsWithout.ew_refl _ _
              · exact pkg_add2_deps_extends E recurse hrec2 origin basedir ext deps tr3 _ h
            obtain ⟨n3, hn3, _⟩ := h3
            have hopen := hno.not_mem
              [.pkgdb_query d.origin, .access (dep_path basedir ext d)]
              (rest ++ n3) (.pkg_open2 (dep_path basedir ext d))
              (by rw [hn3, hrest]; simp)
            cases hopen
        · rw [if_neg hacc] at h
          simp only [Option.some.injEq, Except.error.injEq] at h
          subst h
          exact (h1.snoc (.access (dep_path basedir ext d)) rfl).snoc
            (.emit_missing_dep origin d) rfl
      · rw [if_neg hr] at h
        have hext := pkg_add2_deps_extends E recurse hrec2 origin basedir ext deps _ _ h
        exact h1.ew_trans (ih _ _ h (hno.drop [.pkgdb_query d.origin] hext))

theorem pkg_add2_checks_noopen (E : add_env)
    (recurse : add_trace → Bytes → Option (Int × add_trace))
    (hrec : ∀ t p rc t2, recurse t p = some (rc, t2) → ∃ rest, t2 = t ++ .pkg_open2 p :: rest)
    (path : Bytes) (pkg : pkg) (tr : add_trace) (r : Int × add_trace)
    (hfail : pkg_add2_checks E recurse path pkg tr = some (.error r))
    (hno : ExtendsWithout add_event.is_open tr r.2) :
    ExtendsWithout add_event.is_install tr r.2 := by
  have hrec2 : ∀ t p rc t2, recurse t p = some (rc, t2) →
      ExtendsWithout (fun _ => false) t t2 := by
    intro t p rc t2 hr
    obtain ⟨rest, hrest⟩ := hrec t p rc t2 hr
    exact ⟨_, hrest, fun _ _ => rfl⟩
  have h0 := ExtendsWithout.ew_refl add_event.is_install tr
  unfold pkg_add2_checks at hfail
  cases hu : E.uname tr with
  | none =>
    simp only [hu, Option.some.injEq, Except.error.injEq] at hfail
    subst hfail
    exact h0.snoc2 .uname (.emit_errno (str "uname")) rfl rfl
  | some u =>
    simp only [hu] at hfail
    have h1 := h0.snoc .uname rfl
    by_cases harch : u.machine ≠ pkg_get pkg .PKG_ARCH
    · rw [if_pos harch] at hfail
      simp only [Option.some.injEq, Except.error.injEq] at hfail
      subst hfail
      exact h1.snoc _ rfl
    · rw [if_neg harch] at hfail
      by_cases hos : host_osversion E u ≠ pkg_get pkg .PKG_OSVERSION
      · rw [if_pos hos] at hfail
        simp only [Option.some.injEq, Except.error.injEq] at hfail
        subst hfail
        exact h1.snoc _ rfl
      · rw [if_neg hos] at hfail
        have h2 := h1.snoc (.pkgdb_query (pkg_get pkg .PKG_ORIGIN)) rfl
        cases hq : E.pkgdb_query (tr ++ [.uname]) (pkg_get pkg .PKG_ORIGIN) with
        | none =>
          simp only [hq, Option.some.injEq, Except.error.injEq] at hfail
          subst hfail
          exact h2
        | some ret =>
          simp only [hq] at hfail
          by_cases hok : ret = EPKG_OK
          · rw [if_pos hok] at hfail
            simp only [Option.some.injEq, Except.error.injEq] at hfail
            subst hfail
            exact h2.snoc _ rfl
          · rw [if_neg hok] at hfail
            by_cases hend : ret ≠ EPKG_END
            · rw [if_pos hend] at hfail
              simp only [Option.some.injEq, Except.error.injEq] at hfail
              subst hfail
              exact h2
            · rw [if_neg hend] at hfail
              cases hext : strrchr_dot path with
              | none =>
                simp only [hext, Option.some.injEq, Except.error.injEq] at hfail
                subst hfail
                exact h2.snoc _ rfl
              | some ext =>
                simp only [hext] at hfail
                have hx := pkg_add2_deps_extends E recurse hrec2 _ _ ext pkg.deps _ _ hfail
                have hno2 := hno.drop [.uname, .pkgdb_query (pkg_get pkg .PKG_ORIGIN)]
                  (by simpa using hx)
                have := pkg_add2_deps_noopen E recurse hrec _ _ ext pkg.deps _ _ hfail
                  (by simpa using hno2)
                exact h2.ew_trans this

/-- C7 (as amended): when `pkg_add2` leaves through one of the precondition
steps (architecture check, OS-version check, already-installed query,
dependency resolution) and, after opening its own archive, the run has opened
no other one, that is, it has not called itself on the sibling archive of a
dependency, the run registers no package, runs no script and extracts no
entry. -/
theorem pkg_add2_precondition_failure (E : add_env) (fuel : Nat) (path : Bytes)
    (upgrade automatic ret : Int) (a : archive) (r : Int × add_trace)
    (hopen : E.pkg_open2 [] path = (ret, some a)) (hret : ret = EPKG_OK ∨ ret = EPKG_END)
    (hfail : pkg_add2_checks E (fun t p => pkg_add2 E fuel t p 0 1) path
      (pkg_stamped a.pkg automatic) (trace_at_uname [] path automatic) = some (.error r))
    (hnoopen : ExtendsWithout add_event.is_open (trace_at_uname [] path automatic) r.2) :
    pkg_add2 E (fuel + 1) [] path upgrade automatic =
        some (r.1, r.2 ++ [.archive_read_finish]) ∧
      ∀ e ∈ r.2 ++ [.archive_read_finish], e.is_install = false := by
  have hne : ¬ (ret ≠ EPKG_END ∧ ret ≠ EPKG_OK) := by
    rcases hret with h | h <;> simp [h]
  constructor
  · simp only [pkg_add2, hopen, hne, if_false, hfail, pkg_add2_cleanup]
  · have hbase := trace_at_uname_extends add_event.is_install [] path automatic rfl rfl
    have hframe := pkg_add2_checks_noopen E _
      (fun t p rc t2 h => pkg_add2_opens E fuel t p 0 1 rc t2 h) path _ _ r hfail hnoopen
    exact ((hbase.ew_trans hframe).snoc .archive_read_finish rfl).forall_mem

theorem pkg_add2_precondition_failure_witness :
    demo_dep "base" "1.0" ∈ demo_solo.pkg.deps ∧
    demo_env_sibling.access [] (dep_path (dirname (str "/p/solo-1.0.pkg")) (str ".pkg")
      (demo_dep "base" "1.0")) = true ∧
    (pkg_add2 demo_env_sibling 1 [] (str "/p/solo-1.0.pkg") 0 0 =
        some (EPKG_FATAL,
          [.pkg_open2 (str "/p/solo-1.0.pkg"), .uname, .pkgdb_query (str "misc/solo"),
           .pkgdb_query (str "misc/base"), .pkgdb_query (str "misc/qux"),
           .access (str "/p/qux-0.2.pkg"),
           .emit_missing_dep (str "misc/solo") (demo_dep "qux" "0.2")] ++
          [.archive_read_finish]) ∧
      ∀ e ∈ [add_event.pkg_open2 (str "/p/solo-1.0.pkg"), .uname,
           .pkgdb_query (str "misc/solo"),
           .pkgdb_query (str "misc/base"), .pkgdb_query (str "misc/qux"),
           .access (str "/p/qux-0.2.pkg"),
           .emit_missing_dep (str "misc/solo") (demo_dep "qux" "0.2")] ++
          [.archive_read_finish], e.is_install = false) :=
  ⟨by decide, by decide,
    pkg_add2_precondition_failure demo_env_sibling 0 (str "/p/solo-1.0.pkg") 0 0 EPKG_OK
      demo_solo
      (EPKG_FATAL,
        [.pkg_open2 (str "/p/solo-1.0.pkg"), .uname, .pkgdb_query (str "misc/solo"),
         .pkgdb_query (str "misc/base"), .pkgdb_query (str "misc/qux"),
         .access (str "/p/qux-0.2.pkg"),
         .emit_missing_dep (str "misc/solo") (demo_dep "qux" "0.2")])
      rfl (Or.inl rfl) rfl
      ⟨[.uname, .pkgdb_query (str "misc/solo"), .pkgdb_query (str "misc/base"),
        .pkgdb_query (str "misc/qux"), .access (str "/p/qux-0.2.pkg"),
        .emit_missing_dep (str "misc/solo") (demo_dep "qux" "0.2")], rfl, by decide⟩⟩

end Libpkg
